import Mathlib

/-!
# Incognito chain, version-2 privacy transactions

A shallow embedding of `transaction/txver2.go`: the wire format of the ring
public-key material (`TxSignatureVer2.ToBytes` / `FromBytes`), the ring builder
(`generateMlsagRingWithIndexes`) and the ledger check of a ring
(`checkRingIndexesWithDatabase`).

Conventions of the embedding.

* A Go slice of bytes is a `List Byte`, with capacity equal to length.
* `uint32` values are naturals reduced modulo `2 ^ 32` at every operation that
  can wrap; `int` values are unbounded naturals.
* A `*big.Int` index is a natural number (commitment indexes carry no sign).
* A call that stops with a run-time panic (slice or index out of range,
  `make` with a negative length, `rand.Int` with a non-positive bound) has the
  outcome `Run.panic`.
* Collaborators that are not part of the embedded files (the curve, the ring
  codec, the coin commitment scheme, the state database) are parameters.
-/

namespace Incognito

/-! ## Basic types -/

/-- One octet. -/
abbrev Byte := Fin 256

/-- Conversion `byte(n)` of an integer: the low eight bits. -/
def byteOf (n : Nat) : Byte := ⟨n % 256, Nat.mod_lt _ (by decide)⟩

/-- Outcome of running a piece of Go code. -/
inductive Run (α : Type) where
  /-- the call returned the value `a` -/
  | done (a : α)
  /-- the call stopped with a run-time panic -/
  | panic
  /-- the random tape handed to the call was used up before it returned -/
  | starved
deriving Repr

/-- Keys of `NewTransactionErr` used by the embedded files. -/
inductive TxErrorKey where
  | UnexpectedError
  | SndExistedError
  | VerifyTxSigFailError
  | VerifyOneOutOfManyProofFailedErr
  | TxProofVerifyFailError
  | WrongInput
  | WrongSig
  | WrongTokenTxType
  | CustomTokenExisted
  | TxNotExist
  | DoubleSpend
  | UnexpectedErr
deriving DecidableEq, Repr

/-- Go `error` values (a nil error is `none : Option Err`). -/
inductive Err where
  /-- `errors.New(msg)` -/
  | new (msg : String)
  /-- a `*privacy.PrivacyError` with its code -/
  | privacy (code : Int) (msg : String)
  /-- `NewTransactionErr(key, cause, params...)` -/
  | transaction (key : TxErrorKey) (cause : Option Err) (params : List String)

/-- Slice expression `b[lo:hi]`; it panics unless `lo <= hi <= len(b)`. -/
def slice {α : Type} (b : List α) (lo hi : Nat) : Run (List α) :=
  if lo ≤ hi ∧ hi ≤ b.length then .done ((b.drop lo).take (hi - lo)) else .panic

/-- Conversion `uint32(x)`. -/
def toUint32 (x : Nat) : Nat := x % 2 ^ 32

/-- Method `(*big.Int).Uint64`: the low 64 bits. -/
def Uint64 (x : Nat) : Nat := x % 2 ^ 64

/-! ## Package `common` -/

namespace Common

def Uint32Size : Nat := 4

def Uint64Size : Nat := 8

/-- Modelled from the spec: `common.Uint32ToBytes` is not among the embedded
files; the length prefix is "4 bytes: big-endian length". -/
def Uint32ToBytes (v : Nat) : List Byte :=
  [byteOf (v / 2 ^ 24), byteOf (v / 2 ^ 16), byteOf (v / 2 ^ 8), byteOf v]

/-- Big-endian value of a byte string (`binary.BigEndian`, `big.Int.SetBytes`). -/
def SetBytes (b : List Byte) : Nat := b.foldl (fun acc x => acc * 256 + x.val) 0

/-- Modelled from the spec: `common.BytesToUint32` is not among the embedded
files; it reads the "4 bytes: big-endian length" and fails on any other
length. -/
def BytesToUint32 (b : List Byte) : Except Err Nat :=
  if b.length ≠ Uint32Size then .error (.new "invalid length of input BytesToUint32")
  else .ok (SetBytes b)

/-- Auxiliary of `bigIntBytes`: at most `fuel` digits. -/
def bytesAux : Nat → Nat → List Byte
  | 0, _ => []
  | fuel + 1, n => if n = 0 then [] else bytesAux fuel (n / 256) ++ [byteOf n]

/-- Method `(*big.Int).Bytes`: the big-endian digits without leading zeros. -/
def bigIntBytes (n : Nat) : List Byte := bytesAux n n

/-- Modelled from the spec: `common.AddPaddingBigInt` is not among the embedded
files; index values are "each zero-padded to 8 bytes". The padding
`make([]byte, fixedSize-len)` has no value when the number needs more than
`fixedSize` bytes. -/
def AddPaddingBigInt (numInt : Nat) (fixedSize : Nat) : Run (List Byte) :=
  let numBytes := bigIntBytes numInt
  if numBytes.length ≤ fixedSize then
    .done (List.replicate (fixedSize - numBytes.length) (0 : Byte) ++ numBytes)
  else .panic

end Common

/-! ## Package `mlsag`: rings -/

/-- The key matrix of `mlsag.Ring`. -/
structure Ring (P : Type) where
  keys : List (List P)
deriving DecidableEq, Repr

/-- Function `mlsag.NewRing`. -/
def NewRing {P : Type} (keys : List (List P)) : Ring P := ⟨keys⟩

/-- The byte codec of `mlsag.Ring` (`Ring.ToBytes`, `Ring.FromBytes`), which
is not among the embedded files. -/
structure RingCodec (P : Type) where
  ToBytes : Ring P → Except Err (List Byte)
  FromBytes : List Byte → Except Err (Ring P)

/-! ## `TxSignatureVer2` -/

/-- Modelled from the spec: constant of package `transaction` outside the
embedded files; the largest value of the 4-byte length prefix. -/
def MaxSizeUint32 : Nat := 2 ^ 32 - 1

/-- Modelled from the spec: constant of package `transaction` outside the
embedded files; the largest value of the one-byte row and column counts. -/
def MaxSizeByte : Nat := 2 ^ 8 - 1

structure TxSignatureVer2 (P : Type) where
  ring : Ring P
  indexes : List (List Nat)
deriving DecidableEq, Repr

/-- Inner loop of `ToBytes` (lines 77-81): the cells of one row. -/
def appendRow : List Nat → List Byte → Run (List Byte)
  | [], b => .done b
  | x :: xs, b =>
    match Common.AddPaddingBigInt x Common.Uint64Size with
    | .done currentByte => appendRow xs (b ++ currentByte)
    | .panic => .panic
    | .starved => .starved

/-- Outer loop of `ToBytes` (lines 76-82). Each row contributes its first `m`
cells; the callers have checked that every row has exactly `m` cells. -/
def appendRows (m : Nat) : List (List Nat) → List Byte → Run (List Byte)
  | [], b => .done b
  | row :: rows, b =>
    match appendRow (row.take m) b with
    | .done b1 => appendRows m rows b1
    | .panic => .panic
    | .starved => .starved

/-- Method `TxSignatureVer2.ToBytes` (lines 43-84). -/
def TxSignatureVer2.ToBytes {P : Type} (codec : RingCodec P) (txSig : TxSignatureVer2 P) :
    Run (Except Err (List Byte)) :=
  match codec.ToBytes txSig.ring with
  | .error err => .done (.error err)
  | .ok byteMlsag =>
    if byteMlsag.length > MaxSizeUint32 then
      .done (.error (.new "Length of mlsag is too big, larger than 1<<32"))
    else
      let n := txSig.indexes.length
      match txSig.indexes with
      | [] => .done (.error (.new "TxSig.ToBytes: Indexes is empty"))
      | row0 :: rest =>
        if n > MaxSizeByte then
          .done (.error (.new "TxSig.ToBytes: Indexes is too large, too many rows"))
        else
          let m := row0.length
          if m > MaxSizeByte then
            .done (.error (.new "TxSig.ToBytes: Indexes is too large, too many columns"))
          else if rest.any (fun row => row.length != m) then
            .done (.error (.new "TxSig.ToBytes: Indexes is not a rectangle array"))
          else
            let mlsagLen := toUint32 byteMlsag.length
            let b : List Byte := []
            let b := b ++ Common.Uint32ToBytes mlsagLen
            let b := b ++ byteMlsag
            let b := b ++ [byteOf n]
            let b := b ++ [byteOf m]
            match appendRows m txSig.indexes b with
            | .done b => .done (.ok b)
            | .panic => .panic
            | .starved => .starved

/-- Inner loop of `FromBytes` (lines 121-125): reads `m` cells of 8 bytes,
advancing the `uint32` offset. -/
def readRow (b : List Byte) : Nat → Nat → Run (List Nat × Nat)
  | 0, offset => .done ([], offset)
  | m + 1, offset =>
    match slice b offset (toUint32 (offset + Common.Uint64Size)) with
    | .done currentByte =>
      match readRow b m (toUint32 (offset + Common.Uint64Size)) with
      | .done (row, offset1) => .done (Common.SetBytes currentByte :: row, offset1)
      | .panic => .panic
      | .starved => .starved
    | .panic => .panic
    | .starved => .starved

/-- Outer loop of `FromBytes` (lines 119-127): reads `n` rows of `m` cells. -/
def readRows (b : List Byte) (m : Nat) : Nat → Nat → Run (List (List Nat))
  | 0, _ => .done []
  | n + 1, offset =>
    match readRow b m offset with
    | .done (row, offset1) =>
      match readRows b m n offset1 with
      | .done rows => .done (row :: rows)
      | .panic => .panic
      | .starved => .starved
    | .panic => .panic
    | .starved => .starved

/-- The expression `b[lo:hi][0]` read as an `int`. -/
def byteAt (b : List Byte) (lo hi : Nat) : Run Nat :=
  match slice b lo hi with
  | .done (x :: _) => .done x.val
  | .done [] => .panic
  | .panic => .panic
  | .starved => .starved

/-- Method `TxSignatureVer2.FromBytes` (lines 86-135). The result is the error
returned, or the signature stored in the receiver when the error is nil. -/
def TxSignatureVer2.FromBytes {P : Type} (codec : RingCodec P) (b : List Byte) :
    Run (Except Err (TxSignatureVer2 P)) :=
  if b.length < 4 then
    .done (.error (.new "TxSig.FromBytes: cannot parse ring length, length of byte is too small"))
  else
    match slice b 0 Common.Uint32Size with
    | .panic => .panic
    | .starved => .starved
    | .done ringLenByte =>
      match Common.BytesToUint32 ringLenByte with
      | .error err => .done (.error err)
      | .ok ringLen =>
        let offset := toUint32 Common.Uint32Size
        if toUint32 (offset + ringLen) > toUint32 b.length then
          .done (.error (.new "TxSig.FromBytes: cannot parse mlsag ring, length of byte is too small"))
        else
          match slice b offset (toUint32 (offset + ringLen)) with
          | .panic => .panic
          | .starved => .starved
          | .done ringByte =>
            match codec.FromBytes ringByte with
            | .error err => .done (.error err)
            | .ok ring =>
              let offset := toUint32 (offset + ringLen)
              if toUint32 (offset + 2) > toUint32 b.length then
                .done (.error (.new "TxSig.FromBytes: cannot parse length of indexes, length of byte is too small"))
              else
                match byteAt b offset (toUint32 (offset + 1)) with
                | .panic => .panic
                | .starved => .starved
                | .done n =>
                  match byteAt b (toUint32 (offset + 1)) (toUint32 (offset + 2)) with
                  | .panic => .panic
                  | .starved => .starved
                  | .done m =>
                    let offset := toUint32 (offset + 2)
                    if offset + Common.Uint64Size * n * m > b.length then
                      .done (.error (.new "TxSig.FromBytes: cannot parse indexes, length of byte is too small"))
                    else
                      match readRows b m n offset with
                      | .panic => .panic
                      | .starved => .starved
                      | .done indexes => .done (.ok ⟨ring, indexes⟩)

/-! ## Specification-side byte layout -/

/-- Big-endian digits of `v` on exactly `k` bytes (zeros on the left). -/
def bigEndian : Nat → Nat → List Byte
  | 0, _ => []
  | k + 1, v => bigEndian k (v / 256) ++ [byteOf v]

/-- Cells of one index row, each on 8 big-endian bytes. -/
def encodeRow : List Nat → List Byte
  | [] => []
  | x :: xs => bigEndian 8 x ++ encodeRow xs

/-- Index matrix in row-major order, each cell on 8 big-endian bytes. -/
def encodeRows : List (List Nat) → List Byte
  | [] => []
  | row :: rows => encodeRow row ++ encodeRows rows

/-- Number of columns of an index matrix: the length of its first row. -/
def columns (indexes : List (List Nat)) : Nat :=
  match indexes with
  | [] => 0
  | row0 :: _ => row0.length

/-- Every row has exactly `m` cells. -/
def Rectangular (m : Nat) (indexes : List (List Nat)) : Prop :=
  ∀ row ∈ indexes, row.length = m

/-- Every cell fits a `uint64`. -/
def IndexesFit (indexes : List (List Nat)) : Prop :=
  ∀ row ∈ indexes, ∀ x ∈ row, x < 2 ^ 64

instance (m : Nat) (indexes : List (List Nat)) : Decidable (Rectangular m indexes) := by
  unfold Rectangular
  infer_instance

instance (indexes : List (List Nat)) : Decidable (IndexesFit indexes) := by
  unfold IndexesFit
  infer_instance

/-- The byte layout of the ring public-key material: the 4-byte big-endian
length of the ring bytes, the ring bytes, the row count, the column count,
and the index cells in row-major order on 8 big-endian bytes each. -/
def layout (R : List Byte) (indexes : List (List Nat)) : List Byte :=
  bigEndian 4 R.length ++ R ++ [byteOf indexes.length] ++ [byteOf (columns indexes)]
    ++ encodeRows indexes

/-! ## Sample collaborators

Small concrete instances of the parameters, used to run the embedded
functions on explicit inputs. A sample point is one byte (the additive group
of integers modulo 256) and is its own encoding. -/

/-- Cuts `n` rows of `m` cells out of a cell list. -/
def splitRows (m : Nat) : Nat → List Byte → List (List Byte)
  | 0, _ => []
  | n + 1, cells => cells.take m :: splitRows m n (cells.drop m)

/-- A ring codec over one-byte points: the row count, the column count and the
cells in row-major order. -/
def sampleCodec : RingCodec Byte where
  ToBytes r :=
    match r.keys with
    | [] => .error (.new "RingToBytes: Ring is empty")
    | row0 :: rest =>
      if rest.any (fun row => row.length != row0.length) then
        .error (.new "RingToBytes: Ring is not a proper rectangle")
      else if r.keys.length > 255 ∨ row0.length > 255 then
        .error (.new "RingToBytes: Ring size is too large")
      else
        .ok ([byteOf r.keys.length, byteOf row0.length] ++ r.keys.foldr (fun row acc => row ++ acc) [])
  FromBytes b :=
    match b with
    | n :: m :: cells =>
      if cells.length = n.val * m.val then .ok ⟨splitRows m.val n.val cells⟩
      else .error (.new "RingFromBytes: byte length is not correct")
    | _ => .error (.new "RingFromBytes: byte length is too short")

/-- A 2 x 2 ring with a 2 x 1 index matrix. -/
def sampleSig : TxSignatureVer2 Byte := ⟨⟨[[1, 2], [3, 4]]⟩, [[5], [260]]⟩

/-! ## Coins, collaborators and the state database -/

/-- A `common.Hash` (token identifiers, hashes of commitments). -/
abbrev Hash := List Byte

/-- Type `coin.Coin`: the details of a coin, over points `P` and scalars `S`. -/
structure Coin (P S : Type) where
  publicKey : P
  coinCommitment : P
  snDerivator : S
  serialNumber : Option P
  randomness : S
  value : Nat

/-- Type `coin.InputCoin`. -/
structure InputCoin (P S : Type) where
  CoinDetails : Coin P S

/-- Type `coin.OutputCoin`. -/
structure OutputCoin (P S : Type) where
  CoinDetails : Coin P S

/-- The functions of packages `operation`, `coin` and `common` that the ring
builder and the ledger check call; none of them is among the embedded files.
Points form an additive group (`Identity`, `Add`, `Sub`), given separately. -/
structure Operation (P S : Type) where
  /-- `operation.PedCom.G[operation.PedersenValueIndex]` -/
  PedComGValue : P
  /-- `new(operation.Point).ScalarMult(p, s)` -/
  ScalarMult : P → S → P
  /-- `new(operation.Point).ScalarMultBase(s)` -/
  ScalarMultBase : S → P
  /-- `new(operation.Scalar).FromUint64(v)` -/
  ScalarFromUint64 : Nat → S
  /-- `new(operation.Scalar).FromBytesS(b)` -/
  ScalarFromBytesS : List Byte → S
  /-- `p.ToBytesS()` -/
  PointToBytesS : P → List Byte
  /-- `new(operation.Point).FromBytesS(b)` -/
  PointFromBytesS : List Byte → Except Err P
  /-- `common.HashH(b)` -/
  HashH : List Byte → Hash
  /-- `coin.ParseCommitmentToV2WithCoin(c)` -/
  ParseCommitmentToV2WithCoin : Coin P S → P
  /-- `coin.ParseCommitmentToV2ByBytes(commitment, publicKey, snd, shardID)` -/
  ParseCommitmentToV2ByBytes : List Byte → List Byte → List Byte → Byte → Except Err (List Byte)

/-- The commitment and serial-number store as the embedded files query it
(package `statedb` and `CheckSNDerivatorExistence`); every lookup takes the
token and, where the source passes it, the shard. A `(bool, error)` result is
a pair whose second component is `none` for a nil error. -/
structure StateDB (S : Type) where
  /-- `statedb.GetCommitmentLength`: `(nil, err)`, `(nil, nil)` or `(len, nil)` -/
  GetCommitmentLength : Hash → Byte → Except Err (Option Nat)
  /-- `statedb.GetCommitmentIndex(db, tokenID, commitmentBytes, shardID)` -/
  GetCommitmentIndex : Hash → List Byte → Byte → Except Err Nat
  /-- `statedb.HasCommitmentIndex(db, tokenID, index, shardID)` -/
  HasCommitmentIndex : Hash → Nat → Byte → Bool × Option Err
  /-- `statedb.GetCommitmentPublicKeyAddditionalByIndex(db, tokenID, index, shardID)`:
  the commitment, the public key and the derivator stored at an index -/
  GetCommitmentPublicKeyAddditionalByIndex :
    Hash → Nat → Byte → Except Err (List Byte × List Byte × List Byte)
  /-- `CheckSNDerivatorExistence(tokenID, snd, db)` -/
  CheckSNDerivatorExistence : Hash → S → Bool × Option Err

/-- The fields of `TxPrivacyInitParams` read by the ring builder. -/
structure TxPrivacyInitParams (S : Type) where
  senderSK : List Byte
  fee : Nat
  hasPrivacy : Bool
  tokenID : Hash
  stateDB : StateDB S

/-- The coins of a payment proof (`GetInputCoins`, `GetOutputCoins`). -/
structure PaymentProof (P S : Type) where
  inputCoins : List (InputCoin P S)
  outputCoins : List (OutputCoin P S)

/-- The fields of `Tx` read by the embedded functions. -/
structure Tx (P S : Type) where
  Fee : Nat
  LockTime : Int
  Sig : Option (List Byte)
  SigPubKey : Option (List Byte)
  Proof : Option (PaymentProof P S)
  sigPrivKey : Option (List Byte)
  PubKeyLastByteSender : Byte

/-! ## `generateMlsagRingWithIndexes`

The random source `common.RandBigIntMaxRange` is a tape of naturals: each call
takes the next entry `s` and yields `s % max`; with `max = 0` the call panics
(`rand.Int` on a non-positive bound). An early `return nil, nil, err` is the
exception `err : Option Err`, where `none` is a nil error. -/

/-- Sum of the version-2 commitments of the output coins (lines 160-164). -/
def outputCommitmentsV2 {P S : Type} [AddCommGroup P] (op : Operation P S)
    (outputCoins : List (OutputCoin P S)) : P :=
  outputCoins.foldl (fun acc c => acc + op.ParseCommitmentToV2WithCoin c.CoinDetails) 0

/-- Keys of the map `listUsableCommitments` (lines 144-149). -/
def listUsableCommitments {P S : Type} (op : Operation P S)
    (inputCoins : List (InputCoin P S)) : List Hash :=
  inputCoins.map (fun c => op.HashH (op.PointToBytesS c.CoinDetails.coinCommitment))

/-- The reject-and-resample loop for one decoy cell (lines 202-246). It
returns the sampled index, the ring cell, the version-2 commitment added to
`sumInputs`, and the rest of the tape. -/
def sampleDecoy {P S : Type} (op : Operation P S) (db : StateDB S) (tokenID : Hash)
    (shardID : Byte) (lenCommitment : Nat) (usable : List Hash) (nInputs : Nat) :
    List Nat → Run (Except (Option Err) ((Nat × P × P) × List Nat))
  | [] => if lenCommitment = 0 then .panic else .starved
  | s :: tape =>
    if lenCommitment = 0 then .panic
    else
      let index := s % lenCommitment
      let (ok, err) := db.HasCommitmentIndex tokenID (Uint64 index) shardID
      if !ok || err.isSome then .done (.error err)
      else
        match db.GetCommitmentPublicKeyAddditionalByIndex tokenID (Uint64 index) shardID with
        | .error err => .done (.error (some err))
        | .ok (commitment, publicKey, snd) =>
          let found := usable.contains (op.HashH commitment)
          if found && (Uint64 lenCommitment != 1 || nInputs != 1) then
            sampleDecoy op db tokenID shardID lenCommitment usable nInputs tape
          else
            match op.PointFromBytesS publicKey with
            | .error err => .done (.error (some err))
            | .ok cell =>
              match op.ParseCommitmentToV2ByBytes commitment publicKey snd shardID with
              | .error err => .done (.error (some err))
              | .ok commitmentBytesV2 =>
                match op.PointFromBytesS commitmentBytesV2 with
                | .error err => .done (.error (some err))
                | .ok temp => .done (.ok ((index, cell, temp), tape))

/-- The cells of a decoy row (lines 201-247): `k` cells still to fill. It
returns the cells, their indexes, the updated `sumInputs` and the rest of the
tape. -/
def decoyRow {P S : Type} [AddCommGroup P] (op : Operation P S) (db : StateDB S)
    (tokenID : Hash) (shardID : Byte) (lenCommitment : Nat) (usable : List Hash)
    (nInputs : Nat) :
    Nat → P → List Nat → Run (Except (Option Err) ((List P × List Nat × P) × List Nat))
  | 0, sumInputs, tape => .done (.ok (([], [], sumInputs), tape))
  | k + 1, sumInputs, tape =>
    match sampleDecoy op db tokenID shardID lenCommitment usable nInputs tape with
    | .panic => .panic
    | .starved => .starved
    | .done (.error err) => .done (.error err)
    | .done (.ok ((index, cell, temp), tape1)) =>
      match decoyRow op db tokenID shardID lenCommitment usable nInputs k
          (sumInputs + temp) tape1 with
      | .panic => .panic
      | .starved => .starved
      | .done (.error err) => .done (.error err)
      | .done (.ok ((cells, rowIndexes, sum), tape2)) =>
        .done (.ok ((cell :: cells, index :: rowIndexes, sum), tape2))

/-- The cells of the real row (lines 184-199), one per input coin. -/
def realRow {P S : Type} [AddCommGroup P] (op : Operation P S) (db : StateDB S)
    (tokenID : Hash) (shardID : Byte) (key : List Byte) :
    List (InputCoin P S) → P → Except (Option Err) (List P × List Nat × P)
  | [], sumInputs => .ok ([], [], sumInputs)
  | c :: cs, sumInputs =>
    let privKey := op.ScalarFromBytesS key
    let cell := op.ScalarMultBase privKey
    let coinCommitmentV2 := op.ParseCommitmentToV2WithCoin c.CoinDetails
    let commitmentBytes := op.PointToBytesS c.CoinDetails.coinCommitment
    match db.GetCommitmentIndex tokenID commitmentBytes shardID with
    | .error err => .error (some err)
    | .ok index =>
      match realRow op db tokenID shardID key cs (sumInputs + coinCommitmentV2) with
      | .error err => .error err
      | .ok (cells, rowIndexes, sum) => .ok (cell :: cells, index :: rowIndexes, sum)

/-- The loop over the rows (lines 176-252): row `i` is being built and
`remaining` rows are left. -/
def buildRows {P S : Type} [AddCommGroup P] (op : Operation P S) (db : StateDB S)
    (tokenID : Hash) (shardID : Byte) (key : List Byte) (inputCoins : List (InputCoin P S))
    (lenCommitment : Nat) (usable : List Hash) (feeCommitment outputCommitments : P)
    (pi : Int) :
    Nat → Nat → List Nat → Run (Except (Option Err) (List (List P) × List (List Nat)))
  | _, 0, _ => .done (.ok ([], []))
  | i, remaining + 1, tape =>
    let sumInputs : P := 0 - feeCommitment
    let built : Run (Except (Option Err) ((List P × List Nat × P) × List Nat)) :=
      if (i : Int) = pi then
        match realRow op db tokenID shardID key inputCoins sumInputs with
        | .error err => .done (.error err)
        | .ok r => .done (.ok (r, tape))
      else
        decoyRow op db tokenID shardID lenCommitment usable inputCoins.length
          inputCoins.length sumInputs tape
    match built with
    | .panic => .panic
    | .starved => .starved
    | .done (.error err) => .done (.error err)
    | .done (.ok ((row, rowIndexes, sum), tape1)) =>
      match buildRows op db tokenID shardID key inputCoins lenCommitment usable
          feeCommitment outputCommitments pi (i + 1) remaining tape1 with
      | .panic => .panic
      | .starved => .starved
      | .done (.error err) => .done (.error err)
      | .done (.ok (ring, indexes)) =>
        .done (.ok ((row ++ [sum - outputCommitments]) :: ring, rowIndexes :: indexes))

/-- Function `generateMlsagRingWithIndexes` (lines 137-255). The result is the
Go triple `(ring, indexes, err)`; `pi` and `ringSize` are Go `int`s. -/
def generateMlsagRingWithIndexes {P S : Type} [AddCommGroup P] (op : Operation P S)
    (inputCoins : List (InputCoin P S)) (outputCoins : List (OutputCoin P S))
    (params : TxPrivacyInitParams S) (pi : Int) (shardID : Byte) (ringSize : Int)
    (tape : List Nat) : Run (Option (Ring P) × Option (List (List Nat)) × Option Err) :=
  let usable := listUsableCommitments op inputCoins
  match params.stateDB.GetCommitmentLength params.tokenID shardID with
  | .error err => .done (none, none, some err)
  | .ok none => .done (none, none, some (.new "Commitments is empty"))
  | .ok (some lenCommitment) =>
    let outputCommitments := outputCommitmentsV2 op outputCoins
    if ringSize < 0 then .panic
    else
      let feeCommitment := op.ScalarMult op.PedComGValue (op.ScalarFromUint64 params.fee)
      match buildRows op params.stateDB params.tokenID shardID params.senderSK inputCoins
          lenCommitment usable feeCommitment outputCommitments pi 0 ringSize.toNat tape with
      | .panic => .panic
      | .starved => .starved
      | .done (.error err) => .done (none, none, err)
      | .done (.ok (ring, indexes)) => .done (some (NewRing ring), some indexes, none)

/-! ## `checkRingIndexesWithDatabase` -/

/-- Sum of the commitments carried by the output coins (lines 372-377). -/
def outputCommitmentsOf {P S : Type} [AddCommGroup P] (outputCoins : List (OutputCoin P S)) : P :=
  outputCoins.foldl (fun acc c => acc + c.CoinDetails.coinCommitment) 0

/-- The loop over the columns `j < m-1` of one row (lines 386-421). The two
lists are the cells `K[i][j..]` and the indexes `indexes[i][j..]` not yet read
and `remaining` is the number of columns left; reading past the end of either
list is an index out of range. The result is the rest of the ring row and the
updated `sumCommitment`, or the `(bool, error)` of an early return. -/
def checkCells {P S : Type} [AddCommGroup P] (op : Operation P S) (db : StateDB S)
    (tokenID : Hash) (shardID : Byte) :
    List P → List Nat → Nat → P → Run (Except (Bool × Option Err) (List P × P))
  | Ki, _, 0, sumCommitment => .done (.ok (Ki, sumCommitment))
  | ringPubkey :: Ki, index :: rowIndexes, remaining + 1, sumCommitment =>
    let (ok, err) := db.HasCommitmentIndex tokenID (Uint64 index) shardID
    if !ok || err.isSome then .done (.error (false, err))
    else
      match db.GetCommitmentPublicKeyAddditionalByIndex tokenID (Uint64 index) shardID with
      | .error err => .done (.error (false, some err))
      | .ok (commitmentByte, publicKeyByte, sndByte) =>
        let ringPubkeyBytes := op.PointToBytesS ringPubkey
        if ringPubkeyBytes ≠ publicKeyByte then
          .done (.error (false, some (.new "Ring byte is not the same with database")))
        else
          match op.ParseCommitmentToV2ByBytes commitmentByte publicKeyByte sndByte shardID with
          | .error err => .done (.error (false, some err))
          | .ok commitmentV2Byte =>
            match op.PointFromBytesS commitmentV2Byte with
            | .error err => .done (.error (false, some err))
            | .ok commitmentV2 =>
              checkCells op db tokenID shardID Ki rowIndexes remaining
                (sumCommitment + commitmentV2)
  | _, _, _ + 1, _ => .panic

/-- The loop over the rows (lines 383-430); `m1` is `m-1`. The two lists are
the rows of `K` and of `indexes` not yet checked. -/
def checkRows {P S : Type} [AddCommGroup P] (op : Operation P S) (db : StateDB S)
    (tokenID : Hash) (shardID : Byte) (m1 : Nat) (feeCommitment outputCommitments : P) :
    List (List P) → List (List Nat) → Run (Except (Bool × Option Err) Unit)
  | [], _ => .done (.ok ())
  | _ :: _, [] => .panic
  | Ki :: K, rowIndexes :: indexes =>
    let sumCommitment : P := 0 - feeCommitment
    match checkCells op db tokenID shardID Ki rowIndexes m1 sumCommitment with
    | .panic => .panic
    | .starved => .starved
    | .done (.error r) => .done (.error r)
    | .done (.ok (rest, sumCommitment)) =>
      match rest with
      | [] => .panic
      | last :: _ =>
        let byteCommitment := op.PointToBytesS (sumCommitment - outputCommitments)
        let byteRing := op.PointToBytesS last
        if byteCommitment ≠ byteRing then
          .done (.error (false, some (.new "Ring byte is not the same with commitment sum")))
        else checkRows op db tokenID shardID m1 feeCommitment outputCommitments K indexes

/-- The derivator check of the output coins (lines 434-443); `i` is the
position of the first coin of the list. -/
def checkSNDs {P S : Type} (db : StateDB S) (tokenID : Hash) :
    Nat → List (OutputCoin P S) → Bool × Option Err
  | _, [] => (true, none)
  | i, c :: cs =>
    let (ok, err) := db.CheckSNDerivatorExistence tokenID c.CoinDetails.snDerivator
    if ok || err.isSome then
      (false, some (.transaction .SndExistedError err
        ["snd existed: " ++ toString i ++ "\n"]))
    else checkSNDs db tokenID (i + 1) cs

/-- Function `checkRingIndexesWithDatabase` (lines 359-447). -/
def checkRingIndexesWithDatabase {P S : Type} [AddCommGroup P] (op : Operation P S)
    (tx : Tx P S) (ring : Ring P) (indexes : List (List Nat)) (transactionStateDB : StateDB S)
    (shardID : Byte) (tokenID : Hash) (isNewTransaction : Bool) : Run (Bool × Option Err) :=
  let K := ring.keys
  let n := K.length
  match K with
  | [] => .panic
  | K0 :: _ =>
    let m := K0.length
    if indexes.length ≠ n then
      .done (false, some (.new "Size row of indexes is not same with mlsagRing error"))
    else
      match indexes with
      | [] => .panic
      | indexes0 :: _ =>
        if (indexes0.length : Int) ≠ (m : Int) - 1 then
          .done (false, some (.new "Size column of indexes is not right error"))
        else
          match tx.Proof with
          | none => .panic
          | some proof =>
            let outputCoins := proof.outputCoins
            let outputCommitments := outputCommitmentsOf outputCoins
            let feeCommitment := op.ScalarMult op.PedComGValue (op.ScalarFromUint64 tx.Fee)
            match checkRows op transactionStateDB tokenID shardID (m - 1) feeCommitment
                outputCommitments K indexes with
            | .panic => .panic
            | .starved => .starved
            | .done (.error r) => .done r
            | .done (.ok ()) =>
              if isNewTransaction then
                .done (checkSNDs transactionStateDB tokenID 0 outputCoins)
              else .done (true, none)

/-! ## Specification-side views of the store -/

/-- The public key stored at an index, as the ledger check fetches it. -/
def storedPublicKey {S : Type} (db : StateDB S) (tokenID : Hash) (shardID : Byte)
    (index : Nat) : Option (List Byte) :=
  match db.GetCommitmentPublicKeyAddditionalByIndex tokenID (Uint64 index) shardID with
  | .error _ => none
  | .ok (_, publicKey, _) => some publicKey

/-- The version-2 re-derivation of the commitment stored at an index: the
stored commitment, public key and derivator passed through
`coin.ParseCommitmentToV2ByBytes` and parsed as a point. -/
def storedCommitmentV2 {P S : Type} (op : Operation P S) (db : StateDB S) (tokenID : Hash)
    (shardID : Byte) (index : Nat) : Option P :=
  match db.GetCommitmentPublicKeyAddditionalByIndex tokenID (Uint64 index) shardID with
  | .error _ => none
  | .ok (commitment, publicKey, snd) =>
    match op.ParseCommitmentToV2ByBytes commitment publicKey snd shardID with
    | .error _ => none
    | .ok commitmentBytesV2 =>
      match op.PointFromBytesS commitmentBytesV2 with
      | .error _ => none
      | .ok p => some p

/-- What the ledger check establishes for one cell: the index exists, the
bytes of the ring cell are the stored public key, and `v2` is the version-2
re-derivation of the stored commitment. -/
def CellChecked {P S : Type} (op : Operation P S) (db : StateDB S) (tokenID : Hash)
    (shardID : Byte) (index : Nat) (cell v2 : P) : Prop :=
  db.HasCommitmentIndex tokenID (Uint64 index) shardID = (true, none) ∧
  storedPublicKey db tokenID shardID index = some (op.PointToBytesS cell) ∧
  storedCommitmentV2 op db tokenID shardID index = some v2

/-- The cells of a row, their indexes and their version-2 commitments, cell by
cell. -/
def CellsChecked {P S : Type} (op : Operation P S) (db : StateDB S) (tokenID : Hash)
    (shardID : Byte) : List Nat → List P → List P → Prop
  | [], [], [] => True
  | index :: indexes, cell :: cells, v2 :: vs =>
    CellChecked op db tokenID shardID index cell v2 ∧
      CellsChecked op db tokenID shardID indexes cells vs
  | _, _, _ => False

/-- The fee commitment `fee * G_value` (lines 169-172, 378-381). -/
def feeCommitmentOf {P S : Type} (op : Operation P S) (fee : Nat) : P :=
  op.ScalarMult op.PedComGValue (op.ScalarFromUint64 fee)

/-! ## Specification-side views of the ring builder -/

/-- What the sampling loop has established when it accepts a decoy: the
index exists, the ring cell is the stored public key parsed as a point, and
`temp` is the version-2 re-derivation of the stored commitment. -/
def DecoyCell {P S : Type} (op : Operation P S) (db : StateDB S) (tokenID : Hash)
    (shardID : Byte) (index : Nat) (cell temp : P) : Prop :=
  db.HasCommitmentIndex tokenID (Uint64 index) shardID = (true, none) ∧
  ∃ commitment publicKey snd commitmentBytesV2,
    db.GetCommitmentPublicKeyAddditionalByIndex tokenID (Uint64 index) shardID
      = .ok (commitment, publicKey, snd) ∧
    op.PointFromBytesS publicKey = .ok cell ∧
    op.ParseCommitmentToV2ByBytes commitment publicKey snd shardID = .ok commitmentBytesV2 ∧
    op.PointFromBytesS commitmentBytesV2 = .ok temp

/-- The cells of a decoy row, cell by cell. -/
def DecoyCells {P S : Type} (op : Operation P S) (db : StateDB S) (tokenID : Hash)
    (shardID : Byte) : List Nat → List P → List P → Prop
  | [], [], [] => True
  | index :: indexes, cell :: cells, temp :: temps =>
    DecoyCell op db tokenID shardID index cell temp ∧
      DecoyCells op db tokenID shardID indexes cells temps
  | _, _, _ => False

/-- The indexes of the real row: the store's index of each input coin's
commitment. -/
def RealIndexes {P S : Type} (op : Operation P S) (db : StateDB S) (tokenID : Hash)
    (shardID : Byte) : List (InputCoin P S) → List Nat → Prop
  | [], [] => True
  | c :: cs, index :: indexes =>
    db.GetCommitmentIndex tokenID (op.PointToBytesS c.CoinDetails.coinCommitment) shardID
        = .ok index ∧
      RealIndexes op db tokenID shardID cs indexes
  | _, _ => False

/-- Row `i` as the builder makes it: the cells, then the aggregate cell
`(0 - feeCommitment + sum of the row's version-2 commitments) -
outputCommitments`; the row `pi` holds the sender's public key and the input
coins' own commitments, every other row holds sampled decoys. -/
def RowBuilt {P S : Type} [AddCommGroup P] (op : Operation P S) (db : StateDB S)
    (tokenID : Hash) (shardID : Byte) (key : List Byte) (inputCoins : List (InputCoin P S))
    (feeCommitment outputCommitments : P) (pi : Int) (i : Nat) (row : List P)
    (rowIndexes : List Nat) : Prop :=
  ∃ cells vs : List P,
    row = cells ++ [(0 - feeCommitment + vs.sum) - outputCommitments] ∧
    cells.length = inputCoins.length ∧ rowIndexes.length = inputCoins.length ∧
    if (i : Int) = pi then
      cells = inputCoins.map (fun _ => op.ScalarMultBase (op.ScalarFromBytesS key)) ∧
      vs = inputCoins.map (fun c => op.ParseCommitmentToV2WithCoin c.CoinDetails) ∧
      RealIndexes op db tokenID shardID inputCoins rowIndexes
    else DecoyCells op db tokenID shardID rowIndexes cells vs

/-- The rows of a built ring with their index rows, row `i` first. -/
def RowsBuilt {P S : Type} [AddCommGroup P] (op : Operation P S) (db : StateDB S)
    (tokenID : Hash) (shardID : Byte) (key : List Byte) (inputCoins : List (InputCoin P S))
    (feeCommitment outputCommitments : P) (pi : Int) :
    Nat → List (List P) → List (List Nat) → Prop
  | _, [], [] => True
  | i, row :: rows, rowIndexes :: indexes =>
    RowBuilt op db tokenID shardID key inputCoins feeCommitment outputCommitments pi i row
        rowIndexes ∧
      RowsBuilt op db tokenID shardID key inputCoins feeCommitment outputCommitments pi
        (i + 1) rows indexes
  | _, _, _ => False

/-- Sum of the version-2 re-derivations of the commitments stored at the
indexes of a row, when all of them exist. -/
def sumStored {P S : Type} [AddCommGroup P] (op : Operation P S) (db : StateDB S)
    (tokenID : Hash) (shardID : Byte) : List Nat → Option P
  | [] => some 0
  | index :: indexes =>
    match storedCommitmentV2 op db tokenID shardID index,
        sumStored op db tokenID shardID indexes with
    | some v, some s => some (v + s)
    | _, _ => none

/-- The input sum of row `i` of a ring: the version-2 commitments of the real
input coins for the row `pi`, the re-derived stored commitments at the row's
indexes for every other row. -/
def rowInputSum {P S : Type} [AddCommGroup P] (op : Operation P S) (db : StateDB S)
    (tokenID : Hash) (shardID : Byte) (inputCoins : List (InputCoin P S)) (pi : Int)
    (i : Nat) (rowIndexes : List Nat) : Option P :=
  if (i : Int) = pi then
    some (inputCoins.map (fun c => op.ParseCommitmentToV2WithCoin c.CoinDetails)).sum
  else sumStored op db tokenID shardID rowIndexes

/-! ## Sample curve, store and coins -/

/-- A sample curve: points and scalars are bytes, a point is its own
encoding, the value base is 1 and the public-key base is 3. The version-2
commitment of a coin is `value + 16 * randomness`; the stored (version-1)
commitment is the version-2 commitment plus the public key. -/
def sampleOp : Operation Byte Byte where
  PedComGValue := 1
  ScalarMult p s := s * p
  ScalarMultBase s := s * 3
  ScalarFromUint64 v := byteOf v
  ScalarFromBytesS b := byteOf (Common.SetBytes b)
  PointToBytesS p := [p]
  PointFromBytesS b :=
    match b with
    | [p] => .ok p
    | _ => .error (.new "Invalid point size")
  HashH b := b
  ParseCommitmentToV2WithCoin c := byteOf c.value + 16 * c.randomness
  ParseCommitmentToV2ByBytes commitment publicKey _ _ :=
    match commitment, publicKey with
    | [c], [pk] => .ok [c - pk]
    | _, _ => .error (.new "Invalid commitment bytes")

/-- A sample store for one token and shard: the entries `(commitment, public
key, derivator)` in index order and the list of known derivators. -/
def sampleDB (entries : List (Byte × Byte × Byte)) (snds : List Byte) : StateDB Byte where
  GetCommitmentLength _ _ := if entries.isEmpty then .ok none else .ok (some entries.length)
  GetCommitmentIndex _ commitment _ :=
    match entries.findIdx? (fun e => [e.1] == commitment) with
    | some index => .ok index
    | none => .error (.new "commitment not found")
  HasCommitmentIndex _ index _ := (decide (index < entries.length), none)
  GetCommitmentPublicKeyAddditionalByIndex _ index _ :=
    match entries[index]? with
    | some (c, pk, snd) => .ok ([c], [pk], [snd])
    | none => .error (.new "index not found")
  CheckSNDerivatorExistence _ snd := (snds.contains snd, none)

/-- Two stored coins: the sender's (index 0) and another one (index 1). -/
def sampleStore : StateDB Byte := sampleDB [(27, 6, 9), (40, 10, 3)] []

/-- The sender's coin: value 5, randomness 1, public key `2 * 3`. -/
def sampleInput : InputCoin Byte Byte := ⟨⟨6, 27, 9, none, 1, 5⟩⟩

/-- An output coin of value 4 and randomness 1 carrying its version-2
commitment 20. -/
def sampleOutput : OutputCoin Byte Byte := ⟨⟨10, 20, 7, none, 1, 4⟩⟩

/-- Builder parameters: secret key 2, fee 1. -/
def sampleParams : TxPrivacyInitParams Byte := ⟨[2], 1, true, [], sampleStore⟩

/-- The transaction of the sample coins, fee 1. -/
def sampleTx : Tx Byte Byte :=
  ⟨1, 0, none, none, some ⟨[sampleInput], [sampleOutput]⟩, none, 0⟩

/-! ## Signing and verification (`signTxVer2`, `verifySigTxVer2`, `TxVersion2.Verify`) -/

/-- The functions of package `mlsag` and of the proof that the signer and the
verifier call; none of them is among the embedded files. `G` is the type of a
parsed ring signature. -/
structure Mlsag (P S G : Type) where
  /-- the key image of one private-key entry; the flag marks the last entry
  of the vector (the balance column) -/
  KeyImage : S → Bool → P
  /-- `new(mlsag.MlsagSig).FromBytes(b)` -/
  SigFromBytes : List Byte → Except Err G
  /-- `mlsag.Verify(sig, ring, message)` -/
  Verify : G → Ring P → List Byte → Bool × Option Err
  /-- `mlsag.NewMlsag(privateKeys, ring, pi).Sign(message)` -/
  Sign : List S → Ring P → Int → List Byte → Except Err G
  /-- `mlsagSignature.ToBytes()` -/
  SigToBytes : G → Except Err (List Byte)
  /-- `privacy.ArrayScalarToBytes(&privateKeys)` -/
  ArrayScalarToBytes : List S → Except Err (List Byte)
  /-- `tx.Proof.Bytes()` -/
  ProofBytes : PaymentProof P S → List Byte

/-- The collaborators of `TxVersion2.Verify` besides the ring signature. -/
structure ProofVerifier (P S : Type) where
  /-- `parseTokenID(tokenID)`; the argument is a possibly nil pointer -/
  parseTokenID : Option Hash → Except Err Hash
  /-- `txProofV2.Verify(hasPrivacy, tx.SigPubKey, tx.Fee, shardID, tokenID, isBatch, nil)` -/
  ProofVerify : PaymentProof P S → Bool → Option (List Byte) → Nat → Byte → Hash → Bool →
    Bool × Option Err
  /-- `privacy.ErrCodeMessage[errhandler.VerifyOneOutOfManyProofFailedErr].Code` -/
  OneOutOfManyCode : Int
  /-- the constant `ValidateTimeForOneoutOfManyProof` -/
  ValidateTimeForOneoutOfManyProof : Int
  /-- `tx.Hash().String()` -/
  TxHashString : Tx P S → String

/-- Function `createPrivKeyMlsag` (lines 257-276). -/
def createPrivKeyMlsag {P S : Type} [AddCommGroup S] (op : Operation P S)
    (inputCoins : List (InputCoin P S)) (outputCoins : List (OutputCoin P S))
    (senderSK : List Byte) : List S :=
  let sumRand := op.ScalarFromUint64 0
  let sumRand := inputCoins.foldl (fun acc c => acc + c.CoinDetails.randomness) sumRand
  let sumRand := outputCoins.foldl (fun acc c => acc - c.CoinDetails.randomness) sumRand
  let sk := op.ScalarFromBytesS senderSK
  List.replicate inputCoins.length sk ++ [sumRand]

/-- Auxiliary of `ParseKeyImages`: the entries from position `i` on of a
vector of `m` entries. -/
def keyImagesFrom {P S G : Type} (ml : Mlsag P S G) (m : Nat) : Nat → List S → List P
  | _, [] => []
  | i, sk :: rest => ml.KeyImage sk (i + 1 == m) :: keyImagesFrom ml m (i + 1) rest

/-- Modelled from the spec: `mlsag.ParseKeyImages` is not among the embedded
files; it yields one key image per entry of the private-key vector, "key
image = hash-to-curve(public key) scalar-multiplied by the private key", the
entry of the last (balance) column being marked. -/
def ParseKeyImages {P S G : Type} (ml : Mlsag P S G) (privateKey : List S) : List P :=
  keyImagesFrom ml privateKey.length 0 privateKey

/-- The loop of lines 299-301: the key image `keyImages[i]` becomes the serial
number of the proof's input coin `i`. -/
def setSerialNumbers {P S : Type} : List (InputCoin P S) → List P → Run (List (InputCoin P S))
  | [], _ => .done []
  | _ :: _, [] => .panic
  | c :: cs, keyImage :: keyImages =>
    match setSerialNumbers cs keyImages with
    | .done rest => .done (⟨{ c.CoinDetails with serialNumber := some keyImage }⟩ :: rest)
    | .panic => .panic
    | .starved => .starved

/-- Function `signTxVer2` (lines 279-329). The result is the error returned
and the transaction as the call leaves it. `RingSize` is `privacy.RingSize`
and `GetShardIDFromLastByte` is the function of package `common`. The secret
row `pi = common.RandIntInterval(0, ringSize-1)` is the next entry of the
random tape reduced modulo `ringSize`. -/
def signTxVer2 {P S G : Type} [AddCommGroup P] [AddCommGroup S] (op : Operation P S)
    (codec : RingCodec P) (ml : Mlsag P S G) (RingSize : Nat)
    (GetShardIDFromLastByte : Byte → Byte)
    (inp : List (InputCoin P S)) (out : List (OutputCoin P S)) (tx : Tx P S)
    (params : TxPrivacyInitParams S) (tape : List Nat) : Run (Option Err × Tx P S) :=
  match tx.Sig with
  | some _ =>
    .done (some (.transaction .UnexpectedError
      (some (.new "input transaction must be an unsigned one")) []), tx)
  | none =>
    let ringSize := if !params.hasPrivacy then 1 else RingSize
    if ringSize = 0 then .panic
    else
      match tape with
      | [] => .starved
      | s :: tape1 =>
        let pi : Int := ((s % ringSize : Nat) : Int)
        let shardID := GetShardIDFromLastByte tx.PubKeyLastByteSender
        match generateMlsagRingWithIndexes op inp out params pi shardID (ringSize : Int)
            tape1 with
        | .panic => .panic
        | .starved => .starved
        | .done (_, _, some err) => .done (some err, tx)
        | .done (ring, indexes, none) =>
          let privKeysMlsag := createPrivKeyMlsag op inp out params.senderSK
          let keyImages := ParseKeyImages ml privKeysMlsag
          match tx.Proof with
          | none => .panic
          | some proof =>
            match setSerialNumbers proof.inputCoins keyImages with
            | .panic => .panic
            | .starved => .starved
            | .done coins =>
              let proof1 : PaymentProof P S := { proof with inputCoins := coins }
              let tx1 : Tx P S := { tx with Proof := some proof1 }
              match ml.ArrayScalarToBytes privKeysMlsag with
              | .error err => .done (some err, { tx1 with sigPrivKey := none })
              | .ok sigPrivKey =>
                let tx2 : Tx P S := { tx1 with sigPrivKey := some sigPrivKey }
                match ring, indexes with
                | some ring, some indexes =>
                  match (⟨ring, indexes⟩ : TxSignatureVer2 P).ToBytes codec with
                  | .panic => .panic
                  | .starved => .starved
                  | .done (.error err) => .done (some err, { tx2 with SigPubKey := none })
                  | .done (.ok sigPubKey) =>
                    let tx3 : Tx P S := { tx2 with SigPubKey := some sigPubKey }
                    let message := ml.ProofBytes proof1
                    match ml.Sign privKeysMlsag ring pi message with
                    | .error err => .done (some err, tx3)
                    | .ok mlsagSignature =>
                      match ml.SigToBytes mlsagSignature with
                      | .error err => .done (some err, { tx3 with Sig := none })
                      | .ok sig => .done (none, { tx3 with Sig := some sig })
                | _, _ => .panic

/-- Function `verifySigTxVer2` (lines 450-471). -/
def verifySigTxVer2 {P S G : Type} (codec : RingCodec P) (ml : Mlsag P S G) (tx : Tx P S) :
    Run (Bool × Option Err) :=
  match tx.Sig, tx.SigPubKey with
  | some sig, some sigPubKey =>
    match TxSignatureVer2.FromBytes codec sigPubKey with
    | .panic => .panic
    | .starved => .starved
    | .done (.error err) => .done (false, some err)
    | .done (.ok txSigPubKey) =>
      let ring := txSigPubKey.ring
      match ml.SigFromBytes sig with
      | .error err => .done (false, some err)
      | .ok txSig =>
        match tx.Proof with
        | none => .panic
        | some proof => .done (ml.Verify txSig ring (ml.ProofBytes proof))
  | _, _ =>
    .done (false, some (.transaction .UnexpectedError
      (some (.new "input transaction must be an signed one")) []))

/-- The verdict on a failed payment proof (lines 512-535). -/
def proofFailure {P S : Type} (pv : ProofVerifier P S) (tx : Tx P S) (err : Option Err)
    (isNewTransaction : Bool) : Bool × Option Err :=
  let other : Bool × Option Err :=
    (false, some (.transaction .TxProofVerifyFailError err [pv.TxHashString tx]))
  match err with
  | some (.privacy code msg) =>
    if code = pv.OneOutOfManyCode then
      if isNewTransaction then
        (false, some (.transaction .VerifyOneOutOfManyProofFailedErr
          (some (.privacy code msg)) [pv.TxHashString tx]))
      else if tx.LockTime ≤ pv.ValidateTimeForOneoutOfManyProof then (true, none)
      else
        (false, some (.transaction .VerifyOneOutOfManyProofFailedErr
          (some (.privacy code msg)) [pv.TxHashString tx]))
    else other
  | _ => other

/-- Method `TxVersion2.Verify` (lines 474-538). -/
def TxVersion2.Verify {P S G : Type} [AddCommGroup P] (op : Operation P S)
    (codec : RingCodec P) (ml : Mlsag P S G) (pv : ProofVerifier P S) (tx : Tx P S)
    (hasPrivacy : Bool) (transactionStateDB : StateDB S) (shardID : Byte)
    (tokenID : Option Hash) (isBatch isNewTransaction : Bool) : Run (Bool × Option Err) :=
  match verifySigTxVer2 codec ml tx with
  | .panic => .panic
  | .starved => .starved
  | .done (valid, err) =>
    if !valid then
      match err with
      | some e => .done (false, some (.transaction .VerifyTxSigFailError (some e) []))
      | none =>
        .done (false, some (.transaction .VerifyTxSigFailError
          (some (.new ("FAILED VERIFICATION SIGNATURE ver2 with tx hash "
            ++ pv.TxHashString tx))) []))
    else
      match tx.Proof with
      | none => .done (true, none)
      | some proof =>
        match pv.parseTokenID tokenID with
        | .error err => .done (false, some err)
        | .ok tokenID =>
          match TxSignatureVer2.FromBytes codec (tx.SigPubKey.getD []) with
          | .panic => .panic
          | .starved => .starved
          | .done (.error _) => .panic
          | .done (.ok txSigPubKey) =>
            match checkRingIndexesWithDatabase op tx txSigPubKey.ring txSigPubKey.indexes
                transactionStateDB shardID tokenID isNewTransaction with
            | .panic => .panic
            | .starved => .starved
            | .done (_, some err) => .done (false, some err)
            | .done (false, none) => .done (false, none)
            | .done (true, none) =>
              let (valid, err) := pv.ProofVerify proof hasPrivacy tx.SigPubKey tx.Fee shardID
                tokenID isBatch
              if !valid then .done (proofFailure pv tx err isNewTransaction)
              else .done (true, none)

/-! ## Sample signer and verifier -/

/-- A sample ring-signature scheme: a signature is the signed message, the
key image of an entry is 5 times the entry (7 times for the last entry). -/
def sampleMlsag : Mlsag Byte Byte (List Byte) where
  KeyImage sk last := if last then sk * 7 else sk * 5
  SigFromBytes b := .ok b
  Verify sig _ message := (decide (sig = message), none)
  Sign _ _ _ message := .ok message
  SigToBytes sig := .ok sig
  ArrayScalarToBytes keys := .ok keys
  ProofBytes proof := proof.outputCoins.map (fun c => c.CoinDetails.coinCommitment)

/-- A sample proof verifier: the payment proof fails with the
one-out-of-many code 7 when privacy is requested and holds otherwise; the
cutoff time is 0. -/
def samplePV : ProofVerifier Byte Byte where
  parseTokenID tokenID := .ok (tokenID.getD [])
  ProofVerify _ hasPrivacy _ _ _ _ _ :=
    if hasPrivacy then (false, some (.privacy 7 "one out of many proof failed"))
    else (true, none)
  OneOutOfManyCode := 7
  ValidateTimeForOneoutOfManyProof := 0
  TxHashString _ := "sample"

/-- The serialized ring public-key material of the two-row sample ring. -/
def sampleSigPubKey : List Byte :=
  [0, 0, 0, 6, 2, 2, 6, 0, 10, 9, 2, 1, 0, 0, 0, 0, 0, 0, 0, 0, 0, 0, 0, 0, 0, 0, 0, 1]

/-- The sample transaction as `signTxVer2` leaves it (ring size 2, tape
`[0, 1]`): lock time 0, which is the cutoff of `samplePV`. -/
def sampleSignedTx : Tx Byte Byte :=
  ⟨1, 0, some [20], some sampleSigPubKey,
    some ⟨[⟨⟨6, 27, 9, some 10, 1, 5⟩⟩], [sampleOutput]⟩, some [2, 0], 0⟩

/-- A second input coin of the sample sender: value 3, randomness 2. -/
def sampleInput2 : InputCoin Byte Byte := ⟨⟨6, 41, 4, none, 2, 3⟩⟩

/-- The sample store holding both coins of the sample sender. -/
def sampleStore2 : StateDB Byte := sampleDB [(27, 6, 9), (41, 6, 4)] []

/-- Parameters of a transfer without privacy over `sampleStore2`. -/
def sampleParams2 : TxPrivacyInitParams Byte := ⟨[2], 1, false, [], sampleStore2⟩

/-- An unsigned sample transaction spending both coins. -/
def sampleTx2 : Tx Byte Byte :=
  ⟨1, 0, none, none, some ⟨[sampleInput, sampleInput2], [sampleOutput]⟩, none, 0⟩

/-- The transaction `sampleTx2` as `signTxVer2` leaves it (ring size 1, tape
`[0]`). -/
def sampleSignedTx2 : Tx Byte Byte :=
  ⟨1, 0, some [20],
    some [0, 0, 0, 5, 1, 3, 6, 6, 35, 1, 2, 0, 0, 0, 0, 0, 0, 0, 0, 0, 0, 0, 0, 0, 0, 0, 1],
    some ⟨[⟨⟨6, 27, 9, some 10, 1, 5⟩⟩, ⟨⟨6, 41, 4, some 10, 2, 3⟩⟩], [sampleOutput]⟩,
    some [2, 2, 2], 0⟩

/-! ## Custom-token transactions (`transaction/txcustomtoken.go`) -/

/-- Type `privacy.PaymentAddress`: public key and transmission key. -/
structure PaymentAddress where
  Pk : List Byte
  Tk : List Byte

/-- Type `TxTokenVin`: a reference to output `VoutIndex` (a Go `int`) of the
earlier custom-token transaction `TxCustomTokenID`. -/
structure TxTokenVin where
  TxCustomTokenID : Hash
  VoutIndex : Int
  Signature : String
  PaymentAddress : PaymentAddress

/-- Type `TxTokenVout`; `Value` is a `uint64`. -/
structure TxTokenVout where
  Value : Nat
  PaymentAddress : PaymentAddress
  index : Int
  txCustomTokenID : Hash

/-- Type `TxTokenData`; `Type_` is its field `Type`. -/
structure TxTokenData where
  PropertyID : Hash
  PropertyName : String
  PropertySymbol : String
  Type_ : Int
  Mintable : Bool
  Amount : Nat
  Vins : List TxTokenVin
  Vouts : List TxTokenVout

/-- Type `TxCustomToken` (lines 23-30) over the type `T` of the embedded native
transaction: the embedded transaction, the token data and `listUtxo`, a Go map
from transaction hash to `TxCustomToken`, as an association list read at the
first entry of a key. -/
inductive TxCustomToken (T : Type) where
  | mk : T → TxTokenData → List (Hash × TxCustomToken T) → TxCustomToken T

/-- Field `Tx` of a `TxCustomToken`. -/
def TxCustomToken.Tx {T : Type} : TxCustomToken T → T
  | .mk tx _ _ => tx

/-- Field `TxTokenData` of a `TxCustomToken`. -/
def TxCustomToken.TxTokenData {T : Type} : TxCustomToken T → TxTokenData
  | .mk _ data _ => data

/-- Field `listUtxo` of a `TxCustomToken`. -/
def TxCustomToken.listUtxo {T : Type} : TxCustomToken T → List (Hash × TxCustomToken T)
  | .mk _ _ utxos => utxos

/-- What `TxCustomToken.ValidateTransaction` calls outside the embedded files,
over the type `T` of the native transaction and the type `D` of the database
handle. -/
structure TokenValidation (T D : Type) where
  /-- `Tx.ValidateTransaction(hasPrivacy, db, shardID, tokenID)` of the native
  transaction -/
  TxValidateTransaction : T → Bool → D → Byte → Option Hash → Bool × Option Err
  /-- `vout.Hash()` -/
  VoutHash : TxTokenVout → Hash
  /-- First result of `base58.Base58Check{}.Decode(s)` -/
  Base58CheckDecode : String → List Byte
  /-- `keySet.Verify(data, signature)` of the key set holding the payment
  address -/
  KeySetVerify : PaymentAddress → List Byte → List Byte → Bool × Option Err

/-- The loop over the vins of `ValidateTransaction` (lines 208-222), entered
with the running `totalVinAmount`: the early return of the loop is the error
side, the final `uint64` total the success side. A vin whose transaction is not
a key of `listUtxo` reads the zero transaction, whose vout list is empty, so
that indexing it panics, as does an index outside the vout list. -/
def sumVins {T D : Type} (env : TokenValidation T D) (listUtxo : List (Hash × TxCustomToken T)) :
    List TxTokenVin → Nat → Run (Except (Bool × Option Err) Nat)
  | [], totalVinAmount => .done (.ok totalVinAmount)
  | vin :: vins, totalVinAmount =>
    let vouts : List TxTokenVout :=
      match listUtxo.lookup vin.TxCustomTokenID with
      | some utxo => utxo.TxTokenData.Vouts
      | none => []
    if vin.VoutIndex < 0 then .panic
    else
      match vouts[vin.VoutIndex.toNat]? with
      | none => .panic
      | some vout =>
        let data := env.VoutHash vout
        let signature := env.Base58CheckDecode vin.Signature
        match env.KeySetVerify vin.PaymentAddress data signature with
        | (_, some err) => .done (.error (false, some err))
        | (false, none) => .done (.error (false, none))
        | (true, none) =>
          sumVins env listUtxo vins ((totalVinAmount + vout.Value) % 2 ^ 64)

/-- Method `TxCustomToken.ValidateTransaction` (lines 197-233). -/
def TxCustomToken.ValidateTransaction {T D : Type} (env : TokenValidation T D)
    (customTokenTx : TxCustomToken T) (hasPrivacy : Bool) (db : D) (shardID : Byte)
    (tokenID : Option Hash) : Run (Bool × Option Err) :=
  match env.TxValidateTransaction customTokenTx.Tx hasPrivacy db shardID tokenID with
  | (true, _) =>
    if customTokenTx.listUtxo.length = 0 then
      .done (false, some (.new "Len listUtxo is 0"))
    else if customTokenTx.TxTokenData.Vins.length = 0 then
      .done (false, some (.new "Len Vins is 0"))
    else
      match sumVins env customTokenTx.listUtxo customTokenTx.TxTokenData.Vins 0 with
      | .panic => .panic
      | .starved => .starved
      | .done (.error result) => .done result
      | .done (.ok totalVinAmount) =>
        let totalVoutAmount := customTokenTx.TxTokenData.Vouts.foldl
          (fun total vout => (total + vout.Value) % 2 ^ 64) 0
        if totalVinAmount ≠ totalVoutAmount then
          .done (false, some (.new "Vin amount <> Vout amount"))
        else .done (true, none)
  | (false, err) => .done (false, err)

/-- The exact integer sum of the values of the prior outputs that the vins
reference (a vin without a referenced output counts 0). -/
def exactVinSum {T : Type} (listUtxo : List (Hash × TxCustomToken T))
    (vins : List TxTokenVin) : Nat :=
  (vins.map (fun vin =>
    match listUtxo.lookup vin.TxCustomTokenID with
    | some utxo =>
      if vin.VoutIndex < 0 then 0
      else (utxo.TxTokenData.Vouts[vin.VoutIndex.toNat]?.map (fun v => v.Value)).getD 0
    | none => 0)).sum

/-- The exact integer sum of the values of a vout list. -/
def exactVoutSum (vouts : List TxTokenVout) : Nat :=
  (vouts.map (fun v => v.Value)).sum

/-- A sample validation environment: every native transaction validates, the
hash of a vout is its public key, a signature decodes to the codes of its
characters and verifies when it is not empty. -/
def sampleTokenValidation : TokenValidation Unit Unit where
  TxValidateTransaction _ _ _ _ _ := (true, none)
  VoutHash vout := vout.PaymentAddress.Pk
  Base58CheckDecode s := s.toList.map (fun c => byteOf c.toNat)
  KeySetVerify _ _ signature := (!signature.isEmpty, none)

/-- The address of the sample token holder. -/
def sampleAddress : PaymentAddress := ⟨[1], [2]⟩

/-- An earlier token transaction with the hash `[9]` paying 5 units to the
sample holder. -/
def samplePriorTx : TxCustomToken Unit :=
  .mk () ⟨[7], "token", "TKN", 0, false, 5, [], [⟨5, sampleAddress, 0, [9]⟩]⟩ []

/-- A transfer that spends the 5 units of `samplePriorTx` and pays `2^63`,
`2^63` and 5 units: the exact sum of its vouts is `2^64 + 5`. -/
def overflowTransfer : TxCustomToken Unit :=
  .mk () ⟨[7], "token", "TKN", 1, false, 0, [⟨[9], 0, "sig", sampleAddress⟩],
    [⟨2 ^ 63, sampleAddress, 0, []⟩, ⟨2 ^ 63, sampleAddress, 1, []⟩,
      ⟨5, sampleAddress, 2, []⟩]⟩ [([9], samplePriorTx)]

/-! ## Double-spend tests of custom-token transactions -/

/-- A `metadata.Transaction` value as the embedded files meet it: a
`*TxCustomToken`, or a transaction of another Go type, on which the type
assertion `.(*TxCustomToken)` panics. -/
inductive Transaction (T : Type) where
  | customToken (tx : TxCustomToken T)
  | other (tx : T)

/-- Interface `metadata.MempoolRetriever`: the transactions of the pool
(`GetTxsInMem`, each entry read through its field `Tx`). -/
structure MempoolRetriever (T : Type) where
  GetTxsInMem : List (Transaction T)

/-- Interface `metadata.BlockchainRetriever` as the embedded files query it. A
Go map result is an association list, ranged over in list order. -/
structure BlockchainRetriever (T : Type) where
  /-- `bcr.GetCustomTokenTxs(&propertyID)` -/
  GetCustomTokenTxs : Hash → Except Err (List (Hash × Transaction T))
  /-- `bcr.GetTransactionByHash(hash)`: the transaction and the error -/
  GetTransactionByHash : Hash → Except Err (Transaction T)

/-- Interface `metadata.Metadata`, by the results of the methods called. -/
structure Metadata (T D : Type) where
  /-- `meta.ValidateTxWithBlockChain(tx, bcr, shardID, db)` -/
  ValidateTxWithBlockChain :
    TxCustomToken T → BlockchainRetriever T → Byte → D → Bool × Option Err
  /-- `meta.ValidateMetadataByItself()` -/
  ValidateMetadataByItself : Bool

/-- Constants and methods of the native transaction and of package `common`
that the custom-token checks use and the embedded files do not define. -/
structure TokenRules (T D : Type) where
  /-- Field `Type` of the native transaction (`GetType()`) -/
  TxType : T → String
  /-- Field `Metadata` of the native transaction -/
  TxMetadata : T → Option (Metadata T D)
  /-- `common.TxRewardType` -/
  TxRewardType : String
  /-- `common.TxReturnStakingType` -/
  TxReturnStakingType : String
  /-- `common.TxCustomTokenType` -/
  TxCustomTokenType : String
  /-- Constant `CustomTokenInit` -/
  CustomTokenInit : Int
  /-- Constant `CustomTokenTransfer` -/
  CustomTokenTransfer : Int
  /-- Constant `CustomTokenCrossShard` -/
  CustomTokenCrossShard : Int
  /-- `common.PRVCoinID` as a hash -/
  PRVCoinID : Hash
  /-- `h.String()` of a `common.Hash` -/
  HashString : Hash → String
  /-- `normalTx.ValidateTxWithCurrentMempool(mr)` -/
  TxValidateTxWithCurrentMempool : T → MempoolRetriever T → Option Err
  /-- `tx.ValidateDoubleSpendWithBlockchain(bcr, shardID, db, nil)` -/
  TxValidateDoubleSpendWithBlockchain : T → BlockchainRetriever T → Byte → D → Option Err

/-- `GetType()` of a `metadata.Transaction`. -/
def Transaction.GetType {T D : Type} (rules : TokenRules T D) : Transaction T → String
  | .customToken tx => rules.TxType tx.Tx
  | .other tx => rules.TxType tx

/-- The inner loop of `validateDoubleSpendCustomTokenOnTx` (lines 61-67): the
vin `vin` of the other transaction against the vins `item` of this one. -/
def conflictWithItems {T D : Type} (rules : TokenRules T D) (vin : TxTokenVin) :
    List TxTokenVin → Option Err
  | [] => none
  | item :: items =>
    if rules.HashString vin.TxCustomTokenID = rules.HashString item.TxCustomTokenID then
      if vin.VoutIndex = item.VoutIndex then some (.transaction .DoubleSpend none [])
      else conflictWithItems rules vin items
    else conflictWithItems rules vin items

/-- The outer loop of `validateDoubleSpendCustomTokenOnTx` (lines 60-68). -/
def conflictWithVins {T D : Type} (rules : TokenRules T D) (items : List TxTokenVin) :
    List TxTokenVin → Option Err
  | [] => none
  | vin :: vins =>
    match conflictWithItems rules vin items with
    | some err => some err
    | none => conflictWithVins rules items vins

/-- Method `validateDoubleSpendCustomTokenOnTx` (lines 56-70). -/
def TxCustomToken.validateDoubleSpendCustomTokenOnTx {T D : Type} (rules : TokenRules T D)
    (customTokentx : TxCustomToken T) (txInBlock : Transaction T) : Run (Option Err) :=
  match txInBlock with
  | .other _ => .panic
  | .customToken temp =>
    .done (conflictWithVins rules customTokentx.TxTokenData.Vins temp.TxTokenData.Vins)

/-- The loop over the pool of `ValidateTxWithCurrentMempool` (lines 84-92). -/
def checkTxsInMem {T D : Type} (rules : TokenRules T D) (customTokenTx : TxCustomToken T) :
    List (Transaction T) → Run (Option Err)
  | [] => .done none
  | txInMem :: txsInMem =>
    if txInMem.GetType rules = rules.TxCustomTokenType then
      match customTokenTx.validateDoubleSpendCustomTokenOnTx rules txInMem with
      | .panic => .panic
      | .starved => .starved
      | .done (some err) => .done (some (.transaction .UnexpectedErr (some err) []))
      | .done none => checkTxsInMem rules customTokenTx txsInMem
    else checkTxsInMem rules customTokenTx txsInMem

/-- Method `ValidateTxWithCurrentMempool` (lines 72-94). -/
def TxCustomToken.ValidateTxWithCurrentMempool {T D : Type} (rules : TokenRules T D)
    (customTokenTx : TxCustomToken T) (mr : MempoolRetriever T) : Run (Option Err) :=
  if rules.TxType customTokenTx.Tx = rules.TxRewardType
      ∨ rules.TxType customTokenTx.Tx = rules.TxReturnStakingType then
    .done (some (.new
      "can not receive a salary tx | return staking tx from other node, this is a violation"))
  else
    let normalTx := customTokenTx.Tx
    match rules.TxValidateTxWithCurrentMempool normalTx mr with
    | some err => .done (some (.transaction .UnexpectedErr (some err) []))
    | none => checkTxsInMem rules customTokenTx mr.GetTxsInMem

/-- The loop over the chain's transactions of
`validateDoubleSpendCustomTokenWithBlockchain` (lines 111-116). -/
def checkTxsInBlocks {T D : Type} (rules : TokenRules T D) (customTokenTx : TxCustomToken T) :
    List (Hash × Transaction T) → Run (Option Err)
  | [] => .done none
  | (_, txInBlocks) :: listTxs =>
    match customTokenTx.validateDoubleSpendCustomTokenOnTx rules txInBlocks with
    | .panic => .panic
    | .starved => .starved
    | .done (some err) => .done (some (.transaction .UnexpectedErr (some err) []))
    | .done none => checkTxsInBlocks rules customTokenTx listTxs

/-- Method `validateDoubleSpendCustomTokenWithBlockchain` (lines 96-119). -/
def TxCustomToken.validateDoubleSpendCustomTokenWithBlockchain {T D : Type}
    (rules : TokenRules T D) (customTokenTx : TxCustomToken T) (bcr : BlockchainRetriever T) :
    Run (Option Err) :=
  match bcr.GetCustomTokenTxs customTokenTx.TxTokenData.PropertyID with
  | .error err => .done (some (.transaction .UnexpectedErr (some err) []))
  | .ok listTxs =>
    if listTxs.length = 0
        ∧ customTokenTx.TxTokenData.Type_ ≠ rules.CustomTokenInit
        ∧ customTokenTx.TxTokenData.Type_ ≠ rules.CustomTokenCrossShard then
      .done (some (.transaction .TxNotExist none []))
    else if listTxs.length > 0 then checkTxsInBlocks rules customTokenTx listTxs
    else .done none

/-- Method `ValidateTxWithBlockChain` (lines 121-146). -/
def TxCustomToken.ValidateTxWithBlockChain {T D : Type} (rules : TokenRules T D)
    (customTokenTx : TxCustomToken T) (bcr : BlockchainRetriever T) (shardID : Byte) (db : D) :
    Run (Option Err) :=
  if rules.TxType customTokenTx.Tx = rules.TxRewardType then
    .done (some (.transaction .UnexpectedErr (some (.new "Wrong salary tx")) []))
  else if rules.TxType customTokenTx.Tx = rules.TxReturnStakingType then
    .done (some (.transaction .UnexpectedErr (some (.new "Wrong return staking tx")) []))
  else
    let continueWithToken : Run (Option Err) :=
      match rules.TxValidateDoubleSpendWithBlockchain customTokenTx.Tx bcr shardID db with
      | some err => .done (some (.transaction .UnexpectedErr (some err) []))
      | none => customTokenTx.validateDoubleSpendCustomTokenWithBlockchain rules bcr
    match rules.TxMetadata customTokenTx.Tx with
    | none => continueWithToken
    | some meta =>
      match meta.ValidateTxWithBlockChain customTokenTx bcr shardID db with
      | (_, some err) => .done (some (.transaction .UnexpectedErr (some err) []))
      | (false, none) => .done none
      | (true, none) => continueWithToken

/-- Sample rules over `Unit` native transactions: every transaction has the
custom-token type `"t"`, no metadata and passes the native checks; the string
of a hash has one character per byte. -/
def sampleRules : TokenRules Unit Unit where
  TxType _ := "t"
  TxMetadata _ := none
  TxRewardType := "s"
  TxReturnStakingType := "rs"
  TxCustomTokenType := "t"
  CustomTokenInit := 0
  CustomTokenTransfer := 1
  CustomTokenCrossShard := 2
  PRVCoinID := [4]
  HashString h := String.mk (h.map (fun b => Char.ofNat b.val))
  TxValidateTxWithCurrentMempool _ _ := none
  TxValidateDoubleSpendWithBlockchain _ _ _ _ := none

/-- A transfer of the token `[7]` that spends output 0 of `samplePriorTx` and
pays its 5 units back to the sample holder. -/
def sampleTransfer : TxCustomToken Unit :=
  .mk () ⟨[7], "token", "TKN", 1, false, 0, [⟨[9], 0, "sig", sampleAddress⟩],
    [⟨5, sampleAddress, 0, []⟩]⟩ [([9], samplePriorTx)]

/-- A pool holding `overflowTransfer`, which spends the same output. -/
def samplePool : MempoolRetriever Unit := ⟨[.customToken overflowTransfer]⟩

/-- A chain whose history of the token `[7]` holds `overflowTransfer`. -/
def sampleChain : BlockchainRetriever Unit where
  GetCustomTokenTxs tokenID :=
    if tokenID = [7] then .ok [([8], .customToken overflowTransfer)] else .ok []
  GetTransactionByHash hash :=
    if hash = [9] then .ok (.customToken samplePriorTx) else .error (.new "not found")

/-! ## Self-validation of custom-token transactions (`ValidateTxByItself`) -/

/-- Go map assignment `data[key] = value` on an association list. -/
def mapPut {V : Type} (data : List (Hash × V)) (key : Hash) (value : V) : List (Hash × V) :=
  (key, value) :: data.filter (fun entry => entry.1 != key)

/-- The loop of `GetListUTXOFromTxCustomToken` (lines 239-246): `none` is the
early `return false`. -/
def collectUtxo {T : Type} (bcr : BlockchainRetriever T) :
    List TxTokenVin → List (Hash × TxCustomToken T) → Run (Option (List (Hash × TxCustomToken T)))
  | [], data => .done (some data)
  | vin :: vins, data =>
    match bcr.GetTransactionByHash vin.TxCustomTokenID with
    | .error _ => .done none
    | .ok (.other _) => .panic
    | .ok (.customToken utxo) => collectUtxo bcr vins (mapPut data vin.TxCustomTokenID utxo)

/-- Method `GetListUTXOFromTxCustomToken` (lines 235-253): the result and the
transaction as the call leaves it. -/
def TxCustomToken.GetListUTXOFromTxCustomToken {T : Type} (customTokenTx : TxCustomToken T)
    (bcr : BlockchainRetriever T) : Run (Bool × TxCustomToken T) :=
  match collectUtxo bcr customTokenTx.TxTokenData.Vins [] with
  | .panic => .panic
  | .starved => .starved
  | .done none => .done (false, customTokenTx)
  | .done (some data) =>
    if data.length = 0 then .done (false, customTokenTx)
    else .done (true, .mk customTokenTx.Tx customTokenTx.TxTokenData data)

/-- Method `ValidateTxByItself` (lines 255-300): the result and the
transaction as the call leaves it. A nil and an empty `Vins` are both the empty
list. -/
def TxCustomToken.ValidateTxByItself {T D : Type} (env : TokenValidation T D)
    (rules : TokenRules T D) (customTokenTx : TxCustomToken T) (hasPrivacy : Bool) (db : D)
    (bcr : BlockchainRetriever T) (shardID : Byte) :
    Run ((Bool × Option Err) × TxCustomToken T) :=
  let prvCoinID := rules.PRVCoinID
  if customTokenTx.TxTokenData.Type_ = rules.CustomTokenInit then
    match env.TxValidateTransaction customTokenTx.Tx hasPrivacy db shardID (some prvCoinID) with
    | (false, err) => .done ((false, err), customTokenTx)
    | (true, _) =>
      if customTokenTx.TxTokenData.Vouts.length ≠ 1 then
        .done ((false, some (.new "Length of Vouts != 1")), customTokenTx)
      else if customTokenTx.TxTokenData.Vins.length ≠ 0 then
        .done ((false, some (.new "Length of Vins != 0 and Vins is nil")), customTokenTx)
      else .done ((true, none), customTokenTx)
  else if customTokenTx.TxTokenData.Type_ = rules.CustomTokenCrossShard then
    match env.TxValidateTransaction customTokenTx.Tx hasPrivacy db shardID (some prvCoinID) with
    | (false, err) => .done ((false, err), customTokenTx)
    | (true, _) =>
      if customTokenTx.listUtxo.length ≠ 0 then
        .done ((false, some (.new "Length listUtxo != 0")), customTokenTx)
      else if customTokenTx.TxTokenData.Vins.length ≠ 0 then
        .done ((false, some (.new "Length Vins != 0")), customTokenTx)
      else .done ((true, none), customTokenTx)
  else
    match customTokenTx.GetListUTXOFromTxCustomToken bcr with
    | .panic => .panic
    | .starved => .starved
    | .done (false, tx1) =>
      .done ((false, some (.new "getListUTXOFromTxCustomToken")), tx1)
    | .done (true, tx1) =>
      match tx1.ValidateTransaction env hasPrivacy db shardID (some prvCoinID) with
      | .panic => .panic
      | .starved => .starved
      | .done (false, err) => .done ((false, err), tx1)
      | .done (true, _) =>
        match rules.TxMetadata tx1.Tx with
        | some meta =>
          let validateMetadata := meta.ValidateMetadataByItself
          if !validateMetadata then
            .done ((validateMetadata, some (.new "Metadata is invalid")), tx1)
          else .done ((validateMetadata, none), tx1)
        | none => .done ((true, none), tx1)

/-- A token issue: type `CustomTokenInit`, one vout, no vins. -/
def sampleInitTx : TxCustomToken Unit :=
  .mk () ⟨[7], "token", "TKN", 0, false, 5, [], [⟨5, sampleAddress, 0, []⟩]⟩ []

/-- A cross-shard token transaction: type `CustomTokenCrossShard`, vouts
only. -/
def sampleCrossShardTx : TxCustomToken Unit :=
  .mk () ⟨[7], "token", "TKN", 2, false, 5, [], [⟨5, sampleAddress, 0, []⟩]⟩ []

/-! ## Construction of custom-token transactions (`TxCustomToken.Init`) -/

/-- The zero value `common.Hash{}`: 32 zero bytes. -/
def zeroHash : Hash := List.replicate 32 0

/-- The zero value `TxTokenData{}`. -/
def zeroTxTokenData : TxTokenData := ⟨zeroHash, "", "", 0, false, 0, [], []⟩

/-- Type `CustomTokenParamTx`; `Amount` and `vinsAmount` are `uint64`. -/
structure CustomTokenParamTx where
  PropertyID : String
  PropertyName : String
  PropertySymbol : String
  Amount : Nat
  TokenTxType : Int
  Receiver : List TxTokenVout
  Mintable : Bool
  vins : List TxTokenVin
  vinsAmount : Nat

/-- What `TxCustomToken.Init` calls outside the embedded files, over the type
`A` of the arguments of the native `Tx.Init` (sender key, payment infos, input
coins, fee, privacy flag and metadata) and the type `D` of the database. -/
structure TokenInit (T A D : Type) where
  /-- `normalTx.Init(NewTxPrivacyInitParams(...))`: the initialised native
  transaction or the error -/
  TxInit : A → D → Except Err T
  /-- Assignment `tx.Type = t` on a native transaction -/
  SetType : T → String → T
  /-- `common.Hash{}.NewHashFromStr(s)` -/
  NewHashFromStr : String → Except Err Hash
  /-- `txTokenData.Hash()` -/
  TxTokenDataHash : TxTokenData → Except Err Hash
  /-- `common.HashH(b)` -/
  HashH : List Byte → Hash
  /-- `db.CustomTokenIDExisted(tokenID)` -/
  CustomTokenIDExisted : D → Hash → Bool

/-- A receiver as `Init` copies it into a new vout (lines 478-482, 541-546):
payment address and value only. -/
def voutOfReceiver (receiver : TxTokenVout) : TxTokenVout :=
  ⟨receiver.Value, receiver.PaymentAddress, 0, zeroHash⟩

/-- The `CustomTokenInit` case of `Init` (lines 464-513) on the token data
zeroed by line 440. -/
def initTokenData {T A D : Type} (init : TokenInit T A D) (tokenParams : CustomTokenParamTx)
    (db : D) (shardID : Byte) : Run (Option Err × TxTokenData) :=
  let data : TxTokenData :=
    { zeroTxTokenData with
      Type_ := tokenParams.TokenTxType
      PropertyName := tokenParams.PropertyName
      PropertySymbol := tokenParams.PropertySymbol
      Amount := tokenParams.Amount }
  match tokenParams.Receiver with
  | [] => .panic
  | receiver :: _ =>
    let data : TxTokenData := { data with Vouts := [voutOfReceiver receiver] }
    if tokenParams.Mintable then
      match init.NewHashFromStr tokenParams.PropertyID with
      | .error err => .done (some (.transaction .UnexpectedErr (some err) []), data)
      | .ok propertyID =>
        .done (none, { data with PropertyID := propertyID, Mintable := true })
    else
      match init.TxTokenDataHash data with
      | .error err => .done (some (.transaction .WrongTokenTxType (some err) []), data)
      | .ok hashInitToken =>
        let newHashInitToken := init.HashH (hashInitToken ++ [shardID])
        let existed := init.CustomTokenIDExisted db newHashInitToken
        if existed then .done (some (.transaction .CustomTokenExisted none []), data)
        else .done (none, { data with PropertyID := newHashInitToken })

/-- The `CustomTokenTransfer` case of `Init` (lines 514-556); the amounts are
`uint64`. -/
def transferTokenData {T A D : Type} (init : TokenInit T A D)
    (tokenParams : CustomTokenParamTx) (db : D) : Run (Option Err × TxTokenData) :=
  let paymentTokenAmount := tokenParams.Receiver.foldl
    (fun total receiver => (total + receiver.Value) % 2 ^ 64) 0
  let refundTokenAmount := (tokenParams.vinsAmount + 2 ^ 64 - paymentTokenAmount) % 2 ^ 64
  let data : TxTokenData :=
    { zeroTxTokenData with
      Type_ := tokenParams.TokenTxType
      PropertyName := tokenParams.PropertyName
      PropertySymbol := tokenParams.PropertySymbol
      Mintable := tokenParams.Mintable }
  match init.NewHashFromStr tokenParams.PropertyID with
  | .error _ => .panic
  | .ok propertyID =>
    let existed := init.CustomTokenIDExisted db propertyID
    if !existed then
      .done (some (.transaction .UnexpectedErr (some (.new "invalid Token ID")) []), data)
    else
      let data : TxTokenData :=
        { data with PropertyID := propertyID, Vins := tokenParams.vins }
      let VoutsTemp := tokenParams.Receiver.map voutOfReceiver
      let withRefund : Run (List TxTokenVout) :=
        if refundTokenAmount > 0 then
          match tokenParams.vins with
          | [] => .panic
          | vin :: _ =>
            .done (VoutsTemp ++ [⟨refundTokenAmount, vin.PaymentAddress, 0, zeroHash⟩])
        else .done VoutsTemp
      match withRefund with
      | .panic => .panic
      | .starved => .starved
      | .done VoutsTemp =>
        if refundTokenAmount < 0 then
          .done (some (.transaction .WrongInput
            (some (.new "input value less than output value")) []), data)
        else .done (none, { data with Vouts := VoutsTemp })

/-- Method `TxCustomToken.Init` (lines 415-564): the error returned and the
transaction as the call leaves it. -/
def TxCustomToken.Init {T A D : Type} (rules : TokenRules T D) (init : TokenInit T A D)
    (txCustomToken : TxCustomToken T) (args : A) (tokenParams : CustomTokenParamTx) (db : D)
    (shardID : Byte) : Run (Option Err × TxCustomToken T) :=
  match init.TxInit args db with
  | .error err => .done (some (.transaction .UnexpectedErr (some err) []), txCustomToken)
  | .ok normalTx =>
    let normalTx := init.SetType normalTx rules.TxCustomTokenType
    let finish (data : Incognito.TxTokenData) (handled : Bool) : Run (Option Err × TxCustomToken T) :=
      let tx : TxCustomToken T :=
        .mk (init.SetType normalTx rules.TxCustomTokenType) data txCustomToken.listUtxo
      if !handled then .done (some (.transaction .WrongTokenTxType none []), tx)
      else .done (none, tx)
    let leave (err : Err) (data : Incognito.TxTokenData) : Run (Option Err × TxCustomToken T) :=
      .done (some err, .mk normalTx data txCustomToken.listUtxo)
    if tokenParams.TokenTxType = rules.CustomTokenCrossShard then
      match init.NewHashFromStr tokenParams.PropertyID with
      | .error err => leave (.transaction .UnexpectedErr (some err) []) zeroTxTokenData
      | .ok propertyID =>
        finish
          { zeroTxTokenData with
            PropertyID := propertyID
            Type_ := tokenParams.TokenTxType
            PropertyName := tokenParams.PropertyName
            PropertySymbol := tokenParams.PropertySymbol
            Amount := tokenParams.Amount
            Vouts := tokenParams.Receiver } true
    else if tokenParams.TokenTxType = rules.CustomTokenInit then
      match initTokenData init tokenParams db shardID with
      | .panic => .panic
      | .starved => .starved
      | .done (some err, data) => leave err data
      | .done (none, data) => finish data true
    else if tokenParams.TokenTxType = rules.CustomTokenTransfer then
      match transferTokenData init tokenParams db with
      | .panic => .panic
      | .starved => .starved
      | .done (some err, data) => leave err data
      | .done (none, data) => finish data true
    else finish zeroTxTokenData false

/-- A sample construction environment: the native transaction always
initialises, the strings `"7"` and `"6"` parse to the hashes `[7]` and `[6]`,
the hash of token data is its amount, `HashH` is the identity, and the store
knows the tokens `[7]` and `[7, 0]`. -/
def sampleInit : TokenInit Unit Unit Unit where
  TxInit _ _ := .ok ()
  SetType tx _ := tx
  NewHashFromStr s :=
    if s = "7" then .ok [7] else if s = "6" then .ok [6] else .error (.new "invalid hash")
  TxTokenDataHash data := .ok [byteOf data.Amount]
  HashH b := b
  CustomTokenIDExisted _ tokenID := decide (tokenID = [7] ∨ tokenID = [7, 0])

/-- A custom-token transaction not yet initialised. -/
def emptyTokenTx : TxCustomToken Unit := .mk () zeroTxTokenData []

/-- Parameters of a mintable issue under the caller-supplied ID `"7"`. -/
def mintableParams : CustomTokenParamTx :=
  ⟨"7", "token", "TKN", 5, 0, [⟨5, sampleAddress, 0, []⟩], true, [], 0⟩

/-- Parameters of a plain issue of amount 7, whose derived ID on shard 0 is
`[7, 0]`. -/
def derivedParams : CustomTokenParamTx :=
  ⟨"", "token", "TKN", 7, 0, [⟨7, sampleAddress, 0, []⟩], false, [], 0⟩

/-- Parameters of a transfer of the token `"7"` that pays 10 units out of
inputs worth 5. -/
def overspendParams : CustomTokenParamTx :=
  ⟨"7", "token", "TKN", 0, 1, [⟨10, sampleAddress, 0, []⟩], false,
    [⟨[9], 0, "sig", sampleAddress⟩], 5⟩

/-- Parameters of a transfer of the token `"7"` that pays 3 units out of
inputs worth 5. -/
def changeParams : CustomTokenParamTx :=
  ⟨"7", "token", "TKN", 0, 1, [⟨3, ⟨[5], [6]⟩, 0, []⟩], false,
    [⟨[9], 0, "sig", sampleAddress⟩], 5⟩

/-! ## Block persistence (`blockchain/blockchain.go`) -/

/-- The database `self.config.DataBase` over the type `σ` of its states: a
read returns its result, a write returns its error and the state it leaves. -/
structure Database (σ : Type) where
  HasValue : σ → List Byte → Bool × Option Err
  Get : σ → List Byte → Except Err (List Byte)
  Put : σ → List Byte → List Byte → Option Err × σ
  StoreCustomToken : σ → Hash → List Byte → Option Err × σ
  StoreCustomTokenTx : σ → Hash → Byte → Nat → Int → List Byte → Option Err × σ
  GetCustomTokenPaymentAddressesBalance : σ → Hash → List (String × Nat) × Option Err
  StorePrivacyCustomToken : σ → Hash → List Byte → Option Err × σ
  StorePrivacyCustomTokenTx : σ → Hash → Byte → Nat → Int → List Byte → Option Err × σ
  StoreSerialNumbers : σ → Hash → List Byte → Byte → Option Err × σ
  StoreCommitments : σ → Hash → List Byte → List Byte → Byte → Option Err × σ
  StoreOutputCoins : σ → Hash → List Byte → List Byte → Byte → Option Err × σ
  StoreSNDerivators : σ → Hash → Int → Byte → Option Err × σ

/-- Type `TxTokenPrivacyData`, by the fields the embedded files read. -/
structure TxTokenPrivacyData where
  PropertyID : Hash
  PropertyName : String
  PropertySymbol : String
  Type_ : Int

/-- Type `transaction.TxCustomTokenPrivacy`, by the field the embedded files
read. -/
structure TxCustomTokenPrivacy where
  TxTokenPrivacyData : TxTokenPrivacyData

/-- Type `TxViewPoint`: its Go maps are association lists ranged over in list
order, each output coin is given by its `Bytes()`. The arguments are
`tokenID`, `shardID`, `listSerialNumbers`, `listSnD`, `mapCommitments`,
`mapOutputCoins`, `customTokenTxs`, `privacyCustomTokenViewPoint` and
`privacyCustomTokenTxs`. -/
inductive TxViewPoint (T : Type) where
  | mk : Hash → Byte → List (List Byte) → List Int → List (String × List (List Byte)) →
      List (String × List (List Byte)) → List (Int × TxCustomToken T) →
      List (Int × TxViewPoint T) → List (Int × TxCustomTokenPrivacy) → TxViewPoint T

/-- Field `tokenID` of a view point. -/
def TxViewPoint.tokenID {T : Type} : TxViewPoint T → Hash
  | .mk tokenID _ _ _ _ _ _ _ _ => tokenID

/-- Field `shardID` of a view point. -/
def TxViewPoint.shardID {T : Type} : TxViewPoint T → Byte
  | .mk _ shardID _ _ _ _ _ _ _ => shardID

/-- Field `listSerialNumbers` of a view point. -/
def TxViewPoint.listSerialNumbers {T : Type} : TxViewPoint T → List (List Byte)
  | .mk _ _ listSerialNumbers _ _ _ _ _ _ => listSerialNumbers

/-- Field `listSnD` of a view point. -/
def TxViewPoint.listSnD {T : Type} : TxViewPoint T → List Int
  | .mk _ _ _ listSnD _ _ _ _ _ => listSnD

/-- Field `mapCommitments` of a view point. -/
def TxViewPoint.mapCommitments {T : Type} : TxViewPoint T → List (String × List (List Byte))
  | .mk _ _ _ _ mapCommitments _ _ _ _ => mapCommitments

/-- Field `mapOutputCoins` of a view point. -/
def TxViewPoint.mapOutputCoins {T : Type} : TxViewPoint T → List (String × List (List Byte))
  | .mk _ _ _ _ _ mapOutputCoins _ _ _ => mapOutputCoins

/-- Field `customTokenTxs` of a view point. -/
def TxViewPoint.customTokenTxs {T : Type} : TxViewPoint T → List (Int × TxCustomToken T)
  | .mk _ _ _ _ _ _ customTokenTxs _ _ => customTokenTxs

/-- Field `privacyCustomTokenViewPoint` of a view point. -/
def TxViewPoint.privacyCustomTokenViewPoint {T : Type} :
    TxViewPoint T → List (Int × TxViewPoint T)
  | .mk _ _ _ _ _ _ _ privacyCustomTokenViewPoint _ => privacyCustomTokenViewPoint

/-- Field `privacyCustomTokenTxs` of a view point. -/
def TxViewPoint.privacyCustomTokenTxs {T : Type} :
    TxViewPoint T → List (Int × TxCustomTokenPrivacy)
  | .mk _ _ _ _ _ _ _ _ privacyCustomTokenTxs => privacyCustomTokenTxs

/-- The header fields of a `ShardBlock` that are read; `Height` is a
`uint64`. -/
structure ShardBlockHeader where
  ShardID : Byte
  Height : Nat

/-- Type `ShardBlock` over the type `B` of its body. -/
structure ShardBlock (B : Type) where
  Header : ShardBlockHeader
  Body : B

/-- Constants and functions of packages `lvdb`, `base58`, `common` and
`transaction` that block persistence uses and the embedded files do not
define; a Go string appended to a key is given by its bytes. -/
structure ChainEnv (σ T B : Type) where
  /-- `lvdb.Splitter` -/
  Splitter : List Byte
  /-- `lvdb.TokenPaymentAddressPrefix` -/
  TokenPaymentAddressPrefix : List Byte
  /-- `lvdb.Unspent` -/
  Unspent : List Byte
  /-- `lvdb.Spent` -/
  Spent : List Byte
  /-- `lvdb.Unreward` -/
  Unreward : List Byte
  /-- `transaction.CustomTokenInit` -/
  CustomTokenInit : Int
  /-- `transaction.CustomTokenTransfer` -/
  CustomTokenTransfer : Int
  /-- The bytes of `base58.Base58Check{}.Encode(b, version)` -/
  Base58CheckEncode : List Byte → Byte → List Byte
  /-- First and last result of `base58.Base58Check{}.Decode(s)` -/
  Base58CheckDecode : String → Except Err (List Byte)
  /-- The bytes of `h.String()` -/
  HashStringBytes : Hash → List Byte
  /-- First result of `common.GetTxSenderChain(lastByte)` -/
  GetTxSenderChain : Byte → Byte
  /-- `customTokenTx.Hash()` -/
  TxCustomTokenHash : TxCustomToken T → Hash
  /-- `privacyCustomTokenTx.Hash()` -/
  TxCustomTokenPrivacyHash : TxCustomTokenPrivacy → Hash
  /-- `NewTxViewPoint(shardID)` filled by `view.fetchTxViewPointFromBlock(db,
  block)`, which reads the database -/
  fetchTxViewPointFromBlock : σ → ShardBlock B → Except Err (TxViewPoint T)

/-- The fields of `BlockChain` that block persistence reads and writes: the
database and `config.customTokenRewardSnapshot`. -/
structure BlockChain (σ : Type) where
  DataBase : σ
  customTokenRewardSnapshot : List (String × Nat)

/-- Auxiliary of `Split`: `cur` holds, reversed, the bytes of the piece being
read; the fuel bounds the bytes still to read. -/
def splitAux (sep : List Byte) : Nat → List Byte → List Byte → List (List Byte)
  | 0, _, cur => [cur.reverse]
  | _ + 1, [], cur => [cur.reverse]
  | fuel + 1, b :: rest, cur =>
    if sep.isPrefixOf (b :: rest) then
      cur.reverse :: splitAux sep fuel ((b :: rest).drop sep.length) []
    else splitAux sep fuel rest (b :: cur)

/-- Function `strings.Split(s, sep)` on byte strings. For an empty separator
Go splits after each UTF-8 sequence; the bytes are split one by one here. -/
def Split (s sep : List Byte) : List (List Byte) :=
  if sep = [] then s.map (fun b => [b]) else splitAux sep (s.length + 1) s []

/-- Conversion `int(v)` of a `uint64` on a 64-bit platform. -/
def toInt (v : Nat) : Int :=
  if v % 2 ^ 64 < 2 ^ 63 then ((v % 2 ^ 64 : Nat) : Int) else ((v % 2 ^ 64 : Nat) : Int) - 2 ^ 64

/-- The bytes of an ASCII string. -/
def asciiBytes (s : String) : List Byte := s.toList.map (fun c => byteOf c.toNat)

/-- The bytes of `strconv.Itoa(i)`. -/
def Itoa (i : Int) : List Byte := asciiBytes (toString i)

/-- The key of a token history entry (lines 1079-1086 and 1112-1119): token
key, payment address, transaction hash and `byte(voutIndex)`, joined by the
splitter. -/
def paymentAddressKey {σ T B : Type} (env : ChainEnv σ T B) (tokenKey : List Byte)
    (paymentAddressPubkey utxoHash : List Byte) (voutIndex : Int) : List Byte :=
  tokenKey ++ env.Splitter ++ paymentAddressPubkey ++ env.Splitter ++ utxoHash
    ++ env.Splitter ++ [byteOf (voutIndex % 256).toNat]

/-- The loop over the vins of `StoreCustomTokenPaymentAddresstHistory` (lines
1077-1105). -/
def spendVins {σ T B : Type} (env : ChainEnv σ T B) (dbi : Database σ) (tokenKey : List Byte) :
    List TxTokenVin → σ → Run (Option Err × σ)
  | [], db => .done (none, db)
  | vin :: vins, db =>
    let paymentAddressPubkey := env.Base58CheckEncode vin.PaymentAddress.Pk 0
    let utxoHash := env.HashStringBytes vin.TxCustomTokenID
    let key := paymentAddressKey env tokenKey paymentAddressPubkey utxoHash vin.VoutIndex
    match dbi.HasValue db key with
    | (_, some err) => .done (some err, db)
    | (_, none) =>
      match dbi.Get db key with
      | .error err => .done (some err, db)
      | .ok value =>
        let values := Split value env.Splitter
        match values[1]? with
        | none => .panic
        | some status =>
          if status ≠ env.Unspent then .done (some (.new "Double Spend Detected"), db)
          else
            match values[0]?, values[2]? with
            | some amount, some reward =>
              let newValues := amount ++ env.Splitter ++ env.Spent ++ env.Splitter ++ reward
              match dbi.Put db key newValues with
              | (some err, db1) => .done (some err, db1)
              | (none, db1) => spendVins env dbi tokenKey vins db1
            | _, _ => .panic

/-- The loop over the vouts of `StoreCustomTokenPaymentAddresstHistory` (lines
1107-1132), entered at position `index`. -/
def addVouts {σ T B : Type} (env : ChainEnv σ T B) (dbi : Database σ) (tokenKey : List Byte)
    (txHash : Hash) : Nat → List TxTokenVout → σ → Option Err × σ
  | _, [], db => (none, db)
  | index, vout :: vouts, db =>
    let paymentAddressPubkey := env.Base58CheckEncode vout.PaymentAddress.Pk 0
    let utxoHash := env.HashStringBytes txHash
    let key := paymentAddressKey env tokenKey paymentAddressPubkey utxoHash (index : Int)
    match dbi.HasValue db key with
    | (true, _) => (some (.new "UTXO already exist"), db)
    | (false, some err) => (some err, db)
    | (false, none) =>
      let paymentAddressValue :=
        Itoa (toInt vout.Value) ++ env.Splitter ++ env.Unspent ++ env.Splitter ++ env.Unreward
      match dbi.Put db key paymentAddressValue with
      | (some err, db1) => (some err, db1)
      | (none, db1) => addVouts env dbi tokenKey txHash (index + 1) vouts db1

/-- Method `StoreCustomTokenPaymentAddresstHistory` (lines 1067-1135): the
error returned and the database as the call leaves it. -/
def StoreCustomTokenPaymentAddresstHistory {σ T B : Type} (env : ChainEnv σ T B)
    (dbi : Database σ) (customTokenTx : TxCustomToken T) (db : σ) : Run (Option Err × σ) :=
  let tokenKey := env.TokenPaymentAddressPrefix ++ env.Splitter
    ++ env.HashStringBytes customTokenTx.TxTokenData.PropertyID
  match spendVins env dbi tokenKey customTokenTx.TxTokenData.Vins db with
  | .panic => .panic
  | .starved => .starved
  | .done (some err, db1) => .done (some err, db1)
  | .done (none, db1) =>
    .done (addVouts env dbi tokenKey (env.TxCustomTokenHash customTokenTx) 0
      customTokenTx.TxTokenData.Vouts db1)

/-- The loop of `StoreSerialNumbersFromTxViewPoint` (lines 488-493). -/
def storeSerialNumbers {σ : Type} (dbi : Database σ) (tokenID : Hash) (shardID : Byte) :
    List (List Byte) → σ → Option Err × σ
  | [], db => (none, db)
  | item1 :: items, db =>
    match dbi.StoreSerialNumbers db tokenID item1 shardID with
    | (some err, db1) => (some err, db1)
    | (none, db1) => storeSerialNumbers dbi tokenID shardID items db1

/-- Method `StoreSerialNumbersFromTxViewPoint` (lines 487-495). -/
def StoreSerialNumbersFromTxViewPoint {σ T : Type} (dbi : Database σ) (view : TxViewPoint T)
    (db : σ) : Option Err × σ :=
  storeSerialNumbers dbi view.tokenID view.shardID view.listSerialNumbers db

/-- The loop of `StoreSNDerivatorsFromTxViewPoint` (lines 502-508). -/
def storeSNDerivators {σ : Type} (dbi : Database σ) (tokenID : Hash) (shardID : Byte) :
    List Int → σ → Option Err × σ
  | [], db => (none, db)
  | item1 :: items, db =>
    match dbi.StoreSNDerivators db tokenID item1 shardID with
    | (some err, db1) => (some err, db1)
    | (none, db1) => storeSNDerivators dbi tokenID shardID items db1

/-- Method `StoreSNDerivatorsFromTxViewPoint` (lines 501-510). -/
def StoreSNDerivatorsFromTxViewPoint {σ T : Type} (dbi : Database σ) (view : TxViewPoint T)
    (db : σ) : Option Err × σ :=
  storeSNDerivators dbi view.tokenID view.shardID view.listSnD db

/-- The inner loop of lines 522-527: the commitments of one public key. -/
def storeCommitmentsOf {σ : Type} (dbi : Database σ) (tokenID : Hash) (shardID : Byte)
    (pubkeyBytes : List Byte) : List (List Byte) → σ → Option Err × σ
  | [], db => (none, db)
  | com :: coms, db =>
    match dbi.StoreCommitments db tokenID pubkeyBytes com shardID with
    | (some err, db1) => (some err, db1)
    | (none, db1) => storeCommitmentsOf dbi tokenID shardID pubkeyBytes coms db1

/-- The loop over `view.mapCommitments` (lines 517-528). -/
def storeMapCommitments {σ T B : Type} (env : ChainEnv σ T B) (dbi : Database σ)
    (tokenID : Hash) (shardID : Byte) : List (String × List (List Byte)) → σ → Option Err × σ
  | [], db => (none, db)
  | (pubkey, item1) :: entries, db =>
    match env.Base58CheckDecode pubkey with
    | .error err => (some err, db)
    | .ok pubkeyBytes =>
      match storeCommitmentsOf dbi tokenID shardID pubkeyBytes item1 db with
      | (some err, db1) => (some err, db1)
      | (none, db1) => storeMapCommitments env dbi tokenID shardID entries db1

/-- The inner loop of lines 534-541: the output coins of one public key, whose
last byte selects the shard. -/
def storeOutputCoinsOf {σ T B : Type} (env : ChainEnv σ T B) (dbi : Database σ)
    (tokenID : Hash) (pubkeyBytes : List Byte) : List (List Byte) → σ → Run (Option Err × σ)
  | [], db => .done (none, db)
  | com :: coms, db =>
    match pubkeyBytes.getLast? with
    | none => .panic
    | some lastByte =>
      let shardID := env.GetTxSenderChain lastByte
      match dbi.StoreOutputCoins db tokenID pubkeyBytes com shardID with
      | (some err, db1) => .done (some err, db1)
      | (none, db1) => storeOutputCoinsOf env dbi tokenID pubkeyBytes coms db1

/-- The loop over `view.mapOutputCoins` (lines 529-542). -/
def storeMapOutputCoins {σ T B : Type} (env : ChainEnv σ T B) (dbi : Database σ)
    (tokenID : Hash) : List (String × List (List Byte)) → σ → Run (Option Err × σ)
  | [], db => .done (none, db)
  | (pubkey, item1) :: entries, db =>
    match env.Base58CheckDecode pubkey with
    | .error err => .done (some err, db)
    | .ok pubkeyBytes =>
      match storeOutputCoinsOf env dbi tokenID pubkeyBytes item1 db with
      | .panic => .panic
      | .starved => .starved
      | .done (some err, db1) => .done (some err, db1)
      | .done (none, db1) => storeMapOutputCoins env dbi tokenID entries db1

/-- Method `StoreCommitmentsFromTxViewPoint` (lines 516-544). -/
def StoreCommitmentsFromTxViewPoint {σ T B : Type} (env : ChainEnv σ T B) (dbi : Database σ)
    (view : TxViewPoint T) (db : σ) : Run (Option Err × σ) :=
  match storeMapCommitments env dbi view.tokenID view.shardID view.mapCommitments db with
  | (some err, db1) => .done (some err, db1)
  | (none, db1) => storeMapOutputCoins env dbi view.tokenID view.mapOutputCoins db1

/-- The three stores that `CreateAndSaveTxViewPointFromBlock` runs on a view
point (lines 1026-1039 and 1045-1058): serial numbers, commitments and
derivators, stopping at the first error. -/
def storeViewPoint {σ T B : Type} (env : ChainEnv σ T B) (dbi : Database σ)
    (view : TxViewPoint T) (db : σ) : Run (Option Err × σ) :=
  match StoreSerialNumbersFromTxViewPoint dbi view db with
  | (some err, db1) => .done (some err, db1)
  | (none, db1) =>
    match StoreCommitmentsFromTxViewPoint env dbi view db1 with
    | .panic => .panic
    | .starved => .starved
    | .done (some err, db2) => .done (some err, db2)
    | .done (none, db2) => .done (StoreSNDerivatorsFromTxViewPoint dbi view db2)

/-- The loop over `view.customTokenTxs` (lines 963-1005): `some err` is the
`return err` of the loop, `none` its normal end. -/
def storeCustomTokenTxs {σ T B : Type} (env : ChainEnv σ T B) (dbi : Database σ)
    (block : ShardBlock B) : List (Int × TxCustomToken T) → BlockChain σ →
    Run (Option Err × BlockChain σ)
  | [], self => .done (none, self)
  | (indexTx, customTokenTx) :: txs, self =>
    let registered : Option Err × σ :=
      if customTokenTx.TxTokenData.Type_ = env.CustomTokenInit then
        dbi.StoreCustomToken self.DataBase customTokenTx.TxTokenData.PropertyID
          (env.TxCustomTokenHash customTokenTx)
      else (none, self.DataBase)
    match registered with
    | (some err, db1) => .done (some err, { self with DataBase := db1 })
    | (none, db1) =>
      match StoreCustomTokenPaymentAddresstHistory env dbi customTokenTx db1 with
      | .panic => .panic
      | .starved => .starved
      | .done (some _, db2) =>
        storeCustomTokenTxs env dbi block txs { self with DataBase := db2 }
      | .done (none, db2) =>
        match dbi.StoreCustomTokenTx db2 customTokenTx.TxTokenData.PropertyID
            block.Header.ShardID block.Header.Height indexTx
            (env.TxCustomTokenHash customTokenTx) with
        | (some err, db3) => .done (some err, { self with DataBase := db3 })
        | (none, db3) =>
          if block.Header.Height % 1000 = 0 then
            match dbi.GetCustomTokenPaymentAddressesBalance db3
                customTokenTx.TxTokenData.PropertyID with
            | (snapshot, some err) => .done (some err, ⟨db3, snapshot⟩)
            | (snapshot, none) => storeCustomTokenTxs env dbi block txs ⟨db3, snapshot⟩
          else storeCustomTokenTxs env dbi block txs { self with DataBase := db3 }

/-- The loop over `view.privacyCustomTokenViewPoint` (lines 1008-1040). A sub
view whose index has no entry in `view.privacyCustomTokenTxs` reads a nil
transaction, which panics. -/
def storePrivacyCustomTokens {σ T B : Type} (env : ChainEnv σ T B) (dbi : Database σ)
    (block : ShardBlock B) (privacyCustomTokenTxs : List (Int × TxCustomTokenPrivacy)) :
    List (Int × TxViewPoint T) → σ → Run (Option Err × σ)
  | [], db => .done (none, db)
  | (indexTx, privacyCustomTokenSubView) :: subViews, db =>
    match privacyCustomTokenTxs.lookup indexTx with
    | none => .panic
    | some privacyCustomTokenTx =>
      let registered : Option Err × σ :=
        if privacyCustomTokenTx.TxTokenPrivacyData.Type_ = env.CustomTokenInit then
          dbi.StorePrivacyCustomToken db privacyCustomTokenTx.TxTokenPrivacyData.PropertyID
            (env.TxCustomTokenPrivacyHash privacyCustomTokenTx)
        else (none, db)
      match registered with
      | (some err, db1) => .done (some err, db1)
      | (none, db1) =>
        match dbi.StorePrivacyCustomTokenTx db1
            privacyCustomTokenTx.TxTokenPrivacyData.PropertyID block.Header.ShardID
            block.Header.Height indexTx (env.TxCustomTokenPrivacyHash privacyCustomTokenTx) with
        | (some err, db2) => .done (some err, db2)
        | (none, db2) =>
          match storeViewPoint env dbi privacyCustomTokenSubView db2 with
          | .panic => .panic
          | .starved => .starved
          | .done (some err, db3) => .done (some err, db3)
          | .done (none, db3) =>
            storePrivacyCustomTokens env dbi block privacyCustomTokenTxs subViews db3

/-- Method `CreateAndSaveTxViewPointFromBlock` (lines 954-1061): the error
returned and the block chain as the call leaves it. -/
def CreateAndSaveTxViewPointFromBlock {σ T B : Type} (env : ChainEnv σ T B)
    (dbi : Database σ) (self : BlockChain σ) (block : ShardBlock B) :
    Run (Option Err × BlockChain σ) :=
  match env.fetchTxViewPointFromBlock self.DataBase block with
  | .error err => .done (some err, self)
  | .ok view =>
    match storeCustomTokenTxs env dbi block view.customTokenTxs self with
    | .panic => .panic
    | .starved => .starved
    | .done (some err, self1) => .done (some err, self1)
    | .done (none, self1) =>
      match storePrivacyCustomTokens env dbi block view.privacyCustomTokenTxs
          view.privacyCustomTokenViewPoint self1.DataBase with
      | .panic => .panic
      | .starved => .starved
      | .done (some err, db2) => .done (some err, { self1 with DataBase := db2 })
      | .done (none, db2) =>
        match storeViewPoint env dbi view db2 with
        | .panic => .panic
        | .starved => .starved
        | .done (err, db3) => .done (err, { self1 with DataBase := db3 })

/-- A sample store: the key-value entries of the token history, the
registered tokens, the token transaction records and the serial numbers,
commitments and derivators stored. -/
structure SampleStore where
  kv : List (List Byte × List Byte)
  tokens : List (Hash × List Byte)
  tokenTxs : List (Hash × Int × List Byte)
  serialNumbers : List (List Byte)
  commitments : List (List Byte)
  snds : List Int

/-- The operations on a `SampleStore`; none of them fails, except `Get` on a
missing key. -/
def sampleDatabase : Database SampleStore where
  HasValue db key := ((db.kv.lookup key).isSome, none)
  Get db key :=
    match db.kv.lookup key with
    | some value => .ok value
    | none => .error (.new "not found")
  Put db key value := (none, { db with kv := (key, value) :: db.kv.filter (fun e => e.1 != key) })
  StoreCustomToken db tokenID txHash := (none, { db with tokens := (tokenID, txHash) :: db.tokens })
  StoreCustomTokenTx db tokenID _ _ indexTx txHash :=
    (none, { db with tokenTxs := (tokenID, indexTx, txHash) :: db.tokenTxs })
  GetCustomTokenPaymentAddressesBalance _ _ := ([], none)
  StorePrivacyCustomToken db tokenID txHash :=
    (none, { db with tokens := (tokenID, txHash) :: db.tokens })
  StorePrivacyCustomTokenTx db tokenID _ _ indexTx txHash :=
    (none, { db with tokenTxs := (tokenID, indexTx, txHash) :: db.tokenTxs })
  StoreSerialNumbers db _ serialNumber _ :=
    (none, { db with serialNumbers := serialNumber :: db.serialNumbers })
  StoreCommitments db _ _ com _ := (none, { db with commitments := com :: db.commitments })
  StoreOutputCoins db _ _ _ _ := (none, db)
  StoreSNDerivators db _ snd _ := (none, { db with snds := snd :: db.snds })

/-- A sample chain environment with the constants of package `lvdb`; keys
carry public keys and hashes as they are, the string `"?"` is not a base58
string, the hash of a custom-token transaction is its property ID followed by
the number of its vins, and the view point of a block is its body. -/
def sampleChainEnv : ChainEnv SampleStore Unit (TxViewPoint Unit) where
  Splitter := asciiBytes "-[-]-"
  TokenPaymentAddressPrefix := asciiBytes "token-paymentaddress-"
  Unspent := asciiBytes "unspent"
  Spent := asciiBytes "spent"
  Unreward := asciiBytes "unreward"
  CustomTokenInit := 0
  CustomTokenTransfer := 1
  Base58CheckEncode b _ := b
  Base58CheckDecode s := if s = "?" then .error (.new "invalid base58") else .ok (asciiBytes s)
  HashStringBytes h := h
  GetTxSenderChain lastByte := lastByte
  TxCustomTokenHash tx := tx.TxTokenData.PropertyID ++ [byteOf tx.TxTokenData.Vins.length]
  TxCustomTokenPrivacyHash tx := tx.TxTokenPrivacyData.PropertyID
  fetchTxViewPointFromBlock _ block := .ok block.Body

/-- The history key of output 0 of the transaction `[9]`, paid to the sample
holder in the token `[7]`. -/
def sampleHistoryKey : List Byte :=
  paymentAddressKey sampleChainEnv
    (sampleChainEnv.TokenPaymentAddressPrefix ++ sampleChainEnv.Splitter ++ [7]) [1] [9] 0

/-- The empty sample store. -/
def emptyStore : SampleStore := ⟨[], [], [], [], [], []⟩

/-- A sample store in which output 0 of the transaction `[9]` is spent. -/
def spentStore : SampleStore :=
  ⟨[(sampleHistoryKey, asciiBytes "5-[-]-spent-[-]-unreward")], [([7], [9])], [], [], [], []⟩

/-- A block at height 1 of shard 0 whose only transaction is `sampleTransfer`,
which spends output 0 of the transaction `[9]`. -/
def doubleSpendBlock : ShardBlock (TxViewPoint Unit) :=
  ⟨⟨0, 1⟩, .mk [4] 0 [] [] [] [] [(0, sampleTransfer)] [] []⟩

/-- A block at height 1 of shard 0 that carries the serial number `[1]` and a
commitment under the public key `"?"`, which is not a base58 string. -/
def brokenBlock : ShardBlock (TxViewPoint Unit) :=
  ⟨⟨0, 1⟩, .mk [4] 0 [[1]] [] [("?", [[2]])] [] [] [] []⟩

/-- A block at height 1 of shard 0 that issues the token of `sampleInitTx` and
carries the serial number `[1]`, the commitment `[2]` and the derivator 3. -/
def issueBlock : ShardBlock (TxViewPoint Unit) :=
  ⟨⟨0, 1⟩, .mk [4] 0 [[1]] [3] [("k", [[2]])] [] [(0, sampleInitTx)] [] []⟩

/-- Every write of a list was made, one after the other, and returned nil:
`db` is the database before the first write and `db2` the one after the
last. -/
def WritesAll {α σ : Type} (write : α → σ → Option Err × σ) : List α → σ → σ → Prop
  | [], db, db2 => db2 = db
  | item :: items, db, db2 =>
    ∃ db1, write item db = (none, db1) ∧ WritesAll write items db1 db2

/-- The sample store after `issueBlock` was saved on the empty store. -/
def issuedStore : SampleStore :=
  ⟨[(paymentAddressKey sampleChainEnv
      (sampleChainEnv.TokenPaymentAddressPrefix ++ sampleChainEnv.Splitter ++ [7]) [1] [7, 0] 0,
      asciiBytes "5-[-]-unspent-[-]-unreward")],
    [([7], [7, 0])], [([7], 0, [7, 0])], [[1]], [[2]], [3]⟩

/-- The sample store with a gap: it reports two commitments, but
`HasCommitmentIndex` knows index 0 only and answers `(false, nil)` for every
other index. -/
def gapStore : StateDB Byte :=
  { sampleStore with HasCommitmentIndex := fun _ index _ => (decide (index = 0), none) }

/-- Builder parameters over `gapStore`. -/
def gapParams : TxPrivacyInitParams Byte := ⟨[2], 1, true, [], gapStore⟩

/-- Builder parameters with privacy over `sampleStore2`, whose two commitments
are those of the two input coins of `sampleTx2`. -/
def crowdedParams : TxPrivacyInitParams Byte := ⟨[2], 1, true, [], sampleStore2⟩

/-- A transfer that names output 0 of `samplePriorTx` (5 units) in two vins
and pays 10 units. -/
def doubleVinTransfer : TxCustomToken Unit :=
  .mk () ⟨[7], "token", "TKN", 1, false, 0,
    [⟨[9], 0, "sig", sampleAddress⟩, ⟨[9], 0, "sig", sampleAddress⟩],
    [⟨10, sampleAddress, 0, []⟩]⟩ [([9], samplePriorTx)]

/-- A transfer whose vin names output 1 of `samplePriorTx`, which has the
single output 0; its utxo map is not fetched yet. -/
def farIndexTransfer : TxCustomToken Unit :=
  .mk () ⟨[7], "token", "TKN", 1, false, 0, [⟨[9], 1, "sig", sampleAddress⟩],
    [⟨5, sampleAddress, 0, []⟩]⟩ []

/-- The read-after-write laws of a key-value store, for the methods `HasValue`,
`Get` and `Put` behind `database.DatabaseInterface`: a key that `Get` finds is
reported by `HasValue` without error, a successful `Put` is read back by `Get`,
and it leaves the values under the other keys as they were. -/
structure Database.Lawful {σ : Type} (dbi : Database σ) : Prop where
  hasValue_of_get : ∀ (db : σ) (key value : List Byte),
    dbi.Get db key = .ok value → dbi.HasValue db key = (true, none)
  get_put_self : ∀ (db db1 : σ) (key value : List Byte),
    dbi.Put db key value = (none, db1) → dbi.Get db1 key = .ok value
  get_put_other : ∀ (db db1 : σ) (key value other : List Byte),
    dbi.Put db key value = (none, db1) → other ≠ key → dbi.Get db1 other = dbi.Get db other

/-- The key of output 0 of the transaction `[8]` paid to `sampleAddress`, for
the token `[7]`. -/
def sampleHistoryKey8 : List Byte :=
  paymentAddressKey sampleChainEnv
    (sampleChainEnv.TokenPaymentAddressPrefix ++ sampleChainEnv.Splitter ++ [7]) [1] [8] 0

/-- A sample store in which output 0 of the transaction `[9]` is unspent and
output 0 of the transaction `[8]` is spent. -/
def halfSpentStore : SampleStore :=
  ⟨[(sampleHistoryKey, asciiBytes "5-[-]-unspent-[-]-unreward"),
    (sampleHistoryKey8, asciiBytes "3-[-]-spent-[-]-unreward")], [([7], [9])], [], [], [], []⟩

/-- The store `halfSpentStore` with output 0 of the transaction `[9]` marked
spent. -/
def halfSpentStoreAfter : SampleStore :=
  ⟨[(sampleHistoryKey, asciiBytes "5-[-]-spent-[-]-unreward"),
    (sampleHistoryKey8, asciiBytes "3-[-]-spent-[-]-unreward")], [([7], [9])], [], [], [], []⟩

/-- A transfer of the token `[7]` that spends output 0 of the transaction `[9]`
and then output 0 of the transaction `[8]`. -/
def twoVinTransfer : TxCustomToken Unit :=
  .mk () ⟨[7], "token", "TKN", 1, false, 0,
    [⟨[9], 0, "sig", sampleAddress⟩, ⟨[8], 0, "sig", sampleAddress⟩],
    [⟨8, sampleAddress, 0, []⟩]⟩ []

/-- An issuance of the token `[7]` with 257 outputs of one unit, all paid to
`sampleAddress`. -/
def wideIssue : TxCustomToken Unit :=
  .mk () ⟨[7], "token", "TKN", 0, false, 257, [],
    List.replicate 257 ⟨1, sampleAddress, 0, []⟩⟩ []

/-- The separator `sep` does not occur in `p ++ sep` before the end of `p`: the
first occurrence of `sep` in a string that starts with `p ++ sep` is the one
after `p`. -/
def SepFree (sep p : List Byte) : Prop :=
  ∀ i < p.length, ¬ sep <+: (p ++ sep).drop i

/-- The key that the loop over the vins of
`StoreCustomTokenPaymentAddresstHistory` builds for a vin of a transaction of
the token `propertyID` (lines 1074-1087). -/
def vinKey {σ T B : Type} (env : ChainEnv σ T B) (propertyID : Hash) (vin : TxTokenVin) :
    List Byte :=
  paymentAddressKey env
    (env.TokenPaymentAddressPrefix ++ env.Splitter ++ env.HashStringBytes propertyID)
    (env.Base58CheckEncode vin.PaymentAddress.Pk 0) (env.HashStringBytes vin.TxCustomTokenID)
    vin.VoutIndex

/-- The store that `sampleTransfer` leaves when it is applied to
`halfSpentStore`: output 0 of the transaction `[9]` is spent and output 0 of
`sampleTransfer` is unspent. -/
def sampleSpentOnce : SampleStore :=
  ⟨[(paymentAddressKey sampleChainEnv
      (sampleChainEnv.TokenPaymentAddressPrefix ++ sampleChainEnv.Splitter ++ [7]) [1]
      (sampleChainEnv.TxCustomTokenHash sampleTransfer) 0,
      asciiBytes "5-[-]-unspent-[-]-unreward"),
    (sampleHistoryKey, asciiBytes "5-[-]-spent-[-]-unreward"),
    (sampleHistoryKey8, asciiBytes "3-[-]-spent-[-]-unreward")], [([7], [9])], [], [], [], []⟩

/-- The inner loop of `GetTokenReceivers` (lines 597-603): the position, counted
from `i`, of the first key equal to `coinPubKey`. -/
def receiverIndex (coinPubKey : List Byte) : List (List Byte) → Nat → Option Nat
  | [], _ => none
  | key :: keys, i =>
    if coinPubKey = key then some i else receiverIndex coinPubKey keys (i + 1)

/-- The outer loop of `GetTokenReceivers` (lines 594-609), entered with the
public keys and amounts gathered so far. -/
def tokenReceivers : List TxTokenVout → List (List Byte) → List Nat →
    Run (List (List Byte) × List Nat)
  | [], pubkeys, amounts => .done (pubkeys, amounts)
  | vout :: vouts, pubkeys, amounts =>
    match receiverIndex vout.PaymentAddress.Pk pubkeys 0 with
    | some i =>
      match amounts[i]? with
      | none => .panic
      | some amount =>
        tokenReceivers vouts pubkeys (amounts.set i ((amount + vout.Value) % 2 ^ 64))
    | none =>
      tokenReceivers vouts (pubkeys ++ [vout.PaymentAddress.Pk]) (amounts ++ [vout.Value])

/-- Method `TxCustomToken.GetTokenReceivers` (lines 591-610). -/
def TxCustomToken.GetTokenReceivers {T : Type} (tx : TxCustomToken T) :
    Run (List (List Byte) × List Nat) :=
  tokenReceivers tx.TxTokenData.Vouts [] []

/-- The distinct elements of a list, in order of first occurrence. -/
def firstOccurrences : List (List Byte) → List (List Byte)
  | [] => []
  | key :: keys => key :: (firstOccurrences keys).filter (fun other => other ≠ key)

/-- The exact integer sum of the values of the vouts paid to the public key
`pk`. -/
def receivedBy (pk : List Byte) (vouts : List TxTokenVout) : Nat :=
  ((vouts.filter (fun vout => vout.PaymentAddress.Pk = pk)).map (fun vout => vout.Value)).sum

/-- A transaction with three outputs: 5 and 4 units paid to the public key
`[1]`, with 7 units paid to the public key `[3]` between them. -/
def threeVoutTx : TxCustomToken Unit :=
  .mk () ⟨[7], "token", "TKN", 1, false, 0, [],
    [⟨5, ⟨[1], [2]⟩, 0, []⟩, ⟨7, ⟨[3], [2]⟩, 1, []⟩, ⟨4, ⟨[1], [2]⟩, 2, []⟩]⟩ []

/-! # Theorems -/

/-! ## Lemmas on the byte helpers -/

theorem toUint32_of_lt {x : Nat} (h : x < 2 ^ 32) : toUint32 x = x :=
  Nat.mod_eq_of_lt h

theorem byteOf_val (n : Nat) : (byteOf n).val = n % 256 := rfl

theorem byteOf_val_of_lt {n : Nat} (h : n < 256) : (byteOf n).val = n :=
  Nat.mod_eq_of_lt h

theorem bigEndian_length (k v : Nat) : (bigEndian k v).length = k := by
  induction k generalizing v with
  | zero => rfl
  | succ k ih => simp [bigEndian, ih]

theorem bigEndian_zero (k : Nat) : bigEndian k 0 = List.replicate k (0 : Byte) := by
  induction k with
  | zero => rfl
  | succ k ih =>
    have h0 : byteOf 0 = (0 : Byte) := rfl
    simp only [bigEndian, Nat.zero_div, ih, h0]
    exact (List.replicate_succ' k (0 : Byte)).symm

theorem bytesAux_zero (fuel : Nat) : Common.bytesAux fuel 0 = [] := by
  cases fuel <;> simp [Common.bytesAux]

theorem bytesAux_pos {fuel v : Nat} (hv : v ≠ 0) :
    Common.bytesAux (fuel + 1) v = Common.bytesAux fuel (v / 256) ++ [byteOf v] := by
  simp [Common.bytesAux, hv]

/-- With enough fuel, padding the minimal digits with zeros gives the
fixed-width big-endian form. -/
theorem pad_bytesAux (k : Nat) : ∀ (fuel v : Nat), v ≤ fuel → v < 256 ^ k →
    List.replicate (k - (Common.bytesAux fuel v).length) (0 : Byte) ++ Common.bytesAux fuel v
      = bigEndian k v ∧ (Common.bytesAux fuel v).length ≤ k := by
  induction k with
  | zero =>
    intro fuel v _ hv
    have : v = 0 := by simpa using hv
    subst this
    simp [bytesAux_zero, bigEndian]
  | succ k ih =>
    intro fuel v hf hv
    by_cases h0 : v = 0
    · subst h0
      simp [bytesAux_zero, bigEndian_zero]
    · obtain ⟨f, rfl⟩ : ∃ f, fuel = f + 1 := ⟨fuel - 1, by omega⟩
      have hdiv : v / 256 < 256 ^ k := by
        rw [Nat.div_lt_iff_lt_mul (by decide)]
        rw [Nat.pow_succ] at hv
        exact hv
      have hfd : v / 256 ≤ f := by
        have : v / 256 < v := Nat.div_lt_self (Nat.pos_of_ne_zero h0) (by decide)
        omega
      obtain ⟨ih1, ih2⟩ := ih f (v / 256) hfd hdiv
      rw [bytesAux_pos h0]
      refine ⟨?_, by simpa using ih2⟩
      simp only [bigEndian, List.length_append, List.length_singleton]
      rw [← ih1, Nat.add_sub_add_right, List.append_assoc]

/-- The minimal digits of `v` have more than `k` bytes when `256 ^ k <= v`. -/
theorem bytesAux_length_gt (k : Nat) : ∀ (fuel v : Nat), v ≤ fuel → 256 ^ k ≤ v →
    k < (Common.bytesAux fuel v).length := by
  induction k with
  | zero =>
    intro fuel v hf hv
    have h0 : v ≠ 0 := by
      have : 1 ≤ v := by simpa using hv
      omega
    obtain ⟨f, rfl⟩ : ∃ f, fuel = f + 1 := ⟨fuel - 1, by omega⟩
    rw [bytesAux_pos h0]
    simp
  | succ k ih =>
    intro fuel v hf hv
    have hpos : 0 < 256 ^ (k + 1) := by positivity
    have h0 : v ≠ 0 := by omega
    obtain ⟨f, rfl⟩ : ∃ f, fuel = f + 1 := ⟨fuel - 1, by omega⟩
    have hdiv : 256 ^ k ≤ v / 256 := by
      rw [Nat.le_div_iff_mul_le (by decide)]
      rw [Nat.pow_succ] at hv
      exact hv
    have hfd : v / 256 ≤ f := by
      have : v / 256 < v := Nat.div_lt_self (Nat.pos_of_ne_zero h0) (by decide)
      omega
    have := ih f (v / 256) hfd hdiv
    rw [bytesAux_pos h0]
    simpa using this

theorem AddPaddingBigInt_of_lt {x : Nat} (h : x < 2 ^ 64) :
    Common.AddPaddingBigInt x Common.Uint64Size = .done (bigEndian 8 x) := by
  have h8 : x < 256 ^ 8 := by norm_num at h ⊢; exact h
  obtain ⟨h1, h2⟩ := pad_bytesAux 8 x x (Nat.le_refl x) h8
  simp only [Common.AddPaddingBigInt, Common.bigIntBytes, Common.Uint64Size]
  rw [if_pos h2, h1]

theorem AddPaddingBigInt_of_ge {x : Nat} (h : 2 ^ 64 ≤ x) :
    Common.AddPaddingBigInt x Common.Uint64Size = .panic := by
  have h8 : 256 ^ 8 ≤ x := by norm_num at h ⊢; exact h
  have := bytesAux_length_gt 8 x x (Nat.le_refl x) h8
  simp only [Common.AddPaddingBigInt, Common.bigIntBytes, Common.Uint64Size]
  rw [if_neg (by omega)]

theorem SetBytes_append_singleton (xs : List Byte) (b : Byte) :
    Common.SetBytes (xs ++ [b]) = Common.SetBytes xs * 256 + b.val := by
  simp [Common.SetBytes, List.foldl_append]

theorem SetBytes_bigEndian (k : Nat) : ∀ v : Nat, v < 256 ^ k →
    Common.SetBytes (bigEndian k v) = v := by
  induction k with
  | zero =>
    intro v hv
    have : v = 0 := by simpa using hv
    subst this
    rfl
  | succ k ih =>
    intro v hv
    have hdiv : v / 256 < 256 ^ k := by
      rw [Nat.div_lt_iff_lt_mul (by decide)]
      rw [Nat.pow_succ] at hv
      exact hv
    simp only [bigEndian, SetBytes_append_singleton, ih _ hdiv, byteOf_val]
    omega

theorem Uint32ToBytes_eq (v : Nat) : Common.Uint32ToBytes v = bigEndian 4 v := by
  simp only [Common.Uint32ToBytes, bigEndian, List.nil_append, List.cons_append,
    Nat.div_div_eq_div_mul]
  norm_num

theorem Uint32ToBytes_length (v : Nat) : (Common.Uint32ToBytes v).length = 4 := rfl

theorem BytesToUint32_Uint32ToBytes {v : Nat} (h : v < 2 ^ 32) :
    Common.BytesToUint32 (Common.Uint32ToBytes v) = .ok v := by
  have h4 : v < 256 ^ 4 := by norm_num at h ⊢; exact h
  simp only [Common.BytesToUint32, Uint32ToBytes_length, Common.Uint32Size, ne_eq,
    not_true_eq_false, if_false]
  rw [Uint32ToBytes_eq, SetBytes_bigEndian 4 v h4]

theorem encodeRow_length (row : List Nat) : (encodeRow row).length = 8 * row.length := by
  induction row with
  | nil => rfl
  | cons x xs ih => simp [encodeRow, bigEndian_length, ih]; omega

theorem encodeRows_length (m : Nat) (rows : List (List Nat)) (h : Rectangular m rows) :
    (encodeRows rows).length = 8 * rows.length * m := by
  induction rows with
  | nil => simp [encodeRows]
  | cons row rows ih =>
    have hrow : row.length = m := h row (List.mem_cons_self _ _)
    have hrest : Rectangular m rows := fun r hr => h r (List.mem_cons_of_mem _ hr)
    simp only [encodeRows, List.length_append, encodeRow_length, ih hrest, hrow,
      List.length_cons]
    ring

/-! ## Lemmas on `ToBytes` -/

theorem appendRow_of_fit (xs : List Nat) (b : List Byte) (h : ∀ x ∈ xs, x < 2 ^ 64) :
    appendRow xs b = .done (b ++ encodeRow xs) := by
  induction xs generalizing b with
  | nil => simp [appendRow, encodeRow]
  | cons x xs ih =>
    have hx := h x (List.mem_cons_self _ _)
    simp only [appendRow, AddPaddingBigInt_of_lt hx]
    rw [ih _ (fun y hy => h y (List.mem_cons_of_mem _ hy))]
    simp [encodeRow]

theorem appendRow_of_not_fit (xs : List Nat) (b : List Byte) (h : ∃ x ∈ xs, 2 ^ 64 ≤ x) :
    appendRow xs b = .panic := by
  induction xs generalizing b with
  | nil => simp at h
  | cons x xs ih =>
    by_cases hx : x < 2 ^ 64
    · simp only [appendRow, AddPaddingBigInt_of_lt hx]
      apply ih
      obtain ⟨y, hy, hy2⟩ := h
      rcases List.mem_cons.mp hy with rfl | hy'
      · omega
      · exact ⟨y, hy', hy2⟩
    · simp only [appendRow, AddPaddingBigInt_of_ge (Nat.le_of_not_lt hx)]

theorem appendRows_of_fit (m : Nat) (rows : List (List Nat)) (b : List Byte)
    (hrect : Rectangular m rows) (hfit : IndexesFit rows) :
    appendRows m rows b = .done (b ++ encodeRows rows) := by
  induction rows generalizing b with
  | nil => simp [appendRows, encodeRows]
  | cons row rows ih =>
    have hrow : row.length = m := hrect row (List.mem_cons_self _ _)
    have htake : row.take m = row := by rw [← hrow]; exact List.take_length row
    simp only [appendRows, htake,
      appendRow_of_fit row b (hfit row (List.mem_cons_self _ _))]
    rw [ih _ (fun r hr => hrect r (List.mem_cons_of_mem _ hr))
      (fun r hr => hfit r (List.mem_cons_of_mem _ hr))]
    simp [encodeRows]

theorem appendRows_of_not_fit (m : Nat) (rows : List (List Nat)) (b : List Byte)
    (hrect : Rectangular m rows) (hfit : ¬ IndexesFit rows) :
    appendRows m rows b = .panic := by
  induction rows generalizing b with
  | nil => exact absurd (fun r hr => by simp at hr) hfit
  | cons row rows ih =>
    have hrow : row.length = m := hrect row (List.mem_cons_self _ _)
    have htake : row.take m = row := by rw [← hrow]; exact List.take_length row
    by_cases h1 : ∀ x ∈ row, x < 2 ^ 64
    · simp only [appendRows, htake, appendRow_of_fit row b h1]
      apply ih _ (fun r hr => hrect r (List.mem_cons_of_mem _ hr))
      intro h2
      apply hfit
      intro r hr
      rcases List.mem_cons.mp hr with rfl | hr'
      · exact h1
      · exact h2 r hr'
    · have h2 : ∃ x ∈ row, 2 ^ 64 ≤ x := by
        by_contra hcon
        apply h1
        intro x hx
        by_contra hlt
        exact hcon ⟨x, hx, Nat.le_of_not_lt hlt⟩
      simp only [appendRows, htake, appendRow_of_not_fit row b h2]

theorem any_length_ne_iff (m : Nat) (rows : List (List Nat)) :
    rows.any (fun row => row.length != m) = true ↔ ¬ Rectangular m rows := by
  simp [Rectangular, List.any_eq_true]

theorem rectangular_cons {m : Nat} {row0 : List Nat} {rest : List (List Nat)}
    (h0 : row0.length = m) : Rectangular m (row0 :: rest) ↔ Rectangular m rest := by
  simp [Rectangular, h0]

/-- Successful serialization: the value of `ToBytes` on a well-formed signature. -/
theorem ToBytes_ok {P : Type} (codec : RingCodec P) (txSig : TxSignatureVer2 P)
    (R : List Byte) (hR : codec.ToBytes txSig.ring = .ok R) (hL : R.length ≤ MaxSizeUint32)
    (hne : txSig.indexes ≠ []) (hn : txSig.indexes.length ≤ MaxSizeByte)
    (hm : columns txSig.indexes ≤ MaxSizeByte)
    (hrect : Rectangular (columns txSig.indexes) txSig.indexes)
    (hfit : IndexesFit txSig.indexes) :
    txSig.ToBytes codec = .done (.ok (layout R txSig.indexes)) := by
  obtain ⟨ring, indexes⟩ := txSig
  cases indexes with
  | nil => exact absurd rfl hne
  | cons row0 rest =>
    simp only [columns] at hm hrect
    have hrest : Rectangular row0.length rest := (rectangular_cons rfl).mp hrect
    have hany : rest.any (fun row => row.length != row0.length) = false := by
      cases h : rest.any (fun row => row.length != row0.length) with
      | false => rfl
      | true => exact absurd hrest ((any_length_ne_iff _ _).mp h)
    have hL32 : R.length < 2 ^ 32 := by
      have : MaxSizeUint32 = 2 ^ 32 - 1 := rfl
      omega
    simp only [TxSignatureVer2.ToBytes, hR, if_neg (Nat.not_lt.mpr hL),
      if_neg (Nat.not_lt.mpr hn), if_neg (Nat.not_lt.mpr hm), hany,
      appendRows_of_fit _ _ _ hrect hfit, toUint32_of_lt hL32, Uint32ToBytes_eq]
    simp [layout, columns]

/-- Every successful serialization comes from a well-formed signature and has
the layout. -/
theorem ToBytes_ok_inv {P : Type} (codec : RingCodec P) (txSig : TxSignatureVer2 P)
    (out : List Byte) (h : txSig.ToBytes codec = .done (.ok out)) :
    ∃ R, codec.ToBytes txSig.ring = .ok R ∧ R.length ≤ MaxSizeUint32 ∧
      txSig.indexes ≠ [] ∧ txSig.indexes.length ≤ MaxSizeByte ∧
      columns txSig.indexes ≤ MaxSizeByte ∧
      Rectangular (columns txSig.indexes) txSig.indexes ∧
      IndexesFit txSig.indexes ∧ out = layout R txSig.indexes := by
  obtain ⟨ring, indexes⟩ := txSig
  simp only [TxSignatureVer2.ToBytes] at h
  cases hR : codec.ToBytes ring with
  | error e => rw [hR] at h; simp at h
  | ok R =>
    rw [hR] at h
    simp only at h
    by_cases hL : R.length > MaxSizeUint32
    · rw [if_pos hL] at h; simp at h
    · rw [if_neg hL] at h
      cases indexes with
      | nil => simp at h
      | cons row0 rest =>
        simp only at h
        by_cases hn : (row0 :: rest).length > MaxSizeByte
        · rw [if_pos hn] at h; simp at h
        · rw [if_neg hn] at h
          by_cases hm : row0.length > MaxSizeByte
          · rw [if_pos hm] at h; simp at h
          · rw [if_neg hm] at h
            cases hany : rest.any (fun row => row.length != row0.length) with
            | true => rw [hany] at h; simp at h
            | false =>
              have hrest : Rectangular row0.length rest := by
                by_contra hc
                have := (any_length_ne_iff _ _).mpr hc
                rw [hany] at this
                exact Bool.noConfusion this
              have hrect : Rectangular row0.length (row0 :: rest) :=
                (rectangular_cons rfl).mpr hrest
              have hL32 : R.length < 2 ^ 32 := by
                have : MaxSizeUint32 = 2 ^ 32 - 1 := rfl
                omega
              rw [hany] at h
              simp only [Bool.false_eq_true, if_false] at h
              by_cases hfit : IndexesFit (row0 :: rest)
              · rw [appendRows_of_fit _ _ _ hrect hfit] at h
                refine ⟨R, rfl, Nat.le_of_not_lt hL, by simp, Nat.le_of_not_lt hn,
                  Nat.le_of_not_lt hm, hrect, hfit, ?_⟩
                have hout := h.symm
                simp only [Run.done.injEq, Except.ok.injEq] at hout
                rw [hout, toUint32_of_lt hL32, Uint32ToBytes_eq]
                simp [layout, columns]
              · rw [appendRows_of_not_fit _ _ _ hrect hfit] at h
                simp at h

/-! ## Lemmas on `FromBytes` -/

theorem slice_of_eq {α : Type} (b pre mid post : List α) (lo hi : Nat)
    (hb : b = pre ++ mid ++ post) (hlo : lo = pre.length)
    (hhi : hi = pre.length + mid.length) : slice b lo hi = .done mid := by
  subst hb hlo hhi
  have hc : pre.length ≤ pre.length + mid.length ∧
      pre.length + mid.length ≤ (pre ++ mid ++ post).length := by
    simp only [List.length_append]
    omega
  unfold slice
  rw [if_pos hc]
  simp only [List.append_assoc, List.drop_left, Nat.add_sub_cancel_left, List.take_left]

theorem byteAt_of_eq (b pre post : List Byte) (x : Byte) (lo hi : Nat)
    (hb : b = pre ++ [x] ++ post) (hlo : lo = pre.length) (hhi : hi = pre.length + 1) :
    byteAt b lo hi = .done x.val := by
  have h := slice_of_eq b pre [x] post lo hi hb hlo (by simpa using hhi)
  simp only [byteAt, h]

theorem readRow_encodeRow (row : List Nat) : ∀ (pre post : List Byte),
    (∀ x ∈ row, x < 2 ^ 64) → pre.length + 8 * row.length < 2 ^ 32 →
    readRow (pre ++ encodeRow row ++ post) row.length pre.length
      = .done (row, pre.length + 8 * row.length) := by
  induction row with
  | nil => intro pre post _ _; simp [readRow]
  | cons x xs ih =>
    intro pre post hfit hlen
    have hx : x < 2 ^ 64 := hfit x (List.mem_cons_self _ _)
    have hx8 : x < 256 ^ 8 := by norm_num at hx ⊢; exact hx
    simp only [List.length_cons] at hlen
    have hoff : toUint32 (pre.length + Common.Uint64Size) = pre.length + 8 :=
      toUint32_of_lt (by simp only [Common.Uint64Size]; omega)
    have hs : slice (pre ++ encodeRow (x :: xs) ++ post) pre.length (pre.length + 8)
        = .done (bigEndian 8 x) :=
      slice_of_eq _ pre (bigEndian 8 x) (encodeRow xs ++ post) _ _ (by simp [encodeRow]) rfl
        (by rw [bigEndian_length])
    have hrec := ih (pre ++ bigEndian 8 x) post
      (fun y hy => hfit y (List.mem_cons_of_mem _ hy))
      (by simp only [List.length_append, bigEndian_length]; omega)
    have hb : pre ++ bigEndian 8 x ++ encodeRow xs ++ post
        = pre ++ encodeRow (x :: xs) ++ post := by simp [encodeRow]
    rw [hb] at hrec
    simp only [List.length_append, bigEndian_length] at hrec
    simp only [readRow, List.length_cons, hoff, hs, hrec, SetBytes_bigEndian 8 x hx8]
    congr 2
    omega

theorem readRows_encodeRows (m : Nat) (rows : List (List Nat)) : ∀ (pre post : List Byte),
    Rectangular m rows → IndexesFit rows → pre.length + 8 * rows.length * m < 2 ^ 32 →
    readRows (pre ++ encodeRows rows ++ post) m rows.length pre.length = .done rows := by
  induction rows with
  | nil => intro pre post _ _ _; simp [readRows]
  | cons row rows ih =>
    intro pre post hrect hfit hlen
    have hrow : row.length = m := hrect row (List.mem_cons_self _ _)
    simp only [List.length_cons] at hlen
    have hlen1 : pre.length + 8 * row.length < 2 ^ 32 := by
      rw [hrow]
      have : 8 * (rows.length + 1) * m = 8 * rows.length * m + 8 * m := by ring
      omega
    have h1 := readRow_encodeRow row pre (encodeRows rows ++ post)
      (hfit row (List.mem_cons_self _ _)) hlen1
    have hb : pre ++ encodeRow row ++ (encodeRows rows ++ post)
        = pre ++ encodeRows (row :: rows) ++ post := by simp [encodeRows]
    rw [hb, hrow] at h1
    have hrec := ih (pre ++ encodeRow row) post
      (fun r hr => hrect r (List.mem_cons_of_mem _ hr))
      (fun r hr => hfit r (List.mem_cons_of_mem _ hr))
      (by
        simp only [List.length_append, encodeRow_length, hrow]
        have : 8 * (rows.length + 1) * m = 8 * rows.length * m + 8 * m := by ring
        omega)
    have hb2 : pre ++ encodeRow row ++ encodeRows rows ++ post
        = pre ++ encodeRows (row :: rows) ++ post := by simp [encodeRows]
    rw [hb2] at hrec
    simp only [List.length_append, encodeRow_length, hrow] at hrec
    simp only [readRows, List.length_cons, h1, hrec]

theorem layout_length (R : List Byte) (indexes : List (List Nat))
    (hrect : Rectangular (columns indexes) indexes) :
    (layout R indexes).length = 4 + R.length + 2 + 8 * indexes.length * columns indexes := by
  simp only [layout, List.length_append, bigEndian_length, List.length_singleton,
    encodeRows_length _ _ hrect]

/-- Decoding a layout whose length fits a `uint32`. -/
theorem FromBytes_layout {P : Type} (codec : RingCodec P) (ring : Ring P) (R : List Byte)
    (indexes : List (List Nat)) (hring : codec.FromBytes R = .ok ring)
    (hn : indexes.length ≤ MaxSizeByte) (hm : columns indexes ≤ MaxSizeByte)
    (hrect : Rectangular (columns indexes) indexes) (hfit : IndexesFit indexes)
    (hT : (layout R indexes).length < 2 ^ 32) :
    TxSignatureVer2.FromBytes codec (layout R indexes) = .done (.ok ⟨ring, indexes⟩) := by
  have hlen := layout_length R indexes hrect
  rw [hlen] at hT
  have hMax : MaxSizeByte = 255 := rfl
  have hb4 : ¬ (layout R indexes).length < 4 := by rw [hlen]; omega
  have hL32 : R.length < 2 ^ 32 := by omega
  have h1 : slice (layout R indexes) 0 Common.Uint32Size = .done (bigEndian 4 R.length) :=
    slice_of_eq _ [] (bigEndian 4 R.length) (R ++ [byteOf indexes.length]
      ++ [byteOf (columns indexes)] ++ encodeRows indexes) _ _
      (by simp [layout]) rfl (by simp [bigEndian_length, Common.Uint32Size])
  have h2 : Common.BytesToUint32 (bigEndian 4 R.length) = .ok R.length := by
    rw [← Uint32ToBytes_eq]; exact BytesToUint32_Uint32ToBytes hL32
  have h3 : toUint32 Common.Uint32Size = 4 := rfl
  have h4 : toUint32 (4 + R.length) = 4 + R.length := toUint32_of_lt (by omega)
  have h5 : toUint32 (layout R indexes).length = (layout R indexes).length :=
    toUint32_of_lt (by rw [hlen]; omega)
  have h6 : ¬ (4 + R.length > (layout R indexes).length) := by rw [hlen]; omega
  have h7 : slice (layout R indexes) 4 (4 + R.length) = .done R :=
    slice_of_eq _ (bigEndian 4 R.length) R ([byteOf indexes.length]
      ++ [byteOf (columns indexes)] ++ encodeRows indexes) _ _
      (by simp [layout]) (by rw [bigEndian_length]) (by rw [bigEndian_length])
  have h8 : toUint32 (4 + R.length + 2) = 4 + R.length + 2 := toUint32_of_lt (by omega)
  have h9 : ¬ (4 + R.length + 2 > (layout R indexes).length) := by rw [hlen]; omega
  have h10 : toUint32 (4 + R.length + 1) = 4 + R.length + 1 := toUint32_of_lt (by omega)
  have h11 : byteAt (layout R indexes) (4 + R.length) (4 + R.length + 1)
      = .done indexes.length := by
    have := byteAt_of_eq (layout R indexes) (bigEndian 4 R.length ++ R)
      ([byteOf (columns indexes)] ++ encodeRows indexes) (byteOf indexes.length)
      (4 + R.length) (4 + R.length + 1)
      (by simp [layout])
      (by simp only [List.length_append, bigEndian_length, List.length_singleton])
      (by simp only [List.length_append, bigEndian_length, List.length_singleton])
    rw [this, byteOf_val_of_lt (by omega)]
  have h12 : byteAt (layout R indexes) (4 + R.length + 1) (4 + R.length + 2)
      = .done (columns indexes) := by
    have := byteAt_of_eq (layout R indexes)
      (bigEndian 4 R.length ++ R ++ [byteOf indexes.length])
      (encodeRows indexes) (byteOf (columns indexes))
      (4 + R.length + 1) (4 + R.length + 2)
      (by simp [layout])
      (by simp only [List.length_append, bigEndian_length, List.length_singleton])
      (by simp only [List.length_append, bigEndian_length, List.length_singleton])
    rw [this, byteOf_val_of_lt (by omega)]
  have h13 : ¬ (4 + R.length + 2 + Common.Uint64Size * indexes.length * columns indexes
      > (layout R indexes).length) := by
    rw [hlen]; simp only [Common.Uint64Size]; omega
  have h14 : readRows (layout R indexes) (columns indexes) indexes.length (4 + R.length + 2)
      = .done indexes := by
    have := readRows_encodeRows (columns indexes) indexes
      (bigEndian 4 R.length ++ R ++ [byteOf indexes.length] ++ [byteOf (columns indexes)]) []
      hrect hfit (by simp only [List.length_append, bigEndian_length, List.length_singleton]; omega)
    simp only [List.length_append, bigEndian_length, List.length_singleton,
      List.append_nil] at this
    exact this
  simp only [TxSignatureVer2.FromBytes, if_neg hb4, h1, h2, h3, h4, h5, if_neg h6, h7, hring,
    h8, if_neg h9, h10, h11, h12, if_neg h13, h14]

/-! ## Claims on the wire format -/

/-- Every call of `ToBytes` on indexes that fit a `uint64` returns: an error
or the bytes. -/
theorem ToBytes_returns {P : Type} (codec : RingCodec P) (txSig : TxSignatureVer2 P)
    (hfit : IndexesFit txSig.indexes) :
    (∃ err, txSig.ToBytes codec = .done (.error err)) ∨
      (∃ b, txSig.ToBytes codec = .done (.ok b)) := by
  obtain ⟨ring, indexes⟩ := txSig
  simp only [TxSignatureVer2.ToBytes]
  cases hR : codec.ToBytes ring with
  | error e => exact Or.inl ⟨e, rfl⟩
  | ok R =>
    simp only
    by_cases hL : R.length > MaxSizeUint32
    · rw [if_pos hL]; exact Or.inl ⟨_, rfl⟩
    · rw [if_neg hL]
      cases indexes with
      | nil => exact Or.inl ⟨_, rfl⟩
      | cons row0 rest =>
        simp only
        by_cases hn : (row0 :: rest).length > MaxSizeByte
        · rw [if_pos hn]; exact Or.inl ⟨_, rfl⟩
        · rw [if_neg hn]
          by_cases hm : row0.length > MaxSizeByte
          · rw [if_pos hm]; exact Or.inl ⟨_, rfl⟩
          · rw [if_neg hm]
            cases hany : rest.any (fun row => row.length != row0.length) with
            | true => exact Or.inl ⟨_, rfl⟩
            | false =>
              have hrest : Rectangular row0.length rest := by
                by_contra hc
                have := (any_length_ne_iff _ _).mpr hc
                rw [hany] at this
                exact Bool.noConfusion this
              have hrect : Rectangular row0.length (row0 :: rest) :=
                (rectangular_cons rfl).mpr hrest
              simp only [Bool.false_eq_true, if_false, appendRows_of_fit _ _ _ hrect hfit]
              exact Or.inr ⟨_, rfl⟩

/-- C1: round trip of `TxSignatureVer2`. For a signature whose ring survives
its own codec and whose index matrix is rectangular with between 1 and 255
rows, at most 255 columns and every index below `2 ^ 64`, `ToBytes` succeeds
and `FromBytes` on its output succeeds and yields the same ring and the same
index matrix. The serialized form `4 + L + 2 + 8 * n * m` is taken shorter
than `2 ^ 32` bytes, as it is for the rings that `signTxVer2` builds (`RingSize`
rows, or one row, of one point per input coin and one more). -/
theorem roundTrip {P : Type} (codec : RingCodec P) (txSig : TxSignatureVer2 P) (R : List Byte)
    (hR : codec.ToBytes txSig.ring = .ok R) (hback : codec.FromBytes R = .ok txSig.ring)
    (hn1 : 1 ≤ txSig.indexes.length) (hn : txSig.indexes.length ≤ 255)
    (hm : columns txSig.indexes ≤ 255)
    (hrect : Rectangular (columns txSig.indexes) txSig.indexes)
    (hfit : IndexesFit txSig.indexes)
    (hT : 4 + R.length + 2 + 8 * txSig.indexes.length * columns txSig.indexes < 2 ^ 32) :
    ∃ b, txSig.ToBytes codec = .done (.ok b) ∧
      TxSignatureVer2.FromBytes codec b = .done (.ok txSig) := by
  have hne : txSig.indexes ≠ [] := by
    intro h0
    rw [h0] at hn1
    simp at hn1
  have hL : R.length ≤ MaxSizeUint32 := by
    have : MaxSizeUint32 = 2 ^ 32 - 1 := rfl
    omega
  refine ⟨layout R txSig.indexes, ToBytes_ok codec txSig R hR hL hne hn hm hrect hfit, ?_⟩
  have := FromBytes_layout codec txSig.ring R txSig.indexes hback hn hm hrect hfit
    (by rw [layout_length _ _ hrect]; exact hT)
  exact this

/-- Witness of C1 on a 2 x 2 ring with a 2 x 1 index matrix. -/
theorem roundTrip_witness :
    ∃ b, sampleSig.ToBytes sampleCodec = .done (.ok b) ∧
      TxSignatureVer2.FromBytes sampleCodec b = .done (.ok sampleSig) :=
  roundTrip sampleCodec sampleSig [2, 2, 1, 2, 3, 4] rfl rfl (by decide) (by decide) (by decide)
    (by decide) (by decide) (by decide)

/-- C3 (the code at the failing input): the 4-byte blob `FF FF FF FF` carries
the length prefix `2 ^ 32 - 1`, which overruns the buffer, yet `FromBytes`
does not return an error: `offset+ringLen` wraps to 3, the overrun test
`3 > 4` fails and the slice `b[4:3]` panics. -/
theorem lengthPrefix_wrap_faults {P : Type} (codec : RingCodec P) :
    Common.BytesToUint32 [255, 255, 255, 255] = .ok (2 ^ 32 - 1) ∧
      toUint32 (4 + (2 ^ 32 - 1)) = 3 ∧
      slice ([255, 255, 255, 255] : List Byte) 4 3 = .panic ∧
      TxSignatureVer2.FromBytes codec [255, 255, 255, 255] = .panic :=
  ⟨rfl, rfl, rfl, rfl⟩

/-- C4: byte layout of `ToBytes`. Whenever `ToBytes` succeeds on a signature
with ring bytes `R`, `n` index rows and `m` index columns, its output is the
big-endian 4-byte length of `R`, then `R`, then the byte `n`, then the byte
`m`, then every index in row-major order on 8 big-endian bytes; its length is
`4 + L + 2 + 8 * n * m`. -/
theorem ToBytes_layout {P : Type} (codec : RingCodec P) (txSig : TxSignatureVer2 P)
    (out : List Byte) (h : txSig.ToBytes codec = .done (.ok out)) :
    ∃ R, codec.ToBytes txSig.ring = .ok R ∧
      out = bigEndian 4 R.length ++ R ++ [byteOf txSig.indexes.length]
          ++ [byteOf (columns txSig.indexes)] ++ encodeRows txSig.indexes ∧
      (byteOf txSig.indexes.length).val = txSig.indexes.length ∧
      (byteOf (columns txSig.indexes)).val = columns txSig.indexes ∧
      Rectangular (columns txSig.indexes) txSig.indexes ∧
      out.length = 4 + R.length + 2 + 8 * txSig.indexes.length * columns txSig.indexes := by
  obtain ⟨R, hR, _, _, hn, hm, hrect, _, hout⟩ := ToBytes_ok_inv codec txSig out h
  have hMax : MaxSizeByte = 255 := rfl
  refine ⟨R, hR, ?_, byteOf_val_of_lt (by omega), byteOf_val_of_lt (by omega), hrect, ?_⟩
  · rw [hout]; rfl
  · rw [hout]; exact layout_length R _ hrect

/-- Witness of C4 on `sampleSig`: the serialized bytes in full. -/
theorem ToBytes_layout_witness :
    sampleSig.ToBytes sampleCodec = .done (.ok
      [0, 0, 0, 6, 2, 2, 1, 2, 3, 4, 2, 1, 0, 0, 0, 0, 0, 0, 0, 5, 0, 0, 0, 0, 0, 0, 1, 4]) ∧
    ∃ R, sampleCodec.ToBytes sampleSig.ring = .ok R ∧
      ([0, 0, 0, 6, 2, 2, 1, 2, 3, 4, 2, 1, 0, 0, 0, 0, 0, 0, 0, 5, 0, 0, 0, 0, 0, 0, 1, 4]
          : List Byte)
        = bigEndian 4 R.length ++ R ++ [byteOf sampleSig.indexes.length]
          ++ [byteOf (columns sampleSig.indexes)] ++ encodeRows sampleSig.indexes ∧
      (byteOf sampleSig.indexes.length).val = sampleSig.indexes.length ∧
      (byteOf (columns sampleSig.indexes)).val = columns sampleSig.indexes ∧
      Rectangular (columns sampleSig.indexes) sampleSig.indexes ∧
      ([0, 0, 0, 6, 2, 2, 1, 2, 3, 4, 2, 1, 0, 0, 0, 0, 0, 0, 0, 5, 0, 0, 0, 0, 0, 0, 1, 4]
          : List Byte).length
        = 4 + R.length + 2 + 8 * sampleSig.indexes.length * columns sampleSig.indexes :=
  ⟨rfl, ToBytes_layout sampleCodec sampleSig _ rfl⟩

/-- C5 (the code at the failing input): the blob `00 00 00 03 | 01 01 07 | 00
00` holds a valid 1 x 1 ring and the row count 0; `FromBytes` accepts it and
yields an index matrix without rows, which `ToBytes` refuses with "Indexes is
empty". -/
theorem FromBytes_accepts_zero_rows :
    TxSignatureVer2.FromBytes sampleCodec [0, 0, 0, 3, 1, 1, 7, 0, 0]
        = .done (.ok ⟨⟨[[7]]⟩, []⟩) ∧
      (⟨⟨[[7]]⟩, []⟩ : TxSignatureVer2 Byte).indexes.length = 0 ∧
      (⟨⟨[[7]]⟩, []⟩ : TxSignatureVer2 Byte).ToBytes sampleCodec
        = .done (.error (.new "TxSig.ToBytes: Indexes is empty")) :=
  ⟨rfl, rfl, rfl⟩

/-- C6: `ToBytes` enforces the rectangularity invariant. For a signature
whose indexes are all below `2 ^ 64`, `ToBytes` returns an error exactly when
the ring fails to serialize, the ring bytes are longer than `MaxSizeUint32`,
the index matrix has no rows, it has more than `MaxSizeByte` rows, its first
row has more than `MaxSizeByte` columns, or some row differs in length from
the first row; otherwise it returns the bytes. In particular every serialized
index matrix is rectangular. -/
theorem ToBytes_error_iff {P : Type} (codec : RingCodec P) (txSig : TxSignatureVer2 P)
    (hfit : IndexesFit txSig.indexes) :
    ((∃ err, txSig.ToBytes codec = .done (.error err)) ↔
      ((∃ err, codec.ToBytes txSig.ring = .error err) ∨
        (∃ R, codec.ToBytes txSig.ring = .ok R ∧ R.length > MaxSizeUint32) ∨
        txSig.indexes.length = 0 ∨
        txSig.indexes.length > MaxSizeByte ∨
        columns txSig.indexes > MaxSizeByte ∨
        (∃ row ∈ txSig.indexes, row.length ≠ columns txSig.indexes))) ∧
    ((∃ err, txSig.ToBytes codec = .done (.error err)) ∨
      (∃ b, txSig.ToBytes codec = .done (.ok b))) ∧
    (∀ b, txSig.ToBytes codec = .done (.ok b) →
      Rectangular (columns txSig.indexes) txSig.indexes) := by
  refine ⟨⟨?_, ?_⟩, ToBytes_returns codec txSig hfit, ?_⟩
  · rintro ⟨err, herr⟩
    by_contra hno
    obtain ⟨h1, hno⟩ := not_or.mp hno
    obtain ⟨h2, hno⟩ := not_or.mp hno
    obtain ⟨h3, hno⟩ := not_or.mp hno
    obtain ⟨h4, hno⟩ := not_or.mp hno
    obtain ⟨h5, h6⟩ := not_or.mp hno
    cases hR : codec.ToBytes txSig.ring with
    | error e => exact h1 ⟨e, hR⟩
    | ok R =>
      have hne : txSig.indexes ≠ [] := fun h0 => h3 (by rw [h0]; rfl)
      have hrect : Rectangular (columns txSig.indexes) txSig.indexes := by
        intro row hrow
        by_contra hc
        exact h6 ⟨row, hrow, hc⟩
      have hL : R.length ≤ MaxSizeUint32 := by
        by_contra hc
        exact h2 ⟨R, hR, Nat.lt_of_not_le hc⟩
      have hok := ToBytes_ok codec txSig R hR hL hne (Nat.le_of_not_lt h4)
        (Nat.le_of_not_lt h5) hrect hfit
      rw [hok] at herr
      simp at herr
  · intro hc
    rcases ToBytes_returns codec txSig hfit with herr | ⟨b, hb⟩
    · exact herr
    · exfalso
      obtain ⟨R, hR, hL, hne, hn, hm, hrect, _, _⟩ := ToBytes_ok_inv codec txSig b hb
      rcases hc with ⟨e, he⟩ | ⟨R', hR', hL'⟩ | h0 | hn' | hm' | ⟨row, hrow, hlen⟩
      · rw [hR] at he; simp at he
      · rw [hR] at hR'
        simp only [Except.ok.injEq] at hR'
        subst hR'
        omega
      · exact hne (List.length_eq_zero.mp h0)
      · omega
      · omega
      · exact hlen (hrect row hrow)
  · intro b hb
    obtain ⟨_, _, _, _, _, _, hrect, _, _⟩ := ToBytes_ok_inv codec txSig b hb
    exact hrect

/-- Witness of C6 on `sampleSig`, whose indexes 5 and 260 fit a `uint64`. -/
theorem ToBytes_error_iff_witness :
    IndexesFit sampleSig.indexes ∧
    (((∃ err, sampleSig.ToBytes sampleCodec = .done (.error err)) ↔
      ((∃ err, sampleCodec.ToBytes sampleSig.ring = .error err) ∨
        (∃ R, sampleCodec.ToBytes sampleSig.ring = .ok R ∧ R.length > MaxSizeUint32) ∨
        sampleSig.indexes.length = 0 ∨
        sampleSig.indexes.length > MaxSizeByte ∨
        columns sampleSig.indexes > MaxSizeByte ∨
        (∃ row ∈ sampleSig.indexes, row.length ≠ columns sampleSig.indexes))) ∧
    ((∃ err, sampleSig.ToBytes sampleCodec = .done (.error err)) ∨
      (∃ b, sampleSig.ToBytes sampleCodec = .done (.ok b))) ∧
    (∀ b, sampleSig.ToBytes sampleCodec = .done (.ok b) →
      Rectangular (columns sampleSig.indexes) sampleSig.indexes)) :=
  ⟨by decide, ToBytes_error_iff sampleCodec sampleSig (by decide)⟩

/-! ## Lemmas on the ledger check -/

theorem foldl_add_eq_sum {α P : Type} [AddCommGroup P] (f : α → P) (l : List α) (a : P) :
    l.foldl (fun acc c => acc + f c) a = a + (l.map f).sum := by
  induction l generalizing a with
  | nil => simp
  | cons x xs ih => simp [ih, add_assoc]

theorem outputCommitmentsOf_eq_sum {P S : Type} [AddCommGroup P]
    (outputCoins : List (OutputCoin P S)) :
    outputCommitmentsOf outputCoins
      = (outputCoins.map (fun c => c.CoinDetails.coinCommitment)).sum := by
  simp [outputCommitmentsOf, foldl_add_eq_sum]

theorem outputCommitmentsV2_eq_sum {P S : Type} [AddCommGroup P] (op : Operation P S)
    (outputCoins : List (OutputCoin P S)) :
    outputCommitmentsV2 op outputCoins
      = (outputCoins.map (fun c => op.ParseCommitmentToV2WithCoin c.CoinDetails)).sum := by
  simp [outputCommitmentsV2, foldl_add_eq_sum]

theorem CellsChecked_length {P S : Type} (op : Operation P S) (db : StateDB S)
    (tokenID : Hash) (shardID : Byte) : ∀ (indexes : List Nat) (cells vs : List P),
    CellsChecked op db tokenID shardID indexes cells vs →
      cells.length = indexes.length ∧ vs.length = indexes.length := by
  intro indexes
  induction indexes with
  | nil =>
    intro cells vs h
    cases cells <;> cases vs <;> simp_all [CellsChecked]
  | cons i is ih =>
    intro cells vs h
    cases cells with
    | nil => simp [CellsChecked] at h
    | cons c cs =>
      cases vs with
      | nil => simp [CellsChecked] at h
      | cons v vs =>
        simp only [CellsChecked] at h
        have := ih cs vs h.2
        simp [this.1, this.2]

theorem CellsChecked_get {P S : Type} (op : Operation P S) (db : StateDB S)
    (tokenID : Hash) (shardID : Byte) : ∀ (indexes : List Nat) (cells vs : List P),
    CellsChecked op db tokenID shardID indexes cells vs →
    ∀ j, j < indexes.length → ∃ index cell v2, indexes[j]? = some index ∧
      cells[j]? = some cell ∧ vs[j]? = some v2 ∧
      CellChecked op db tokenID shardID index cell v2 := by
  intro indexes
  induction indexes with
  | nil => intro cells vs _ j hj; simp at hj
  | cons i is ih =>
    intro cells vs h j hj
    cases cells with
    | nil => simp [CellsChecked] at h
    | cons c cs =>
      cases vs with
      | nil => simp [CellsChecked] at h
      | cons v vs =>
        simp only [CellsChecked] at h
        cases j with
        | zero => exact ⟨i, c, v, by simp, by simp, by simp, h.1⟩
        | succ j =>
          obtain ⟨index, cell, v2, h1, h2, h3, h4⟩ :=
            ih cs vs h.2 j (by simpa using hj)
          exact ⟨index, cell, v2, by simpa using h1, by simpa using h2, by simpa using h3, h4⟩

theorem CellsChecked_map {P S : Type} (op : Operation P S) (db : StateDB S)
    (tokenID : Hash) (shardID : Byte) : ∀ (indexes : List Nat) (cells vs : List P),
    CellsChecked op db tokenID shardID indexes cells vs →
      indexes.map (storedCommitmentV2 op db tokenID shardID) = vs.map some := by
  intro indexes
  induction indexes with
  | nil =>
    intro cells vs h
    cases cells <;> cases vs <;> simp_all [CellsChecked]
  | cons i is ih =>
    intro cells vs h
    cases cells with
    | nil => simp [CellsChecked] at h
    | cons c cs =>
      cases vs with
      | nil => simp [CellsChecked] at h
      | cons v vs =>
        simp only [CellsChecked] at h
        simp [ih cs vs h.2, h.1.2.2]

/-- One passing step of the column loop. -/
theorem checkCells_step {P S : Type} [AddCommGroup P] (op : Operation P S) (db : StateDB S)
    (tokenID : Hash) (shardID : Byte) (cell : P) (Ki : List P) (index : Nat)
    (rowIndexes : List Nat) (remaining : Nat) (sum v2 : P)
    (h : CellChecked op db tokenID shardID index cell v2) :
    checkCells op db tokenID shardID (cell :: Ki) (index :: rowIndexes) (remaining + 1) sum
      = checkCells op db tokenID shardID Ki rowIndexes remaining (sum + v2) := by
  obtain ⟨h1, h2, h3⟩ := h
  simp only [storedPublicKey] at h2
  simp only [storedCommitmentV2] at h3
  rw [checkCells, h1]
  cases hg : db.GetCommitmentPublicKeyAddditionalByIndex tokenID (Uint64 index) shardID with
  | error e => rw [hg] at h2; simp at h2
  | ok r =>
    obtain ⟨c, pk, snd⟩ := r
    rw [hg] at h2 h3
    simp only [Option.some.injEq] at h2
    simp only at h3
    cases hp : op.ParseCommitmentToV2ByBytes c pk snd shardID with
    | error e => rw [hp] at h3; simp at h3
    | ok v2b =>
      rw [hp] at h3
      simp only at h3
      cases hf : op.PointFromBytesS v2b with
      | error e => rw [hf] at h3; simp at h3
      | ok p =>
        rw [hf] at h3
        simp only [Option.some.injEq] at h3
        subst h3
        subst h2
        simp [hp, hf]

/-- Inversion of one step of the column loop. -/
theorem checkCells_step_inv {P S : Type} [AddCommGroup P] (op : Operation P S)
    (db : StateDB S) (tokenID : Hash) (shardID : Byte) (cell : P) (Ki : List P) (index : Nat)
    (rowIndexes : List Nat) (remaining : Nat) (sum : P) (res : List P × P)
    (h : checkCells op db tokenID shardID (cell :: Ki) (index :: rowIndexes) (remaining + 1)
      sum = .done (.ok res)) :
    ∃ v2, CellChecked op db tokenID shardID index cell v2 := by
  rw [checkCells] at h
  rcases hh : db.HasCommitmentIndex tokenID (Uint64 index) shardID with ⟨ok, err⟩
  rw [hh] at h
  simp only at h
  cases ok with
  | false => simp at h
  | true =>
    cases err with
    | some e => simp at h
    | none =>
      simp only [Bool.not_true, Option.isSome_none, Bool.or_self, Bool.false_eq_true,
        if_false] at h
      cases hg : db.GetCommitmentPublicKeyAddditionalByIndex tokenID (Uint64 index) shardID with
      | error e => rw [hg] at h; simp at h
      | ok r =>
        obtain ⟨c, pk, snd⟩ := r
        rw [hg] at h
        simp only at h
        by_cases hpk : op.PointToBytesS cell = pk
        · simp only [hpk, ne_eq, not_true_eq_false, if_false] at h
          cases hp : op.ParseCommitmentToV2ByBytes c pk snd shardID with
          | error e => rw [hp] at h; simp at h
          | ok v2b =>
            rw [hp] at h
            simp only at h
            cases hf : op.PointFromBytesS v2b with
            | error e => rw [hf] at h; simp at h
            | ok p =>
              refine ⟨p, hh, ?_, ?_⟩
              · simp [storedPublicKey, hg, hpk]
              · simp [storedCommitmentV2, hg, hp, hf]
        · simp [hpk] at h

/-- Soundness of the column loop. -/
theorem checkCells_sound {P S : Type} [AddCommGroup P] (op : Operation P S) (db : StateDB S)
    (tokenID : Hash) (shardID : Byte) : ∀ (remaining : Nat) (Ki : List P)
    (rowIndexes : List Nat) (sum : P) (rest : List P) (sum1 : P),
    checkCells op db tokenID shardID Ki rowIndexes remaining sum = .done (.ok (rest, sum1)) →
    ∃ cells vs, Ki = cells ++ rest ∧ cells.length = remaining ∧
      remaining ≤ rowIndexes.length ∧
      CellsChecked op db tokenID shardID (rowIndexes.take remaining) cells vs ∧
      sum1 = sum + vs.sum := by
  intro remaining
  induction remaining with
  | zero =>
    intro Ki rowIndexes sum rest sum1 h
    cases Ki <;> cases rowIndexes <;>
      simp only [checkCells, Run.done.injEq, Except.ok.injEq, Prod.mk.injEq] at h <;>
      exact ⟨[], [], by simp [h.1], rfl, by simp, by simp [CellsChecked], by simp [h.2]⟩
  | succ r ih =>
    intro Ki rowIndexes sum rest sum1 h
    cases Ki with
    | nil => cases rowIndexes <;> simp [checkCells] at h
    | cons cell Ki =>
      cases rowIndexes with
      | nil => simp [checkCells] at h
      | cons index rowIndexes =>
        obtain ⟨v2, hv2⟩ := checkCells_step_inv op db tokenID shardID cell Ki index
          rowIndexes r sum (rest, sum1) h
        rw [checkCells_step op db tokenID shardID cell Ki index rowIndexes r sum v2 hv2] at h
        obtain ⟨cells, vs, h1, h2, h3, h4, h5⟩ := ih Ki rowIndexes (sum + v2) rest sum1 h
        refine ⟨cell :: cells, v2 :: vs, by simp [h1], by simp [h2], by simp; omega, ?_, ?_⟩
        · simp only [List.take_succ_cons, CellsChecked]
          exact ⟨hv2, h4⟩
        · rw [h5]; simp [add_assoc]

theorem checkCells_error_false {P S : Type} [AddCommGroup P] (op : Operation P S)
    (db : StateDB S) (tokenID : Hash) (shardID : Byte) : ∀ (remaining : Nat) (Ki : List P)
    (rowIndexes : List Nat) (sum : P) (r : Bool × Option Err),
    checkCells op db tokenID shardID Ki rowIndexes remaining sum = .done (.error r) →
      r.1 = false := by
  intro remaining
  induction remaining with
  | zero =>
    intro Ki rowIndexes sum r h
    cases Ki <;> cases rowIndexes <;> simp [checkCells] at h
  | succ k ih =>
    intro Ki rowIndexes sum r h
    cases Ki with
    | nil => cases rowIndexes <;> simp [checkCells] at h
    | cons cell Ki =>
      cases rowIndexes with
      | nil => simp [checkCells] at h
      | cons index rowIndexes =>
        rw [checkCells] at h
        rcases hh : db.HasCommitmentIndex tokenID (Uint64 index) shardID with ⟨ok, err⟩
        rw [hh] at h
        simp only at h
        split at h
        · simp only [Run.done.injEq, Except.error.injEq] at h
          rw [← h]
        · split at h
          · simp only [Run.done.injEq, Except.error.injEq] at h
            rw [← h]
          · split at h
            · simp only [Run.done.injEq, Except.error.injEq] at h
              rw [← h]
            · split at h
              · simp only [Run.done.injEq, Except.error.injEq] at h
                rw [← h]
              · split at h
                · simp only [Run.done.injEq, Except.error.injEq] at h
                  rw [← h]
                · exact ih _ _ _ _ h

theorem checkRows_error_false {P S : Type} [AddCommGroup P] (op : Operation P S)
    (db : StateDB S) (tokenID : Hash) (shardID : Byte) (m1 : Nat) (fee outs : P) :
    ∀ (K : List (List P)) (indexes : List (List Nat)) (r : Bool × Option Err),
    checkRows op db tokenID shardID m1 fee outs K indexes = .done (.error r) →
      r.1 = false := by
  intro K
  induction K with
  | nil => intro indexes r h; simp [checkRows] at h
  | cons Ki K ih =>
    intro indexes r h
    cases indexes with
    | nil => simp [checkRows] at h
    | cons rowIndexes indexes =>
      rw [checkRows] at h
      simp only at h
      cases hc : checkCells op db tokenID shardID Ki rowIndexes m1 (0 - fee) with
      | panic => rw [hc] at h; simp at h
      | starved => rw [hc] at h; simp at h
      | done res =>
        rw [hc] at h
        cases res with
        | error e =>
          simp only [Run.done.injEq, Except.error.injEq] at h
          rw [← h]
          exact checkCells_error_false op db tokenID shardID m1 Ki rowIndexes _ e hc
        | ok v =>
          obtain ⟨rest, sum1⟩ := v
          simp only at h
          cases rest with
          | nil => simp at h
          | cons last tail =>
            simp only at h
            split at h
            · simp only [Run.done.injEq, Except.error.injEq] at h
              rw [← h]
            · exact ih _ _ h

/-- Soundness of the row loop: every row that passed has its first `m1` cells
checked against the store and its next cell equal to the recomputed
aggregate. -/
theorem checkRows_sound {P S : Type} [AddCommGroup P] (op : Operation P S)
    (hinj : Function.Injective op.PointToBytesS) (db : StateDB S) (tokenID : Hash)
    (shardID : Byte) (m1 : Nat) (fee outs : P) :
    ∀ (K : List (List P)) (indexes : List (List Nat)),
    checkRows op db tokenID shardID m1 fee outs K indexes = .done (.ok ()) →
    ∀ (i : Nat) (Ki : List P), K[i]? = some Ki →
      ∃ (rowIdx : List Nat) (cells vs : List P) (last : P) (tail : List P),
      indexes[i]? = some rowIdx ∧
      Ki = cells ++ last :: tail ∧ cells.length = m1 ∧ m1 ≤ rowIdx.length ∧
      CellsChecked op db tokenID shardID (rowIdx.take m1) cells vs ∧
      last = vs.sum - fee - outs := by
  intro K
  induction K with
  | nil => intro indexes _ i Ki hi; simp at hi
  | cons K0 K ih =>
    intro indexes h i Ki hi
    cases indexes with
    | nil => simp [checkRows] at h
    | cons rowIndexes indexes =>
      rw [checkRows] at h
      simp only at h
      cases hc : checkCells op db tokenID shardID K0 rowIndexes m1 (0 - fee) with
      | panic => rw [hc] at h; simp at h
      | starved => rw [hc] at h; simp at h
      | done res =>
        rw [hc] at h
        cases res with
        | error e => simp at h
        | ok v =>
          obtain ⟨rest, sum1⟩ := v
          simp only at h
          cases rest with
          | nil => simp at h
          | cons last tail =>
            simp only at h
            by_cases hb : op.PointToBytesS (sum1 - outs) = op.PointToBytesS last
            · simp only [hb, ne_eq, not_true_eq_false, if_false] at h
              cases i with
              | zero =>
                simp only [List.getElem?_cons_zero, Option.some.injEq] at hi
                subst hi
                obtain ⟨cells, vs, h1, h2, h3, h4, h5⟩ :=
                  checkCells_sound op db tokenID shardID m1 K0 rowIndexes _ _ _ hc
                refine ⟨rowIndexes, cells, vs, last, tail, by simp, h1, h2, h3, h4, ?_⟩
                have := hinj hb
                rw [← this, h5]
                abel
              | succ i =>
                simp only [List.getElem?_cons_succ] at hi
                obtain ⟨rowIdx, cells, vs, last1, tail1, h1, h2⟩ := ih indexes h i Ki hi
                exact ⟨rowIdx, cells, vs, last1, tail1, by simpa using h1, h2⟩
            · simp [hb] at h

/-- C7: soundness of the ring-state consistency check. If
`checkRingIndexesWithDatabase` returns true on a ring `K` whose first row has
`m` cells, then the index matrix has as many rows as `K` and, for every row
`i`: for every column `j < m - 1` the index `indexes[i][j]` exists in the
store for the token and shard and the bytes of `K[i][j]` are the public key
stored at that index; and the cell `K[i][m-1]` equals the sum over `j` of the
version-2 re-derivations of the commitments stored at `indexes[i][j]`, minus
`fee * G_value`, minus the sum of the commitments of the transaction's output
coins. Equality of points is read off equality of their encodings, which
needs an injective `ToBytesS`. -/
theorem checkRing_sound {P S : Type} [AddCommGroup P] (op : Operation P S)
    (hinj : Function.Injective op.PointToBytesS) (tx : Tx P S) (ring : Ring P)
    (indexes : List (List Nat)) (db : StateDB S) (shardID : Byte) (tokenID : Hash)
    (isNewTransaction : Bool) (err : Option Err)
    (h : checkRingIndexesWithDatabase op tx ring indexes db shardID tokenID isNewTransaction
      = .done (true, err)) :
    ∃ (proof : PaymentProof P S) (K0 : List P), tx.Proof = some proof ∧
      ring.keys.head? = some K0 ∧
      indexes.length = ring.keys.length ∧
      ∀ (i : Nat) (Ki : List P), ring.keys[i]? = some Ki →
        ∃ rowIdx : List Nat, indexes[i]? = some rowIdx ∧
        (∀ j : Nat, j + 1 < K0.length → ∃ (cell : P) (index : Nat), Ki[j]? = some cell ∧
          rowIdx[j]? = some index ∧
          db.HasCommitmentIndex tokenID (Uint64 index) shardID = (true, none) ∧
          storedPublicKey db tokenID shardID index = some (op.PointToBytesS cell)) ∧
        ∃ vs : List P,
          (rowIdx.take (K0.length - 1)).map (storedCommitmentV2 op db tokenID shardID)
            = vs.map some ∧
          Ki[K0.length - 1]? = some (vs.sum - feeCommitmentOf op tx.Fee
            - (proof.outputCoins.map (fun c => c.CoinDetails.coinCommitment)).sum) := by
  obtain ⟨K⟩ := ring
  simp only [checkRingIndexesWithDatabase] at h
  cases K with
  | nil => simp at h
  | cons K0 Krest =>
    simp only at h
    by_cases hn : indexes.length = (K0 :: Krest).length
    · simp only [hn, ne_eq, not_true_eq_false, if_false] at h
      cases hidx : indexes with
      | nil => rw [hidx] at hn; simp at hn
      | cons indexes0 irest =>
        rw [hidx] at h
        simp only at h
        by_cases hm : (indexes0.length : Int) = (K0.length : Int) - 1
        · simp only [hm, ne_eq, not_true_eq_false, if_false] at h
          cases hproof : tx.Proof with
          | none => rw [hproof] at h; simp at h
          | some proof =>
            rw [hproof] at h
            simp only at h
            cases hrows : checkRows op db tokenID shardID (K0.length - 1)
                (op.ScalarMult op.PedComGValue (op.ScalarFromUint64 tx.Fee))
                (outputCommitmentsOf proof.outputCoins) (K0 :: Krest)
                (indexes0 :: irest) with
            | panic => rw [hrows] at h; simp at h
            | starved => rw [hrows] at h; simp at h
            | done res =>
              rw [hrows] at h
              cases res with
              | error r =>
                have hf := checkRows_error_false op db tokenID shardID _ _ _ _ _ r hrows
                simp only [Run.done.injEq] at h
                rw [h] at hf
                simp at hf
              | ok u =>
                refine ⟨proof, K0, rfl, rfl, by rw [← hidx]; exact hn, ?_⟩
                intro i Ki hi
                obtain ⟨rowIdx, cells, vs, last, tail, h1, h2, h3, h4, h5, h6⟩ :=
                  checkRows_sound op hinj db tokenID shardID _ _ _ _ _ hrows i Ki hi
                refine ⟨rowIdx, h1, ?_, vs, ?_, ?_⟩
                · intro j hj
                  have hjm : j < K0.length - 1 := by omega
                  have hlen : (rowIdx.take (K0.length - 1)).length = K0.length - 1 := by
                    simp only [List.length_take]; omega
                  obtain ⟨index, cell, v2, g1, g2, _, g4⟩ :=
                    CellsChecked_get op db tokenID shardID _ _ _ h5 j (by rw [hlen]; exact hjm)
                  refine ⟨cell, index, ?_, ?_, g4.1, g4.2.1⟩
                  · rw [h2, List.getElem?_append_left (by rw [h3]; exact hjm)]
                    exact g2
                  · rw [List.getElem?_take] at g1
                    simpa [hjm] using g1
                · exact CellsChecked_map op db tokenID shardID _ _ _ h5
                · rw [h2, List.getElem?_append_right (by rw [h3]), h3, Nat.sub_self, h6,
                    outputCommitmentsOf_eq_sum]
                  simp [feeCommitmentOf]
        · simp [hm] at h
    · rw [if_pos hn] at h
      simp at h

/-! ## Lemmas on the ring builder -/

theorem sampleDecoy_ok {P S : Type} (op : Operation P S) (db : StateDB S) (tokenID : Hash)
    (shardID : Byte) (lenCommitment : Nat) (usable : List Hash) (nInputs : Nat) :
    ∀ (tape : List Nat) (index : Nat) (cell temp : P) (tape1 : List Nat),
    sampleDecoy op db tokenID shardID lenCommitment usable nInputs tape
      = .done (.ok ((index, cell, temp), tape1)) →
    DecoyCell op db tokenID shardID index cell temp := by
  intro tape
  induction tape with
  | nil =>
    intro index cell temp tape1 h
    simp only [sampleDecoy] at h
    split at h <;> simp at h
  | cons s tape ih =>
    intro index cell temp tape1 h
    rw [sampleDecoy] at h
    split at h
    · simp at h
    · rcases hh : db.HasCommitmentIndex tokenID (Uint64 (s % lenCommitment)) shardID
        with ⟨ok, err⟩
      simp only [hh] at h
      cases ok with
      | false => simp at h
      | true =>
        cases err with
        | some e => simp at h
        | none =>
          simp only [Bool.not_true, Option.isSome_none, Bool.or_self, Bool.false_eq_true,
            if_false] at h
          cases hg : db.GetCommitmentPublicKeyAddditionalByIndex tokenID
              (Uint64 (s % lenCommitment)) shardID with
          | error e => rw [hg] at h; simp at h
          | ok r =>
            obtain ⟨c, pk, snd⟩ := r
            rw [hg] at h
            simp only at h
            split at h
            · exact ih index cell temp tape1 h
            · cases hf : op.PointFromBytesS pk with
              | error e => rw [hf] at h; simp at h
              | ok cell1 =>
                rw [hf] at h
                simp only at h
                cases hp : op.ParseCommitmentToV2ByBytes c pk snd shardID with
                | error e => rw [hp] at h; simp at h
                | ok v2b =>
                  rw [hp] at h
                  simp only at h
                  cases hf2 : op.PointFromBytesS v2b with
                  | error e => rw [hf2] at h; simp at h
                  | ok temp1 =>
                    rw [hf2] at h
                    simp only [Run.done.injEq, Except.ok.injEq, Prod.mk.injEq] at h
                    obtain ⟨⟨h1, h2, h3⟩, _⟩ := h
                    subst h1 h2 h3
                    exact ⟨hh, c, pk, snd, v2b, hg, hf, hp, hf2⟩

theorem decoyRow_ok {P S : Type} [AddCommGroup P] (op : Operation P S) (db : StateDB S)
    (tokenID : Hash) (shardID : Byte) (lenCommitment : Nat) (usable : List Hash)
    (nInputs : Nat) : ∀ (k : Nat) (sum : P) (tape : List Nat) (cells : List P)
    (rowIndexes : List Nat) (sum1 : P) (tape1 : List Nat),
    decoyRow op db tokenID shardID lenCommitment usable nInputs k sum tape
      = .done (.ok ((cells, rowIndexes, sum1), tape1)) →
    ∃ temps, DecoyCells op db tokenID shardID rowIndexes cells temps ∧
      sum1 = sum + temps.sum ∧ cells.length = k ∧ rowIndexes.length = k := by
  intro k
  induction k with
  | zero =>
    intro sum tape cells rowIndexes sum1 tape1 h
    simp only [decoyRow, Run.done.injEq, Except.ok.injEq, Prod.mk.injEq] at h
    obtain ⟨⟨h1, h2, h3⟩, _⟩ := h
    subst h1 h2 h3
    exact ⟨[], by simp [DecoyCells], by simp, rfl, rfl⟩
  | succ k ih =>
    intro sum tape cells rowIndexes sum1 tape1 h
    rw [decoyRow] at h
    cases hs : sampleDecoy op db tokenID shardID lenCommitment usable nInputs tape with
    | panic => rw [hs] at h; simp at h
    | starved => rw [hs] at h; simp at h
    | done r =>
      rw [hs] at h
      cases r with
      | error e => simp at h
      | ok v =>
        obtain ⟨⟨index, cell, temp⟩, tape2⟩ := v
        simp only at h
        cases hd : decoyRow op db tokenID shardID lenCommitment usable nInputs k
            (sum + temp) tape2 with
        | panic => rw [hd] at h; simp at h
        | starved => rw [hd] at h; simp at h
        | done r2 =>
          rw [hd] at h
          cases r2 with
          | error e => simp at h
          | ok v2 =>
            obtain ⟨⟨cells2, idx2, sum2⟩, tape3⟩ := v2
            simp only [Run.done.injEq, Except.ok.injEq, Prod.mk.injEq] at h
            obtain ⟨⟨h1, h2, h3⟩, _⟩ := h
            subst h1 h2 h3
            obtain ⟨temps, g1, g2, g3, g4⟩ := ih _ _ _ _ _ _ hd
            have hcell := sampleDecoy_ok op db tokenID shardID lenCommitment usable nInputs
              tape index cell temp tape2 hs
            refine ⟨temp :: temps, ⟨hcell, g1⟩, ?_, by simp [g3], by simp [g4]⟩
            rw [g2]; simp [add_assoc]

theorem realRow_ok {P S : Type} [AddCommGroup P] (op : Operation P S) (db : StateDB S)
    (tokenID : Hash) (shardID : Byte) (key : List Byte) :
    ∀ (inputCoins : List (InputCoin P S)) (sum : P) (cells : List P) (rowIndexes : List Nat)
    (sum1 : P),
    realRow op db tokenID shardID key inputCoins sum = .ok (cells, rowIndexes, sum1) →
    cells = inputCoins.map (fun _ => op.ScalarMultBase (op.ScalarFromBytesS key)) ∧
      sum1 = sum + (inputCoins.map
        (fun c => op.ParseCommitmentToV2WithCoin c.CoinDetails)).sum ∧
      RealIndexes op db tokenID shardID inputCoins rowIndexes ∧
      rowIndexes.length = inputCoins.length := by
  intro inputCoins
  induction inputCoins with
  | nil =>
    intro sum cells rowIndexes sum1 h
    simp only [realRow, Except.ok.injEq, Prod.mk.injEq] at h
    obtain ⟨h1, h2, h3⟩ := h
    subst h1 h2 h3
    simp [RealIndexes]
  | cons c cs ih =>
    intro sum cells rowIndexes sum1 h
    rw [realRow] at h
    cases hg : db.GetCommitmentIndex tokenID (op.PointToBytesS c.CoinDetails.coinCommitment)
        shardID with
    | error e => rw [hg] at h; simp at h
    | ok index =>
      rw [hg] at h
      simp only at h
      cases hr : realRow op db tokenID shardID key cs
          (sum + op.ParseCommitmentToV2WithCoin c.CoinDetails) with
      | error e => rw [hr] at h; simp at h
      | ok v =>
        obtain ⟨cells2, idx2, sum2⟩ := v
        rw [hr] at h
        simp only [Except.ok.injEq, Prod.mk.injEq] at h
        obtain ⟨h1, h2, h3⟩ := h
        subst h1 h2 h3
        obtain ⟨g1, g2, g3, g4⟩ := ih _ _ _ _ hr
        refine ⟨by simp [g1], ?_, ⟨hg, g3⟩, by simp [g4]⟩
        rw [g2]; simp [add_assoc]

/-- Every successful run of the row loop yields rows of the built form. -/
theorem buildRows_ok {P S : Type} [AddCommGroup P] (op : Operation P S) (db : StateDB S)
    (tokenID : Hash) (shardID : Byte) (key : List Byte) (inputCoins : List (InputCoin P S))
    (lenCommitment : Nat) (usable : List Hash) (fee outs : P) (pi : Int) :
    ∀ (remaining i : Nat) (tape : List Nat) (ring : List (List P))
    (indexes : List (List Nat)),
    buildRows op db tokenID shardID key inputCoins lenCommitment usable fee outs pi i
      remaining tape = .done (.ok (ring, indexes)) →
    RowsBuilt op db tokenID shardID key inputCoins fee outs pi i ring indexes ∧
      ring.length = remaining ∧ indexes.length = remaining := by
  intro remaining
  induction remaining with
  | zero =>
    intro i tape ring indexes h
    simp only [buildRows, Run.done.injEq, Except.ok.injEq, Prod.mk.injEq] at h
    obtain ⟨h1, h2⟩ := h
    subst h1 h2
    simp [RowsBuilt]
  | succ r ih =>
    intro i tape ring indexes h
    rw [buildRows] at h
    by_cases hpi : (i : Int) = pi
    · simp only [hpi, if_true] at h
      cases hr : realRow op db tokenID shardID key inputCoins (0 - fee) with
      | error e => rw [hr] at h; simp at h
      | ok v =>
        obtain ⟨cells, rowIdx, sum1⟩ := v
        rw [hr] at h
        simp only at h
        cases hb : buildRows op db tokenID shardID key inputCoins lenCommitment usable fee
            outs pi (i + 1) r tape with
        | panic => rw [hb] at h; simp at h
        | starved => rw [hb] at h; simp at h
        | done res =>
          rw [hb] at h
          cases res with
          | error e => simp at h
          | ok w =>
            obtain ⟨ring2, idx2⟩ := w
            simp only [Run.done.injEq, Except.ok.injEq, Prod.mk.injEq] at h
            obtain ⟨h1, h2⟩ := h
            subst h1 h2
            obtain ⟨g1, g2, g3⟩ := ih _ _ _ _ hb
            obtain ⟨r1, r2, r3, r4⟩ := realRow_ok op db tokenID shardID key _ _ _ _ _ hr
            refine ⟨⟨⟨cells, inputCoins.map
              (fun c => op.ParseCommitmentToV2WithCoin c.CoinDetails), ?_, by simp [r1], r4, ?_⟩,
              g1⟩, by simp [g2], by simp [g3]⟩
            · rw [r2]
            · rw [if_pos hpi]
              exact ⟨r1, rfl, r3⟩
    · simp only [hpi, if_false] at h
      cases hd : decoyRow op db tokenID shardID lenCommitment usable inputCoins.length
          inputCoins.length (0 - fee) tape with
      | panic => rw [hd] at h; simp at h
      | starved => rw [hd] at h; simp at h
      | done res0 =>
        rw [hd] at h
        cases res0 with
        | error e => simp at h
        | ok v =>
          obtain ⟨⟨cells, rowIdx, sum1⟩, tape1⟩ := v
          simp only at h
          cases hb : buildRows op db tokenID shardID key inputCoins lenCommitment usable fee
              outs pi (i + 1) r tape1 with
          | panic => rw [hb] at h; simp at h
          | starved => rw [hb] at h; simp at h
          | done res =>
            rw [hb] at h
            cases res with
            | error e => simp at h
            | ok w =>
              obtain ⟨ring2, idx2⟩ := w
              simp only [Run.done.injEq, Except.ok.injEq, Prod.mk.injEq] at h
              obtain ⟨h1, h2⟩ := h
              subst h1 h2
              obtain ⟨g1, g2, g3⟩ := ih _ _ _ _ hb
              obtain ⟨temps, d1, d2, d3, d4⟩ :=
                decoyRow_ok op db tokenID shardID lenCommitment usable _ _ _ _ _ _ _ _ hd
              refine ⟨⟨⟨cells, temps, ?_, d3, d4, ?_⟩, g1⟩, by simp [g2], by simp [g3]⟩
              · rw [d2]
              · rw [if_neg hpi]
                exact d1

/-! ## The builder against the ledger check -/

theorem DecoyCell_checked {P S : Type} (op : Operation P S) (db : StateDB S) (tokenID : Hash)
    (shardID : Byte)
    (hcanon : ∀ b p, op.PointFromBytesS b = .ok p → op.PointToBytesS p = b)
    (index : Nat) (cell temp : P) (h : DecoyCell op db tokenID shardID index cell temp) :
    CellChecked op db tokenID shardID index cell temp := by
  obtain ⟨h1, c, pk, snd, v2b, h2, h3, h4, h5⟩ := h
  refine ⟨h1, ?_, ?_⟩
  · simp [storedPublicKey, h2, hcanon pk cell h3]
  · simp [storedCommitmentV2, h2, h4, h5]

theorem DecoyCell_stored {P S : Type} (op : Operation P S) (db : StateDB S) (tokenID : Hash)
    (shardID : Byte) (index : Nat) (cell temp : P)
    (h : DecoyCell op db tokenID shardID index cell temp) :
    storedCommitmentV2 op db tokenID shardID index = some temp := by
  obtain ⟨_, c, pk, snd, v2b, h2, _, h4, h5⟩ := h
  simp [storedCommitmentV2, h2, h4, h5]

theorem DecoyCells_checked {P S : Type} (op : Operation P S) (db : StateDB S)
    (tokenID : Hash) (shardID : Byte)
    (hcanon : ∀ b p, op.PointFromBytesS b = .ok p → op.PointToBytesS p = b) :
    ∀ (indexes : List Nat) (cells temps : List P),
    DecoyCells op db tokenID shardID indexes cells temps →
      CellsChecked op db tokenID shardID indexes cells temps := by
  intro indexes
  induction indexes with
  | nil =>
    intro cells temps h
    cases cells <;> cases temps <;> simp_all [DecoyCells, CellsChecked]
  | cons i is ih =>
    intro cells temps h
    cases cells with
    | nil => simp [DecoyCells] at h
    | cons c cs =>
      cases temps with
      | nil => simp [DecoyCells] at h
      | cons v vs =>
        simp only [DecoyCells] at h
        exact ⟨DecoyCell_checked op db tokenID shardID hcanon i c v h.1, ih cs vs h.2⟩

theorem DecoyCells_stored {P S : Type} (op : Operation P S) (db : StateDB S)
    (tokenID : Hash) (shardID : Byte) : ∀ (indexes : List Nat) (cells temps : List P),
    DecoyCells op db tokenID shardID indexes cells temps →
      indexes.map (storedCommitmentV2 op db tokenID shardID) = temps.map some := by
  intro indexes
  induction indexes with
  | nil =>
    intro cells temps h
    cases cells <;> cases temps <;> simp_all [DecoyCells]
  | cons i is ih =>
    intro cells temps h
    cases cells with
    | nil => simp [DecoyCells] at h
    | cons c cs =>
      cases temps with
      | nil => simp [DecoyCells] at h
      | cons v vs =>
        simp only [DecoyCells] at h
        simp [ih cs vs h.2, DecoyCell_stored op db tokenID shardID i c v h.1]

theorem RealIndexes_checked {P S : Type} (op : Operation P S) (db : StateDB S)
    (tokenID : Hash) (shardID : Byte) (key : List Byte) :
    ∀ (inputCoins : List (InputCoin P S)) (indexes : List Nat),
    (∀ c ∈ inputCoins, ∀ index,
      db.GetCommitmentIndex tokenID (op.PointToBytesS c.CoinDetails.coinCommitment) shardID
        = .ok index →
      CellChecked op db tokenID shardID index (op.ScalarMultBase (op.ScalarFromBytesS key))
        (op.ParseCommitmentToV2WithCoin c.CoinDetails)) →
    RealIndexes op db tokenID shardID inputCoins indexes →
    CellsChecked op db tokenID shardID indexes
      (inputCoins.map (fun _ => op.ScalarMultBase (op.ScalarFromBytesS key)))
      (inputCoins.map (fun c => op.ParseCommitmentToV2WithCoin c.CoinDetails)) := by
  intro inputCoins
  induction inputCoins with
  | nil =>
    intro indexes _ h
    cases indexes <;> simp_all [RealIndexes, CellsChecked]
  | cons c cs ih =>
    intro indexes hreal h
    cases indexes with
    | nil => simp [RealIndexes] at h
    | cons i is =>
      simp only [RealIndexes] at h
      simp only [List.map_cons, CellsChecked]
      exact ⟨hreal c (List.mem_cons_self _ _) i h.1,
        ih is (fun c' hc' => hreal c' (List.mem_cons_of_mem _ hc')) h.2⟩

/-- The column loop passes on checked cells and leaves the rest of the row. -/
theorem checkCells_pass {P S : Type} [AddCommGroup P] (op : Operation P S) (db : StateDB S)
    (tokenID : Hash) (shardID : Byte) : ∀ (indexes : List Nat) (cells vs tailK : List P)
    (sum : P), CellsChecked op db tokenID shardID indexes cells vs →
    checkCells op db tokenID shardID (cells ++ tailK) indexes indexes.length sum
      = .done (.ok (tailK, sum + vs.sum)) := by
  intro indexes
  induction indexes with
  | nil =>
    intro cells vs tailK sum h
    cases cells <;> cases vs <;> simp_all [CellsChecked]
    cases tailK <;> simp [checkCells]
  | cons i is ih =>
    intro cells vs tailK sum h
    cases cells with
    | nil => simp [CellsChecked] at h
    | cons c cs =>
      cases vs with
      | nil => simp [CellsChecked] at h
      | cons v vs =>
        simp only [CellsChecked] at h
        simp only [List.cons_append, List.length_cons]
        rw [checkCells_step op db tokenID shardID c (cs ++ tailK) i is is.length sum v h.1,
          ih cs vs tailK (sum + v) h.2]
        simp [add_assoc]

/-- The row loop passes on rows of the built form whose cells check. -/
theorem checkRows_pass {P S : Type} [AddCommGroup P] (op : Operation P S) (db : StateDB S)
    (tokenID : Hash) (shardID : Byte) (key : List Byte) (inputCoins : List (InputCoin P S))
    (fee outs : P) (pi : Int)
    (hcanon : ∀ b p, op.PointFromBytesS b = .ok p → op.PointToBytesS p = b)
    (hreal : ∀ c ∈ inputCoins, ∀ index,
      db.GetCommitmentIndex tokenID (op.PointToBytesS c.CoinDetails.coinCommitment) shardID
        = .ok index →
      CellChecked op db tokenID shardID index (op.ScalarMultBase (op.ScalarFromBytesS key))
        (op.ParseCommitmentToV2WithCoin c.CoinDetails)) :
    ∀ (ring : List (List P)) (indexes : List (List Nat)) (i : Nat),
    RowsBuilt op db tokenID shardID key inputCoins fee outs pi i ring indexes →
    checkRows op db tokenID shardID inputCoins.length fee outs ring indexes
      = .done (.ok ()) := by
  intro ring
  induction ring with
  | nil => intro indexes i _; cases indexes <;> simp [checkRows]
  | cons row ring ih =>
    intro indexes i h
    cases indexes with
    | nil => simp [RowsBuilt] at h
    | cons rowIdx indexes =>
      simp only [RowsBuilt] at h
      obtain ⟨⟨cells, vs, h1, h2, h3, h4⟩, hrest⟩ := h
      have hchecked : CellsChecked op db tokenID shardID rowIdx cells vs := by
        by_cases hpi : (i : Int) = pi
        · rw [if_pos hpi] at h4
          obtain ⟨g1, g2, g3⟩ := h4
          rw [g1, g2]
          exact RealIndexes_checked op db tokenID shardID key inputCoins rowIdx hreal g3
        · rw [if_neg hpi] at h4
          exact DecoyCells_checked op db tokenID shardID hcanon rowIdx cells vs h4
      have hc := checkCells_pass op db tokenID shardID rowIdx cells vs
        [(0 - fee + vs.sum) - outs] (0 - fee) hchecked
      rw [h3] at hc
      rw [checkRows]
      simp only
      rw [h1, hc]
      simp only [ne_eq, not_true_eq_false, if_false]
      exact ih indexes (i + 1) hrest

theorem RowsBuilt_head {P S : Type} [AddCommGroup P] (op : Operation P S) (db : StateDB S)
    (tokenID : Hash) (shardID : Byte) (key : List Byte) (inputCoins : List (InputCoin P S))
    (fee outs : P) (pi : Int) (i : Nat) (row : List P) (ring : List (List P))
    (rowIdx : List Nat) (indexes : List (List Nat))
    (h : RowsBuilt op db tokenID shardID key inputCoins fee outs pi i (row :: ring)
      (rowIdx :: indexes)) :
    row.length = inputCoins.length + 1 ∧ rowIdx.length = inputCoins.length := by
  simp only [RowsBuilt] at h
  obtain ⟨⟨cells, vs, h1, h2, h3, _⟩, _⟩ := h
  rw [h1]
  simp [h2, h3]

/-! ## Claims on the ledger check and the ring builder -/

theorem sampleOp_injective : Function.Injective sampleOp.PointToBytesS := by
  intro p q h
  simpa [sampleOp] using h

theorem sampleOp_canonical :
    ∀ b p, sampleOp.PointFromBytesS b = .ok p → sampleOp.PointToBytesS p = b := by
  intro b p h
  match b, h with
  | [q], h =>
    simp only [sampleOp, Except.ok.injEq] at h
    subst h
    rfl

/-- Witness of C7: the two-row sample ring passes the check against the
sample store, and the soundness theorem applies to it. -/
theorem checkRing_sound_witness :
    checkRingIndexesWithDatabase sampleOp sampleTx ⟨[[6, 0], [10, 9]]⟩ [[0], [1]]
        sampleStore 0 [] true = .done (true, none) ∧
    ∃ (proof : PaymentProof Byte Byte) (K0 : List Byte), sampleTx.Proof = some proof ∧
      (⟨[[6, 0], [10, 9]]⟩ : Ring Byte).keys.head? = some K0 ∧
      ([[0], [1]] : List (List Nat)).length = (⟨[[6, 0], [10, 9]]⟩ : Ring Byte).keys.length ∧
      ∀ (i : Nat) (Ki : List Byte), (⟨[[6, 0], [10, 9]]⟩ : Ring Byte).keys[i]? = some Ki →
        ∃ rowIdx : List Nat, ([[0], [1]] : List (List Nat))[i]? = some rowIdx ∧
        (∀ j : Nat, j + 1 < K0.length → ∃ (cell : Byte) (index : Nat), Ki[j]? = some cell ∧
          rowIdx[j]? = some index ∧
          sampleStore.HasCommitmentIndex [] (Uint64 index) 0 = (true, none) ∧
          storedPublicKey sampleStore [] 0 index = some (sampleOp.PointToBytesS cell)) ∧
        ∃ vs : List Byte,
          (rowIdx.take (K0.length - 1)).map (storedCommitmentV2 sampleOp sampleStore [] 0)
            = vs.map some ∧
          Ki[K0.length - 1]? = some (vs.sum - feeCommitmentOf sampleOp sampleTx.Fee
            - (proof.outputCoins.map (fun c => c.CoinDetails.coinCommitment)).sum) :=
  ⟨rfl, checkRing_sound sampleOp sampleOp_injective sampleTx ⟨[[6, 0], [10, 9]]⟩ [[0], [1]]
    sampleStore 0 [] true none rfl⟩

/-- C8 (the code at the failing input): the ring names index 7, which the
sample store (two commitments) does not hold; `HasCommitmentIndex` answers
`(false, nil)` and `checkRingIndexesWithDatabase` returns false with a nil
error. -/
theorem checkRing_bare_false :
    sampleStore.HasCommitmentIndex [] (Uint64 7) 0 = (false, none) ∧
    checkRingIndexesWithDatabase sampleOp sampleTx ⟨[[6, 0]]⟩ [[7]] sampleStore 0 [] false
      = .done (false, none) :=
  ⟨rfl, rfl⟩

theorem outputCommitments_agree {P S : Type} [AddCommGroup P] (op : Operation P S)
    (outputCoins : List (OutputCoin P S))
    (hout : ∀ c ∈ outputCoins,
      c.CoinDetails.coinCommitment = op.ParseCommitmentToV2WithCoin c.CoinDetails) :
    outputCommitmentsOf outputCoins = outputCommitmentsV2 op outputCoins := by
  rw [outputCommitmentsOf_eq_sum, outputCommitmentsV2_eq_sum]
  congr 1
  exact List.map_congr_left hout

/-- Inversion of a successful call of the builder: the ring is the list of
built rows, one per unit of the ring size. -/
theorem generate_ok {P S : Type} [AddCommGroup P] (op : Operation P S)
    (inputCoins : List (InputCoin P S)) (outputCoins : List (OutputCoin P S))
    (params : TxPrivacyInitParams S) (pi : Int) (shardID : Byte) (ringSize : Int)
    (tape : List Nat) (ring : Ring P) (indexes : List (List Nat))
    (h : generateMlsagRingWithIndexes op inputCoins outputCoins params pi shardID ringSize tape
      = .done (some ring, some indexes, none)) :
    0 ≤ ringSize ∧ ring.keys.length = ringSize.toNat ∧ indexes.length = ringSize.toNat ∧
    RowsBuilt op params.stateDB params.tokenID shardID params.senderSK inputCoins
      (feeCommitmentOf op params.fee) (outputCommitmentsV2 op outputCoins) pi 0
      ring.keys indexes := by
  simp only [generateMlsagRingWithIndexes] at h
  cases hl : params.stateDB.GetCommitmentLength params.tokenID shardID with
  | error e => rw [hl] at h; simp at h
  | ok l =>
    rw [hl] at h
    cases l with
    | none => simp at h
    | some lenCommitment =>
      simp only at h
      by_cases hneg : ringSize < 0
      · rw [if_pos hneg] at h; simp at h
      · rw [if_neg hneg] at h
        cases hb : buildRows op params.stateDB params.tokenID shardID params.senderSK
            inputCoins lenCommitment (listUsableCommitments op inputCoins)
            (op.ScalarMult op.PedComGValue (op.ScalarFromUint64 params.fee))
            (outputCommitmentsV2 op outputCoins) pi 0 ringSize.toNat tape with
        | panic => rw [hb] at h; simp at h
        | starved => rw [hb] at h; simp at h
        | done res =>
          rw [hb] at h
          cases res with
          | error e => simp at h
          | ok v =>
            obtain ⟨rows, idx⟩ := v
            simp only [Run.done.injEq, Prod.mk.injEq, Option.some.injEq, and_true] at h
            obtain ⟨h1, h2⟩ := h
            subst h1 h2
            obtain ⟨g1, g2, g3⟩ := buildRows_ok op params.stateDB params.tokenID shardID
              params.senderSK inputCoins lenCommitment _ _ _ pi _ _ _ _ _ hb
            exact ⟨Int.not_lt.mp hneg, g2, g3, g1⟩

/-- C9: builder and verifier agree. Let each real input's commitment be in
the store with the stored public key equal to `senderSK * G` and with a
version-2 re-derivation equal to the coin's own version-2 commitment, and let
each output coin carry its version-2 commitment. If
`generateMlsagRingWithIndexes` returns a ring and an index matrix without
error, then `checkRingIndexesWithDatabase` on that ring and index matrix, the
same store, shard, token, fee and output coins, with `isNewTransaction =
false`, returns true. The ring size is at least 1 and the point encoding is
canonical (`ToBytesS` gives back the bytes `FromBytesS` parsed). -/
theorem builder_passes_check {P S : Type} [AddCommGroup P] (op : Operation P S)
    (inputCoins : List (InputCoin P S)) (outputCoins : List (OutputCoin P S))
    (params : TxPrivacyInitParams S) (pi : Int) (shardID : Byte) (ringSize : Int)
    (tape : List Nat) (ring : Ring P) (indexes : List (List Nat)) (tx : Tx P S)
    (proof : PaymentProof P S)
    (hcanon : ∀ b p, op.PointFromBytesS b = .ok p → op.PointToBytesS p = b)
    (hreal : ∀ c ∈ inputCoins, ∀ index,
      params.stateDB.GetCommitmentIndex params.tokenID
        (op.PointToBytesS c.CoinDetails.coinCommitment) shardID = .ok index →
      CellChecked op params.stateDB params.tokenID shardID index
        (op.ScalarMultBase (op.ScalarFromBytesS params.senderSK))
        (op.ParseCommitmentToV2WithCoin c.CoinDetails))
    (hout : ∀ c ∈ outputCoins,
      c.CoinDetails.coinCommitment = op.ParseCommitmentToV2WithCoin c.CoinDetails)
    (hsize : 1 ≤ ringSize)
    (hproof : tx.Proof = some proof) (houts : proof.outputCoins = outputCoins)
    (hfee : tx.Fee = params.fee)
    (hgen : generateMlsagRingWithIndexes op inputCoins outputCoins params pi shardID ringSize
      tape = .done (some ring, some indexes, none)) :
    checkRingIndexesWithDatabase op tx ring indexes params.stateDB shardID params.tokenID false
      = .done (true, none) := by
  obtain ⟨_, hlen, hilen, hrows⟩ := generate_ok op inputCoins outputCoins params pi shardID
    ringSize tape ring indexes hgen
  obtain ⟨K⟩ := ring
  simp only at hlen hrows
  have hpos : 0 < ringSize.toNat := by omega
  cases K with
  | nil => simp at hlen; omega
  | cons row rest =>
    cases indexes with
    | nil => simp at hilen; omega
    | cons rowIdx irest =>
      obtain ⟨hrow, hidx⟩ := RowsBuilt_head op params.stateDB params.tokenID shardID
        params.senderSK inputCoins _ _ pi 0 row rest rowIdx irest hrows
      have hn : (rowIdx :: irest).length = (row :: rest).length := by rw [hlen, hilen]
      have hm : (rowIdx.length : Int) = (row.length : Int) - 1 := by
        rw [hrow, hidx]; push_cast; ring
      have hpass := checkRows_pass op params.stateDB params.tokenID shardID params.senderSK
        inputCoins (feeCommitmentOf op params.fee) (outputCommitmentsV2 op outputCoins) pi
        hcanon hreal (row :: rest) (rowIdx :: irest) 0 hrows
      have hm1 : row.length - 1 = inputCoins.length := by rw [hrow]; rfl
      simp only [checkRingIndexesWithDatabase, hn, ne_eq, not_true_eq_false, if_false, hm,
        hproof, houts, hfee, hm1, outputCommitments_agree op outputCoins hout]
      simp only [feeCommitmentOf] at hpass
      rw [hpass]
      simp

/-- Witness of C9: the builder run on the sample coins with ring size 2, real
row 0 and the random tape `[1]`, checked against the sample store. -/
theorem builder_passes_check_witness :
    generateMlsagRingWithIndexes sampleOp [sampleInput] [sampleOutput] sampleParams 0 0 2 [1]
        = .done (some ⟨[[6, 0], [10, 9]]⟩, some [[0], [1]], none) ∧
    checkRingIndexesWithDatabase sampleOp sampleTx ⟨[[6, 0], [10, 9]]⟩ [[0], [1]]
        sampleParams.stateDB 0 sampleParams.tokenID false = .done (true, none) :=
  ⟨rfl, builder_passes_check sampleOp [sampleInput] [sampleOutput] sampleParams 0 0 2 [1]
    ⟨[[6, 0], [10, 9]]⟩ [[0], [1]] sampleTx ⟨[sampleInput], [sampleOutput]⟩
    sampleOp_canonical
    (by
      intro c hc index hidx
      simp only [List.mem_singleton] at hc
      subst hc
      have h0 : index = 0 := by
        have : sampleParams.stateDB.GetCommitmentIndex sampleParams.tokenID
            (sampleOp.PointToBytesS sampleInput.CoinDetails.coinCommitment) 0 = .ok 0 := rfl
        rw [this] at hidx
        simpa using hidx.symm
      subst h0
      exact ⟨rfl, rfl, rfl⟩)
    (by
      intro c hc
      simp only [List.mem_singleton] at hc
      subst hc
      rfl)
    (by decide) rfl rfl rfl rfl⟩

theorem sumStored_of_map {P S : Type} [AddCommGroup P] (op : Operation P S) (db : StateDB S)
    (tokenID : Hash) (shardID : Byte) : ∀ (indexes : List Nat) (vs : List P),
    indexes.map (storedCommitmentV2 op db tokenID shardID) = vs.map some →
      sumStored op db tokenID shardID indexes = some vs.sum := by
  intro indexes
  induction indexes with
  | nil =>
    intro vs h
    cases vs with
    | nil => rfl
    | cons v vs => simp at h
  | cons i is ih =>
    intro vs h
    cases vs with
    | nil => simp at h
    | cons v vs =>
      simp only [List.map_cons, List.cons.injEq] at h
      simp [sumStored, h.1, ih vs h.2]

theorem RowsBuilt_get {P S : Type} [AddCommGroup P] (op : Operation P S) (db : StateDB S)
    (tokenID : Hash) (shardID : Byte) (key : List Byte) (inputCoins : List (InputCoin P S))
    (fee outs : P) (pi : Int) : ∀ (ring : List (List P)) (indexes : List (List Nat))
    (i0 k : Nat) (row : List P),
    RowsBuilt op db tokenID shardID key inputCoins fee outs pi i0 ring indexes →
    ring[k]? = some row →
    ∃ rowIdx : List Nat, indexes[k]? = some rowIdx ∧
      RowBuilt op db tokenID shardID key inputCoins fee outs pi (i0 + k) row rowIdx := by
  intro ring
  induction ring with
  | nil => intro indexes i0 k row _ hk; simp at hk
  | cons r ring ih =>
    intro indexes i0 k row h hk
    cases indexes with
    | nil => simp [RowsBuilt] at h
    | cons rowIdx indexes =>
      simp only [RowsBuilt] at h
      cases k with
      | zero =>
        simp only [List.getElem?_cons_zero, Option.some.injEq] at hk
        subst hk
        exact ⟨rowIdx, by simp, h.1⟩
      | succ k =>
        simp only [List.getElem?_cons_succ] at hk
        obtain ⟨ri, h1, h2⟩ := ih indexes (i0 + 1) k row h.2 hk
        refine ⟨ri, by simpa using h1, ?_⟩
        have : i0 + (k + 1) = i0 + 1 + k := by omega
        rw [this]
        exact h2

/-- A built row ends with its aggregate cell, the row's input sum minus the
fee commitment minus the output aggregate. -/
theorem RowBuilt_aggregate {P S : Type} [AddCommGroup P] (op : Operation P S)
    (db : StateDB S) (tokenID : Hash) (shardID : Byte) (key : List Byte)
    (inputCoins : List (InputCoin P S)) (fee outs : P) (pi : Int) (i : Nat) (row : List P)
    (rowIdx : List Nat)
    (h : RowBuilt op db tokenID shardID key inputCoins fee outs pi i row rowIdx) :
    ∃ s : P, rowInputSum op db tokenID shardID inputCoins pi i rowIdx = some s ∧
      row.getLast? = some (s - fee - outs) ∧ row.length = inputCoins.length + 1 ∧
      rowIdx.length = inputCoins.length := by
  obtain ⟨cells, vs, h1, h2, h3, h4⟩ := h
  refine ⟨vs.sum, ?_, ?_, by rw [h1]; simp [h2], h3⟩
  · by_cases hpi : (i : Int) = pi
    · rw [if_pos hpi] at h4
      simp only [rowInputSum, if_pos hpi, h4.2.1]
    · rw [if_neg hpi] at h4
      simp only [rowInputSum, if_neg hpi]
      exact sumStored_of_map op db tokenID shardID rowIdx vs
        (DecoyCells_stored op db tokenID shardID rowIdx cells vs h4)
  · have hlast : ∀ x : P, (cells ++ [x]).getLast? = some x := by
      intro x
      simp
    rw [h1, hlast]
    congr 1
    abel

/-- C10 (as amended): in every ring returned without error by
`generateMlsagRingWithIndexes`, each row ends with an aggregate cell, and the
aggregate cells of two rows are the same point exactly when the input sums of
the two rows are equal (the row `pi` sums the version-2 commitments of the
real inputs, every other row the re-derived commitments stored at its own
indexes). -/
theorem aggregate_equal_iff {P S : Type} [AddCommGroup P] (op : Operation P S)
    (inputCoins : List (InputCoin P S)) (outputCoins : List (OutputCoin P S))
    (params : TxPrivacyInitParams S) (pi : Int) (shardID : Byte) (ringSize : Int)
    (tape : List Nat) (ring : Ring P) (indexes : List (List Nat))
    (hgen : generateMlsagRingWithIndexes op inputCoins outputCoins params pi shardID ringSize
      tape = .done (some ring, some indexes, none)) :
    ∀ (i j : Nat) (rowI rowJ : List P), ring.keys[i]? = some rowI →
      ring.keys[j]? = some rowJ →
      ∃ (idxI idxJ : List Nat) (sI sJ aI aJ : P),
        indexes[i]? = some idxI ∧ indexes[j]? = some idxJ ∧
        rowInputSum op params.stateDB params.tokenID shardID inputCoins pi i idxI = some sI ∧
        rowInputSum op params.stateDB params.tokenID shardID inputCoins pi j idxJ = some sJ ∧
        rowI.getLast? = some aI ∧ rowJ.getLast? = some aJ ∧ (aI = aJ ↔ sI = sJ) := by
  obtain ⟨_, _, _, hrows⟩ := generate_ok op inputCoins outputCoins params pi shardID
    ringSize tape ring indexes hgen
  intro i j rowI rowJ hi hj
  obtain ⟨idxI, hI1, hI2⟩ := RowsBuilt_get op params.stateDB params.tokenID shardID
    params.senderSK inputCoins _ _ pi ring.keys indexes 0 i rowI hrows hi
  obtain ⟨idxJ, hJ1, hJ2⟩ := RowsBuilt_get op params.stateDB params.tokenID shardID
    params.senderSK inputCoins _ _ pi ring.keys indexes 0 j rowJ hrows hj
  rw [Nat.zero_add] at hI2 hJ2
  obtain ⟨sI, a1, a2, _, _⟩ := RowBuilt_aggregate op params.stateDB params.tokenID shardID
    params.senderSK inputCoins _ _ pi i rowI idxI hI2
  obtain ⟨sJ, b1, b2, _, _⟩ := RowBuilt_aggregate op params.stateDB params.tokenID shardID
    params.senderSK inputCoins _ _ pi j rowJ idxJ hJ2
  refine ⟨idxI, idxJ, sI, sJ, _, _, hI1, hJ1, a1, b1, a2, b2, ?_⟩
  constructor
  · intro h
    have h2 := sub_left_inj.mp h
    exact sub_left_inj.mp h2
  · intro h
    rw [h]

/-- Witness of C10 (as amended) on the sample ring: rows 0 and 1. -/
theorem aggregate_equal_iff_witness :
    ∃ (idxI idxJ : List Nat) (sI sJ aI aJ : Byte),
      ([[0], [1]] : List (List Nat))[0]? = some idxI ∧
      ([[0], [1]] : List (List Nat))[1]? = some idxJ ∧
      rowInputSum sampleOp sampleParams.stateDB sampleParams.tokenID 0 [sampleInput] 0 0 idxI
        = some sI ∧
      rowInputSum sampleOp sampleParams.stateDB sampleParams.tokenID 0 [sampleInput] 0 1 idxJ
        = some sJ ∧
      ([6, 0] : List Byte).getLast? = some aI ∧ ([10, 9] : List Byte).getLast? = some aJ ∧
      (aI = aJ ↔ sI = sJ) :=
  aggregate_equal_iff sampleOp [sampleInput] [sampleOutput] sampleParams 0 0 2 [1]
    ⟨[[6, 0], [10, 9]]⟩ [[0], [1]] rfl 0 1 [6, 0] [10, 9] rfl rfl

/-- C10 (counterexample): the builder run on the sample coins with ring size
2 returns without error a ring whose aggregate cells are 0 in row 0 and 9 in
row 1. -/
theorem aggregate_differs :
    generateMlsagRingWithIndexes sampleOp [sampleInput] [sampleOutput] sampleParams 0 0 2 [1]
        = .done (some ⟨[[6, 0], [10, 9]]⟩, some [[0], [1]], none) ∧
    ([6, 0] : List Byte).getLast? = some 0 ∧ ([10, 9] : List Byte).getLast? = some 9 ∧
    (0 : Byte) ≠ 9 :=
  ⟨rfl, rfl, rfl, by decide⟩

/-! ## The decoder on blobs shorter than `2 ^ 32` bytes

Away from the wrap-around of the `uint32` offsets the length tests of
`FromBytes` do reject an overrunning length and every truncation. -/

theorem slice_take {α : Type} (b : List α) (k lo hi : Nat) (h1 : lo ≤ hi) (h2 : hi ≤ k)
    (h3 : k ≤ b.length) : slice (b.take k) lo hi = slice b lo hi := by
  have hc1 : lo ≤ hi ∧ hi ≤ (b.take k).length := by
    simp only [List.length_take]
    omega
  have hc2 : lo ≤ hi ∧ hi ≤ b.length := by omega
  unfold slice
  rw [if_pos hc1, if_pos hc2, List.drop_take, List.take_take]
  congr 2
  omega

theorem byteAt_take (b : List Byte) (k lo hi : Nat) (h1 : lo ≤ hi) (h2 : hi ≤ k)
    (h3 : k ≤ b.length) : byteAt (b.take k) lo hi = byteAt b lo hi := by
  simp only [byteAt, slice_take b k lo hi h1 h2 h3]

theorem layout_slices (R : List Byte) (indexes : List (List Nat))
    (hn : indexes.length ≤ MaxSizeByte) (hm : columns indexes ≤ MaxSizeByte) :
    slice (layout R indexes) 0 4 = .done (bigEndian 4 R.length) ∧
    slice (layout R indexes) 4 (4 + R.length) = .done R ∧
    byteAt (layout R indexes) (4 + R.length) (4 + R.length + 1) = .done indexes.length ∧
    byteAt (layout R indexes) (4 + R.length + 1) (4 + R.length + 2)
      = .done (columns indexes) := by
  have hMax : MaxSizeByte = 255 := rfl
  refine ⟨?_, ?_, ?_, ?_⟩
  · exact slice_of_eq _ [] (bigEndian 4 R.length) (R ++ [byteOf indexes.length]
      ++ [byteOf (columns indexes)] ++ encodeRows indexes) _ _
      (by simp [layout]) rfl (by simp [bigEndian_length])
  · exact slice_of_eq _ (bigEndian 4 R.length) R ([byteOf indexes.length]
      ++ [byteOf (columns indexes)] ++ encodeRows indexes) _ _
      (by simp [layout]) (by rw [bigEndian_length]) (by rw [bigEndian_length])
  · have := byteAt_of_eq (layout R indexes) (bigEndian 4 R.length ++ R)
      ([byteOf (columns indexes)] ++ encodeRows indexes) (byteOf indexes.length)
      (4 + R.length) (4 + R.length + 1) (by simp [layout])
      (by simp only [List.length_append, bigEndian_length, List.length_singleton])
      (by simp only [List.length_append, bigEndian_length, List.length_singleton])
    rw [this, byteOf_val_of_lt (by omega)]
  · have := byteAt_of_eq (layout R indexes)
      (bigEndian 4 R.length ++ R ++ [byteOf indexes.length])
      (encodeRows indexes) (byteOf (columns indexes))
      (4 + R.length + 1) (4 + R.length + 2) (by simp [layout])
      (by simp only [List.length_append, bigEndian_length, List.length_singleton])
      (by simp only [List.length_append, bigEndian_length, List.length_singleton])
    rw [this, byteOf_val_of_lt (by omega)]

/-- Away from the wrap-around, a length prefix that overruns the buffer is
rejected with an error: for a blob of at least 4 and fewer than `2 ^ 32`
bytes whose prefix `L` satisfies `4 + L < 2 ^ 32` and `4 + L > len(b)`. -/
theorem overrun_rejected {P : Type} (codec : RingCodec P) (b : List Byte)
    (h4 : 4 ≤ b.length) (hlen : b.length < 2 ^ 32)
    (hL : 4 + Common.SetBytes (b.take 4) < 2 ^ 32)
    (hover : 4 + Common.SetBytes (b.take 4) > b.length) :
    TxSignatureVer2.FromBytes codec b = .done (.error
      (.new "TxSig.FromBytes: cannot parse mlsag ring, length of byte is too small")) := by
  have hs : slice b 0 Common.Uint32Size = .done (b.take 4) := by
    have hc : 0 ≤ 4 ∧ 4 ≤ b.length := ⟨Nat.zero_le _, h4⟩
    simp only [slice, Common.Uint32Size, if_pos hc, List.drop_zero, Nat.sub_zero]
  have hb : Common.BytesToUint32 (b.take 4) = .ok (Common.SetBytes (b.take 4)) := by
    have : (b.take 4).length = 4 := by simp only [List.length_take]; omega
    simp only [Common.BytesToUint32, this, Common.Uint32Size, ne_eq, not_true_eq_false,
      if_false]
  have h3 : toUint32 Common.Uint32Size = 4 := rfl
  simp only [TxSignatureVer2.FromBytes, if_neg (Nat.not_lt.mpr h4), hs, hb, h3,
    toUint32_of_lt hL, toUint32_of_lt hlen, if_pos hover]

/-- C2: truncation is rejected. For every blob `b` that a successful `ToBytes`
produces and every `k < len(b)`, `FromBytes` on the first `k` bytes of `b`
returns an error: it neither stops on an out-of-range slice nor returns a
signature. The blob is taken shorter than `2 ^ 32` bytes, as it is for the
rings that `signTxVer2` builds. -/
theorem truncation_rejected {P : Type} (codec : RingCodec P) (txSig : TxSignatureVer2 P)
    (b : List Byte) (hb : txSig.ToBytes codec = .done (.ok b)) (hT : b.length < 2 ^ 32)
    (k : Nat) (hk : k < b.length) :
    ∃ err, TxSignatureVer2.FromBytes codec (b.take k) = .done (.error err) := by
  obtain ⟨R, _, _, _, hn, hm, hrect, _, hout⟩ := ToBytes_ok_inv codec txSig b hb
  subst hout
  have hlen := layout_length R txSig.indexes hrect
  rw [hlen] at hT hk
  obtain ⟨s1, s2, s3, s4⟩ := layout_slices R txSig.indexes hn hm
  have hkl : k ≤ (layout R txSig.indexes).length := by rw [hlen]; omega
  have hclen : ((layout R txSig.indexes).take k).length = k := by
    simp only [List.length_take]; omega
  by_cases hk4 : k < 4
  · exact ⟨.new "TxSig.FromBytes: cannot parse ring length, length of byte is too small", by simp only [TxSignatureVer2.FromBytes, hclen, if_pos hk4]⟩
  · have e1 : slice ((layout R txSig.indexes).take k) 0 Common.Uint32Size
        = .done (bigEndian 4 R.length) := by
      rw [show Common.Uint32Size = 4 from rfl, slice_take _ k 0 4 (by omega) (by omega) hkl, s1]
    have e2 : Common.BytesToUint32 (bigEndian 4 R.length) = .ok R.length := by
      rw [← Uint32ToBytes_eq]; exact BytesToUint32_Uint32ToBytes (by omega)
    have e3 : toUint32 Common.Uint32Size = 4 := rfl
    have e4 : toUint32 (4 + R.length) = 4 + R.length := toUint32_of_lt (by omega)
    have e5 : toUint32 k = k := toUint32_of_lt (by omega)
    by_cases hk1 : 4 + R.length > k
    · exact ⟨.new "TxSig.FromBytes: cannot parse mlsag ring, length of byte is too small", by simp only [TxSignatureVer2.FromBytes, hclen, if_neg hk4, e1, e2, e3, e4, e5,
        if_pos hk1]⟩
    · have e6 : slice ((layout R txSig.indexes).take k) 4 (4 + R.length) = .done R := by
        rw [slice_take _ k 4 (4 + R.length) (by omega) (by omega) hkl, s2]
      cases hring : codec.FromBytes R with
      | error e =>
        exact ⟨e, by simp only [TxSignatureVer2.FromBytes, hclen, if_neg hk4, e1, e2, e3, e4,
          e5, if_neg hk1, e6, hring]⟩
      | ok ring =>
        have e7 : toUint32 (4 + R.length + 2) = 4 + R.length + 2 := toUint32_of_lt (by omega)
        by_cases hk2 : 4 + R.length + 2 > k
        · exact ⟨.new "TxSig.FromBytes: cannot parse length of indexes, length of byte is too small", by simp only [TxSignatureVer2.FromBytes, hclen, if_neg hk4, e1, e2, e3, e4,
            e5, if_neg hk1, e6, hring, e7, if_pos hk2]⟩
        · have e8 : toUint32 (4 + R.length + 1) = 4 + R.length + 1 :=
            toUint32_of_lt (by omega)
          have e9 : byteAt ((layout R txSig.indexes).take k) (4 + R.length)
              (4 + R.length + 1) = .done txSig.indexes.length := by
            rw [byteAt_take _ k _ _ (by omega) (by omega) hkl, s3]
          have e10 : byteAt ((layout R txSig.indexes).take k) (4 + R.length + 1)
              (4 + R.length + 2) = .done (columns txSig.indexes) := by
            rw [byteAt_take _ k _ _ (by omega) (by omega) hkl, s4]
          have e11 : 4 + R.length + 2
              + Common.Uint64Size * txSig.indexes.length * columns txSig.indexes > k := by
            simp only [Common.Uint64Size]; omega
          exact ⟨.new "TxSig.FromBytes: cannot parse indexes, length of byte is too small", by simp only [TxSignatureVer2.FromBytes, hclen, if_neg hk4, e1, e2, e3, e4,
            e5, if_neg hk1, e6, hring, e7, if_neg hk2, e8, e9, e10, if_pos e11]⟩

/-- Witness of C2: the 28-byte serialization of `sampleSig`, cut after 27
bytes. -/
theorem truncation_rejected_witness :
    sampleSig.ToBytes sampleCodec
      = .done (.ok [0, 0, 0, 6, 2, 2, 1, 2, 3, 4, 2, 1, 0, 0, 0, 0, 0, 0, 0, 5,
        0, 0, 0, 0, 0, 0, 1, 4]) ∧
    ∃ err, TxSignatureVer2.FromBytes sampleCodec
      [0, 0, 0, 6, 2, 2, 1, 2, 3, 4, 2, 1, 0, 0, 0, 0, 0, 0, 0, 5, 0, 0, 0, 0, 0, 0, 1]
      = .done (.error err) :=
  ⟨rfl, truncation_rejected sampleCodec sampleSig
    [0, 0, 0, 6, 2, 2, 1, 2, 3, 4, 2, 1, 0, 0, 0, 0, 0, 0, 0, 5, 0, 0, 0, 0, 0, 0, 1, 4]
    rfl (by decide) 27 (by decide)⟩

/-! ## Claims on the shape of the built ring -/

theorem RowsBuilt_index_row {P S : Type} [AddCommGroup P] (op : Operation P S)
    (db : StateDB S) (tokenID : Hash) (shardID : Byte) (key : List Byte)
    (inputCoins : List (InputCoin P S)) (fee outs : P) (pi : Int) :
    ∀ (ring : List (List P)) (indexes : List (List Nat)) (i0 : Nat),
    RowsBuilt op db tokenID shardID key inputCoins fee outs pi i0 ring indexes →
    (∀ row ∈ ring, row.length = inputCoins.length + 1) ∧
      (∀ rowIdx ∈ indexes, rowIdx.length = inputCoins.length) := by
  intro ring
  induction ring with
  | nil =>
    intro indexes i0 h
    cases indexes with
    | nil => simp
    | cons _ _ => simp [RowsBuilt] at h
  | cons row ring ih =>
    intro indexes i0 h
    cases indexes with
    | nil => simp [RowsBuilt] at h
    | cons rowIdx indexes =>
      obtain ⟨h1, h2⟩ := RowsBuilt_head op db tokenID shardID key inputCoins fee outs pi i0
        row ring rowIdx indexes h
      simp only [RowsBuilt] at h
      obtain ⟨g1, g2⟩ := ih indexes (i0 + 1) h.2
      constructor
      · intro r hr
        rcases List.mem_cons.mp hr with rfl | hr'
        · exact h1
        · exact g1 r hr'
      · intro r hr
        rcases List.mem_cons.mp hr with rfl | hr'
        · exact h2
        · exact g2 r hr'

/-- C11: per-row aggregate formula of the builder. In every ring returned by
`generateMlsagRingWithIndexes`, the last cell of row `i` equals `sumInputs_i -
feeCommitment - outputAggregate`, where `feeCommitment = fee * G_value`,
`outputAggregate` is the sum of the version-2 commitments of the output coins,
and `sumInputs_i` is the sum of the version-2 commitments of the real input
coins when `i = pi` and the sum of the version-2 re-derivations of the store
commitments at `indexes[i][j]` otherwise. -/
theorem row_aggregate_formula {P S : Type} [AddCommGroup P] (op : Operation P S)
    (inputCoins : List (InputCoin P S)) (outputCoins : List (OutputCoin P S))
    (params : TxPrivacyInitParams S) (pi : Int) (shardID : Byte) (ringSize : Int)
    (tape : List Nat) (ring : Ring P) (indexes : List (List Nat))
    (hgen : generateMlsagRingWithIndexes op inputCoins outputCoins params pi shardID ringSize
      tape = .done (some ring, some indexes, none)) :
    ∀ (i : Nat) (row : List P), ring.keys[i]? = some row →
      ∃ (rowIdx : List Nat) (vs : List P), indexes[i]? = some rowIdx ∧
        (if (i : Int) = pi then
          vs = inputCoins.map (fun c => op.ParseCommitmentToV2WithCoin c.CoinDetails)
        else
          rowIdx.map (storedCommitmentV2 op params.stateDB params.tokenID shardID)
            = vs.map some) ∧
        row.getLast? = some (vs.sum
          - op.ScalarMult op.PedComGValue (op.ScalarFromUint64 params.fee)
          - (outputCoins.map (fun c => op.ParseCommitmentToV2WithCoin c.CoinDetails)).sum) := by
  obtain ⟨_, _, _, hrows⟩ := generate_ok op inputCoins outputCoins params pi shardID
    ringSize tape ring indexes hgen
  intro i row hi
  obtain ⟨rowIdx, h1, h2⟩ := RowsBuilt_get op params.stateDB params.tokenID shardID
    params.senderSK inputCoins _ _ pi ring.keys indexes 0 i row hrows hi
  rw [Nat.zero_add] at h2
  obtain ⟨cells, vs, g1, _, _, g4⟩ := h2
  refine ⟨rowIdx, vs, h1, ?_, ?_⟩
  · by_cases hpi : (i : Int) = pi
    · rw [if_pos hpi] at g4 ⊢
      exact g4.2.1
    · rw [if_neg hpi] at g4 ⊢
      exact DecoyCells_stored op params.stateDB params.tokenID shardID rowIdx cells vs g4
  · have hlast : ∀ x : P, (cells ++ [x]).getLast? = some x := by
      intro x
      simp
    rw [g1, hlast, outputCommitmentsV2_eq_sum]
    congr 1
    simp only [feeCommitmentOf]
    abel

/-- Witness of C11 on the sample ring: the real row 0 and the decoy row 1. -/
theorem row_aggregate_formula_witness :
    (∃ (rowIdx : List Nat) (vs : List Byte),
      ([[0], [1]] : List (List Nat))[0]? = some rowIdx ∧
      (if ((0 : Nat) : Int) = 0 then
        vs = [sampleInput].map (fun c => sampleOp.ParseCommitmentToV2WithCoin c.CoinDetails)
      else
        rowIdx.map (storedCommitmentV2 sampleOp sampleParams.stateDB sampleParams.tokenID 0)
          = vs.map some) ∧
      ([6, 0] : List Byte).getLast? = some (vs.sum
        - sampleOp.ScalarMult sampleOp.PedComGValue (sampleOp.ScalarFromUint64 sampleParams.fee)
        - ([sampleOutput].map
            (fun c => sampleOp.ParseCommitmentToV2WithCoin c.CoinDetails)).sum)) ∧
    (∃ (rowIdx : List Nat) (vs : List Byte),
      ([[0], [1]] : List (List Nat))[1]? = some rowIdx ∧
      (if ((1 : Nat) : Int) = 0 then
        vs = [sampleInput].map (fun c => sampleOp.ParseCommitmentToV2WithCoin c.CoinDetails)
      else
        rowIdx.map (storedCommitmentV2 sampleOp sampleParams.stateDB sampleParams.tokenID 0)
          = vs.map some) ∧
      ([10, 9] : List Byte).getLast? = some (vs.sum
        - sampleOp.ScalarMult sampleOp.PedComGValue (sampleOp.ScalarFromUint64 sampleParams.fee)
        - ([sampleOutput].map
            (fun c => sampleOp.ParseCommitmentToV2WithCoin c.CoinDetails)).sum)) :=
  ⟨row_aggregate_formula sampleOp [sampleInput] [sampleOutput] sampleParams 0 0 2 [1]
      ⟨[[6, 0], [10, 9]]⟩ [[0], [1]] rfl 0 [6, 0] rfl,
    row_aggregate_formula sampleOp [sampleInput] [sampleOutput] sampleParams 0 0 2 [1]
      ⟨[[6, 0], [10, 9]]⟩ [[0], [1]] rfl 1 [10, 9] rfl⟩

/-- C12: shape of the built ring. Whenever `generateMlsagRingWithIndexes`
succeeds with ring size `N` and `k` real input coins, the ring has exactly `N`
rows of `k + 1` cells each and the index matrix has exactly `N` rows of `k`
entries each; so the index matrix is rectangular and meets the verifier's
dimension tests `len(indexes) = n` and `len(indexes[0]) = m - 1`. -/
theorem built_ring_shape {P S : Type} [AddCommGroup P] (op : Operation P S)
    (inputCoins : List (InputCoin P S)) (outputCoins : List (OutputCoin P S))
    (params : TxPrivacyInitParams S) (pi : Int) (shardID : Byte) (ringSize : Int)
    (tape : List Nat) (ring : Ring P) (indexes : List (List Nat))
    (hgen : generateMlsagRingWithIndexes op inputCoins outputCoins params pi shardID ringSize
      tape = .done (some ring, some indexes, none)) :
    (ring.keys.length : Int) = ringSize ∧
    (∀ row ∈ ring.keys, row.length = inputCoins.length + 1) ∧
    (indexes.length : Int) = ringSize ∧
    (∀ rowIdx ∈ indexes, rowIdx.length = inputCoins.length) ∧
    Rectangular inputCoins.length indexes ∧
    indexes.length = ring.keys.length ∧
    (∀ (K0 : List P) (indexes0 : List Nat), ring.keys.head? = some K0 →
      indexes.head? = some indexes0 → (indexes0.length : Int) = (K0.length : Int) - 1) := by
  obtain ⟨hpos, h1, h2, hrows⟩ := generate_ok op inputCoins outputCoins params pi shardID
    ringSize tape ring indexes hgen
  obtain ⟨g1, g2⟩ := RowsBuilt_index_row op params.stateDB params.tokenID shardID
    params.senderSK inputCoins _ _ pi ring.keys indexes 0 hrows
  refine ⟨by rw [h1]; exact Int.toNat_of_nonneg hpos, g1,
    by rw [h2]; exact Int.toNat_of_nonneg hpos, g2, g2, by rw [h1, h2], ?_⟩
  intro K0 indexes0 hK hI
  have hK0 : K0 ∈ ring.keys := List.mem_of_mem_head? hK
  have hI0 : indexes0 ∈ indexes := List.mem_of_mem_head? hI
  rw [g1 K0 hK0, g2 indexes0 hI0]
  push_cast
  ring

/-- Witness of C12 on the sample ring (`N = 2`, `k = 1`). -/
theorem built_ring_shape_witness :
    ((⟨[[6, 0], [10, 9]]⟩ : Ring Byte).keys.length : Int) = 2 ∧
    (∀ row ∈ (⟨[[6, 0], [10, 9]]⟩ : Ring Byte).keys, row.length = [sampleInput].length + 1) ∧
    (([[0], [1]] : List (List Nat)).length : Int) = 2 ∧
    (∀ rowIdx ∈ ([[0], [1]] : List (List Nat)), rowIdx.length = [sampleInput].length) ∧
    Rectangular [sampleInput].length [[0], [1]] ∧
    ([[0], [1]] : List (List Nat)).length = (⟨[[6, 0], [10, 9]]⟩ : Ring Byte).keys.length ∧
    (∀ (K0 : List Byte) (indexes0 : List Nat),
      (⟨[[6, 0], [10, 9]]⟩ : Ring Byte).keys.head? = some K0 →
      ([[0], [1]] : List (List Nat)).head? = some indexes0 →
      (indexes0.length : Int) = (K0.length : Int) - 1) :=
  built_ring_shape sampleOp [sampleInput] [sampleOutput] sampleParams 0 0 2 [1]
    ⟨[[6, 0], [10, 9]]⟩ [[0], [1]] rfl

/-! ## Claims on the derivator gate -/

theorem checkSNDs_all_fresh {P S : Type} (db : StateDB S) (tokenID : Hash) :
    ∀ (outputCoins : List (OutputCoin P S)) (i : Nat),
    (∀ c ∈ outputCoins,
      db.CheckSNDerivatorExistence tokenID c.CoinDetails.snDerivator = (false, none)) →
    checkSNDs db tokenID i outputCoins = (true, none) := by
  intro outputCoins
  induction outputCoins with
  | nil => intro i _; rfl
  | cons c cs ih =>
    intro i h
    have hc := h c (List.mem_cons_self _ _)
    simp only [checkSNDs, hc]
    simpa using ih (i + 1) (fun c' hc' => h c' (List.mem_cons_of_mem _ hc'))

theorem checkSNDs_first_offender {P S : Type} (db : StateDB S) (tokenID : Hash) :
    ∀ (pre : List (OutputCoin P S)) (c : OutputCoin P S) (post : List (OutputCoin P S))
    (i : Nat),
    (∀ c' ∈ pre,
      db.CheckSNDerivatorExistence tokenID c'.CoinDetails.snDerivator = (false, none)) →
    db.CheckSNDerivatorExistence tokenID c.CoinDetails.snDerivator ≠ (false, none) →
    checkSNDs db tokenID i (pre ++ c :: post) = (false, some (.transaction .SndExistedError
      (db.CheckSNDerivatorExistence tokenID c.CoinDetails.snDerivator).2
      ["snd existed: " ++ toString (i + pre.length) ++ "\n"])) := by
  intro pre
  induction pre with
  | nil =>
    intro c post i _ hc
    rcases hl : db.CheckSNDerivatorExistence tokenID c.CoinDetails.snDerivator with ⟨ok, err⟩
    rw [hl] at hc
    simp only [List.nil_append, checkSNDs, hl, List.length_nil, Nat.add_zero]
    cases ok with
    | true => simp
    | false =>
      cases err with
      | none => exact absurd rfl hc
      | some e => simp
  | cons p pre ih =>
    intro c post i hpre hc
    have hp := hpre p (List.mem_cons_self _ _)
    have := ih c post (i + 1) (fun c' hc' => hpre c' (List.mem_cons_of_mem _ hc')) hc
    have hi : i + 1 + pre.length = i + (pre.length + 1) := by omega
    rw [hi] at this
    simpa [checkSNDs, hp] using this

theorem checkSNDs_true_inv {P S : Type} (db : StateDB S) (tokenID : Hash) :
    ∀ (outputCoins : List (OutputCoin P S)) (i : Nat) (err : Option Err),
    checkSNDs db tokenID i outputCoins = (true, err) →
    ∀ c ∈ outputCoins,
      db.CheckSNDerivatorExistence tokenID c.CoinDetails.snDerivator = (false, none) := by
  intro outputCoins
  induction outputCoins with
  | nil => intro i err _ c hc; simp at hc
  | cons c0 cs ih =>
    intro i err h c hc
    rcases hl : db.CheckSNDerivatorExistence tokenID c0.CoinDetails.snDerivator with ⟨ok, e⟩
    simp only [checkSNDs, hl] at h
    cases ok with
    | true => simp at h
    | false =>
      cases e with
      | some e1 => simp at h
      | none =>
        simp only [Bool.false_eq_true, Option.isSome_none, or_self, if_false] at h
        rcases List.mem_cons.mp hc with rfl | hc'
        · exact hl
        · exact ih (i + 1) err h c hc'

/-- A ring that passes on replay is, for a new transaction, judged by the
derivator loop alone. -/
theorem checkRing_new_of_replay {P S : Type} [AddCommGroup P] (op : Operation P S)
    (tx : Tx P S) (ring : Ring P) (indexes : List (List Nat)) (db : StateDB S)
    (shardID : Byte) (tokenID : Hash) (proof : PaymentProof P S)
    (hproof : tx.Proof = some proof)
    (hpass : checkRingIndexesWithDatabase op tx ring indexes db shardID tokenID false
      = .done (true, none)) :
    checkRingIndexesWithDatabase op tx ring indexes db shardID tokenID true
      = .done (checkSNDs db tokenID 0 proof.outputCoins) := by
  obtain ⟨K⟩ := ring
  simp only [checkRingIndexesWithDatabase] at hpass ⊢
  cases K with
  | nil => simp at hpass
  | cons K0 Krest =>
    simp only at hpass ⊢
    by_cases hn : indexes.length = (K0 :: Krest).length
    · simp only [hn, ne_eq, not_true_eq_false, if_false] at hpass ⊢
      cases hidx : indexes with
      | nil => rw [hidx] at hn; simp at hn
      | cons indexes0 irest =>
        rw [hidx] at hpass
        simp only at hpass ⊢
        by_cases hm : (indexes0.length : Int) = (K0.length : Int) - 1
        · simp only [hm, ne_eq, not_true_eq_false, if_false, hproof] at hpass ⊢
          cases hrows : checkRows op db tokenID shardID (K0.length - 1)
              (op.ScalarMult op.PedComGValue (op.ScalarFromUint64 tx.Fee))
              (outputCommitmentsOf proof.outputCoins) (K0 :: Krest)
              (indexes0 :: irest) with
          | panic => rw [hrows] at hpass; simp at hpass
          | starved => rw [hrows] at hpass; simp at hpass
          | done res =>
            rw [hrows] at hpass
            cases res with
            | error r =>
              have hf := checkRows_error_false op db tokenID shardID _ _ _ _ _ r hrows
              simp only [Run.done.injEq] at hpass
              rw [hpass] at hf
              simp at hf
            | ok u => simp
        · simp [hm] at hpass
    · rw [if_pos hn] at hpass
      simp at hpass

/-- C13: derivator freshness for new transactions. For a transaction whose
ring passes all ring-consistency checks, `checkRingIndexesWithDatabase` with
`isNewTransaction = true` returns true if and only if the existence lookup of
every output coin's derivator reports `(false, nil)`; otherwise it returns
false with a `SndExistedError` whose message names the position of the first
offending output coin. -/
theorem snd_freshness {P S : Type} [AddCommGroup P] (op : Operation P S)
    (tx : Tx P S) (ring : Ring P) (indexes : List (List Nat)) (db : StateDB S)
    (shardID : Byte) (tokenID : Hash) (proof : PaymentProof P S)
    (hproof : tx.Proof = some proof)
    (hpass : checkRingIndexesWithDatabase op tx ring indexes db shardID tokenID false
      = .done (true, none)) :
    (checkRingIndexesWithDatabase op tx ring indexes db shardID tokenID true
        = .done (true, none) ↔
      ∀ c ∈ proof.outputCoins,
        db.CheckSNDerivatorExistence tokenID c.CoinDetails.snDerivator = (false, none)) ∧
    (∀ (pre : List (OutputCoin P S)) (c : OutputCoin P S) (post : List (OutputCoin P S)),
      proof.outputCoins = pre ++ c :: post →
      (∀ c' ∈ pre,
        db.CheckSNDerivatorExistence tokenID c'.CoinDetails.snDerivator = (false, none)) →
      db.CheckSNDerivatorExistence tokenID c.CoinDetails.snDerivator ≠ (false, none) →
      checkRingIndexesWithDatabase op tx ring indexes db shardID tokenID true
        = .done (false, some (.transaction .SndExistedError
          (db.CheckSNDerivatorExistence tokenID c.CoinDetails.snDerivator).2
          ["snd existed: " ++ toString pre.length ++ "\n"]))) := by
  have hnew := checkRing_new_of_replay op tx ring indexes db shardID tokenID proof hproof hpass
  refine ⟨⟨?_, ?_⟩, ?_⟩
  · intro h
    rw [hnew] at h
    simp only [Run.done.injEq] at h
    exact checkSNDs_true_inv db tokenID proof.outputCoins 0 none h
  · intro h
    rw [hnew, checkSNDs_all_fresh db tokenID proof.outputCoins 0 h]
  · intro pre c post hsplit hpre hc
    rw [hnew, hsplit, checkSNDs_first_offender db tokenID pre c post 0 hpre hc, Nat.zero_add]

/-- Witness of C13: the sample ring against a store that already holds the
derivator 7 of the sample output coin. -/
theorem snd_freshness_witness :
    (checkRingIndexesWithDatabase sampleOp sampleTx ⟨[[6, 0], [10, 9]]⟩ [[0], [1]]
        (sampleDB [(27, 6, 9), (40, 10, 3)] [7]) 0 [] true = .done (true, none) ↔
      ∀ c ∈ [sampleOutput],
        (sampleDB [(27, 6, 9), (40, 10, 3)] [7]).CheckSNDerivatorExistence []
          c.CoinDetails.snDerivator = (false, none)) ∧
    (∀ (pre : List (OutputCoin Byte Byte)) (c : OutputCoin Byte Byte)
      (post : List (OutputCoin Byte Byte)),
      [sampleOutput] = pre ++ c :: post →
      (∀ c' ∈ pre,
        (sampleDB [(27, 6, 9), (40, 10, 3)] [7]).CheckSNDerivatorExistence []
          c'.CoinDetails.snDerivator = (false, none)) →
      (sampleDB [(27, 6, 9), (40, 10, 3)] [7]).CheckSNDerivatorExistence []
        c.CoinDetails.snDerivator ≠ (false, none) →
      checkRingIndexesWithDatabase sampleOp sampleTx ⟨[[6, 0], [10, 9]]⟩ [[0], [1]]
        (sampleDB [(27, 6, 9), (40, 10, 3)] [7]) 0 [] true
        = .done (false, some (.transaction .SndExistedError
          ((sampleDB [(27, 6, 9), (40, 10, 3)] [7]).CheckSNDerivatorExistence []
            c.CoinDetails.snDerivator).2
          ["snd existed: " ++ toString pre.length ++ "\n"]))) :=
  snd_freshness sampleOp sampleTx ⟨[[6, 0], [10, 9]]⟩ [[0], [1]]
    (sampleDB [(27, 6, 9), (40, 10, 3)] [7]) 0 [] ⟨[sampleInput], [sampleOutput]⟩ rfl rfl

theorem checkCells_congr {P S : Type} [AddCommGroup P] (op : Operation P S)
    (db1 db2 : StateDB S) (tokenID : Hash) (shardID : Byte)
    (h1 : db1.HasCommitmentIndex = db2.HasCommitmentIndex)
    (h2 : db1.GetCommitmentPublicKeyAddditionalByIndex
      = db2.GetCommitmentPublicKeyAddditionalByIndex) :
    ∀ (remaining : Nat) (Ki : List P) (rowIndexes : List Nat) (sum : P),
    checkCells op db1 tokenID shardID Ki rowIndexes remaining sum
      = checkCells op db2 tokenID shardID Ki rowIndexes remaining sum := by
  intro remaining
  induction remaining with
  | zero =>
    intro Ki rowIndexes sum
    cases Ki <;> cases rowIndexes <;> simp [checkCells]
  | succ r ih =>
    intro Ki rowIndexes sum
    cases Ki with
    | nil => cases rowIndexes <;> simp [checkCells]
    | cons cell Ki =>
      cases rowIndexes with
      | nil => simp [checkCells]
      | cons index rowIndexes =>
        rw [checkCells, checkCells, h1, h2]
        simp only [ih]

theorem checkRows_congr {P S : Type} [AddCommGroup P] (op : Operation P S)
    (db1 db2 : StateDB S) (tokenID : Hash) (shardID : Byte) (m1 : Nat) (fee outs : P)
    (h1 : db1.HasCommitmentIndex = db2.HasCommitmentIndex)
    (h2 : db1.GetCommitmentPublicKeyAddditionalByIndex
      = db2.GetCommitmentPublicKeyAddditionalByIndex) :
    ∀ (K : List (List P)) (indexes : List (List Nat)),
    checkRows op db1 tokenID shardID m1 fee outs K indexes
      = checkRows op db2 tokenID shardID m1 fee outs K indexes := by
  intro K
  induction K with
  | nil => intro indexes; simp [checkRows]
  | cons Ki K ih =>
    intro indexes
    cases indexes with
    | nil => simp [checkRows]
    | cons rowIndexes indexes =>
      rw [checkRows, checkRows, checkCells_congr op db1 db2 tokenID shardID h1 h2]
      simp only [ih]

/-- C14: the derivator gate is skipped on replay. With `isNewTransaction =
false` the result of `checkRingIndexesWithDatabase` is the same for any two
stores that agree on the existence of commitment indexes and on the
commitment, public key and derivator stored at every index, whatever their
derivator-existence sets are. -/
theorem replay_ignores_snds {P S : Type} [AddCommGroup P] (op : Operation P S)
    (tx : Tx P S) (ring : Ring P) (indexes : List (List Nat)) (db1 db2 : StateDB S)
    (shardID : Byte) (tokenID : Hash)
    (h1 : db1.HasCommitmentIndex = db2.HasCommitmentIndex)
    (h2 : db1.GetCommitmentPublicKeyAddditionalByIndex
      = db2.GetCommitmentPublicKeyAddditionalByIndex) :
    checkRingIndexesWithDatabase op tx ring indexes db1 shardID tokenID false
      = checkRingIndexesWithDatabase op tx ring indexes db2 shardID tokenID false := by
  simp only [checkRingIndexesWithDatabase,
    checkRows_congr op db1 db2 tokenID shardID _ _ _ h1 h2, Bool.false_eq_true, if_false]

/-- Witness of C14: the sample store without known derivators and the same
store holding the derivator 7 of the sample output coin. -/
theorem replay_ignores_snds_witness :
    (sampleDB [(27, 6, 9), (40, 10, 3)] []).CheckSNDerivatorExistence [] 7 = (false, none) ∧
    (sampleDB [(27, 6, 9), (40, 10, 3)] [7]).CheckSNDerivatorExistence [] 7 = (true, none) ∧
    checkRingIndexesWithDatabase sampleOp sampleTx ⟨[[6, 0], [10, 9]]⟩ [[0], [1]]
        (sampleDB [(27, 6, 9), (40, 10, 3)] []) 0 [] false
      = checkRingIndexesWithDatabase sampleOp sampleTx ⟨[[6, 0], [10, 9]]⟩ [[0], [1]]
        (sampleDB [(27, 6, 9), (40, 10, 3)] [7]) 0 [] false :=
  ⟨rfl, rfl, replay_ignores_snds sampleOp sampleTx ⟨[[6, 0], [10, 9]]⟩ [[0], [1]]
    (sampleDB [(27, 6, 9), (40, 10, 3)] []) (sampleDB [(27, 6, 9), (40, 10, 3)] [7]) 0 []
    rfl rfl⟩

/-! ## Claims on `TxVersion2.Verify` -/

/-- `Verify` on a failed signature check. -/
theorem Verify_of_sig_invalid {P S G : Type} [AddCommGroup P] (op : Operation P S)
    (codec : RingCodec P) (ml : Mlsag P S G) (pv : ProofVerifier P S) (tx : Tx P S)
    (hasPrivacy : Bool) (db : StateDB S) (shardID : Byte) (tokenID : Option Hash)
    (isBatch isNewTransaction : Bool) (e0 : Option Err)
    (h : verifySigTxVer2 codec ml tx = .done (false, e0)) :
    TxVersion2.Verify op codec ml pv tx hasPrivacy db shardID tokenID isBatch isNewTransaction
      = .done (false, some (.transaction .VerifyTxSigFailError
        (some (e0.getD (.new ("FAILED VERIFICATION SIGNATURE ver2 with tx hash "
          ++ pv.TxHashString tx)))) [])) := by
  simp only [TxVersion2.Verify, h]
  cases e0 <;> simp

/-- `Verify` after a valid signature, a parsed token, a parsed ring and a
passed ledger check: the verdict is the payment proof's. -/
theorem Verify_of_ring_passed {P S G : Type} [AddCommGroup P] (op : Operation P S)
    (codec : RingCodec P) (ml : Mlsag P S G) (pv : ProofVerifier P S) (tx : Tx P S)
    (hasPrivacy : Bool) (db : StateDB S) (shardID : Byte) (tokenID : Option Hash)
    (isBatch isNewTransaction : Bool) (e0 : Option Err) (proof : PaymentProof P S)
    (tid : Hash) (txSigPubKey : TxSignatureVer2 P)
    (hsig : verifySigTxVer2 codec ml tx = .done (true, e0))
    (hproof : tx.Proof = some proof)
    (htok : pv.parseTokenID tokenID = .ok tid)
    (hparse : TxSignatureVer2.FromBytes codec (tx.SigPubKey.getD []) = .done (.ok txSigPubKey))
    (hring : checkRingIndexesWithDatabase op tx txSigPubKey.ring txSigPubKey.indexes db
      shardID tid isNewTransaction = .done (true, none)) :
    TxVersion2.Verify op codec ml pv tx hasPrivacy db shardID tokenID isBatch isNewTransaction
      = if (pv.ProofVerify proof hasPrivacy tx.SigPubKey tx.Fee shardID tid isBatch).1 then
          .done (true, none)
        else .done (proofFailure pv tx
          (pv.ProofVerify proof hasPrivacy tx.SigPubKey tx.Fee shardID tid isBatch).2
          isNewTransaction) := by
  rcases hr : pv.ProofVerify proof hasPrivacy tx.SigPubKey tx.Fee shardID tid isBatch
    with ⟨valid, err⟩
  simp only [TxVersion2.Verify, hsig, hproof, htok, hparse, hring, hr]
  cases valid <;> simp

/-- C15: legacy carve-out boundary. For a transaction whose ring signature
verifies and whose ring passes the ledger check, if the payment-proof
verification fails with the one-out-of-many error code, then
`TxVersion2.Verify` returns `(true, nil)` if and only if `isNewTransaction =
false` and `tx.LockTime <= ValidateTimeForOneoutOfManyProof` (equality
included); in every other case it returns false with
`VerifyOneOutOfManyProofFailedErr`. -/
theorem carve_out_boundary {P S G : Type} [AddCommGroup P] (op : Operation P S)
    (codec : RingCodec P) (ml : Mlsag P S G) (pv : ProofVerifier P S) (tx : Tx P S)
    (hasPrivacy : Bool) (db : StateDB S) (shardID : Byte) (tokenID : Option Hash)
    (isBatch isNewTransaction : Bool) (e0 : Option Err) (proof : PaymentProof P S)
    (tid : Hash) (txSigPubKey : TxSignatureVer2 P) (code : Int) (msg : String)
    (hsig : verifySigTxVer2 codec ml tx = .done (true, e0))
    (hproof : tx.Proof = some proof)
    (htok : pv.parseTokenID tokenID = .ok tid)
    (hparse : TxSignatureVer2.FromBytes codec (tx.SigPubKey.getD []) = .done (.ok txSigPubKey))
    (hring : checkRingIndexesWithDatabase op tx txSigPubKey.ring txSigPubKey.indexes db
      shardID tid isNewTransaction = .done (true, none))
    (hpv : pv.ProofVerify proof hasPrivacy tx.SigPubKey tx.Fee shardID tid isBatch
      = (false, some (.privacy code msg)))
    (hcode : code = pv.OneOutOfManyCode) :
    (TxVersion2.Verify op codec ml pv tx hasPrivacy db shardID tokenID isBatch
        isNewTransaction = .done (true, none) ↔
      (isNewTransaction = false ∧ tx.LockTime ≤ pv.ValidateTimeForOneoutOfManyProof)) ∧
    (¬ (isNewTransaction = false ∧ tx.LockTime ≤ pv.ValidateTimeForOneoutOfManyProof) →
      TxVersion2.Verify op codec ml pv tx hasPrivacy db shardID tokenID isBatch
        isNewTransaction = .done (false, some (.transaction .VerifyOneOutOfManyProofFailedErr
          (some (.privacy code msg)) [pv.TxHashString tx]))) := by
  have hv := Verify_of_ring_passed op codec ml pv tx hasPrivacy db shardID tokenID isBatch
    isNewTransaction e0 proof tid txSigPubKey hsig hproof htok hparse hring
  subst hcode
  rw [hpv] at hv
  simp only [Bool.false_eq_true, if_false, proofFailure, if_true] at hv
  rw [hv]
  cases isNewTransaction with
  | true => simp
  | false =>
    by_cases hl : tx.LockTime ≤ pv.ValidateTimeForOneoutOfManyProof
    · simp [hl]
    · simp [hl]

theorem sampleSignedTx_sig :
    verifySigTxVer2 sampleCodec sampleMlsag sampleSignedTx = .done (true, none) := rfl

theorem sampleSignedTx_parse :
    TxSignatureVer2.FromBytes sampleCodec (sampleSignedTx.SigPubKey.getD [])
      = .done (.ok ⟨⟨[[6, 0], [10, 9]]⟩, [[0], [1]]⟩) := rfl

/-- Witness of C15: the signed sample transaction, lock time exactly at the
cutoff, replayed (`isNewTransaction = false`) with a payment proof that fails
with the one-out-of-many code. -/
theorem carve_out_boundary_witness :
    sampleSignedTx.LockTime = samplePV.ValidateTimeForOneoutOfManyProof ∧
    (TxVersion2.Verify sampleOp sampleCodec sampleMlsag samplePV sampleSignedTx true
        sampleStore 0 none false false = .done (true, none) ↔
      (false = false ∧ sampleSignedTx.LockTime ≤ samplePV.ValidateTimeForOneoutOfManyProof)) ∧
    (¬ (false = false ∧ sampleSignedTx.LockTime ≤ samplePV.ValidateTimeForOneoutOfManyProof) →
      TxVersion2.Verify sampleOp sampleCodec sampleMlsag samplePV sampleSignedTx true
        sampleStore 0 none false false
        = .done (false, some (.transaction .VerifyOneOutOfManyProofFailedErr
          (some (.privacy 7 "one out of many proof failed"))
          [samplePV.TxHashString sampleSignedTx]))) :=
  ⟨rfl, carve_out_boundary sampleOp sampleCodec sampleMlsag samplePV sampleSignedTx true
    sampleStore 0 none false false none ⟨[⟨⟨6, 27, 9, some 10, 1, 5⟩⟩], [sampleOutput]⟩ []
    ⟨⟨[[6, 0], [10, 9]]⟩, [[0], [1]]⟩ 7 "one out of many proof failed"
    sampleSignedTx_sig rfl rfl sampleSignedTx_parse rfl rfl rfl⟩

/-- A valid verdict of `verifySigTxVer2` is the verdict of the ring-signature
verification over the proof bytes. -/
theorem verifySigTxVer2_true_inv {P S G : Type} (codec : RingCodec P) (ml : Mlsag P S G)
    (tx : Tx P S) (e0 : Option Err) (h : verifySigTxVer2 codec ml tx = .done (true, e0)) :
    ∃ (sig sigPubKey : List Byte) (txSigPubKey : TxSignatureVer2 P) (txSig : G)
      (proof : PaymentProof P S),
      tx.Sig = some sig ∧ tx.SigPubKey = some sigPubKey ∧
      TxSignatureVer2.FromBytes codec sigPubKey = .done (.ok txSigPubKey) ∧
      ml.SigFromBytes sig = .ok txSig ∧ tx.Proof = some proof ∧
      ml.Verify txSig txSigPubKey.ring (ml.ProofBytes proof) = (true, e0) := by
  unfold verifySigTxVer2 at h
  rcases hs : tx.Sig with _ | sig
  · simp [hs] at h
  rcases hk : tx.SigPubKey with _ | sigPubKey
  · simp [hs, hk] at h
  simp only [hs, hk] at h
  rcases hf : TxSignatureVer2.FromBytes codec sigPubKey with r | _ | _
  · rcases r with err | txSigPubKey
    · simp [hf] at h
    · simp only [hf] at h
      rcases hg : ml.SigFromBytes sig with err | txSig
      · simp [hg] at h
      · simp only [hg] at h
        rcases hp : tx.Proof with _ | proof
        · simp [hp] at h
        · simp only [hp, Run.done.injEq] at h
          exact ⟨sig, sigPubKey, txSigPubKey, txSig, proof, rfl, rfl, hf, hg, rfl, h⟩
  · simp [hf] at h
  · simp [hf] at h

/-- `Verify` returns true only after a valid signature verdict. -/
theorem Verify_true_sig {P S G : Type} [AddCommGroup P] (op : Operation P S)
    (codec : RingCodec P) (ml : Mlsag P S G) (pv : ProofVerifier P S) (tx : Tx P S)
    (hasPrivacy : Bool) (db : StateDB S) (shardID : Byte) (tokenID : Option Hash)
    (isBatch isNewTransaction : Bool) (e : Option Err)
    (h : TxVersion2.Verify op codec ml pv tx hasPrivacy db shardID tokenID isBatch
      isNewTransaction = .done (true, e)) :
    ∃ e0, verifySigTxVer2 codec ml tx = .done (true, e0) := by
  unfold TxVersion2.Verify at h
  rcases hv : verifySigTxVer2 codec ml tx with r | _ | _
  · rcases r with ⟨valid, err⟩
    cases valid with
    | true => exact ⟨err, rfl⟩
    | false =>
      simp only [hv] at h
      cases err <;> simp at h
  · simp [hv] at h
  · simp [hv] at h

/-- C16: the signature check is required. `TxVersion2.Verify` returns true
only if `verifySigTxVer2` reported a valid ring signature over the proof
bytes; whenever `verifySigTxVer2` reports invalid, `Verify` returns false with
`VerifyTxSigFailError`, and the result is the same for every store, token,
shard and proof verifier (no ring-consistency or proof check is made); and
`verifySigTxVer2` reports invalid when `tx.Sig` or `tx.SigPubKey` is nil, when
`FromBytes` rejects `SigPubKey`, when the signature does not parse, and when
the mlsag verification is invalid. -/
theorem signature_required {P S G : Type} [AddCommGroup P] (op : Operation P S)
    (codec : RingCodec P) (ml : Mlsag P S G) (pv : ProofVerifier P S) (tx : Tx P S)
    (hasPrivacy : Bool) (db : StateDB S) (shardID : Byte) (tokenID : Option Hash)
    (isBatch isNewTransaction : Bool) :
    (∀ e : Option Err,
      TxVersion2.Verify op codec ml pv tx hasPrivacy db shardID tokenID isBatch
        isNewTransaction = .done (true, e) →
      ∃ (sig sigPubKey : List Byte) (txSigPubKey : TxSignatureVer2 P) (txSig : G)
        (proof : PaymentProof P S) (e0 : Option Err),
        verifySigTxVer2 codec ml tx = .done (true, e0) ∧
        tx.Sig = some sig ∧ tx.SigPubKey = some sigPubKey ∧
        TxSignatureVer2.FromBytes codec sigPubKey = .done (.ok txSigPubKey) ∧
        ml.SigFromBytes sig = .ok txSig ∧ tx.Proof = some proof ∧
        ml.Verify txSig txSigPubKey.ring (ml.ProofBytes proof) = (true, e0)) ∧
    (∀ e0 : Option Err, verifySigTxVer2 codec ml tx = .done (false, e0) →
      (∃ cause : Err,
        TxVersion2.Verify op codec ml pv tx hasPrivacy db shardID tokenID isBatch
          isNewTransaction
          = .done (false, some (.transaction .VerifyTxSigFailError (some cause) []))) ∧
      (∀ (op2 : Operation P S) (pv2 : ProofVerifier P S) (hasPrivacy2 : Bool)
        (db2 : StateDB S) (shardID2 : Byte) (tokenID2 : Option Hash)
        (isBatch2 isNewTransaction2 : Bool),
        pv2.TxHashString = pv.TxHashString →
        TxVersion2.Verify op2 codec ml pv2 tx hasPrivacy2 db2 shardID2 tokenID2 isBatch2
          isNewTransaction2
          = TxVersion2.Verify op codec ml pv tx hasPrivacy db shardID tokenID isBatch
            isNewTransaction)) ∧
    ((tx.Sig = none ∨ tx.SigPubKey = none) →
      verifySigTxVer2 codec ml tx = .done (false, some (.transaction .UnexpectedError
        (some (.new "input transaction must be an signed one")) []))) ∧
    (∀ (sig sigPubKey : List Byte) (err : Err),
      tx.Sig = some sig → tx.SigPubKey = some sigPubKey →
      TxSignatureVer2.FromBytes codec sigPubKey = .done (.error err) →
      verifySigTxVer2 codec ml tx = .done (false, some err)) ∧
    (∀ (sig sigPubKey : List Byte) (txSigPubKey : TxSignatureVer2 P) (err : Err),
      tx.Sig = some sig → tx.SigPubKey = some sigPubKey →
      TxSignatureVer2.FromBytes codec sigPubKey = .done (.ok txSigPubKey) →
      ml.SigFromBytes sig = .error err →
      verifySigTxVer2 codec ml tx = .done (false, some err)) ∧
    (∀ (sig sigPubKey : List Byte) (txSigPubKey : TxSignatureVer2 P) (txSig : G)
      (proof : PaymentProof P S) (e0 : Option Err),
      tx.Sig = some sig → tx.SigPubKey = some sigPubKey →
      TxSignatureVer2.FromBytes codec sigPubKey = .done (.ok txSigPubKey) →
      ml.SigFromBytes sig = .ok txSig → tx.Proof = some proof →
      ml.Verify txSig txSigPubKey.ring (ml.ProofBytes proof) = (false, e0) →
      verifySigTxVer2 codec ml tx = .done (false, e0)) := by
  refine ⟨?_, ?_, ?_, ?_, ?_, ?_⟩
  · intro e h
    obtain ⟨e0, h0⟩ := Verify_true_sig op codec ml pv tx hasPrivacy db shardID tokenID
      isBatch isNewTransaction e h
    obtain ⟨sig, sigPubKey, txSigPubKey, txSig, proof, h1, h2, h3, h4, h5, h6⟩ :=
      verifySigTxVer2_true_inv codec ml tx e0 h0
    exact ⟨sig, sigPubKey, txSigPubKey, txSig, proof, e0, h0, h1, h2, h3, h4, h5, h6⟩
  · intro e0 h
    refine ⟨⟨_, Verify_of_sig_invalid op codec ml pv tx hasPrivacy db shardID tokenID
      isBatch isNewTransaction e0 h⟩, ?_⟩
    intro op2 pv2 hasPrivacy2 db2 shardID2 tokenID2 isBatch2 isNewTransaction2 hhash
    rw [Verify_of_sig_invalid op codec ml pv tx hasPrivacy db shardID tokenID
        isBatch isNewTransaction e0 h,
      Verify_of_sig_invalid op2 codec ml pv2 tx hasPrivacy2 db2 shardID2 tokenID2
        isBatch2 isNewTransaction2 e0 h, hhash]
  · intro h
    unfold verifySigTxVer2
    rcases h with h | h
    · simp [h]
    · rw [h]
      cases tx.Sig <;> rfl
  · intro sig sigPubKey err h1 h2 h3
    simp only [verifySigTxVer2, h1, h2, h3]
  · intro sig sigPubKey txSigPubKey err h1 h2 h3 h4
    simp only [verifySigTxVer2, h1, h2, h3, h4]
  · intro sig sigPubKey txSigPubKey txSig proof e0 h1 h2 h3 h4 h5 h6
    simp only [verifySigTxVer2, h1, h2, h3, h4, h5, h6]

/-- Witness of C16: the unsigned sample transaction is refused with
`VerifyTxSigFailError`, whatever the store. -/
theorem signature_required_witness :
    sampleTx.Sig = none ∧
    verifySigTxVer2 sampleCodec sampleMlsag sampleTx
      = .done (false, some (.transaction .UnexpectedError
        (some (.new "input transaction must be an signed one")) [])) ∧
    TxVersion2.Verify sampleOp sampleCodec sampleMlsag samplePV sampleTx true sampleStore 0
      none false true
      = .done (false, some (.transaction .VerifyTxSigFailError
        (some (.transaction .UnexpectedError
          (some (.new "input transaction must be an signed one")) [])) [])) :=
  ⟨rfl, (signature_required sampleOp sampleCodec sampleMlsag samplePV sampleTx true
    sampleStore 0 none false true).2.2.1 (Or.inl rfl), rfl⟩

/-! ## Claims on `signTxVer2` and `createPrivKeyMlsag` -/

/-- C17: signing is single-use. For a transaction whose `Sig` is non-nil,
`signTxVer2` returns the error "input transaction must be an unsigned one" and
the transaction it leaves is the one it was given (so `Sig`, `SigPubKey`,
`sigPrivKey` and the serial numbers of the proof's input coins are unchanged);
this holds for every ring size, every parameter set (so every store) and every
random tape, the empty tape included: neither the store nor the random source
is consulted. -/
theorem signing_single_use {P S G : Type} [AddCommGroup P] [AddCommGroup S]
    (op : Operation P S) (codec : RingCodec P) (ml : Mlsag P S G)
    (GetShardIDFromLastByte : Byte → Byte) (tx : Tx P S) (sig : List Byte)
    (h : tx.Sig = some sig) :
    ∀ (RingSize : Nat) (inp : List (InputCoin P S)) (out : List (OutputCoin P S))
      (params : TxPrivacyInitParams S) (tape : List Nat),
      signTxVer2 op codec ml RingSize GetShardIDFromLastByte inp out tx params tape
        = .done (some (.transaction .UnexpectedError
          (some (.new "input transaction must be an unsigned one")) []), tx) := by
  intro RingSize inp out params tape
  simp only [signTxVer2, h]

/-- Witness of C17: signing the signed sample transaction again, with an
empty random tape. -/
theorem signing_single_use_witness :
    sampleSignedTx.Sig = some [20] ∧
    signTxVer2 sampleOp sampleCodec sampleMlsag 2 id [sampleInput] [sampleOutput]
        sampleSignedTx sampleParams []
      = .done (some (.transaction .UnexpectedError
        (some (.new "input transaction must be an unsigned one")) []), sampleSignedTx) :=
  ⟨rfl, signing_single_use sampleOp sampleCodec sampleMlsag id sampleSignedTx [20] rfl 2
    [sampleInput] [sampleOutput] sampleParams []⟩

theorem foldl_sub_eq_sum {α S : Type} [AddCommGroup S] (f : α → S) (l : List α) (a : S) :
    l.foldl (fun acc c => acc - f c) a = a - (l.map f).sum := by
  induction l generalizing a with
  | nil => simp
  | cons x xs ih => simp [List.foldl_cons, ih, sub_sub]

/-- The vector of `createPrivKeyMlsag` in closed form. -/
theorem createPrivKeyMlsag_eq {P S : Type} [AddCommGroup S] (op : Operation P S)
    (inputCoins : List (InputCoin P S)) (outputCoins : List (OutputCoin P S))
    (senderSK : List Byte) :
    createPrivKeyMlsag op inputCoins outputCoins senderSK
      = List.replicate inputCoins.length (op.ScalarFromBytesS senderSK)
        ++ [op.ScalarFromUint64 0
          + (inputCoins.map (fun c => c.CoinDetails.randomness)).sum
          - (outputCoins.map (fun c => c.CoinDetails.randomness)).sum] := by
  simp only [createPrivKeyMlsag, foldl_add_eq_sum, foldl_sub_eq_sum]

/-- C18: private-key vector of the signer. For `k` input coins, any output
coins and any sender secret key, `createPrivKeyMlsag` returns exactly `k + 1`
scalars; each of the first `k` is the sender's secret scalar and the last is
the sum of the input coins' randomness minus the sum of the output coins'
randomness (the scalar of 0 being the zero of the scalar field). -/
theorem privKey_vector {P S : Type} [AddCommGroup S] (op : Operation P S)
    (inputCoins : List (InputCoin P S)) (outputCoins : List (OutputCoin P S))
    (senderSK : List Byte) (hzero : op.ScalarFromUint64 0 = 0) :
    (createPrivKeyMlsag op inputCoins outputCoins senderSK).length = inputCoins.length + 1 ∧
    (∀ i : Nat, i < inputCoins.length →
      (createPrivKeyMlsag op inputCoins outputCoins senderSK)[i]?
        = some (op.ScalarFromBytesS senderSK)) ∧
    (createPrivKeyMlsag op inputCoins outputCoins senderSK)[inputCoins.length]?
      = some ((inputCoins.map (fun c => c.CoinDetails.randomness)).sum
        - (outputCoins.map (fun c => c.CoinDetails.randomness)).sum) := by
  rw [createPrivKeyMlsag_eq, hzero, zero_add]
  refine ⟨by simp, ?_, ?_⟩
  · intro i hi
    rw [List.getElem?_append_left (by simpa using hi)]
    simp [List.getElem?_replicate, hi]
  · rw [List.getElem?_append_right (by simp)]
    simp

/-- Witness of C18: one input coin of randomness 1, one output coin of
randomness 1, sender key `[2]`. -/
theorem privKey_vector_witness :
    sampleOp.ScalarFromUint64 0 = 0 ∧
    createPrivKeyMlsag sampleOp [sampleInput] [sampleOutput] [2] = [2, 0] ∧
    (createPrivKeyMlsag sampleOp [sampleInput] [sampleOutput] [2]).length
      = [sampleInput].length + 1 :=
  ⟨rfl, rfl, (privKey_vector sampleOp [sampleInput] [sampleOutput] [2] rfl).1⟩

theorem keyImagesFrom_get {P S G : Type} (ml : Mlsag P S G) (m : Nat) (l : List S)
    (j i : Nat) :
    (keyImagesFrom ml m j l)[i]? = l[i]?.map (fun sk => ml.KeyImage sk (j + i + 1 == m)) := by
  induction l generalizing j i with
  | nil => simp [keyImagesFrom]
  | cons sk rest ih =>
    cases i with
    | zero => simp [keyImagesFrom]
    | succ i =>
      simp only [keyImagesFrom, List.getElem?_cons_succ, ih]
      have : j + 1 + i + 1 = j + (i + 1) + 1 := by omega
      rw [this]

/-- The key image of every input column is the key image of the sender's
secret scalar. -/
theorem ParseKeyImages_input {P S G : Type} [AddCommGroup S] (op : Operation P S)
    (ml : Mlsag P S G) (inputCoins : List (InputCoin P S))
    (outputCoins : List (OutputCoin P S)) (senderSK : List Byte) (i : Nat)
    (hi : i < inputCoins.length) :
    (ParseKeyImages ml (createPrivKeyMlsag op inputCoins outputCoins senderSK))[i]?
      = some (ml.KeyImage (op.ScalarFromBytesS senderSK) false) := by
  rw [ParseKeyImages, keyImagesFrom_get, createPrivKeyMlsag_eq]
  rw [List.getElem?_append_left (by simpa using hi)]
  simp only [List.getElem?_replicate, hi, if_true, Option.map_some', List.length_append,
    List.length_replicate, List.length_singleton, zero_add]
  congr 2
  simp only [beq_eq_false_iff_ne, ne_eq, add_left_inj]
  omega

theorem setSerialNumbers_get {P S : Type} (coins : List (InputCoin P S))
    (keyImages : List P) (coins2 : List (InputCoin P S))
    (h : setSerialNumbers coins keyImages = .done coins2) (i : Nat) (c : InputCoin P S)
    (hc : coins2[i]? = some c) :
    ∃ keyImage, keyImages[i]? = some keyImage ∧
      c.CoinDetails.serialNumber = some keyImage := by
  induction coins generalizing keyImages coins2 i with
  | nil =>
    simp only [setSerialNumbers, Run.done.injEq] at h
    subst h
    simp at hc
  | cons c0 cs ih =>
    cases keyImages with
    | nil => simp [setSerialNumbers] at h
    | cons k ks =>
      simp only [setSerialNumbers] at h
      rcases hr : setSerialNumbers cs ks with rest | _ | _
      · simp only [hr, Run.done.injEq] at h
        subst h
        cases i with
        | zero =>
          simp only [List.getElem?_cons_zero, Option.some.injEq] at hc
          subst hc
          exact ⟨k, by simp, rfl⟩
        | succ i =>
          simp only [List.getElem?_cons_succ] at hc
          obtain ⟨keyImage, h1, h2⟩ := ih ks rest hr i hc
          exact ⟨keyImage, by simpa using h1, h2⟩
      · simp [hr] at h
      · simp [hr] at h

/-- C19 (as amended): the key images are shared, not unique per coin. Whenever
`signTxVer2` signs (returns a nil error) for `k` input coins, the serial number
it stores in each of the first `k` input coins of the proof is the key image of
the sender's secret scalar: one and the same point for every input coin, so the
serial numbers of coins `i` and `j` are equal. -/
theorem key_images_shared {P S G : Type} [AddCommGroup P] [AddCommGroup S]
    (op : Operation P S) (codec : RingCodec P) (ml : Mlsag P S G) (RingSize : Nat)
    (GetShardIDFromLastByte : Byte → Byte) (inp : List (InputCoin P S))
    (out : List (OutputCoin P S)) (tx : Tx P S) (params : TxPrivacyInitParams S)
    (tape : List Nat) (tx2 : Tx P S)
    (hsign : signTxVer2 op codec ml RingSize GetShardIDFromLastByte inp out tx params tape
      = .done (none, tx2)) :
    ∃ proof2 : PaymentProof P S, tx2.Proof = some proof2 ∧
      (∀ (i : Nat) (c : InputCoin P S), i < inp.length → proof2.inputCoins[i]? = some c →
        c.CoinDetails.serialNumber
          = some (ml.KeyImage (op.ScalarFromBytesS params.senderSK) false)) ∧
      (∀ (i j : Nat) (ci cj : InputCoin P S), i < inp.length → j < inp.length →
        proof2.inputCoins[i]? = some ci → proof2.inputCoins[j]? = some cj →
        ci.CoinDetails.serialNumber = cj.CoinDetails.serialNumber) := by
  have key : ∃ proof2 : PaymentProof P S, tx2.Proof = some proof2 ∧
      (∀ (i : Nat) (c : InputCoin P S), i < inp.length → proof2.inputCoins[i]? = some c →
        c.CoinDetails.serialNumber
          = some (ml.KeyImage (op.ScalarFromBytesS params.senderSK) false)) := by
    unfold signTxVer2 at hsign
    rcases hs : tx.Sig with _ | s
    swap
    · simp [hs] at hsign
    simp only [hs] at hsign
    generalize (if (!params.hasPrivacy) = true then 1 else RingSize) = ringSize at hsign
    split at hsign
    · simp at hsign
    · split at hsign
      · simp at hsign
      · split at hsign
        · simp at hsign
        · simp at hsign
        · simp at hsign
        · split at hsign
          · simp at hsign
          · rename_i proof hproof
            split at hsign
            · simp at hsign
            · simp at hsign
            · rename_i coins hcoins
              split at hsign
              · simp at hsign
              · split at hsign
                · split at hsign
                  · simp at hsign
                  · simp at hsign
                  · simp at hsign
                  · split at hsign
                    · simp at hsign
                    · split at hsign
                      · simp at hsign
                      · simp only [Run.done.injEq, Prod.mk.injEq, true_and] at hsign
                        subst hsign
                        refine ⟨_, rfl, ?_⟩
                        intro i c hi hc
                        obtain ⟨keyImage, h1, h2⟩ :=
                          setSerialNumbers_get _ _ _ hcoins i c hc
                        rw [ParseKeyImages_input op ml inp out params.senderSK i hi] at h1
                        rw [h2, ← h1]
                · simp at hsign
  obtain ⟨proof2, h1, h2⟩ := key
  refine ⟨proof2, h1, h2, ?_⟩
  intro i j ci cj hi hj hci hcj
  rw [h2 i ci hi hci, h2 j cj hj hcj]

/-- Witness of C19 (as amended): signing the sample transaction that spends two
coins. -/
theorem key_images_shared_witness :
    signTxVer2 sampleOp sampleCodec sampleMlsag 2 id [sampleInput, sampleInput2]
        [sampleOutput] sampleTx2 sampleParams2 [0] = .done (none, sampleSignedTx2) ∧
    ∃ proof2 : PaymentProof Byte Byte, sampleSignedTx2.Proof = some proof2 ∧
      (∀ (i : Nat) (c : InputCoin Byte Byte), i < [sampleInput, sampleInput2].length →
        proof2.inputCoins[i]? = some c →
        c.CoinDetails.serialNumber
          = some (sampleMlsag.KeyImage (sampleOp.ScalarFromBytesS sampleParams2.senderSK)
            false)) ∧
      (∀ (i j : Nat) (ci cj : InputCoin Byte Byte), i < [sampleInput, sampleInput2].length →
        j < [sampleInput, sampleInput2].length →
        proof2.inputCoins[i]? = some ci → proof2.inputCoins[j]? = some cj →
        ci.CoinDetails.serialNumber = cj.CoinDetails.serialNumber) :=
  ⟨rfl, key_images_shared sampleOp sampleCodec sampleMlsag 2 id [sampleInput, sampleInput2]
    [sampleOutput] sampleTx2 sampleParams2 [0] sampleSignedTx2 rfl⟩

/-- Counterexample to C19 as stated: the sample sender spends two distinct
coins (commitments 27 and 41) in one transaction; `signTxVer2` signs it and
stores the same key image, 10, as the serial number of both input coins. -/
theorem key_images_collide :
    sampleInput.CoinDetails.coinCommitment ≠ sampleInput2.CoinDetails.coinCommitment ∧
    sampleTx2.Proof = some ⟨[sampleInput, sampleInput2], [sampleOutput]⟩ ∧
    signTxVer2 sampleOp sampleCodec sampleMlsag 2 id [sampleInput, sampleInput2]
        [sampleOutput] sampleTx2 sampleParams2 [0] = .done (none, sampleSignedTx2) ∧
    sampleSignedTx2.Proof.map
        (fun proof => proof.inputCoins.map (fun c => c.CoinDetails.serialNumber))
      = some [some 10, some 10] :=
  ⟨by decide, rfl, rfl, rfl⟩

/-! ## Claims on `TxCustomToken.ValidateTransaction` -/

/-- C20: the balance test of `TxCustomToken.ValidateTransaction` compares
`uint64` totals. The sample transfer spends one prior output of 5 units and
pays `2^63`, `2^63` and 5 units (each a `uint64` value); it is accepted, while
the exact sum of the referenced prior outputs is 5 and the exact sum of its
vouts is `2^64 + 5`. -/
theorem balance_overflow_accepted :
    TxCustomToken.ValidateTransaction sampleTokenValidation overflowTransfer false () 0 none
      = .done (true, none) ∧
    (∀ vout ∈ overflowTransfer.TxTokenData.Vouts, vout.Value < 2 ^ 64) ∧
    exactVinSum overflowTransfer.listUtxo overflowTransfer.TxTokenData.Vins = 5 ∧
    exactVoutSum overflowTransfer.TxTokenData.Vouts = 2 ^ 64 + 5 ∧
    exactVinSum overflowTransfer.listUtxo overflowTransfer.TxTokenData.Vins
      ≠ exactVoutSum overflowTransfer.TxTokenData.Vouts := by
  refine ⟨by rfl, ?_, by rfl, by rfl, by decide⟩
  intro vout hv
  simp only [overflowTransfer, TxCustomToken.TxTokenData, List.mem_cons, List.mem_singleton,
    List.not_mem_nil, or_false] at hv
  rcases hv with rfl | rfl | rfl <;> norm_num

/-- The `uint64` total of the vout loop is the exact sum reduced modulo
`2^64`. -/
theorem voutTotal_eq (vouts : List TxTokenVout) (total : Nat) (htotal : total < 2 ^ 64) :
    vouts.foldl (fun total vout => (total + vout.Value) % 2 ^ 64) total
      = (total + exactVoutSum vouts) % 2 ^ 64 := by
  induction vouts generalizing total with
  | nil =>
    simp only [List.foldl_nil, exactVoutSum, List.map_nil, List.sum_nil, Nat.add_zero]
    exact (Nat.mod_eq_of_lt htotal).symm
  | cons v vs ih =>
    rw [List.foldl_cons, ih _ (Nat.mod_lt _ (by positivity))]
    simp only [exactVoutSum, List.map_cons, List.sum_cons]
    rw [Nat.add_mod, Nat.mod_mod, ← Nat.add_mod, Nat.add_assoc]

/-- A completed vin loop returns the running total plus the exact sum of the
referenced outputs, reduced modulo `2^64`. -/
theorem sumVins_total {T D : Type} (env : TokenValidation T D)
    (listUtxo : List (Hash × TxCustomToken T)) (vins : List TxTokenVin) (total r : Nat)
    (htotal : total < 2 ^ 64)
    (h : sumVins env listUtxo vins total = .done (.ok r)) :
    r = (total + exactVinSum listUtxo vins) % 2 ^ 64 := by
  induction vins generalizing total with
  | nil =>
    simp only [sumVins, Run.done.injEq, Except.ok.injEq] at h
    subst h
    simp only [exactVinSum, List.map_nil, List.sum_nil, Nat.add_zero]
    exact (Nat.mod_eq_of_lt htotal).symm
  | cons vin vins ih =>
    simp only [sumVins] at h
    split at h
    · simp at h
    · rename_i hidx
      split at h
      · simp at h
      · rename_i vout hvout
        split at h
        · simp at h
        · simp at h
        · have hrec := ih _ (Nat.mod_lt _ (by positivity)) h
          rw [hrec]
          have hval : exactVinSum listUtxo (vin :: vins)
              = vout.Value + exactVinSum listUtxo vins := by
            simp only [exactVinSum, List.map_cons, List.sum_cons]
            congr 1
            rcases hl : listUtxo.lookup vin.TxCustomTokenID with _ | utxo
            · simp [hl] at hvout
            · simp only [hl] at hvout
              simp [hidx, hvout]
          rw [hval, Nat.add_mod, Nat.mod_mod, ← Nat.add_mod, Nat.add_assoc]

/-- An early return of the vin loop reports false. -/
theorem sumVins_error_false {T D : Type} (env : TokenValidation T D)
    (listUtxo : List (Hash × TxCustomToken T)) (vins : List TxTokenVin) (total : Nat)
    (result : Bool × Option Err)
    (h : sumVins env listUtxo vins total = .done (.error result)) : result.1 = false := by
  induction vins generalizing total with
  | nil => simp [sumVins] at h
  | cons vin vins ih =>
    simp only [sumVins] at h
    split at h
    · simp at h
    · split at h
      · simp at h
      · split at h
        · simp only [Run.done.injEq, Except.error.injEq] at h
          subst h
          rfl
        · simp only [Run.done.injEq, Except.error.injEq] at h
          subst h
          rfl
        · exact ih _ h

/-- The balance law without overflow: an accepted transfer whose exact vin
and vout sums are both below `2^64` has equal exact sums. -/
theorem balance_exact_below_wrap {T D : Type} (env : TokenValidation T D)
    (customTokenTx : TxCustomToken T) (hasPrivacy : Bool) (db : D) (shardID : Byte)
    (tokenID : Option Hash) (err : Option Err)
    (hin : exactVinSum customTokenTx.listUtxo customTokenTx.TxTokenData.Vins < 2 ^ 64)
    (hout : exactVoutSum customTokenTx.TxTokenData.Vouts < 2 ^ 64)
    (h : TxCustomToken.ValidateTransaction env customTokenTx hasPrivacy db shardID tokenID
      = .done (true, err)) :
    exactVinSum customTokenTx.listUtxo customTokenTx.TxTokenData.Vins
      = exactVoutSum customTokenTx.TxTokenData.Vouts := by
  unfold TxCustomToken.ValidateTransaction at h
  split at h
  · split at h
    · simp at h
    · split at h
      · simp at h
      · split at h
        · simp at h
        · simp at h
        · rename_i result hres
          simp only [Run.done.injEq] at h
          subst h
          have := sumVins_error_false env _ _ 0 _ hres
          simp at this
        · rename_i totalVinAmount hsum
          dsimp only at h
          split at h
          · simp at h
          · rename_i heq
            have hv := sumVins_total env _ _ 0 totalVinAmount (by norm_num) hsum
            rw [Nat.zero_add, Nat.mod_eq_of_lt hin] at hv
            have heq2 := not_not.mp heq
            have hw := voutTotal_eq customTokenTx.TxTokenData.Vouts 0 (by norm_num)
            rw [Nat.zero_add, Nat.mod_eq_of_lt hout] at hw
            rw [← hv, heq2]
            exact hw
  · simp at h

/-! ## Claims on the double-spend tests of custom-token transactions -/

theorem conflictWithItems_some {T D : Type} (rules : TokenRules T D) (vin : TxTokenVin)
    (items : List TxTokenVin)
    (h : ∃ item ∈ items, rules.HashString vin.TxCustomTokenID
        = rules.HashString item.TxCustomTokenID ∧ vin.VoutIndex = item.VoutIndex) :
    conflictWithItems rules vin items = some (.transaction .DoubleSpend none []) := by
  induction items with
  | nil => simp at h
  | cons item items ih =>
    obtain ⟨x, hx, h1, h2⟩ := h
    simp only [conflictWithItems]
    rcases List.mem_cons.mp hx with rfl | hx
    · rw [if_pos h1, if_pos h2]
    · have := ih ⟨x, hx, h1, h2⟩
      split
      · split
        · rfl
        · exact this
      · exact this

theorem conflictWithItems_none {T D : Type} (rules : TokenRules T D) (vin : TxTokenVin)
    (items : List TxTokenVin)
    (h : ¬ ∃ item ∈ items, rules.HashString vin.TxCustomTokenID
        = rules.HashString item.TxCustomTokenID ∧ vin.VoutIndex = item.VoutIndex) :
    conflictWithItems rules vin items = none := by
  induction items with
  | nil => rfl
  | cons item items ih =>
    have hrest : conflictWithItems rules vin items = none := by
      apply ih
      rintro ⟨x, hx, h1, h2⟩
      exact h ⟨x, List.mem_cons_of_mem _ hx, h1, h2⟩
    simp only [conflictWithItems, hrest]
    split
    · rename_i h1
      split
      · rename_i h2
        exact absurd ⟨item, List.mem_cons_self _ _, h1, h2⟩ h
      · rfl
    · rfl

theorem conflictWithVins_some {T D : Type} (rules : TokenRules T D)
    (items vins : List TxTokenVin)
    (h : ∃ vin ∈ vins, ∃ item ∈ items, rules.HashString vin.TxCustomTokenID
        = rules.HashString item.TxCustomTokenID ∧ vin.VoutIndex = item.VoutIndex) :
    conflictWithVins rules items vins = some (.transaction .DoubleSpend none []) := by
  induction vins with
  | nil => simp at h
  | cons vin vins ih =>
    obtain ⟨x, hx, hitem⟩ := h
    simp only [conflictWithVins]
    by_cases hv : ∃ item ∈ items, rules.HashString vin.TxCustomTokenID
        = rules.HashString item.TxCustomTokenID ∧ vin.VoutIndex = item.VoutIndex
    · rw [conflictWithItems_some rules vin items hv]
    · rw [conflictWithItems_none rules vin items hv]
      rcases List.mem_cons.mp hx with rfl | hx
      · exact absurd hitem hv
      · exact ih ⟨x, hx, hitem⟩

theorem conflictWithVins_none {T D : Type} (rules : TokenRules T D)
    (items vins : List TxTokenVin)
    (h : ¬ ∃ vin ∈ vins, ∃ item ∈ items, rules.HashString vin.TxCustomTokenID
        = rules.HashString item.TxCustomTokenID ∧ vin.VoutIndex = item.VoutIndex) :
    conflictWithVins rules items vins = none := by
  induction vins with
  | nil => rfl
  | cons vin vins ih =>
    have hv : ¬ ∃ item ∈ items, rules.HashString vin.TxCustomTokenID
        = rules.HashString item.TxCustomTokenID ∧ vin.VoutIndex = item.VoutIndex :=
      fun hitem => h ⟨vin, List.mem_cons_self _ _, hitem⟩
    simp only [conflictWithVins, conflictWithItems_none rules vin items hv]
    apply ih
    rintro ⟨x, hx, hitem⟩
    exact h ⟨x, List.mem_cons_of_mem _ hx, hitem⟩

/-- The two loops return the double-spend error or nil. -/
theorem conflictWithVins_cases {T D : Type} (rules : TokenRules T D)
    (items vins : List TxTokenVin) :
    conflictWithVins rules items vins = some (.transaction .DoubleSpend none [])
      ∨ conflictWithVins rules items vins = none := by
  by_cases h : ∃ vin ∈ vins, ∃ item ∈ items, rules.HashString vin.TxCustomTokenID
      = rules.HashString item.TxCustomTokenID ∧ vin.VoutIndex = item.VoutIndex
  · exact Or.inl (conflictWithVins_some rules items vins h)
  · exact Or.inr (conflictWithVins_none rules items vins h)

/-- C21: pairwise double-spend test. For custom-token transactions `a` and
`b` (hash strings distinguishing the prior-transaction IDs of their vins),
`a.validateDoubleSpendCustomTokenOnTx(b)` returns the `DoubleSpend` error if
and only if some vin of `a` and some vin of `b` have the same prior
transaction ID and the same `VoutIndex`; otherwise it returns nil. -/
theorem pairwise_double_spend {T D : Type} (rules : TokenRules T D) (a b : TxCustomToken T)
    (hinj : ∀ va ∈ a.TxTokenData.Vins, ∀ vb ∈ b.TxTokenData.Vins,
      rules.HashString vb.TxCustomTokenID = rules.HashString va.TxCustomTokenID →
      vb.TxCustomTokenID = va.TxCustomTokenID) :
    (a.validateDoubleSpendCustomTokenOnTx rules (.customToken b)
        = .done (some (.transaction .DoubleSpend none [])) ↔
      ∃ va ∈ a.TxTokenData.Vins, ∃ vb ∈ b.TxTokenData.Vins,
        va.TxCustomTokenID = vb.TxCustomTokenID ∧ va.VoutIndex = vb.VoutIndex) ∧
    ((¬ ∃ va ∈ a.TxTokenData.Vins, ∃ vb ∈ b.TxTokenData.Vins,
        va.TxCustomTokenID = vb.TxCustomTokenID ∧ va.VoutIndex = vb.VoutIndex) →
      a.validateDoubleSpendCustomTokenOnTx rules (.customToken b) = .done none) := by
  have hiff : (∃ vin ∈ b.TxTokenData.Vins, ∃ item ∈ a.TxTokenData.Vins,
      rules.HashString vin.TxCustomTokenID = rules.HashString item.TxCustomTokenID
        ∧ vin.VoutIndex = item.VoutIndex) ↔
      ∃ va ∈ a.TxTokenData.Vins, ∃ vb ∈ b.TxTokenData.Vins,
        va.TxCustomTokenID = vb.TxCustomTokenID ∧ va.VoutIndex = vb.VoutIndex := by
    constructor
    · rintro ⟨vb, hb, va, ha, h1, h2⟩
      exact ⟨va, ha, vb, hb, (hinj va ha vb hb h1).symm, h2.symm⟩
    · rintro ⟨va, ha, vb, hb, h1, h2⟩
      exact ⟨vb, hb, va, ha, by rw [h1], h2.symm⟩
  simp only [TxCustomToken.validateDoubleSpendCustomTokenOnTx]
  refine ⟨⟨?_, ?_⟩, ?_⟩
  · intro h
    by_contra hno
    rw [conflictWithVins_none rules _ _ (fun hc => hno (hiff.mp hc))] at h
    simp at h
  · intro h
    rw [conflictWithVins_some rules _ _ (hiff.mpr h)]
  · intro hno
    rw [conflictWithVins_none rules _ _ (fun hc => hno (hiff.mp hc))]

/-- Witness of C21: `sampleTransfer` and `overflowTransfer` both spend output
0 of the transaction `[9]`. -/
theorem pairwise_double_spend_witness :
    sampleTransfer.validateDoubleSpendCustomTokenOnTx sampleRules (.customToken overflowTransfer)
      = .done (some (.transaction .DoubleSpend none [])) ∧
    ∃ va ∈ sampleTransfer.TxTokenData.Vins, ∃ vb ∈ overflowTransfer.TxTokenData.Vins,
      va.TxCustomTokenID = vb.TxCustomTokenID ∧ va.VoutIndex = vb.VoutIndex :=
  ⟨rfl, (pairwise_double_spend sampleRules sampleTransfer overflowTransfer (by
    intro va ha vb hb _
    simp only [sampleTransfer, overflowTransfer, TxCustomToken.TxTokenData,
      List.mem_singleton] at ha hb
    rw [ha, hb])).1.mp rfl⟩

/-- Every error of the loop over the pool is `UnexpectedErr` wrapping
`DoubleSpend`. -/
theorem checkTxsInMem_error {T D : Type} (rules : TokenRules T D)
    (customTokenTx : TxCustomToken T) (txsInMem : List (Transaction T)) (e : Err)
    (h : checkTxsInMem rules customTokenTx txsInMem = .done (some e)) :
    e = .transaction .UnexpectedErr (some (.transaction .DoubleSpend none [])) [] := by
  induction txsInMem with
  | nil => simp [checkTxsInMem] at h
  | cons txInMem txsInMem ih =>
    simp only [checkTxsInMem] at h
    split at h
    · cases txInMem with
      | other tx => simp [TxCustomToken.validateDoubleSpendCustomTokenOnTx] at h
      | customToken temp =>
        simp only [TxCustomToken.validateDoubleSpendCustomTokenOnTx] at h
        rcases conflictWithVins_cases rules customTokenTx.TxTokenData.Vins
          temp.TxTokenData.Vins with hc | hc
        · simp only [hc, Run.done.injEq, Option.some.injEq] at h
          exact h.symm
        · simp only [hc] at h
          exact ih h
    · exact ih h

/-- Every error of the loop over the chain's transactions is `UnexpectedErr`
wrapping `DoubleSpend`. -/
theorem checkTxsInBlocks_error {T D : Type} (rules : TokenRules T D)
    (customTokenTx : TxCustomToken T) (listTxs : List (Hash × Transaction T)) (e : Err)
    (h : checkTxsInBlocks rules customTokenTx listTxs = .done (some e)) :
    e = .transaction .UnexpectedErr (some (.transaction .DoubleSpend none [])) [] := by
  induction listTxs with
  | nil => simp [checkTxsInBlocks] at h
  | cons entry listTxs ih =>
    obtain ⟨key, txInBlocks⟩ := entry
    simp only [checkTxsInBlocks] at h
    cases txInBlocks with
    | other tx => simp [TxCustomToken.validateDoubleSpendCustomTokenOnTx] at h
    | customToken temp =>
      simp only [TxCustomToken.validateDoubleSpendCustomTokenOnTx] at h
      rcases conflictWithVins_cases rules customTokenTx.TxTokenData.Vins
        temp.TxTokenData.Vins with hc | hc
      · simp only [hc, Run.done.injEq, Option.some.injEq] at h
        exact h.symm
      · simp only [hc] at h
        exact ih h

/-- C22 (as amended): pool and chain double-spend failures carry the same
error. Once the type guard and the native check have passed, every error of
`ValidateTxWithCurrentMempool` is `UnexpectedErr` wrapping `DoubleSpend`; and
whenever the chain holds transactions of the token, every error of
`validateDoubleSpendCustomTokenWithBlockchain` is that same error, which
`ValidateTxWithBlockChain` returns unchanged once its own guards have passed. -/
theorem double_spend_errors_coincide {T D : Type} (rules : TokenRules T D)
    (customTokenTx : TxCustomToken T) (mr : MempoolRetriever T)
    (bcr : BlockchainRetriever T) (shardID : Byte) (db : D)
    (listTxs : List (Hash × Transaction T))
    (htype : rules.TxType customTokenTx.Tx ≠ rules.TxRewardType
      ∧ rules.TxType customTokenTx.Tx ≠ rules.TxReturnStakingType)
    (hpool : rules.TxValidateTxWithCurrentMempool customTokenTx.Tx mr = none)
    (hmeta : rules.TxMetadata customTokenTx.Tx = none)
    (hchain : rules.TxValidateDoubleSpendWithBlockchain customTokenTx.Tx bcr shardID db = none)
    (hlist : bcr.GetCustomTokenTxs customTokenTx.TxTokenData.PropertyID = .ok listTxs)
    (hne : listTxs ≠ []) :
    (∀ e : Err, customTokenTx.ValidateTxWithCurrentMempool rules mr = .done (some e) →
      e = .transaction .UnexpectedErr (some (.transaction .DoubleSpend none [])) []) ∧
    (∀ e : Err,
      customTokenTx.validateDoubleSpendCustomTokenWithBlockchain rules bcr = .done (some e) →
      e = .transaction .UnexpectedErr (some (.transaction .DoubleSpend none [])) []) ∧
    customTokenTx.ValidateTxWithBlockChain rules bcr shardID db
      = customTokenTx.validateDoubleSpendCustomTokenWithBlockchain rules bcr := by
  have hlen : listTxs.length ≠ 0 := by
    intro h0
    exact hne (List.length_eq_zero.mp h0)
  refine ⟨?_, ?_, ?_⟩
  · intro e h
    simp only [TxCustomToken.ValidateTxWithCurrentMempool, htype.1, htype.2, or_self, if_false,
      hpool] at h
    exact checkTxsInMem_error rules customTokenTx _ e h
  · intro e h
    simp only [TxCustomToken.validateDoubleSpendCustomTokenWithBlockchain, hlist, hlen,
      false_and, if_false, Nat.pos_of_ne_zero hlen, if_true] at h
    exact checkTxsInBlocks_error rules customTokenTx _ e h
  · simp only [TxCustomToken.ValidateTxWithBlockChain, htype.1, htype.2, if_false, hmeta, hchain]

/-- Witness of C22 (as amended) on `sampleTransfer`, `samplePool` and
`sampleChain`. -/
theorem double_spend_errors_coincide_witness :
    (∀ e : Err, sampleTransfer.ValidateTxWithCurrentMempool sampleRules samplePool
        = .done (some e) →
      e = .transaction .UnexpectedErr (some (.transaction .DoubleSpend none [])) []) ∧
    (∀ e : Err,
      sampleTransfer.validateDoubleSpendCustomTokenWithBlockchain sampleRules sampleChain
        = .done (some e) →
      e = .transaction .UnexpectedErr (some (.transaction .DoubleSpend none [])) []) ∧
    sampleTransfer.ValidateTxWithBlockChain sampleRules sampleChain 0 ()
      = sampleTransfer.validateDoubleSpendCustomTokenWithBlockchain sampleRules sampleChain :=
  double_spend_errors_coincide sampleRules sampleTransfer samplePool sampleChain 0 ()
    [([8], .customToken overflowTransfer)] (by decide) rfl rfl rfl rfl (by simp)

/-- Counterexample to C22 as stated: `sampleTransfer` conflicts with the
pending `overflowTransfer` of `samplePool` and with the historical
`overflowTransfer` of `sampleChain`; `ValidateTxWithCurrentMempool` and
`ValidateTxWithBlockChain` return the same error, of the same kind
`UnexpectedErr`. -/
theorem double_spend_errors_equal :
    sampleTransfer.ValidateTxWithCurrentMempool sampleRules samplePool
      = .done (some (.transaction .UnexpectedErr (some (.transaction .DoubleSpend none [])) []))
    ∧ sampleTransfer.ValidateTxWithBlockChain sampleRules sampleChain 0 ()
      = .done (some (.transaction .UnexpectedErr (some (.transaction .DoubleSpend none [])) []))
    ∧ sampleTransfer.ValidateTxWithCurrentMempool sampleRules samplePool
      = sampleTransfer.ValidateTxWithBlockChain sampleRules sampleChain 0 () :=
  ⟨rfl, rfl, rfl⟩

/-- C28: transfers of an unknown token are rejected against the chain. When
the chain holds no transaction for the property ID,
`validateDoubleSpendCustomTokenWithBlockchain` returns a `TxNotExist` error if
the type is neither `CustomTokenInit` nor `CustomTokenCrossShard`, and nil if
it is `CustomTokenInit` or `CustomTokenCrossShard`. -/
theorem unknown_token_rejected {T D : Type} (rules : TokenRules T D)
    (customTokenTx : TxCustomToken T) (bcr : BlockchainRetriever T)
    (hlist : bcr.GetCustomTokenTxs customTokenTx.TxTokenData.PropertyID = .ok []) :
    ((customTokenTx.TxTokenData.Type_ ≠ rules.CustomTokenInit
        ∧ customTokenTx.TxTokenData.Type_ ≠ rules.CustomTokenCrossShard) →
      customTokenTx.validateDoubleSpendCustomTokenWithBlockchain rules bcr
        = .done (some (.transaction .TxNotExist none []))) ∧
    ((customTokenTx.TxTokenData.Type_ = rules.CustomTokenInit
        ∨ customTokenTx.TxTokenData.Type_ = rules.CustomTokenCrossShard) →
      customTokenTx.validateDoubleSpendCustomTokenWithBlockchain rules bcr = .done none) := by
  constructor
  · intro h
    simp only [TxCustomToken.validateDoubleSpendCustomTokenWithBlockchain, hlist,
      List.length_nil, h.1, h.2, ne_eq, not_false_eq_true, and_self, if_true]
  · intro h
    have hn : ¬ (customTokenTx.TxTokenData.Type_ ≠ rules.CustomTokenInit
        ∧ customTokenTx.TxTokenData.Type_ ≠ rules.CustomTokenCrossShard) := by
      rintro ⟨h1, h2⟩
      rcases h with h | h
      · exact h1 h
      · exact h2 h
    simp only [TxCustomToken.validateDoubleSpendCustomTokenWithBlockchain, hlist,
      List.length_nil, true_and, hn, if_false, Nat.lt_irrefl]

/-- Witness of C28: a transfer of the token `[6]`, of which `sampleChain` holds
nothing. -/
theorem unknown_token_rejected_witness :
    sampleChain.GetCustomTokenTxs [6] = .ok [] ∧
    (TxCustomToken.mk () ⟨[6], "other", "OTH", 1, false, 0,
        [⟨[9], 0, "sig", sampleAddress⟩], [⟨5, sampleAddress, 0, []⟩]⟩ []
      ).validateDoubleSpendCustomTokenWithBlockchain sampleRules sampleChain
      = .done (some (.transaction .TxNotExist none [])) :=
  ⟨rfl, (unknown_token_rejected sampleRules
    (TxCustomToken.mk () ⟨[6], "other", "OTH", 1, false, 0,
      [⟨[9], 0, "sig", sampleAddress⟩], [⟨5, sampleAddress, 0, []⟩]⟩ [])
    sampleChain rfl).1 ⟨by decide, by decide⟩⟩

/-! ## Claims on `ValidateTxByItself` -/

/-- The `CustomTokenInit` branch of `ValidateTxByItself` in closed form. -/
theorem ValidateTxByItself_init {T D : Type} (env : TokenValidation T D)
    (rules : TokenRules T D) (customTokenTx : TxCustomToken T) (hasPrivacy : Bool) (db : D)
    (bcr : BlockchainRetriever T) (shardID : Byte)
    (hinit : customTokenTx.TxTokenData.Type_ = rules.CustomTokenInit) :
    customTokenTx.ValidateTxByItself env rules hasPrivacy db bcr shardID
      = if (env.TxValidateTransaction customTokenTx.Tx hasPrivacy db shardID
            (some rules.PRVCoinID)).1 = false then
          .done ((false, (env.TxValidateTransaction customTokenTx.Tx hasPrivacy db shardID
            (some rules.PRVCoinID)).2), customTokenTx)
        else if customTokenTx.TxTokenData.Vouts.length ≠ 1 then
          .done ((false, some (.new "Length of Vouts != 1")), customTokenTx)
        else if customTokenTx.TxTokenData.Vins.length ≠ 0 then
          .done ((false, some (.new "Length of Vins != 0 and Vins is nil")), customTokenTx)
        else .done ((true, none), customTokenTx) := by
  rcases hr : env.TxValidateTransaction customTokenTx.Tx hasPrivacy db shardID
    (some rules.PRVCoinID) with ⟨ok, err⟩
  simp only [TxCustomToken.ValidateTxByItself, hinit, if_true, hr]
  cases ok <;> simp

/-- The `CustomTokenCrossShard` branch of `ValidateTxByItself` in closed
form. -/
theorem ValidateTxByItself_crossShard {T D : Type} (env : TokenValidation T D)
    (rules : TokenRules T D) (customTokenTx : TxCustomToken T) (hasPrivacy : Bool) (db : D)
    (bcr : BlockchainRetriever T) (shardID : Byte)
    (hcross : customTokenTx.TxTokenData.Type_ = rules.CustomTokenCrossShard)
    (hne : rules.CustomTokenCrossShard ≠ rules.CustomTokenInit) :
    customTokenTx.ValidateTxByItself env rules hasPrivacy db bcr shardID
      = if (env.TxValidateTransaction customTokenTx.Tx hasPrivacy db shardID
            (some rules.PRVCoinID)).1 = false then
          .done ((false, (env.TxValidateTransaction customTokenTx.Tx hasPrivacy db shardID
            (some rules.PRVCoinID)).2), customTokenTx)
        else if customTokenTx.listUtxo.length ≠ 0 then
          .done ((false, some (.new "Length listUtxo != 0")), customTokenTx)
        else if customTokenTx.TxTokenData.Vins.length ≠ 0 then
          .done ((false, some (.new "Length Vins != 0")), customTokenTx)
        else .done ((true, none), customTokenTx) := by
  rcases hr : env.TxValidateTransaction customTokenTx.Tx hasPrivacy db shardID
    (some rules.PRVCoinID) with ⟨ok, err⟩
  simp only [TxCustomToken.ValidateTxByItself, hcross, hne, if_false, if_true, hr]
  cases ok <;> simp

/-- C23: shape of an accepted Init token transaction. For a transaction whose
`TxTokenData.Type` is `CustomTokenInit`, `ValidateTxByItself` returns true if
and only if the embedded native transaction validates, the transaction has
exactly one vout and it has no vins; otherwise it returns false. -/
theorem init_shape {T D : Type} (env : TokenValidation T D) (rules : TokenRules T D)
    (customTokenTx : TxCustomToken T) (hasPrivacy : Bool) (db : D)
    (bcr : BlockchainRetriever T) (shardID : Byte)
    (hinit : customTokenTx.TxTokenData.Type_ = rules.CustomTokenInit) :
    (customTokenTx.ValidateTxByItself env rules hasPrivacy db bcr shardID
        = .done ((true, none), customTokenTx) ↔
      ((env.TxValidateTransaction customTokenTx.Tx hasPrivacy db shardID
          (some rules.PRVCoinID)).1 = true
        ∧ customTokenTx.TxTokenData.Vouts.length = 1
        ∧ customTokenTx.TxTokenData.Vins.length = 0)) ∧
    (¬ ((env.TxValidateTransaction customTokenTx.Tx hasPrivacy db shardID
          (some rules.PRVCoinID)).1 = true
        ∧ customTokenTx.TxTokenData.Vouts.length = 1
        ∧ customTokenTx.TxTokenData.Vins.length = 0) →
      ∃ err, customTokenTx.ValidateTxByItself env rules hasPrivacy db bcr shardID
        = .done ((false, err), customTokenTx)) := by
  rw [ValidateTxByItself_init env rules customTokenTx hasPrivacy db bcr shardID hinit]
  by_cases h1 : (env.TxValidateTransaction customTokenTx.Tx hasPrivacy db shardID
      (some rules.PRVCoinID)).1 = false
  · rw [if_pos h1]
    simp [h1]
  · rw [if_neg h1]
    have h1t := (Bool.not_eq_false _).mp h1
    by_cases h2 : customTokenTx.TxTokenData.Vouts.length ≠ 1
    · rw [if_pos h2]
      simp [h1t, h2]
    · rw [if_neg h2]
      have h2t := not_not.mp h2
      by_cases h3 : customTokenTx.TxTokenData.Vins.length ≠ 0
      · rw [if_pos h3]
        simp [h1t, h2t, h3]
      · rw [if_neg h3]
        have h3t := not_not.mp h3
        simp [h1t, h2t, h3t]

/-- Witness of C23 on `sampleInitTx`. -/
theorem init_shape_witness :
    sampleInitTx.TxTokenData.Type_ = sampleRules.CustomTokenInit ∧
    sampleInitTx.ValidateTxByItself sampleTokenValidation sampleRules false () sampleChain 0
      = .done ((true, none), sampleInitTx) :=
  ⟨rfl, (init_shape sampleTokenValidation sampleRules sampleInitTx false () sampleChain 0
    rfl).1.mpr ⟨rfl, rfl, rfl⟩⟩

/-- C24: cross-shard token transactions carry vouts only. For a transaction
whose `TxTokenData.Type` is `CustomTokenCrossShard`, `ValidateTxByItself`
returns true if and only if the embedded native transaction validates, the
attached utxo map is empty and the vin list is empty, and it leaves the
transaction as it was (no utxo is fetched); the result is the same for every
`BlockchainRetriever` and for every cross-shard transaction with the same
native transaction, as many utxo entries and as many vins, whatever its vouts
and vin signatures. -/
theorem crossShard_shape {T D : Type} (env : TokenValidation T D) (rules : TokenRules T D)
    (customTokenTx : TxCustomToken T) (hasPrivacy : Bool) (db : D)
    (bcr : BlockchainRetriever T) (shardID : Byte)
    (hcross : customTokenTx.TxTokenData.Type_ = rules.CustomTokenCrossShard)
    (hne : rules.CustomTokenCrossShard ≠ rules.CustomTokenInit) :
    (customTokenTx.ValidateTxByItself env rules hasPrivacy db bcr shardID
        = .done ((true, none), customTokenTx) ↔
      ((env.TxValidateTransaction customTokenTx.Tx hasPrivacy db shardID
          (some rules.PRVCoinID)).1 = true
        ∧ customTokenTx.listUtxo.length = 0
        ∧ customTokenTx.TxTokenData.Vins.length = 0)) ∧
    (¬ ((env.TxValidateTransaction customTokenTx.Tx hasPrivacy db shardID
          (some rules.PRVCoinID)).1 = true
        ∧ customTokenTx.listUtxo.length = 0
        ∧ customTokenTx.TxTokenData.Vins.length = 0) →
      ∃ err, customTokenTx.ValidateTxByItself env rules hasPrivacy db bcr shardID
        = .done ((false, err), customTokenTx)) ∧
    (∀ (other : TxCustomToken T) (bcr2 : BlockchainRetriever T),
      other.TxTokenData.Type_ = rules.CustomTokenCrossShard →
      other.Tx = customTokenTx.Tx →
      other.listUtxo.length = customTokenTx.listUtxo.length →
      other.TxTokenData.Vins.length = customTokenTx.TxTokenData.Vins.length →
      ∃ result : Bool × Option Err,
        customTokenTx.ValidateTxByItself env rules hasPrivacy db bcr shardID
          = .done (result, customTokenTx) ∧
        other.ValidateTxByItself env rules hasPrivacy db bcr2 shardID
          = .done (result, other)) := by
  refine ⟨?_, ?_, ?_⟩
  · rw [ValidateTxByItself_crossShard env rules customTokenTx hasPrivacy db bcr shardID
      hcross hne]
    by_cases h1 : (env.TxValidateTransaction customTokenTx.Tx hasPrivacy db shardID
        (some rules.PRVCoinID)).1 = false
    · rw [if_pos h1]
      simp [h1]
    · rw [if_neg h1]
      have h1t := (Bool.not_eq_false _).mp h1
      by_cases h2 : customTokenTx.listUtxo.length ≠ 0
      · rw [if_pos h2]
        simp [h1t, h2]
      · rw [if_neg h2]
        have h2t := not_not.mp h2
        by_cases h3 : customTokenTx.TxTokenData.Vins.length ≠ 0
        · rw [if_pos h3]
          simp [h1t, h2t, h3]
        · rw [if_neg h3]
          have h3t := not_not.mp h3
          simp [h1t, h2t, h3t]
  · rw [ValidateTxByItself_crossShard env rules customTokenTx hasPrivacy db bcr shardID
      hcross hne]
    intro hn
    by_cases h1 : (env.TxValidateTransaction customTokenTx.Tx hasPrivacy db shardID
        (some rules.PRVCoinID)).1 = false
    · rw [if_pos h1]
      exact ⟨_, rfl⟩
    · rw [if_neg h1]
      have h1t := (Bool.not_eq_false _).mp h1
      by_cases h2 : customTokenTx.listUtxo.length ≠ 0
      · rw [if_pos h2]
        exact ⟨_, rfl⟩
      · rw [if_neg h2]
        by_cases h3 : customTokenTx.TxTokenData.Vins.length ≠ 0
        · rw [if_pos h3]
          exact ⟨_, rfl⟩
        · exact absurd ⟨h1t, not_not.mp h2, not_not.mp h3⟩ hn
  · intro other bcr2 hcross2 htx hutxo hvins
    rw [ValidateTxByItself_crossShard env rules customTokenTx hasPrivacy db bcr shardID
        hcross hne,
      ValidateTxByItself_crossShard env rules other hasPrivacy db bcr2 shardID hcross2 hne,
      htx, hutxo, hvins]
    by_cases h1 : (env.TxValidateTransaction customTokenTx.Tx hasPrivacy db shardID
        (some rules.PRVCoinID)).1 = false
    · rw [if_pos h1, if_pos h1]
      exact ⟨_, rfl, rfl⟩
    · rw [if_neg h1, if_neg h1]
      by_cases h2 : customTokenTx.listUtxo.length ≠ 0
      · rw [if_pos h2, if_pos h2]
        exact ⟨_, rfl, rfl⟩
      · rw [if_neg h2, if_neg h2]
        by_cases h3 : customTokenTx.TxTokenData.Vins.length ≠ 0
        · rw [if_pos h3, if_pos h3]
          exact ⟨_, rfl, rfl⟩
        · rw [if_neg h3, if_neg h3]
          exact ⟨_, rfl, rfl⟩

/-- Witness of C24 on `sampleCrossShardTx`. -/
theorem crossShard_shape_witness :
    sampleCrossShardTx.TxTokenData.Type_ = sampleRules.CustomTokenCrossShard ∧
    sampleCrossShardTx.ValidateTxByItself sampleTokenValidation sampleRules false ()
        sampleChain 0
      = .done ((true, none), sampleCrossShardTx) :=
  ⟨rfl, (crossShard_shape sampleTokenValidation sampleRules sampleCrossShardTx false ()
    sampleChain 0 rfl (by decide)).1.mpr ⟨rfl, rfl, rfl⟩⟩

/-! ## Claims on `TxCustomToken.Init` -/

/-- C25 (as amended): a derived token ID must be fresh. For a call of `Init`
with `TokenTxType = CustomTokenInit` (the native transaction initialised, a
receiver present): when `Mintable` is false and the derived property ID exists
in the store, `Init` returns a `CustomTokenExisted` error and the token data
it leaves has no property ID; when `Mintable` is true the caller-supplied ID
is not looked up: `Init` succeeds with that ID whether or not the store knows
it. -/
theorem derived_token_id_fresh {T A D : Type} (rules : TokenRules T D)
    (init : TokenInit T A D) (txCustomToken : TxCustomToken T) (args : A)
    (tokenParams : CustomTokenParamTx) (db : D) (shardID : Byte) (normalTx : T)
    (receiver : TxTokenVout) (receivers : List TxTokenVout)
    (htype : tokenParams.TokenTxType = rules.CustomTokenInit)
    (hne : rules.CustomTokenInit ≠ rules.CustomTokenCrossShard)
    (hinit : init.TxInit args db = .ok normalTx)
    (hrecv : tokenParams.Receiver = receiver :: receivers) :
    (∀ hashInitToken : Hash, tokenParams.Mintable = false →
      init.TxTokenDataHash ⟨zeroHash, tokenParams.PropertyName, tokenParams.PropertySymbol,
        tokenParams.TokenTxType, false, tokenParams.Amount, [], [voutOfReceiver receiver]⟩
        = .ok hashInitToken →
      init.CustomTokenIDExisted db (init.HashH (hashInitToken ++ [shardID])) = true →
      txCustomToken.Init rules init args tokenParams db shardID
        = .done (some (.transaction .CustomTokenExisted none []),
          .mk (init.SetType normalTx rules.TxCustomTokenType)
            ⟨zeroHash, tokenParams.PropertyName, tokenParams.PropertySymbol,
              tokenParams.TokenTxType, false, tokenParams.Amount, [],
              [voutOfReceiver receiver]⟩ txCustomToken.listUtxo)) ∧
    (∀ propertyID : Hash, tokenParams.Mintable = true →
      init.NewHashFromStr tokenParams.PropertyID = .ok propertyID →
      txCustomToken.Init rules init args tokenParams db shardID
        = .done (none,
          .mk (init.SetType (init.SetType normalTx rules.TxCustomTokenType)
              rules.TxCustomTokenType)
            ⟨propertyID, tokenParams.PropertyName, tokenParams.PropertySymbol,
              tokenParams.TokenTxType, true, tokenParams.Amount, [],
              [voutOfReceiver receiver]⟩ txCustomToken.listUtxo)) := by
  have hne2 : ¬ rules.CustomTokenInit = rules.CustomTokenCrossShard := hne
  constructor
  · intro hashInitToken hmint hhash hexist
    simp only [TxCustomToken.Init, hinit, htype, hne2, if_false, if_true, initTokenData,
      hrecv, hmint, Bool.false_eq_true, zeroTxTokenData]
    rw [htype] at hhash
    simp only [hhash, hexist, if_true]
  · intro propertyID hmint hparse
    simp only [TxCustomToken.Init, hinit, htype, hne2, if_false, if_true, initTokenData,
      hrecv, hmint, hparse, Bool.not_true, Bool.false_eq_true, zeroTxTokenData]

/-- Witness of C25 (as amended): the plain issue `derivedParams`, whose
derived ID `[7, 0]` the sample store knows. -/
theorem derived_token_id_fresh_witness :
    sampleInit.CustomTokenIDExisted () [7, 0] = true ∧
    emptyTokenTx.Init sampleRules sampleInit () derivedParams () 0
      = .done (some (.transaction .CustomTokenExisted none []),
        .mk () ⟨zeroHash, "token", "TKN", 0, false, 7, [],
          [⟨7, sampleAddress, 0, zeroHash⟩]⟩ []) :=
  ⟨rfl, (derived_token_id_fresh sampleRules sampleInit emptyTokenTx () derivedParams () 0 ()
    ⟨7, sampleAddress, 0, []⟩ [] rfl (by decide) rfl rfl).1 [7] rfl rfl rfl⟩

/-- Counterexample to C25 as stated: the mintable issue `mintableParams`
supplies the ID `"7"`, the store knows the token `[7]`, and `Init` returns nil
and produces the token transaction with that ID. -/
theorem mintable_id_not_checked :
    mintableParams.TokenTxType = sampleRules.CustomTokenInit ∧
    mintableParams.Mintable = true ∧
    sampleInit.NewHashFromStr mintableParams.PropertyID = .ok [7] ∧
    sampleInit.CustomTokenIDExisted () [7] = true ∧
    emptyTokenTx.Init sampleRules sampleInit () mintableParams () 0
      = .done (none, .mk () ⟨[7], "token", "TKN", 0, true, 5, [],
        [⟨5, sampleAddress, 0, zeroHash⟩]⟩ []) :=
  ⟨rfl, rfl, rfl, rfl, rfl⟩

/-- C26: the transfer case of `Init` computes the refund in `uint64`, so that
the test `refundTokenAmount < 0` never holds. The sample transfer pays 10
units out of inputs worth 5; `Init` returns nil and sets two vouts, the
receiver's 10 units and a change of `2^64 - 5` units. -/
theorem insufficient_input_accepted :
    overspendParams.TokenTxType = sampleRules.CustomTokenTransfer ∧
    exactVoutSum overspendParams.Receiver = 10 ∧
    overspendParams.vinsAmount = 5 ∧
    emptyTokenTx.Init sampleRules sampleInit () overspendParams () 0
      = .done (none, .mk () ⟨[7], "token", "TKN", 1, false, 0,
        [⟨[9], 0, "sig", sampleAddress⟩],
        [⟨10, sampleAddress, 0, zeroHash⟩, ⟨2 ^ 64 - 5, sampleAddress, 0, zeroHash⟩]⟩ []) :=
  ⟨rfl, rfl, rfl, rfl⟩

/-- The transfer case of `Init` never returns the `WrongInput` error. -/
theorem transfer_never_wrong_input {T A D : Type} (init : TokenInit T A D)
    (tokenParams : CustomTokenParamTx) (db : D) (cause : Option Err) (params : List String)
    (data : TxTokenData) :
    transferTokenData init tokenParams db
      ≠ .done (some (.transaction .WrongInput cause params), data) := by
  intro h
  unfold transferTokenData at h
  split at h
  · simp at h
  · dsimp only at h
    split at h
    · simp at h
    · split at h
      · simp at h
      · simp at h
      · split at h
        · rename_i hlt
          exact absurd hlt (Nat.not_lt_zero _)
        · simp at h

theorem exactVoutSum_voutOfReceiver (receivers : List TxTokenVout) :
    exactVoutSum (receivers.map voutOfReceiver) = exactVoutSum receivers := by
  induction receivers with
  | nil => rfl
  | cons r rs ih =>
    simp only [exactVoutSum, List.map_cons, List.sum_cons, voutOfReceiver] at ih ⊢
    rw [ih]

theorem exactVoutSum_append (xs ys : List TxTokenVout) :
    exactVoutSum (xs ++ ys) = exactVoutSum xs + exactVoutSum ys := by
  simp [exactVoutSum]

/-- The transfer case of `Init` when the receivers' exact sum is within the
input amount. -/
theorem transferTokenData_ok {T A D : Type} (init : TokenInit T A D)
    (tokenParams : CustomTokenParamTx) (db : D) (propertyID : Hash) (vin : TxTokenVin)
    (vins : List TxTokenVin)
    (hparse : init.NewHashFromStr tokenParams.PropertyID = .ok propertyID)
    (hexist : init.CustomTokenIDExisted db propertyID = true)
    (hvins : tokenParams.vins = vin :: vins)
    (hsum : exactVoutSum tokenParams.Receiver ≤ tokenParams.vinsAmount)
    (hu64 : tokenParams.vinsAmount < 2 ^ 64) :
    transferTokenData init tokenParams db
      = .done (none, ⟨propertyID, tokenParams.PropertyName, tokenParams.PropertySymbol,
          tokenParams.TokenTxType, tokenParams.Mintable, 0, tokenParams.vins,
          tokenParams.Receiver.map voutOfReceiver
            ++ (if tokenParams.vinsAmount > exactVoutSum tokenParams.Receiver then
                [⟨tokenParams.vinsAmount - exactVoutSum tokenParams.Receiver,
                  vin.PaymentAddress, 0, zeroHash⟩]
              else [])⟩) := by
  have hpay : tokenParams.Receiver.foldl
      (fun total receiver => (total + receiver.Value) % 2 ^ 64) 0
      = exactVoutSum tokenParams.Receiver := by
    rw [voutTotal_eq tokenParams.Receiver 0 (by norm_num), Nat.zero_add]
    exact Nat.mod_eq_of_lt (lt_of_le_of_lt hsum hu64)
  have hrefund : (tokenParams.vinsAmount + 2 ^ 64 - exactVoutSum tokenParams.Receiver) % 2 ^ 64
      = tokenParams.vinsAmount - exactVoutSum tokenParams.Receiver := by
    have h1 : tokenParams.vinsAmount + 2 ^ 64 - exactVoutSum tokenParams.Receiver
        = (tokenParams.vinsAmount - exactVoutSum tokenParams.Receiver) + 2 ^ 64 := by omega
    rw [h1, Nat.add_mod_right]
    exact Nat.mod_eq_of_lt (lt_of_le_of_lt (Nat.sub_le _ _) hu64)
  simp only [transferTokenData, hpay, hrefund, hparse, hexist, Bool.not_true,
    Bool.false_eq_true, if_false, zeroTxTokenData, hvins, Nat.not_lt_zero]
  by_cases hgt : tokenParams.vinsAmount > exactVoutSum tokenParams.Receiver
  · have hpos : tokenParams.vinsAmount - exactVoutSum tokenParams.Receiver > 0 := by omega
    simp only [hpos, hgt, if_true]
  · have hpos : ¬ tokenParams.vinsAmount - exactVoutSum tokenParams.Receiver > 0 := by omega
    simp only [hpos, hgt, if_false, List.append_nil]

/-- C27: value conservation of a constructed transfer. For a call of `Init`
with `TokenTxType = CustomTokenTransfer`, an existing token ID, a non-empty vin
list and receivers whose exact sum `S` is at most `vinsAmount` (a `uint64`),
`Init` succeeds and the vouts it sets are the receivers in order, followed by
exactly one change vout of value `vinsAmount - S` paid to the payment address
of the first vin when `vinsAmount > S` and by no change vout when `vinsAmount =
S`; the exact sum of the vout values is `vinsAmount`. -/
theorem transfer_conserves_value {T A D : Type} (rules : TokenRules T D)
    (init : TokenInit T A D) (txCustomToken : TxCustomToken T) (args : A)
    (tokenParams : CustomTokenParamTx) (db : D) (shardID : Byte) (normalTx : T)
    (propertyID : Hash) (vin : TxTokenVin) (vins : List TxTokenVin)
    (htype : tokenParams.TokenTxType = rules.CustomTokenTransfer)
    (hne1 : rules.CustomTokenTransfer ≠ rules.CustomTokenCrossShard)
    (hne2 : rules.CustomTokenTransfer ≠ rules.CustomTokenInit)
    (hinit : init.TxInit args db = .ok normalTx)
    (hparse : init.NewHashFromStr tokenParams.PropertyID = .ok propertyID)
    (hexist : init.CustomTokenIDExisted db propertyID = true)
    (hvins : tokenParams.vins = vin :: vins)
    (hsum : exactVoutSum tokenParams.Receiver ≤ tokenParams.vinsAmount)
    (hu64 : tokenParams.vinsAmount < 2 ^ 64) :
    txCustomToken.Init rules init args tokenParams db shardID
      = .done (none,
        .mk (init.SetType (init.SetType normalTx rules.TxCustomTokenType)
            rules.TxCustomTokenType)
          ⟨propertyID, tokenParams.PropertyName, tokenParams.PropertySymbol,
            tokenParams.TokenTxType, tokenParams.Mintable, 0, tokenParams.vins,
            tokenParams.Receiver.map voutOfReceiver
              ++ (if tokenParams.vinsAmount > exactVoutSum tokenParams.Receiver then
                  [⟨tokenParams.vinsAmount - exactVoutSum tokenParams.Receiver,
                    vin.PaymentAddress, 0, zeroHash⟩]
                else [])⟩ txCustomToken.listUtxo) ∧
    exactVoutSum (tokenParams.Receiver.map voutOfReceiver
      ++ (if tokenParams.vinsAmount > exactVoutSum tokenParams.Receiver then
          [⟨tokenParams.vinsAmount - exactVoutSum tokenParams.Receiver,
            vin.PaymentAddress, 0, zeroHash⟩]
        else [])) = tokenParams.vinsAmount := by
  have hn1 : ¬ rules.CustomTokenTransfer = rules.CustomTokenCrossShard := hne1
  have hn2 : ¬ rules.CustomTokenTransfer = rules.CustomTokenInit := hne2
  constructor
  · simp only [TxCustomToken.Init, hinit, htype, hn1, hn2, if_false, if_true,
      transferTokenData_ok init tokenParams db propertyID vin vins hparse hexist hvins hsum
        hu64, Bool.not_true, Bool.false_eq_true]
  · rw [exactVoutSum_append, exactVoutSum_voutOfReceiver]
    by_cases hgt : tokenParams.vinsAmount > exactVoutSum tokenParams.Receiver
    · rw [if_pos hgt]
      simp only [exactVoutSum, List.map_cons, List.map_nil, List.sum_cons, List.sum_nil,
        Nat.add_zero] at hsum hgt ⊢
      omega
    · rw [if_neg hgt]
      simp only [exactVoutSum, List.map_nil, List.sum_nil, Nat.add_zero] at hsum hgt ⊢
      omega

/-- Witness of C27: `changeParams` pays 3 units out of inputs worth 5; the
vouts are the receiver's 3 units and a change of 2 units to the first vin's
address. -/
theorem transfer_conserves_value_witness :
    emptyTokenTx.Init sampleRules sampleInit () changeParams () 0
      = .done (none, .mk () ⟨[7], "token", "TKN", 1, false, 0,
        [⟨[9], 0, "sig", sampleAddress⟩],
        [⟨3, ⟨[5], [6]⟩, 0, zeroHash⟩, ⟨2, sampleAddress, 0, zeroHash⟩]⟩ []) ∧
    exactVoutSum [⟨3, ⟨[5], [6]⟩, 0, zeroHash⟩, ⟨2, sampleAddress, 0, zeroHash⟩]
      = changeParams.vinsAmount :=
  transfer_conserves_value sampleRules sampleInit emptyTokenTx () changeParams () 0 () [7]
    ⟨[9], 0, "sig", sampleAddress⟩ [] rfl (by decide) (by decide) rfl rfl rfl rfl
    (by decide) (by decide)

/-! ## Claims on `CreateAndSaveTxViewPointFromBlock` -/

theorem storeSerialNumbers_ok {σ : Type} (dbi : Database σ) (tokenID : Hash) (shardID : Byte)
    (items : List (List Byte)) (db db2 : σ)
    (h : storeSerialNumbers dbi tokenID shardID items db = (none, db2)) :
    WritesAll (fun item d => dbi.StoreSerialNumbers d tokenID item shardID) items db db2 := by
  induction items generalizing db with
  | nil =>
    simp only [storeSerialNumbers, Prod.mk.injEq, true_and] at h
    exact h.symm
  | cons item items ih =>
    simp only [storeSerialNumbers] at h
    rcases hw : dbi.StoreSerialNumbers db tokenID item shardID with ⟨err, db1⟩
    cases err with
    | some e => simp [hw] at h
    | none =>
      simp only [hw] at h
      exact ⟨db1, hw, ih db1 h⟩

theorem storeSNDerivators_ok {σ : Type} (dbi : Database σ) (tokenID : Hash) (shardID : Byte)
    (items : List Int) (db db2 : σ)
    (h : storeSNDerivators dbi tokenID shardID items db = (none, db2)) :
    WritesAll (fun item d => dbi.StoreSNDerivators d tokenID item shardID) items db db2 := by
  induction items generalizing db with
  | nil =>
    simp only [storeSNDerivators, Prod.mk.injEq, true_and] at h
    exact h.symm
  | cons item items ih =>
    simp only [storeSNDerivators] at h
    rcases hw : dbi.StoreSNDerivators db tokenID item shardID with ⟨err, db1⟩
    cases err with
    | some e => simp [hw] at h
    | none =>
      simp only [hw] at h
      exact ⟨db1, hw, ih db1 h⟩

/-- A successful run of the three stores of a view point. -/
theorem storeViewPoint_ok {σ T B : Type} (env : ChainEnv σ T B) (dbi : Database σ)
    (view : TxViewPoint T) (db db4 : σ)
    (h : storeViewPoint env dbi view db = .done (none, db4)) :
    ∃ db2 db3,
      WritesAll (fun item d => dbi.StoreSerialNumbers d view.tokenID item view.shardID)
        view.listSerialNumbers db db2 ∧
      StoreCommitmentsFromTxViewPoint env dbi view db2 = .done (none, db3) ∧
      WritesAll (fun item d => dbi.StoreSNDerivators d view.tokenID item view.shardID)
        view.listSnD db3 db4 := by
  unfold storeViewPoint at h
  rcases h1 : StoreSerialNumbersFromTxViewPoint dbi view db with ⟨e1, db2⟩
  cases e1 with
  | some e => simp [h1] at h
  | none =>
    simp only [h1] at h
    rcases h2 : StoreCommitmentsFromTxViewPoint env dbi view db2 with r | _ | _
    · rcases r with ⟨e2, db3⟩
      cases e2 with
      | some e => simp [h2] at h
      | none =>
        simp only [h2, Run.done.injEq] at h
        exact ⟨db2, db3, storeSerialNumbers_ok dbi _ _ _ _ _ h1, h2,
          storeSNDerivators_ok dbi _ _ _ _ _ h⟩
    · simp [h2] at h
    · simp [h2] at h

/-- A successful run of the loop over the custom-token transactions has
registered every issued token. -/
theorem storeCustomTokenTxs_registered {σ T B : Type} (env : ChainEnv σ T B)
    (dbi : Database σ) (block : ShardBlock B) (txs : List (Int × TxCustomToken T))
    (self self1 : BlockChain σ)
    (h : storeCustomTokenTxs env dbi block txs self = .done (none, self1)) :
    ∀ entry ∈ txs, entry.2.TxTokenData.Type_ = env.CustomTokenInit →
      ∃ db db1, dbi.StoreCustomToken db entry.2.TxTokenData.PropertyID
        (env.TxCustomTokenHash entry.2) = (none, db1) := by
  induction txs generalizing self with
  | nil => intro entry hmem; simp at hmem
  | cons head txs ih =>
    obtain ⟨indexTx, customTokenTx⟩ := head
    intro entry hmem hinit
    simp only [storeCustomTokenTxs] at h
    split at h
    · simp at h
    · rename_i db1 hreg
      have hhead : customTokenTx.TxTokenData.Type_ = env.CustomTokenInit →
          ∃ db db1, dbi.StoreCustomToken db customTokenTx.TxTokenData.PropertyID
            (env.TxCustomTokenHash customTokenTx) = (none, db1) := by
        intro hi
        rw [if_pos hi] at hreg
        exact ⟨_, _, hreg⟩
      have htail : ∀ self2, storeCustomTokenTxs env dbi block txs self2 = .done (none, self1) →
          ∃ db db1, dbi.StoreCustomToken db entry.2.TxTokenData.PropertyID
            (env.TxCustomTokenHash entry.2) = (none, db1) := by
        intro self2 h2
        rcases List.mem_cons.mp hmem with rfl | hm
        · exact hhead hinit
        · exact ih self2 h2 entry hm hinit
      split at h
      · simp at h
      · simp at h
      · exact htail _ h
      · split at h
        · simp at h
        · split at h
          · split at h
            · simp at h
            · exact htail _ h
          · exact htail _ h

/-- C29 (as amended): a block's state is written step by step. If fetching the
view point fails, `CreateAndSaveTxViewPointFromBlock` returns that error and
the store is unchanged. If it returns nil, the loops over the custom-token and
privacy-token transactions ended without error, every issued custom token was
registered, and every serial number, the commitments and every derivator of
the block's view point were stored, each store call returning nil. An error of
a later store is returned with the earlier writes left in place: when the
commitment store fails after the serial numbers were stored, the result
carries the store that the failed call left. -/
theorem block_commit_stepwise {σ T B : Type} (env : ChainEnv σ T B) (dbi : Database σ)
    (self : BlockChain σ) (block : ShardBlock B) :
    (∀ err : Err, env.fetchTxViewPointFromBlock self.DataBase block = .error err →
      CreateAndSaveTxViewPointFromBlock env dbi self block = .done (some err, self)) ∧
    (∀ self2 : BlockChain σ,
      CreateAndSaveTxViewPointFromBlock env dbi self block = .done (none, self2) →
      ∃ (view : TxViewPoint T) (self1 : BlockChain σ) (db2 db3 db4 : σ),
        env.fetchTxViewPointFromBlock self.DataBase block = .ok view ∧
        storeCustomTokenTxs env dbi block view.customTokenTxs self = .done (none, self1) ∧
        (∀ entry ∈ view.customTokenTxs, entry.2.TxTokenData.Type_ = env.CustomTokenInit →
          ∃ db db1, dbi.StoreCustomToken db entry.2.TxTokenData.PropertyID
            (env.TxCustomTokenHash entry.2) = (none, db1)) ∧
        storePrivacyCustomTokens env dbi block view.privacyCustomTokenTxs
          view.privacyCustomTokenViewPoint self1.DataBase = .done (none, db2) ∧
        WritesAll (fun item d => dbi.StoreSerialNumbers d view.tokenID item view.shardID)
          view.listSerialNumbers db2 db3 ∧
        StoreCommitmentsFromTxViewPoint env dbi view db3 = .done (none, db4) ∧
        WritesAll (fun item d => dbi.StoreSNDerivators d view.tokenID item view.shardID)
          view.listSnD db4 self2.DataBase ∧
        self2.customTokenRewardSnapshot = self1.customTokenRewardSnapshot) ∧
    (∀ (view : TxViewPoint T) (self1 : BlockChain σ) (db2 db3 db4 : σ) (err : Err),
      env.fetchTxViewPointFromBlock self.DataBase block = .ok view →
      storeCustomTokenTxs env dbi block view.customTokenTxs self = .done (none, self1) →
      storePrivacyCustomTokens env dbi block view.privacyCustomTokenTxs
        view.privacyCustomTokenViewPoint self1.DataBase = .done (none, db2) →
      StoreSerialNumbersFromTxViewPoint dbi view db2 = (none, db3) →
      StoreCommitmentsFromTxViewPoint env dbi view db3 = .done (some err, db4) →
      CreateAndSaveTxViewPointFromBlock env dbi self block
        = .done (some err, { self1 with DataBase := db4 })) := by
  refine ⟨?_, ?_, ?_⟩
  · intro err h
    simp only [CreateAndSaveTxViewPointFromBlock, h]
  · intro self2 h
    unfold CreateAndSaveTxViewPointFromBlock at h
    rcases hf : env.fetchTxViewPointFromBlock self.DataBase block with err | view
    · simp [hf] at h
    simp only [hf] at h
    rcases hl : storeCustomTokenTxs env dbi block view.customTokenTxs self with r | _ | _
    · rcases r with ⟨e1, self1⟩
      cases e1 with
      | some e => simp [hl] at h
      | none =>
        simp only [hl] at h
        rcases hp : storePrivacyCustomTokens env dbi block view.privacyCustomTokenTxs
          view.privacyCustomTokenViewPoint self1.DataBase with r | _ | _
        · rcases r with ⟨e2, db2⟩
          cases e2 with
          | some e => simp [hp] at h
          | none =>
            simp only [hp] at h
            rcases hv : storeViewPoint env dbi view db2 with r | _ | _
            · rcases r with ⟨e3, db5⟩
              simp only [hv, Run.done.injEq, Prod.mk.injEq] at h
              obtain ⟨h3, h4⟩ := h
              subst h3
              subst h4
              obtain ⟨db3, db4, g1, g2, g3⟩ := storeViewPoint_ok env dbi view db2 db5 hv
              exact ⟨view, self1, db2, db3, db4, rfl, hl,
                storeCustomTokenTxs_registered env dbi block _ self self1 hl, hp, g1, g2, g3,
                rfl⟩
            · simp [hv] at h
            · simp [hv] at h
        · simp [hp] at h
        · simp [hp] at h
    · simp [hl] at h
    · simp [hl] at h
  · intro view self1 db2 db3 db4 err hf hl hp hs hc
    simp only [CreateAndSaveTxViewPointFromBlock, hf, hl, hp, storeViewPoint, hs, hc]

/-- Counterexample to C29 as stated: `brokenBlock` carries the serial number
`[1]` and a commitment under a public key that does not decode. On the empty
store `CreateAndSaveTxViewPointFromBlock` returns the decoding error and
leaves a store that holds the serial number. -/
theorem block_commit_not_atomic :
    CreateAndSaveTxViewPointFromBlock sampleChainEnv sampleDatabase ⟨emptyStore, []⟩
        brokenBlock
      = .done (some (.new "invalid base58"), ⟨⟨[], [], [], [[1]], [], []⟩, []⟩) ∧
    emptyStore.serialNumbers = [] ∧
    (⟨[], [], [], [[1]], [], []⟩ : SampleStore).serialNumbers ≠ emptyStore.serialNumbers :=
  ⟨rfl, rfl, by decide⟩

/-- Witness of C29 (as amended): saving `issueBlock` on the empty store
returns nil and leaves `issuedStore`. -/
theorem block_commit_stepwise_witness :
    CreateAndSaveTxViewPointFromBlock sampleChainEnv sampleDatabase ⟨emptyStore, []⟩ issueBlock
      = .done (none, ⟨issuedStore, []⟩) ∧
    ∃ (view : TxViewPoint Unit) (self1 : BlockChain SampleStore) (db2 db3 db4 : SampleStore),
      sampleChainEnv.fetchTxViewPointFromBlock emptyStore issueBlock = .ok view ∧
      storeCustomTokenTxs sampleChainEnv sampleDatabase issueBlock view.customTokenTxs
        ⟨emptyStore, []⟩ = .done (none, self1) ∧
      (∀ entry ∈ view.customTokenTxs,
        entry.2.TxTokenData.Type_ = sampleChainEnv.CustomTokenInit →
        ∃ db db1, sampleDatabase.StoreCustomToken db entry.2.TxTokenData.PropertyID
          (sampleChainEnv.TxCustomTokenHash entry.2) = (none, db1)) ∧
      storePrivacyCustomTokens sampleChainEnv sampleDatabase issueBlock
        view.privacyCustomTokenTxs view.privacyCustomTokenViewPoint self1.DataBase
        = .done (none, db2) ∧
      WritesAll (fun item d => sampleDatabase.StoreSerialNumbers d view.tokenID item
        view.shardID) view.listSerialNumbers db2 db3 ∧
      StoreCommitmentsFromTxViewPoint sampleChainEnv sampleDatabase view db3
        = .done (none, db4) ∧
      WritesAll (fun item d => sampleDatabase.StoreSNDerivators d view.tokenID item
        view.shardID) view.listSnD db4 issuedStore ∧
      ([] : List (String × Nat)) = self1.customTokenRewardSnapshot :=
  ⟨rfl, (block_commit_stepwise sampleChainEnv sampleDatabase ⟨emptyStore, []⟩ issueBlock).2.1
    ⟨issuedStore, []⟩ rfl⟩

/-- The loop over the custom-token transactions, run on a list that extends
one it has passed. -/
theorem storeCustomTokenTxs_append {σ T B : Type} (env : ChainEnv σ T B) (dbi : Database σ)
    (block : ShardBlock B) (pre post : List (Int × TxCustomToken T))
    (self self1 : BlockChain σ)
    (h : storeCustomTokenTxs env dbi block pre self = .done (none, self1)) :
    storeCustomTokenTxs env dbi block (pre ++ post) self
      = storeCustomTokenTxs env dbi block post self1 := by
  induction pre generalizing self with
  | nil =>
    simp only [storeCustomTokenTxs, Run.done.injEq, Prod.mk.injEq, true_and] at h
    subst h
    rfl
  | cons head pre ih =>
    obtain ⟨indexTx, customTokenTx⟩ := head
    simp only [List.cons_append, storeCustomTokenTxs] at h ⊢
    split at h
    · simp at h
    · split at h
      · simp at h
      · simp at h
      · exact ih _ h
      · split at h
        · simp at h
        · split at h
          · rename_i hmod
            split at h
            · simp at h
            · rw [if_pos hmod]
              exact ih _ h
          · rename_i hmod
            rw [if_neg hmod]
            exact ih _ h

/-- One turn of the loop over the custom-token transactions on a transaction
whose history store fails: the error is dropped and the loop goes on. -/
theorem storeCustomTokenTxs_skip {σ T B : Type} (env : ChainEnv σ T B) (dbi : Database σ)
    (block : ShardBlock B) (indexTx : Int) (customTokenTx : TxCustomToken T)
    (post : List (Int × TxCustomToken T)) (self : BlockChain σ) (db1 db2 : σ) (err : Err)
    (hreg : (if customTokenTx.TxTokenData.Type_ = env.CustomTokenInit then
        dbi.StoreCustomToken self.DataBase customTokenTx.TxTokenData.PropertyID
          (env.TxCustomTokenHash customTokenTx)
      else (none, self.DataBase)) = (none, db1))
    (hhist : StoreCustomTokenPaymentAddresstHistory env dbi customTokenTx db1
      = .done (some err, db2)) :
    storeCustomTokenTxs env dbi block ((indexTx, customTokenTx) :: post) self
      = storeCustomTokenTxs env dbi block post { self with DataBase := db2 } := by
  simp only [storeCustomTokenTxs, hreg, hhist]

/-- C30 (as amended): a double spend found while persisting a block is
skipped, not reported. When `StoreCustomTokenPaymentAddresstHistory` returns
"Double Spend Detected" for a custom-token transaction of the block (the
transactions before it stored and its own registration, if any, made), the loop
goes on with the next transaction from the store that the failed call left,
without the `StoreCustomTokenTx` record of the transaction; and
`CreateAndSaveTxViewPointFromBlock` returns nil whenever the rest of the block
is stored without error. -/
theorem history_error_skipped {σ T B : Type} (env : ChainEnv σ T B) (dbi : Database σ)
    (self : BlockChain σ) (block : ShardBlock B) (view : TxViewPoint T)
    (pre : List (Int × TxCustomToken T)) (indexTx : Int) (customTokenTx : TxCustomToken T)
    (post : List (Int × TxCustomToken T)) (self0 : BlockChain σ) (db1 db2 : σ)
    (hfetch : env.fetchTxViewPointFromBlock self.DataBase block = .ok view)
    (htxs : view.customTokenTxs = pre ++ (indexTx, customTokenTx) :: post)
    (hpre : storeCustomTokenTxs env dbi block pre self = .done (none, self0))
    (hreg : (if customTokenTx.TxTokenData.Type_ = env.CustomTokenInit then
        dbi.StoreCustomToken self0.DataBase customTokenTx.TxTokenData.PropertyID
          (env.TxCustomTokenHash customTokenTx)
      else (none, self0.DataBase)) = (none, db1))
    (hhist : StoreCustomTokenPaymentAddresstHistory env dbi customTokenTx db1
      = .done (some (.new "Double Spend Detected"), db2)) :
    storeCustomTokenTxs env dbi block view.customTokenTxs self
      = storeCustomTokenTxs env dbi block post { self0 with DataBase := db2 } ∧
    (∀ (self1 : BlockChain σ) (db3 db4 : σ),
      storeCustomTokenTxs env dbi block post { self0 with DataBase := db2 }
        = .done (none, self1) →
      storePrivacyCustomTokens env dbi block view.privacyCustomTokenTxs
        view.privacyCustomTokenViewPoint self1.DataBase = .done (none, db3) →
      storeViewPoint env dbi view db3 = .done (none, db4) →
      CreateAndSaveTxViewPointFromBlock env dbi self block
        = .done (none, { self1 with DataBase := db4 })) := by
  have hloop : storeCustomTokenTxs env dbi block view.customTokenTxs self
      = storeCustomTokenTxs env dbi block post { self0 with DataBase := db2 } := by
    rw [htxs, storeCustomTokenTxs_append env dbi block pre _ self self0 hpre,
      storeCustomTokenTxs_skip env dbi block indexTx customTokenTx post self0 db1 db2
        (.new "Double Spend Detected") hreg hhist]
  refine ⟨hloop, ?_⟩
  intro self1 db3 db4 hpost hpriv hview
  simp only [CreateAndSaveTxViewPointFromBlock, hfetch, hloop, hpost, hpriv, hview]

/-- Witness of C30 (as amended): `doubleSpendBlock` on `spentStore`. -/
theorem history_error_skipped_witness :
    StoreCustomTokenPaymentAddresstHistory sampleChainEnv sampleDatabase sampleTransfer
        spentStore = .done (some (.new "Double Spend Detected"), spentStore) ∧
    CreateAndSaveTxViewPointFromBlock sampleChainEnv sampleDatabase ⟨spentStore, []⟩
        doubleSpendBlock = .done (none, ⟨spentStore, []⟩) :=
  ⟨rfl, (history_error_skipped sampleChainEnv sampleDatabase ⟨spentStore, []⟩ doubleSpendBlock
    doubleSpendBlock.Body [] 0 sampleTransfer [] ⟨spentStore, []⟩ spentStore spentStore
    rfl rfl rfl rfl rfl).2 ⟨spentStore, []⟩ spentStore spentStore rfl rfl rfl⟩

/-- Counterexample to C30 as stated: in `spentStore` output 0 of the
transaction `[9]` is spent; `doubleSpendBlock` holds `sampleTransfer`, which
spends it again. `StoreCustomTokenPaymentAddresstHistory` returns "Double Spend
Detected" for it, and `CreateAndSaveTxViewPointFromBlock` returns nil. -/
theorem double_spend_not_reported :
    doubleSpendBlock.Body.customTokenTxs = [(0, sampleTransfer)] ∧
    StoreCustomTokenPaymentAddresstHistory sampleChainEnv sampleDatabase sampleTransfer
        spentStore = .done (some (.new "Double Spend Detected"), spentStore) ∧
    ∃ self2 : BlockChain SampleStore,
      CreateAndSaveTxViewPointFromBlock sampleChainEnv sampleDatabase ⟨spentStore, []⟩
        doubleSpendBlock = .done (none, self2) :=
  ⟨rfl, rfl, ⟨spentStore, []⟩, rfl⟩

/-! ## Further claims on `TxVersion2.Verify` -/

/-- C33: the carve-out applies to the one-out-of-many failure only. For a
transaction whose signature and ring checks pass, if the payment-proof
verification reports invalid with no error, with an error that is not a
`PrivacyError`, or with a `PrivacyError` whose code differs from the
one-out-of-many code, `TxVersion2.Verify` returns false with
`TxProofVerifyFailError`, whatever `isNewTransaction` and `tx.LockTime` are. -/
theorem carve_out_only_one_out_of_many {P S G : Type} [AddCommGroup P] (op : Operation P S)
    (codec : RingCodec P) (ml : Mlsag P S G) (pv : ProofVerifier P S) (tx : Tx P S)
    (hasPrivacy : Bool) (db : StateDB S) (shardID : Byte) (tokenID : Option Hash)
    (isBatch isNewTransaction : Bool) (e0 : Option Err) (proof : PaymentProof P S)
    (tid : Hash) (txSigPubKey : TxSignatureVer2 P) (err : Option Err)
    (hsig : verifySigTxVer2 codec ml tx = .done (true, e0))
    (hproof : tx.Proof = some proof)
    (htok : pv.parseTokenID tokenID = .ok tid)
    (hparse : TxSignatureVer2.FromBytes codec (tx.SigPubKey.getD []) = .done (.ok txSigPubKey))
    (hring : checkRingIndexesWithDatabase op tx txSigPubKey.ring txSigPubKey.indexes db
      shardID tid isNewTransaction = .done (true, none))
    (hpv : pv.ProofVerify proof hasPrivacy tx.SigPubKey tx.Fee shardID tid isBatch
      = (false, err))
    (herr : err = none ∨ (∃ msg, err = some (.new msg))
      ∨ (∃ key cause params, err = some (.transaction key cause params))
      ∨ (∃ code msg, err = some (.privacy code msg) ∧ code ≠ pv.OneOutOfManyCode)) :
    TxVersion2.Verify op codec ml pv tx hasPrivacy db shardID tokenID isBatch isNewTransaction
      = .done (false, some (.transaction .TxProofVerifyFailError err [pv.TxHashString tx])) := by
  have hv := Verify_of_ring_passed op codec ml pv tx hasPrivacy db shardID tokenID isBatch
    isNewTransaction e0 proof tid txSigPubKey hsig hproof htok hparse hring
  rw [hpv] at hv
  simp only [Bool.false_eq_true, if_false] at hv
  rw [hv]
  rcases herr with h | ⟨msg, h⟩ | ⟨key, cause, params, h⟩ | ⟨code, msg, h, hcode⟩
  · subst h; rfl
  · subst h; rfl
  · subst h; rfl
  · subst h
    simp only [proofFailure, hcode, if_false]

/-- Witness of C33: the signed sample transaction, a new transaction, with a
payment proof that fails under a code other than the one-out-of-many code. -/
theorem carve_out_only_one_out_of_many_witness :
    TxVersion2.Verify sampleOp sampleCodec sampleMlsag
        { samplePV with ProofVerify := fun _ _ _ _ _ _ _ =>
            (false, some (.privacy 8 "range proof failed")) }
        sampleSignedTx true sampleStore 0 none false true
      = .done (false, some (.transaction .TxProofVerifyFailError
        (some (.privacy 8 "range proof failed")) ["sample"])) :=
  carve_out_only_one_out_of_many sampleOp sampleCodec sampleMlsag
    { samplePV with ProofVerify := fun _ _ _ _ _ _ _ =>
        (false, some (.privacy 8 "range proof failed")) }
    sampleSignedTx true sampleStore 0 none false true none
    ⟨[⟨⟨6, 27, 9, some 10, 1, 5⟩⟩], [sampleOutput]⟩ [] ⟨⟨[[6, 0], [10, 9]]⟩, [[0], [1]]⟩
    (some (.privacy 8 "range proof failed")) sampleSignedTx_sig rfl rfl sampleSignedTx_parse
    rfl rfl (Or.inr (Or.inr (Or.inr ⟨8, "range proof failed", rfl, by decide⟩)))

/-! ## Trailing bytes in `FromBytes` -/

theorem slice_append_left {α : Type} (b s x : List α) (lo hi : Nat)
    (h : slice b lo hi = .done x) : slice (b ++ s) lo hi = .done x := by
  unfold slice at h ⊢
  by_cases hc : lo ≤ hi ∧ hi ≤ b.length
  · rw [if_pos hc] at h
    have hc2 : lo ≤ hi ∧ hi ≤ (b ++ s).length := by
      rw [List.length_append]
      exact ⟨hc.1, by omega⟩
    rw [if_pos hc2, ← h, List.drop_append_of_le_length (by omega),
      List.take_append_of_le_length (by rw [List.length_drop]; omega)]
  · rw [if_neg hc] at h
    exact Run.noConfusion h

theorem byteAt_append_left (b s : List Byte) (lo hi x : Nat)
    (h : byteAt b lo hi = .done x) : byteAt (b ++ s) lo hi = .done x := by
  unfold byteAt at h ⊢
  rcases hs : slice b lo hi with l | _ | _
  · rw [slice_append_left b s l lo hi hs]
    rw [hs] at h
    exact h
  · simp [hs] at h
  · simp [hs] at h

theorem readRow_append_left (b s : List Byte) (m offset : Nat) (r : List Nat × Nat)
    (h : readRow b m offset = .done r) : readRow (b ++ s) m offset = .done r := by
  induction m generalizing offset r with
  | zero => exact h
  | succ m ih =>
    simp only [readRow] at h ⊢
    rcases hs : slice b offset (toUint32 (offset + Common.Uint64Size)) with l | _ | _
    · simp only [hs] at h
      rw [slice_append_left b s l _ _ hs]
      rcases hr : readRow b m (toUint32 (offset + Common.Uint64Size)) with r1 | _ | _
      · simp only [hr] at h
        simp only [ih _ r1 hr]
        exact h
      · simp [hr] at h
      · simp [hr] at h
    · simp [hs] at h
    · simp [hs] at h

theorem readRows_append_left (b s : List Byte) (m n offset : Nat) (rows : List (List Nat))
    (h : readRows b m n offset = .done rows) : readRows (b ++ s) m n offset = .done rows := by
  induction n generalizing offset rows with
  | zero => exact h
  | succ n ih =>
    simp only [readRows] at h ⊢
    rcases hr : readRow b m offset with r1 | _ | _
    · simp only [hr] at h
      simp only [readRow_append_left b s m offset r1 hr]
      rcases hn : readRows b m n r1.2 with rs | _ | _
      · simp only [hn] at h
        simp only [ih _ rs hn]
        exact h
      · simp [hn] at h
      · simp [hn] at h
    · simp [hr] at h
    · simp [hr] at h

theorem toUint32_le (x : Nat) : toUint32 x ≤ x := Nat.mod_le _ _

/-- Away from the wrap-around of `uint32(len(b))`, `FromBytes` ignores trailing
bytes: if it succeeds on `b` and `b ++ s` has fewer than `2 ^ 32` bytes, it
succeeds on `b ++ s` with the same ring and index matrix. -/
theorem trailing_bytes_ignored {P : Type} (codec : RingCodec P) (b s : List Byte)
    (txSig : TxSignatureVer2 P) (hlen : (b ++ s).length < 2 ^ 32)
    (h : TxSignatureVer2.FromBytes codec b = .done (.ok txSig)) :
    TxSignatureVer2.FromBytes codec (b ++ s) = .done (.ok txSig) := by
  have hbs : toUint32 (b ++ s).length = (b ++ s).length := toUint32_of_lt hlen
  have hle : b.length ≤ (b ++ s).length := by rw [List.length_append]; omega
  have hb : toUint32 b.length ≤ (b ++ s).length := le_trans (toUint32_le _) hle
  simp only [TxSignatureVer2.FromBytes] at h ⊢
  split at h
  · simp at h
  · rename_i h4
    rw [if_neg (by omega)]
    split at h
    · simp at h
    · simp at h
    · rename_i ringLenByte hs1
      simp only [slice_append_left b s ringLenByte _ _ hs1]
      split at h
      · simp at h
      · rename_i ringLen hrl
        split at h
        · simp at h
        · rename_i hc1
          rw [if_neg (by rw [hbs]; omega)]
          split at h
          · simp at h
          · simp at h
          · rename_i ringByte hs2
            simp only [slice_append_left b s ringByte _ _ hs2]
            split at h
            · simp at h
            · rename_i ring hring
              split at h
              · simp at h
              · rename_i hc2
                rw [if_neg (by rw [hbs]; omega)]
                split at h
                · simp at h
                · simp at h
                · rename_i n hn
                  simp only [byteAt_append_left b s _ _ n hn]
                  split at h
                  · simp at h
                  · simp at h
                  · rename_i m hm
                    simp only [byteAt_append_left b s _ _ m hm]
                    split at h
                    · simp at h
                    · rename_i hc3
                      rw [if_neg (by omega)]
                      split at h
                      · simp at h
                      · simp at h
                      · rename_i indexes hrows
                        simp only [readRows_append_left b s m n _ indexes hrows]
                        exact h

/-- Every blob of `2 ^ 32` bytes that starts with `sampleSigPubKey` is refused:
`uint32(len(b))` is 0. -/
theorem FromBytes_wrapped_length (s : List Byte)
    (hl : (sampleSigPubKey ++ s).length = 2 ^ 32) :
    TxSignatureVer2.FromBytes sampleCodec (sampleSigPubKey ++ s)
      = .done (.error (.new
        "TxSig.FromBytes: cannot parse mlsag ring, length of byte is too small")) := by
  have h0 : toUint32 (2 ^ 32) = 0 := by
    unfold toUint32
    norm_num
  have hs : slice (sampleSigPubKey ++ s) 0 Common.Uint32Size = .done [0, 0, 0, 6] :=
    slice_append_left sampleSigPubKey s [0, 0, 0, 6] 0 Common.Uint32Size rfl
  have hb : Common.BytesToUint32 [0, 0, 0, 6] = .ok 6 := rfl
  have h10 : toUint32 (toUint32 Common.Uint32Size + 6) = 10 := rfl
  simp only [TxSignatureVer2.FromBytes, hl, hs, hb, h10, h0]
  rw [if_neg (by norm_num), if_pos (by norm_num)]

/-- C34 (the code at the failing input): `FromBytes` succeeds on the 28 bytes
of `sampleSigPubKey`; followed by `2 ^ 32 - 28` zero bytes the blob has
`2 ^ 32` bytes, `uint32(len(b))` is 0, the test `offset+ringLen >
uint32(len(b))` holds and `FromBytes` returns an error instead of the same
ring and index matrix. -/
theorem trailing_bytes_wrap_rejected :
    TxSignatureVer2.FromBytes sampleCodec sampleSigPubKey
      = .done (.ok ⟨⟨[[6, 0], [10, 9]]⟩, [[0], [1]]⟩) ∧
    (sampleSigPubKey ++ List.replicate (2 ^ 32 - 28) (0 : Byte)).length = 2 ^ 32 ∧
    TxSignatureVer2.FromBytes sampleCodec
        (sampleSigPubKey ++ List.replicate (2 ^ 32 - 28) (0 : Byte))
      = .done (.error (.new
        "TxSig.FromBytes: cannot parse mlsag ring, length of byte is too small")) := by
  have hl : (sampleSigPubKey ++ List.replicate (2 ^ 32 - 28) (0 : Byte)).length = 2 ^ 32 := by
    rw [List.length_append, List.length_replicate]
    have h28 : sampleSigPubKey.length = 28 := rfl
    rw [h28]
    norm_num
  exact ⟨sampleSignedTx_parse, hl, FromBytes_wrapped_length _ hl⟩

/-- The encoding is not canonical: `FromBytes` accepts `sampleSigPubKey`
followed by a zero byte, and `ToBytes` of what it yields is a different
blob. -/
theorem encoding_not_canonical :
    TxSignatureVer2.FromBytes sampleCodec (sampleSigPubKey ++ [0])
      = .done (.ok ⟨⟨[[6, 0], [10, 9]]⟩, [[0], [1]]⟩) ∧
    TxSignatureVer2.ToBytes sampleCodec ⟨⟨[[6, 0], [10, 9]]⟩, [[0], [1]]⟩
      = .done (.ok sampleSigPubKey) ∧
    sampleSigPubKey ≠ sampleSigPubKey ++ [0] :=
  ⟨trailing_bytes_ignored sampleCodec sampleSigPubKey [0] _ (by decide) sampleSignedTx_parse,
    rfl, by decide⟩

/-! ## Further claims on `generateMlsagRingWithIndexes` -/

/-- C35 (the code at the failing input): `gapStore` reports two commitments
and answers `(false, nil)` for index 1. With the sample coin, ring size 2 and a
random source that yields index 1 for the decoy row,
`generateMlsagRingWithIndexes` returns a nil ring, a nil index matrix and a nil
error; `signTxVer2` takes the nil error for a success and panics on the nil
ring. -/
theorem builder_empty_success :
    gapStore.GetCommitmentLength [] 0 = .ok (some 2) ∧
    gapStore.HasCommitmentIndex [] (Uint64 1) 0 = (false, none) ∧
    generateMlsagRingWithIndexes sampleOp [sampleInput] [sampleOutput] gapParams 0 0 2 [1]
      = .done (none, none, none) ∧
    signTxVer2 sampleOp sampleCodec sampleMlsag 2 id [sampleInput] [sampleOutput] sampleTx
      gapParams [0, 1] = .panic :=
  ⟨rfl, rfl, rfl, rfl⟩

theorem sampleDecoy_crowded_step (s : Nat) (tape : List Nat) :
    sampleDecoy sampleOp sampleStore2 [] 0 2
        (listUsableCommitments sampleOp [sampleInput, sampleInput2]) 2 (s :: tape)
      = sampleDecoy sampleOp sampleStore2 [] 0 2
        (listUsableCommitments sampleOp [sampleInput, sampleInput2]) 2 tape := by
  rw [sampleDecoy]
  rcases Nat.mod_two_eq_zero_or_one s with h | h
  · simp only [h]
    rfl
  · simp only [h]
    rfl

/-- In `sampleStore2` every stored commitment is a real input's: the
reject-and-resample loop rejects every sample and uses up any random tape. -/
theorem sampleDecoy_crowded (tape : List Nat) :
    sampleDecoy sampleOp sampleStore2 [] 0 2
        (listUsableCommitments sampleOp [sampleInput, sampleInput2]) 2 tape = .starved := by
  induction tape with
  | nil => rfl
  | cons s tape ih => rw [sampleDecoy_crowded_step, ih]

/-- A row of the builder whose decoy loop uses up the tape. -/
theorem buildRows_decoy_starved {P S : Type} [AddCommGroup P] (op : Operation P S)
    (db : StateDB S) (tokenID : Hash) (shardID : Byte) (key : List Byte)
    (inputCoins : List (InputCoin P S)) (lenCommitment : Nat) (usable : List Hash)
    (feeCommitment outputCommitments : P) (pi : Int) (i remaining : Nat) (tape : List Nat)
    (hi : (i : Int) ≠ pi)
    (hrow : ∀ sumInputs : P, decoyRow op db tokenID shardID lenCommitment usable
      inputCoins.length inputCoins.length sumInputs tape = .starved) :
    buildRows op db tokenID shardID key inputCoins lenCommitment usable feeCommitment
      outputCommitments pi i (remaining + 1) tape = .starved := by
  simp only [buildRows, if_neg hi, hrow]

/-- The real row of the builder followed by rows that use up the tape. -/
theorem buildRows_real_starved {P S : Type} [AddCommGroup P] (op : Operation P S)
    (db : StateDB S) (tokenID : Hash) (shardID : Byte) (key : List Byte)
    (inputCoins : List (InputCoin P S)) (lenCommitment : Nat) (usable : List Hash)
    (feeCommitment outputCommitments : P) (pi : Int) (i remaining : Nat) (tape : List Nat)
    (r : List P × List Nat × P) (hi : (i : Int) = pi)
    (hreal : realRow op db tokenID shardID key inputCoins (0 - feeCommitment) = .ok r)
    (hrest : buildRows op db tokenID shardID key inputCoins lenCommitment usable
      feeCommitment outputCommitments pi (i + 1) remaining tape = .starved) :
    buildRows op db tokenID shardID key inputCoins lenCommitment usable feeCommitment
      outputCommitments pi i (remaining + 1) tape = .starved := by
  simp only [buildRows, if_pos hi, hreal, hrest]

/-- C32 (the code at the failing input): `sampleStore2` holds two commitments,
those of the two input coins. For ring size 2 the decoy row resamples on every
sample, whatever the random source yields: on no random tape, however long,
does `generateMlsagRingWithIndexes` return. -/
theorem decoy_sampling_never_ends (tape : List Nat) :
    sampleStore2.GetCommitmentLength [] 0 = .ok (some [sampleInput, sampleInput2].length) ∧
    generateMlsagRingWithIndexes sampleOp [sampleInput, sampleInput2] [sampleOutput]
      crowdedParams 0 0 2 tape = .starved := by
  refine ⟨rfl, ?_⟩
  have hrow : ∀ sumInputs : Byte, decoyRow sampleOp sampleStore2 [] 0 2
      (listUsableCommitments sampleOp [sampleInput, sampleInput2])
      [sampleInput, sampleInput2].length [sampleInput, sampleInput2].length sumInputs tape
      = .starved := by
    intro sumInputs
    have h := sampleDecoy_crowded tape
    simp only [List.length_cons, List.length_nil, Nat.zero_add, Nat.reduceAdd]
    rw [decoyRow, h]
  have hrows : buildRows sampleOp sampleStore2 [] 0 [2] [sampleInput, sampleInput2] 2
      (listUsableCommitments sampleOp [sampleInput, sampleInput2])
      (sampleOp.ScalarMult sampleOp.PedComGValue (sampleOp.ScalarFromUint64 1))
      (outputCommitmentsV2 sampleOp [sampleOutput]) 0 0 2 tape = .starved :=
    buildRows_real_starved sampleOp sampleStore2 [] 0 [2] [sampleInput, sampleInput2] 2 _ _ _
      0 0 1 tape ([6, 6], [0, 1], 55) rfl rfl
      (buildRows_decoy_starved sampleOp sampleStore2 [] 0 [2] [sampleInput, sampleInput2] 2 _
        _ _ 0 1 0 tape (by decide) hrow)
  have hlen : crowdedParams.stateDB.GetCommitmentLength crowdedParams.tokenID 0
      = .ok (some 2) := rfl
  simp only [generateMlsagRingWithIndexes, hlen]
  rw [if_neg (by decide)]
  have hgoal : buildRows sampleOp crowdedParams.stateDB crowdedParams.tokenID 0
      crowdedParams.senderSK [sampleInput, sampleInput2] 2
      (listUsableCommitments sampleOp [sampleInput, sampleInput2])
      (sampleOp.ScalarMult sampleOp.PedComGValue (sampleOp.ScalarFromUint64 crowdedParams.fee))
      (outputCommitmentsV2 sampleOp [sampleOutput]) 0 0 (Int.toNat 2) tape = .starved := hrows
  rw [hgoal]

/-- The exception of the reject-and-resample loop: with one stored commitment
and one input coin the first sample is never rejected, so the loop reads one
entry of the random tape. -/
theorem sampleDecoy_single {P S : Type} (op : Operation P S) (db : StateDB S)
    (tokenID : Hash) (shardID : Byte) (usable : List Hash) (s : Nat) (tape : List Nat) :
    sampleDecoy op db tokenID shardID 1 usable 1 (s :: tape) ≠ .starved ∧
    sampleDecoy op db tokenID shardID 1 usable 1 (s :: tape) ≠ .panic ∧
    (∀ (r : Nat × P × P) (tape1 : List Nat),
      sampleDecoy op db tokenID shardID 1 usable 1 (s :: tape) = .done (.ok (r, tape1)) →
      tape1 = tape) := by
  have hno : (Uint64 1 != 1 || (1 : Nat) != 1) = false := rfl
  rw [sampleDecoy]
  simp only [Nat.one_ne_zero, if_false, hno, Bool.and_false, Bool.false_eq_true]
  refine ⟨?_, ?_, ?_⟩
  · split
    · simp
    · split
      · simp
      · split
        · simp
        · split
          · simp
          · split
            · simp
            · simp
  · split
    · simp
    · split
      · simp
      · split
        · simp
        · split
          · simp
          · split
            · simp
            · simp
  · intro r tape1 h
    split at h
    · simp at h
    · split at h
      · simp at h
      · split at h
        · simp at h
        · split at h
          · simp at h
          · split at h
            · simp at h
            · simp only [Run.done.injEq, Except.ok.injEq, Prod.mk.injEq] at h
              exact h.2.symm

/-! ## Further claims on the validation of token transfers -/

/-- C36 (the code at the failing input): `doubleVinTransfer` names output 0 of
the transaction `[9]`, worth 5 units, in both of its vins and pays 10 units.
`TxCustomToken.ValidateTransaction` accepts it: the vins are not tested for
distinctness and the output's value is counted twice in `totalVinAmount`. -/
theorem self_double_spend_accepted :
    doubleVinTransfer.TxTokenData.Vins
      = [⟨[9], 0, "sig", sampleAddress⟩, ⟨[9], 0, "sig", sampleAddress⟩] ∧
    samplePriorTx.TxTokenData.Vouts = [⟨5, sampleAddress, 0, [9]⟩] ∧
    sumVins sampleTokenValidation doubleVinTransfer.listUtxo doubleVinTransfer.TxTokenData.Vins 0
      = .done (.ok 10) ∧
    TxCustomToken.ValidateTransaction sampleTokenValidation doubleVinTransfer false () 0 none
      = .done (true, none) :=
  ⟨rfl, rfl, rfl, rfl⟩

theorem lookup_filter_ne {V : Type} (data : List (Hash × V)) (key other : Hash)
    (h : other ≠ key) :
    (data.filter (fun entry => entry.1 != key)).lookup other = data.lookup other := by
  induction data with
  | nil => rfl
  | cons entry data ih =>
    obtain ⟨k, v⟩ := entry
    by_cases hk : k = key
    · subst hk
      have h1 : (other == k) = false := by simpa using h
      simp only [List.filter_cons, bne_self_eq_false, Bool.false_eq_true, if_false,
        List.lookup_cons, h1, ih]
    · have h1 : (k != key) = true := by simpa using hk
      simp only [List.filter_cons, h1, if_true, List.lookup_cons, ih]

theorem lookup_mapPut_self {V : Type} (data : List (Hash × V)) (key : Hash) (value : V) :
    (mapPut data key value).lookup key = some value := by
  simp [mapPut, List.lookup_cons]

theorem lookup_mapPut_isSome {V : Type} (data : List (Hash × V)) (key other : Hash)
    (value : V) (h : (data.lookup other).isSome = true) :
    ((mapPut data key value).lookup other).isSome = true := by
  by_cases hk : other = key
  · subst hk
    rw [lookup_mapPut_self]
    rfl
  · have h1 : (other == key) = false := by simpa using hk
    simp only [mapPut, List.lookup_cons, h1, lookup_filter_ne data key other hk, h]

/-- The loop of `GetListUTXOFromTxCustomToken` keeps the keys it was given and
adds the prior transaction of every vin. -/
theorem collectUtxo_keys {T : Type} (bcr : BlockchainRetriever T) (vins : List TxTokenVin)
    (data data2 : List (Hash × TxCustomToken T))
    (h : collectUtxo bcr vins data = .done (some data2)) :
    (∀ key : Hash, (data.lookup key).isSome = true → (data2.lookup key).isSome = true) ∧
    (∀ vin ∈ vins, (data2.lookup vin.TxCustomTokenID).isSome = true) := by
  induction vins generalizing data with
  | nil =>
    simp only [collectUtxo, Run.done.injEq, Option.some.injEq] at h
    subst h
    exact ⟨fun _ hk => hk, fun vin hv => by simp at hv⟩
  | cons vin vins ih =>
    simp only [collectUtxo] at h
    split at h
    · simp at h
    · simp at h
    · rename_i utxo hget
      obtain ⟨h1, h2⟩ := ih _ h
      refine ⟨fun key hk => h1 key (lookup_mapPut_isSome data _ key utxo hk), ?_⟩
      intro v hv
      rcases List.mem_cons.mp hv with rfl | hv
      · exact h1 _ (by rw [lookup_mapPut_self]; rfl)
      · exact h2 v hv

/-- After `GetListUTXOFromTxCustomToken` returned true, the prior transaction
of every vin is a key of the attached utxo map. -/
theorem GetListUTXO_keys {T : Type} (customTokenTx tx1 : TxCustomToken T)
    (bcr : BlockchainRetriever T)
    (h : customTokenTx.GetListUTXOFromTxCustomToken bcr = .done (true, tx1)) :
    tx1.TxTokenData = customTokenTx.TxTokenData ∧
    ∀ vin ∈ tx1.TxTokenData.Vins, (tx1.listUtxo.lookup vin.TxCustomTokenID).isSome = true := by
  unfold TxCustomToken.GetListUTXOFromTxCustomToken at h
  split at h
  · simp at h
  · simp at h
  · simp at h
  · rename_i data hcol
    split at h
    · simp at h
    · simp only [Run.done.injEq, Prod.mk.injEq, true_and] at h
      subst h
      exact ⟨rfl, (collectUtxo_keys bcr _ [] data hcol).2⟩

/-- C37 (the code at the failing input): the vin of `farIndexTransfer` names
output 1 of the transaction `[9]`, which has one output.
`GetListUTXOFromTxCustomToken` returns true and attaches that transaction; the
access `utxo.TxTokenData.Vouts[vin.VoutIndex]` of `ValidateTransaction` is then
out of range and the validation panics, as does `ValidateTxByItself`. -/
theorem vout_index_unchecked :
    farIndexTransfer.GetListUTXOFromTxCustomToken sampleChain
      = .done (true, .mk () farIndexTransfer.TxTokenData [([9], samplePriorTx)]) ∧
    samplePriorTx.TxTokenData.Vouts.length = 1 ∧
    TxCustomToken.ValidateTransaction sampleTokenValidation
      (.mk () farIndexTransfer.TxTokenData [([9], samplePriorTx)]) false () 0 (some [4])
      = .panic ∧
    farIndexTransfer.ValidateTxByItself sampleTokenValidation sampleRules false () sampleChain 0
      = .panic :=
  ⟨rfl, rfl, rfl, rfl⟩

/-! ## Further claims on the history store -/

theorem sampleDatabase_lawful : sampleDatabase.Lawful where
  hasValue_of_get := by
    intro db key value h
    simp only [sampleDatabase] at h ⊢
    cases hl : db.kv.lookup key with
    | none => rw [hl] at h; simp at h
    | some v => rfl
  get_put_self := by
    intro db db1 key value h
    simp only [sampleDatabase, Prod.mk.injEq, true_and] at h ⊢
    subst h
    simp [List.lookup_cons]
  get_put_other := by
    intro db db1 key value other h hne
    simp only [sampleDatabase, Prod.mk.injEq, true_and] at h ⊢
    subst h
    have h1 : (other == key) = false := by simpa using hne
    simp only [List.lookup_cons, h1, lookup_filter_ne db.kv key other hne]

/-- The vins after a prefix that was spent without error are processed from
the store that the prefix left. -/
theorem spendVins_append {σ T B : Type} (env : ChainEnv σ T B) (dbi : Database σ)
    (tokenKey : List Byte) (pre post : List TxTokenVin) (db db1 : σ)
    (h : spendVins env dbi tokenKey pre db = .done (none, db1)) :
    spendVins env dbi tokenKey (pre ++ post) db = spendVins env dbi tokenKey post db1 := by
  induction pre generalizing db with
  | nil =>
    simp only [spendVins, Run.done.injEq, Prod.mk.injEq, true_and] at h
    subst h
    rfl
  | cons vin vins ih =>
    simp only [List.cons_append, spendVins] at h ⊢
    split at h
    · simp at h
    · split at h
      · simp at h
      · split at h
        · simp at h
        · split at h
          · simp at h
          · rename_i hs
            rw [if_neg hs]
            split at h
            · split at h
              · simp at h
              · exact ih _ h
            · simp at h

/-- A vin whose step fails makes the loop stop there, whatever follows it. -/
theorem spendVins_fail_head {σ T B : Type} (env : ChainEnv σ T B) (dbi : Database σ)
    (tokenKey : List Byte) (vin : TxTokenVin) (post : List TxTokenVin) (db db2 : σ) (err : Err)
    (h : spendVins env dbi tokenKey [vin] db = .done (some err, db2)) :
    spendVins env dbi tokenKey (vin :: post) db = .done (some err, db2) := by
  simp only [spendVins] at h ⊢
  split at h
  · exact h
  · split at h
    · exact h
    · split at h
      · simp at h
      · split at h
        · rename_i hs
          rw [if_pos hs]
          exact h
        · rename_i hs
          rw [if_neg hs]
          split at h
          · split at h
            · exact h
            · simp at h
          · simp at h

/-- C39 (as amended): the history store keeps the writes made before a failing
step. When the vins before a vin are spent without error, leaving the store
`db1`, and the step of that vin fails with `err` leaving `db2` (which is `db1`
unless the failure is that of its `Put`), then
`StoreCustomTokenPaymentAddresstHistory` returns `err` and leaves `db2`: the
entries of the earlier vins stay rewritten to spent. -/
theorem history_store_keeps_earlier_writes {σ T B : Type} (env : ChainEnv σ T B)
    (dbi : Database σ) (customTokenTx : TxCustomToken T) (pre : List TxTokenVin)
    (vin : TxTokenVin) (post : List TxTokenVin) (db db1 db2 : σ) (err : Err)
    (hvins : customTokenTx.TxTokenData.Vins = pre ++ vin :: post)
    (hpre : spendVins env dbi (env.TokenPaymentAddressPrefix ++ env.Splitter
      ++ env.HashStringBytes customTokenTx.TxTokenData.PropertyID) pre db = .done (none, db1))
    (hfail : spendVins env dbi (env.TokenPaymentAddressPrefix ++ env.Splitter
      ++ env.HashStringBytes customTokenTx.TxTokenData.PropertyID) [vin] db1
        = .done (some err, db2)) :
    StoreCustomTokenPaymentAddresstHistory env dbi customTokenTx db = .done (some err, db2) := by
  simp only [StoreCustomTokenPaymentAddresstHistory, hvins,
    spendVins_append env dbi _ pre (vin :: post) db db1 hpre,
    spendVins_fail_head env dbi _ vin post db1 db2 err hfail]

/-- Witness of C39 (as amended): `twoVinTransfer` on `halfSpentStore`; the
first vin is spent, the second one fails. -/
theorem history_store_keeps_earlier_writes_witness :
    StoreCustomTokenPaymentAddresstHistory sampleChainEnv sampleDatabase twoVinTransfer
      halfSpentStore = .done (some (.new "Double Spend Detected"), halfSpentStoreAfter) :=
  history_store_keeps_earlier_writes sampleChainEnv sampleDatabase twoVinTransfer
    [⟨[9], 0, "sig", sampleAddress⟩] ⟨[8], 0, "sig", sampleAddress⟩ [] halfSpentStore
    halfSpentStoreAfter halfSpentStoreAfter (.new "Double Spend Detected") rfl rfl rfl

/-- Counterexample to C39 as stated: in `halfSpentStore` output 0 of the
transaction `[9]` is unspent and output 0 of the transaction `[8]` is spent.
`twoVinTransfer` spends both, in this order.
`StoreCustomTokenPaymentAddresstHistory` returns "Double Spend Detected", and
the entry of the first vin, unspent before the call, is spent after it. -/
theorem history_store_not_atomic :
    StoreCustomTokenPaymentAddresstHistory sampleChainEnv sampleDatabase twoVinTransfer
      halfSpentStore = .done (some (.new "Double Spend Detected"), halfSpentStoreAfter) ∧
    sampleDatabase.Get halfSpentStore sampleHistoryKey
      = .ok (asciiBytes "5-[-]-unspent-[-]-unreward") ∧
    sampleDatabase.Get halfSpentStoreAfter sampleHistoryKey
      = .ok (asciiBytes "5-[-]-spent-[-]-unreward") :=
  ⟨rfl, rfl, rfl⟩

/-- The key of a position keeps the low byte of the position only. -/
theorem paymentAddressKey_add_256 {σ T B : Type} (env : ChainEnv σ T B)
    (tokenKey paymentAddressPubkey utxoHash : List Byte) (k : Nat) :
    paymentAddressKey env tokenKey paymentAddressPubkey utxoHash ((k + 256 : Nat) : Int)
      = paymentAddressKey env tokenKey paymentAddressPubkey utxoHash (k : Int) := by
  have h : ((k + 256 : Nat) : Int) % 256 = (k : Int) % 256 := by omega
  simp only [paymentAddressKey, h]

/-- An output whose key is in the store already, at any position of the list,
makes the loop over the vouts fail. -/
theorem addVouts_present {σ T B : Type} (env : ChainEnv σ T B) (dbi : Database σ)
    (hlaw : dbi.Lawful) (tokenKey : List Byte) (txHash : Hash) (pk : List Byte)
    (vouts : List TxTokenVout) (index : Nat) (db : σ) (j : Nat) (value : List Byte)
    (hj : j < vouts.length) (hpk : ∀ vout ∈ vouts, vout.PaymentAddress.Pk = pk)
    (hget : dbi.Get db (paymentAddressKey env tokenKey (env.Base58CheckEncode pk 0)
      (env.HashStringBytes txHash) ((index + j : Nat) : Int)) = .ok value) :
    (addVouts env dbi tokenKey txHash index vouts db).1 ≠ none := by
  induction vouts generalizing index db j value with
  | nil => simp at hj
  | cons vout vouts ih =>
    have hv : vout.PaymentAddress.Pk = pk := hpk vout (List.mem_cons_self _ _)
    simp only [addVouts, hv]
    rcases hh : dbi.HasValue db (paymentAddressKey env tokenKey (env.Base58CheckEncode pk 0)
      (env.HashStringBytes txHash) (index : Int)) with ⟨b, e⟩
    cases b with
    | true => simp
    | false =>
      cases e with
      | some err => simp
      | none =>
        cases j with
        | zero =>
          rw [Nat.add_zero] at hget
          rw [hlaw.hasValue_of_get db _ value hget] at hh
          simp at hh
        | succ j =>
          simp only
          rcases hp : dbi.Put db (paymentAddressKey env tokenKey (env.Base58CheckEncode pk 0)
            (env.HashStringBytes txHash) (index : Int))
            (Itoa (toInt vout.Value) ++ env.Splitter ++ env.Unspent ++ env.Splitter
              ++ env.Unreward) with ⟨e1, db1⟩
          cases e1 with
          | some err => simp
          | none =>
            simp only
            have hj1 : j < vouts.length := by simpa using hj
            have hpk1 : ∀ v ∈ vouts, v.PaymentAddress.Pk = pk :=
              fun v hv1 => hpk v (List.mem_cons_of_mem _ hv1)
            have hidx : index + 1 + j = index + (j + 1) := by omega
            by_cases hk : paymentAddressKey env tokenKey (env.Base58CheckEncode pk 0)
                (env.HashStringBytes txHash) ((index + (j + 1) : Nat) : Int)
              = paymentAddressKey env tokenKey (env.Base58CheckEncode pk 0)
                (env.HashStringBytes txHash) (index : Int)
            · refine ih (index + 1) db1 j (Itoa (toInt vout.Value) ++ env.Splitter ++ env.Unspent
                ++ env.Splitter ++ env.Unreward) hj1 hpk1 ?_
              rw [hidx, hk]
              exact hlaw.get_put_self db db1 _ _ hp
            · refine ih (index + 1) db1 j value hj1 hpk1 ?_
              rw [hidx, hlaw.get_put_other db db1 _ _ _ hp hk]
              exact hget

/-- More than 256 outputs paid to one address are never stored: position 256
is given the key of position 0. -/
theorem addVouts_wide {σ T B : Type} (env : ChainEnv σ T B) (dbi : Database σ)
    (hlaw : dbi.Lawful) (tokenKey : List Byte) (txHash : Hash) (pk : List Byte)
    (vouts : List TxTokenVout) (db : σ) (hlen : 256 < vouts.length)
    (hpk : ∀ vout ∈ vouts, vout.PaymentAddress.Pk = pk) :
    (addVouts env dbi tokenKey txHash 0 vouts db).1 ≠ none := by
  cases vouts with
  | nil => simp at hlen
  | cons vout vouts =>
    have hv : vout.PaymentAddress.Pk = pk := hpk vout (List.mem_cons_self _ _)
    simp only [addVouts, hv]
    rcases hh : dbi.HasValue db (paymentAddressKey env tokenKey (env.Base58CheckEncode pk 0)
      (env.HashStringBytes txHash) ((0 : Nat) : Int)) with ⟨b, e⟩
    cases b with
    | true => simp
    | false =>
      cases e with
      | some err => simp
      | none =>
        simp only
        rcases hp : dbi.Put db (paymentAddressKey env tokenKey (env.Base58CheckEncode pk 0)
          (env.HashStringBytes txHash) ((0 : Nat) : Int))
          (Itoa (toInt vout.Value) ++ env.Splitter ++ env.Unspent ++ env.Splitter
            ++ env.Unreward) with ⟨e1, db1⟩
        cases e1 with
        | some err => simp
        | none =>
          simp only
          have hj1 : 255 < vouts.length := by
            simp only [List.length_cons] at hlen
            omega
          have hpk1 : ∀ v ∈ vouts, v.PaymentAddress.Pk = pk :=
            fun v hv1 => hpk v (List.mem_cons_of_mem _ hv1)
          refine addVouts_present env dbi hlaw tokenKey txHash pk vouts (0 + 1) db1 255
            (Itoa (toInt vout.Value) ++ env.Splitter ++ env.Unspent ++ env.Splitter
              ++ env.Unreward) hj1 hpk1 ?_
          have hidx : 0 + 1 + 255 = 0 + 256 := rfl
          rw [hidx, paymentAddressKey_add_256]
          exact hlaw.get_put_self db db1 _ _ hp

/-- In the sample database the loop over the vouts fails with "UTXO already
exist" only. -/
theorem addVouts_sample_error {T B : Type} (env : ChainEnv SampleStore T B)
    (tokenKey : List Byte) (txHash : Hash) (vouts : List TxTokenVout) (index : Nat)
    (db : SampleStore) :
    (addVouts env sampleDatabase tokenKey txHash index vouts db).1 = none ∨
    (addVouts env sampleDatabase tokenKey txHash index vouts db).1
      = some (.new "UTXO already exist") := by
  induction vouts generalizing index db with
  | nil => exact Or.inl rfl
  | cons vout vouts ih =>
    simp only [addVouts]
    rcases hh : sampleDatabase.HasValue db (paymentAddressKey env tokenKey
      (env.Base58CheckEncode vout.PaymentAddress.Pk 0) (env.HashStringBytes txHash)
      (index : Int)) with ⟨b, e⟩
    have he : e = none := by
      have := congrArg Prod.snd hh
      simpa [sampleDatabase] using this.symm
    subst he
    cases b with
    | true => exact Or.inr rfl
    | false => exact ih _ _

/-- C38 (the code at the failing input): the key of a vout keeps the low byte
of its position, so positions `k` and `k + 256` of one transaction paid to one
address have the same key. `wideIssue` has 257 outputs paid to
`sampleAddress`: the keys of its outputs 0 and 256 are equal, and
`StoreCustomTokenPaymentAddresstHistory` fails on it with "UTXO already exist"
from every state of the sample store. -/
theorem vout_position_keys_collide :
    (∀ {σ T B : Type} (env : ChainEnv σ T B) (tokenKey paymentAddressPubkey utxoHash : List Byte)
      (k : Nat),
      paymentAddressKey env tokenKey paymentAddressPubkey utxoHash ((k + 256 : Nat) : Int)
        = paymentAddressKey env tokenKey paymentAddressPubkey utxoHash (k : Int)) ∧
    wideIssue.TxTokenData.Vouts.length = 257 ∧
    (∀ vout ∈ wideIssue.TxTokenData.Vouts, vout.PaymentAddress = sampleAddress) ∧
    ∀ db : SampleStore, ∃ db1 : SampleStore,
      StoreCustomTokenPaymentAddresstHistory sampleChainEnv sampleDatabase wideIssue db
        = .done (some (.new "UTXO already exist"), db1) := by
  have hvouts : wideIssue.TxTokenData.Vouts = List.replicate 257 ⟨1, sampleAddress, 0, []⟩ := rfl
  refine ⟨fun env tokenKey pubkey utxoHash k =>
    paymentAddressKey_add_256 env tokenKey pubkey utxoHash k, ?_, ?_, ?_⟩
  · rw [hvouts, List.length_replicate]
  · intro vout hv
    rw [hvouts] at hv
    rw [List.eq_of_mem_replicate hv]
  · intro db
    have hvins : wideIssue.TxTokenData.Vins = [] := rfl
    simp only [StoreCustomTokenPaymentAddresstHistory, hvins, spendVins]
    have hne := addVouts_wide sampleChainEnv sampleDatabase sampleDatabase_lawful
      (sampleChainEnv.TokenPaymentAddressPrefix ++ sampleChainEnv.Splitter
        ++ sampleChainEnv.HashStringBytes wideIssue.TxTokenData.PropertyID)
      (sampleChainEnv.TxCustomTokenHash wideIssue) sampleAddress.Pk
      wideIssue.TxTokenData.Vouts db (by rw [hvouts, List.length_replicate]; decide)
      (by
        intro vout hv
        rw [hvouts] at hv
        rw [List.eq_of_mem_replicate hv])
    rcases addVouts_sample_error sampleChainEnv
      (sampleChainEnv.TokenPaymentAddressPrefix ++ sampleChainEnv.Splitter
        ++ sampleChainEnv.HashStringBytes wideIssue.TxTokenData.PropertyID)
      (sampleChainEnv.TxCustomTokenHash wideIssue) wideIssue.TxTokenData.Vouts 0 db with h | h
    · exact absurd h hne
    · refine ⟨(addVouts sampleChainEnv sampleDatabase
        (sampleChainEnv.TokenPaymentAddressPrefix ++ sampleChainEnv.Splitter
          ++ sampleChainEnv.HashStringBytes wideIssue.TxTokenData.PropertyID)
        (sampleChainEnv.TxCustomTokenHash wideIssue) 0 wideIssue.TxTokenData.Vouts db).2, ?_⟩
      rw [← h]

/-! ## The pieces of `strings.Split` -/

/-- Whether the separator starts at a position up to the end of `p` does not
depend on what follows `p ++ sep`. -/
theorem sep_prefix_tail (sep p q : List Byte) (i : Nat) (hi : i ≤ p.length) :
    sep <+: (p ++ sep ++ q).drop i ↔ sep <+: (p ++ sep).drop i := by
  have h1 : (p ++ sep ++ q).drop i = (p ++ sep).drop i ++ q := by
    rw [List.drop_append_of_le_length]
    rw [List.length_append]
    omega
  rw [h1]
  constructor
  · intro h
    refine List.prefix_of_prefix_length_le h (List.prefix_append _ _) ?_
    rw [List.length_drop, List.length_append]
    omega
  · intro h
    exact h.trans (List.prefix_append _ _)

/-- With fuel for every byte, the pieces do not depend on the fuel. -/
theorem splitAux_fuel (sep : List Byte) (hsep : sep ≠ []) (fuel1 fuel2 : Nat)
    (s cur : List Byte) (h1 : s.length < fuel1) (h2 : s.length < fuel2) :
    splitAux sep fuel1 s cur = splitAux sep fuel2 s cur := by
  induction fuel1 generalizing fuel2 s cur with
  | zero => omega
  | succ f1 ih =>
    cases fuel2 with
    | zero => omega
    | succ f2 =>
      cases s with
      | nil => rfl
      | cons b rest =>
        simp only [splitAux]
        have hlen : 0 < sep.length := List.length_pos.mpr hsep
        simp only [List.length_cons] at h1 h2
        split
        · rw [ih f2 _ [] (by rw [List.length_drop, List.length_cons]; omega)
            (by rw [List.length_drop, List.length_cons]; omega)]
        · exact ih f2 rest (b :: cur) (by omega) (by omega)

/-- The piece read up to the first occurrence of the separator. -/
theorem splitAux_piece (sep : List Byte) (hsep : sep ≠ []) (p q : List Byte) (fuel : Nat)
    (cur : List Byte) (hfuel : p.length < fuel)
    (hfree : ∀ i < p.length, ¬ sep <+: (p ++ sep ++ q).drop i) :
    splitAux sep fuel (p ++ sep ++ q) cur
      = (cur.reverse ++ p) :: splitAux sep (fuel - p.length - 1) q [] := by
  induction p generalizing fuel cur with
  | nil =>
    cases fuel with
    | zero => simp at hfuel
    | succ f =>
      obtain ⟨b, rest, hs⟩ : ∃ b rest, sep ++ q = b :: rest := by
        cases sep with
        | nil => exact absurd rfl hsep
        | cons b s1 => exact ⟨b, s1 ++ q, rfl⟩
      have hpre : sep.isPrefixOf (b :: rest) = true := by
        rw [← hs]
        exact List.isPrefixOf_iff_prefix.mpr (List.prefix_append _ _)
      simp only [List.nil_append, hs, splitAux, hpre, if_true, List.append_nil, List.length_nil,
        Nat.sub_zero, Nat.add_sub_cancel]
      rw [← hs, List.drop_left]
  | cons a p ih =>
    cases fuel with
    | zero => simp at hfuel
    | succ f =>
      have h0 : sep.isPrefixOf (a :: (p ++ sep ++ q)) = false := by
        have := hfree 0 (by simp)
        rw [List.drop_zero] at this
        cases hb : sep.isPrefixOf (a :: (p ++ sep ++ q)) with
        | false => rfl
        | true => exact absurd (List.isPrefixOf_iff_prefix.mp hb) this
      have hfree1 : ∀ i < p.length, ¬ sep <+: (p ++ sep ++ q).drop i := by
        intro i hi
        have := hfree (i + 1) (by simp only [List.length_cons]; omega)
        simpa using this
      simp only [List.length_cons] at hfuel
      have hs : a :: p ++ sep ++ q = a :: (p ++ sep ++ q) := rfl
      rw [hs]
      simp only [splitAux, h0, Bool.false_eq_true, if_false]
      rw [ih f (a :: cur) (by omega) hfree1]
      simp only [List.reverse_cons, List.append_assoc, List.singleton_append, List.length_cons]
      congr 2
      omega

/-- `strings.Split` on a string that starts with a separator-free piece. -/
theorem Split_piece (sep : List Byte) (hsep : sep ≠ []) (p q : List Byte)
    (hfree : SepFree sep p) :
    Split (p ++ sep ++ q) sep = p :: Split q sep := by
  have hlen : 0 < sep.length := List.length_pos.mpr hsep
  simp only [Split, hsep, if_false]
  rw [splitAux_piece sep hsep p q _ [] (by simp only [List.length_append]; omega)
    (fun i hi h => hfree i hi ((sep_prefix_tail sep p q i (le_of_lt hi)).mp h))]
  simp only [List.reverse_nil, List.nil_append]
  rw [splitAux_fuel sep hsep _ (q.length + 1) q [] (by simp only [List.length_append]; omega)
    (by omega)]

/-- When the pieces are two or more, the first piece is a prefix of the string
that the separator follows and in which the separator does not start. -/
theorem splitAux_first (sep : List Byte) (fuel : Nat) (s cur x : List Byte)
    (h : (splitAux sep fuel s cur)[1]? = some x) :
    ∃ p, (splitAux sep fuel s cur)[0]? = some (cur.reverse ++ p) ∧ p <+: s ∧
      (∀ i < p.length, ¬ sep <+: s.drop i) ∧ sep <+: s.drop p.length := by
  induction fuel generalizing s cur with
  | zero => simp [splitAux] at h
  | succ f ih =>
    cases s with
    | nil => simp [splitAux] at h
    | cons b rest =>
      cases hb : sep.isPrefixOf (b :: rest) with
      | true =>
        refine ⟨[], ?_, List.nil_prefix, fun i hi => absurd hi (Nat.not_lt_zero i), ?_⟩
        · simp [splitAux, hb]
        · exact List.isPrefixOf_iff_prefix.mp hb
      | false =>
        simp only [splitAux, hb, Bool.false_eq_true, if_false] at h ⊢
        obtain ⟨p, hp0, hpre, hfree, hsep⟩ := ih rest (b :: cur) h
        refine ⟨b :: p, ?_, ?_, ?_, ?_⟩
        · rw [hp0]
          simp
        · obtain ⟨t, ht⟩ := hpre
          exact ⟨t, by rw [← ht]; rfl⟩
        · intro i hi
          cases i with
          | zero =>
            intro hpref
            rw [List.drop_zero] at hpref
            have := List.isPrefixOf_iff_prefix.mpr hpref
            rw [hb] at this
            exact Bool.false_ne_true this
          | succ i =>
            simp only [List.length_cons] at hi
            simpa using hfree i (by omega)
        · simpa using hsep

/-- The first of two or more pieces of `strings.Split` is separator-free. -/
theorem Split_first_sepFree (sep : List Byte) (hsep : sep ≠ []) (value amount status : List Byte)
    (h0 : (Split value sep)[0]? = some amount) (h1 : (Split value sep)[1]? = some status) :
    SepFree sep amount := by
  simp only [Split, hsep, if_false] at h0 h1
  obtain ⟨p, hp0, hpre, hfree, hs⟩ := splitAux_first sep _ value [] status h1
  rw [h0] at hp0
  simp only [List.reverse_nil, List.nil_append, Option.some.injEq] at hp0
  subst hp0
  obtain ⟨t, ht⟩ := hpre
  obtain ⟨r, hr⟩ := hs
  have hval : value = amount ++ sep ++ r := by
    rw [← ht, List.drop_left] at hr
    rw [← ht, ← hr, List.append_assoc]
  intro i hi hpref
  refine hfree i hi ?_
  rw [hval]
  exact (sep_prefix_tail sep amount r i (le_of_lt hi)).mpr hpref

/-- The status piece of a rewritten entry: when `amount` is the first of two or
more pieces of an entry and `spent` is separator-free, the second piece of
`amount ++ sep ++ spent ++ sep ++ reward` is `spent`. -/
theorem Split_spent_status (sep : List Byte) (hsep : sep ≠ []) (spent : List Byte)
    (hfree : SepFree sep spent) (value amount status reward : List Byte)
    (h0 : (Split value sep)[0]? = some amount) (h1 : (Split value sep)[1]? = some status) :
    (Split (amount ++ sep ++ spent ++ sep ++ reward) sep)[1]? = some spent := by
  have hassoc : amount ++ sep ++ spent ++ sep ++ reward
      = amount ++ sep ++ (spent ++ sep ++ reward) := by
    simp only [List.append_assoc]
  rw [hassoc, Split_piece sep hsep amount _ (Split_first_sepFree sep hsep value amount status h0 h1),
    Split_piece sep hsep spent reward hfree]
  simp

/-! ## Spending an output once -/

/-- A successful step of the loop over the vins: the entry of the vin was
unspent and was rewritten to spent. -/
theorem spendVins_cons_ok {σ T B : Type} (env : ChainEnv σ T B) (dbi : Database σ)
    (tokenKey : List Byte) (vin : TxTokenVin) (vins : List TxTokenVin) (db db2 : σ)
    (h : spendVins env dbi tokenKey (vin :: vins) db = .done (none, db2)) :
    ∃ (value amount reward : List Byte) (db1 : σ),
      dbi.Get db (paymentAddressKey env tokenKey (env.Base58CheckEncode vin.PaymentAddress.Pk 0)
        (env.HashStringBytes vin.TxCustomTokenID) vin.VoutIndex) = .ok value ∧
      (Split value env.Splitter)[0]? = some amount ∧
      (Split value env.Splitter)[1]? = some env.Unspent ∧
      (Split value env.Splitter)[2]? = some reward ∧
      dbi.Put db (paymentAddressKey env tokenKey (env.Base58CheckEncode vin.PaymentAddress.Pk 0)
        (env.HashStringBytes vin.TxCustomTokenID) vin.VoutIndex)
        (amount ++ env.Splitter ++ env.Spent ++ env.Splitter ++ reward) = (none, db1) ∧
      spendVins env dbi tokenKey vins db1 = .done (none, db2) := by
  simp only [spendVins] at h
  split at h
  · simp at h
  · split at h
    · simp at h
    · rename_i value hget
      split at h
      · simp at h
      · rename_i status hst
        split at h
        · simp at h
        · rename_i hs
          have hs1 : status = env.Unspent := not_not.mp hs
          subst hs1
          split at h
          · rename_i amount reward h0 h2
            split at h
            · simp at h
            · rename_i db1 hput
              exact ⟨value, amount, reward, db1, hget, h0, hst, h2, hput, h⟩
          · simp at h

/-- A step of the loop over the vins on an unspent entry. -/
theorem spendVins_cons_step {σ T B : Type} (env : ChainEnv σ T B) (dbi : Database σ)
    (hlaw : dbi.Lawful) (tokenKey : List Byte) (vin : TxTokenVin) (vins : List TxTokenVin)
    (db db1 : σ) (value amount reward : List Byte)
    (hget : dbi.Get db (paymentAddressKey env tokenKey
      (env.Base58CheckEncode vin.PaymentAddress.Pk 0)
      (env.HashStringBytes vin.TxCustomTokenID) vin.VoutIndex) = .ok value)
    (h0 : (Split value env.Splitter)[0]? = some amount)
    (h1 : (Split value env.Splitter)[1]? = some env.Unspent)
    (h2 : (Split value env.Splitter)[2]? = some reward)
    (hput : dbi.Put db (paymentAddressKey env tokenKey
      (env.Base58CheckEncode vin.PaymentAddress.Pk 0)
      (env.HashStringBytes vin.TxCustomTokenID) vin.VoutIndex)
      (amount ++ env.Splitter ++ env.Spent ++ env.Splitter ++ reward) = (none, db1)) :
    spendVins env dbi tokenKey (vin :: vins) db = spendVins env dbi tokenKey vins db1 := by
  simp only [spendVins, hlaw.hasValue_of_get db _ value hget, hget, h0, h1, h2, hput, ne_eq,
    not_true_eq_false, if_false]

/-- A step of the loop over the vins on an entry that is not unspent. -/
theorem spendVins_cons_spent {σ T B : Type} (env : ChainEnv σ T B) (dbi : Database σ)
    (hlaw : dbi.Lawful) (tokenKey : List Byte) (vin : TxTokenVin) (vins : List TxTokenVin)
    (db : σ) (value status : List Byte)
    (hget : dbi.Get db (paymentAddressKey env tokenKey
      (env.Base58CheckEncode vin.PaymentAddress.Pk 0)
      (env.HashStringBytes vin.TxCustomTokenID) vin.VoutIndex) = .ok value)
    (h1 : (Split value env.Splitter)[1]? = some status) (hne : status ≠ env.Unspent) :
    spendVins env dbi tokenKey (vin :: vins) db
      = .done (some (.new "Double Spend Detected"), db) := by
  simp only [spendVins, hlaw.hasValue_of_get db _ value hget, hget, h1, ne_eq, hne,
    not_false_eq_true, if_true]

/-- A run of the loop over the vins that succeeds splits at every position. -/
theorem spendVins_append_ok {σ T B : Type} (env : ChainEnv σ T B) (dbi : Database σ)
    (hlaw : dbi.Lawful) (tokenKey : List Byte) (pre post : List TxTokenVin) (db db2 : σ)
    (h : spendVins env dbi tokenKey (pre ++ post) db = .done (none, db2)) :
    ∃ db1, spendVins env dbi tokenKey pre db = .done (none, db1) ∧
      spendVins env dbi tokenKey post db1 = .done (none, db2) := by
  induction pre generalizing db with
  | nil => exact ⟨db, rfl, h⟩
  | cons vin vins ih =>
    obtain ⟨value, amount, reward, db1, hget, h0, h1, h2, hput, hrest⟩ :=
      spendVins_cons_ok env dbi tokenKey vin (vins ++ post) db db2 h
    obtain ⟨db3, hpre, hpost⟩ := ih db1 hrest
    refine ⟨db3, ?_, hpost⟩
    rw [spendVins_cons_step env dbi hlaw tokenKey vin vins db db1 value amount reward hget h0 h1
      h2 hput]
    exact hpre

/-- A run of the loop over the vins that succeeds leaves the spent entries as
they were. -/
theorem spendVins_keeps_spent {σ T B : Type} (env : ChainEnv σ T B) (dbi : Database σ)
    (hlaw : dbi.Lawful) (hne : env.Spent ≠ env.Unspent) (tokenKey : List Byte)
    (vins : List TxTokenVin) (db db2 : σ)
    (h : spendVins env dbi tokenKey vins db = .done (none, db2)) (key value : List Byte)
    (hget : dbi.Get db key = .ok value)
    (hst : (Split value env.Splitter)[1]? = some env.Spent) :
    dbi.Get db2 key = .ok value := by
  induction vins generalizing db with
  | nil =>
    simp only [spendVins, Run.done.injEq, Prod.mk.injEq, true_and] at h
    subst h
    exact hget
  | cons vin vins ih =>
    obtain ⟨value1, amount, reward, db1, hget1, h0, h1, h2, hput, hrest⟩ :=
      spendVins_cons_ok env dbi tokenKey vin vins db db2 h
    refine ih db1 hrest ?_
    have hkey : key ≠ paymentAddressKey env tokenKey
        (env.Base58CheckEncode vin.PaymentAddress.Pk 0)
        (env.HashStringBytes vin.TxCustomTokenID) vin.VoutIndex := by
      intro hk
      rw [hk, hget1] at hget
      simp only [Except.ok.injEq] at hget
      subst hget
      rw [h1] at hst
      simp only [Option.some.injEq] at hst
      exact hne hst.symm
    rw [hlaw.get_put_other db db1 _ _ key hput hkey]
    exact hget

/-- A run of the loop over the vouts that succeeds leaves the entries that
were there as they were. -/
theorem addVouts_keeps {σ T B : Type} (env : ChainEnv σ T B) (dbi : Database σ)
    (hlaw : dbi.Lawful) (tokenKey : List Byte) (txHash : Hash) (vouts : List TxTokenVout)
    (index : Nat) (db db2 : σ)
    (h : addVouts env dbi tokenKey txHash index vouts db = (none, db2)) (key value : List Byte)
    (hget : dbi.Get db key = .ok value) :
    dbi.Get db2 key = .ok value := by
  induction vouts generalizing index db with
  | nil =>
    simp only [addVouts, Prod.mk.injEq, true_and] at h
    subst h
    exact hget
  | cons vout vouts ih =>
    simp only [addVouts] at h
    split at h
    · simp at h
    · simp at h
    · rename_i hhas
      split at h
      · simp at h
      · rename_i db1 hput
        refine ih (index + 1) db1 h ?_
        have hkey : key ≠ paymentAddressKey env tokenKey
            (env.Base58CheckEncode vout.PaymentAddress.Pk 0) (env.HashStringBytes txHash)
            (index : Int) := by
          intro hk
          rw [hk] at hget
          rw [hlaw.hasValue_of_get db _ value hget] at hhas
          simp at hhas
        rw [hlaw.get_put_other db db1 _ _ key hput hkey]
        exact hget

/-- A run of the loop over the vins that succeeds found every vin's entry
unspent and leaves it spent, with the amount and the reward flag it had. -/
theorem spendVins_marks_spent {σ T B : Type} (env : ChainEnv σ T B) (dbi : Database σ)
    (hlaw : dbi.Lawful) (hsep : env.Splitter ≠ []) (hne : env.Spent ≠ env.Unspent)
    (hfree : SepFree env.Splitter env.Spent) (tokenKey : List Byte)
    (vins : List TxTokenVin) (db db2 : σ)
    (h : spendVins env dbi tokenKey vins db = .done (none, db2)) :
    ∀ vin ∈ vins, ∃ value amount reward : List Byte,
      dbi.Get db (paymentAddressKey env tokenKey (env.Base58CheckEncode vin.PaymentAddress.Pk 0)
        (env.HashStringBytes vin.TxCustomTokenID) vin.VoutIndex) = .ok value ∧
      (Split value env.Splitter)[0]? = some amount ∧
      (Split value env.Splitter)[1]? = some env.Unspent ∧
      (Split value env.Splitter)[2]? = some reward ∧
      dbi.Get db2 (paymentAddressKey env tokenKey (env.Base58CheckEncode vin.PaymentAddress.Pk 0)
        (env.HashStringBytes vin.TxCustomTokenID) vin.VoutIndex)
        = .ok (amount ++ env.Splitter ++ env.Spent ++ env.Splitter ++ reward) := by
  induction vins generalizing db with
  | nil => intro vin hv; simp at hv
  | cons vin1 vins ih =>
    obtain ⟨value1, amount1, reward1, db1, hget1, h0, h1, h2, hput, hrest⟩ :=
      spendVins_cons_ok env dbi tokenKey vin1 vins db db2 h
    have hnew : (Split (amount1 ++ env.Splitter ++ env.Spent ++ env.Splitter ++ reward1)
        env.Splitter)[1]? = some env.Spent :=
      Split_spent_status env.Splitter hsep env.Spent hfree value1 amount1 env.Unspent reward1 h0 h1
    have hself := hlaw.get_put_self db db1 _ _ hput
    intro vin hv
    rcases List.mem_cons.mp hv with rfl | hv
    · exact ⟨value1, amount1, reward1, hget1, h0, h1, h2,
        spendVins_keeps_spent env dbi hlaw hne tokenKey vins db1 db2 hrest _ _ hself hnew⟩
    · obtain ⟨value, amount, reward, hget, g0, g1, g2, hafter⟩ := ih db1 hrest vin hv
      refine ⟨value, amount, reward, ?_, g0, g1, g2, hafter⟩
      have hkey : paymentAddressKey env tokenKey (env.Base58CheckEncode vin.PaymentAddress.Pk 0)
          (env.HashStringBytes vin.TxCustomTokenID) vin.VoutIndex
          ≠ paymentAddressKey env tokenKey (env.Base58CheckEncode vin1.PaymentAddress.Pk 0)
          (env.HashStringBytes vin1.TxCustomTokenID) vin1.VoutIndex := by
        intro hk
        rw [hk, hself] at hget
        simp only [Except.ok.injEq] at hget
        subst hget
        rw [hnew] at g1
        simp only [Option.some.injEq] at g1
        exact hne g1
      rw [← hlaw.get_put_other db db1 _ _ _ hput hkey]
      exact hget

/-- A call of `StoreCustomTokenPaymentAddresstHistory` that succeeds is a run of
the loop over the vins and a run of the loop over the vouts that succeed. -/
theorem StoreCustomTokenPaymentAddresstHistory_ok {σ T B : Type} (env : ChainEnv σ T B)
    (dbi : Database σ) (customTokenTx : TxCustomToken T) (db db2 : σ)
    (h : StoreCustomTokenPaymentAddresstHistory env dbi customTokenTx db = .done (none, db2)) :
    ∃ db1, spendVins env dbi (env.TokenPaymentAddressPrefix ++ env.Splitter
        ++ env.HashStringBytes customTokenTx.TxTokenData.PropertyID)
        customTokenTx.TxTokenData.Vins db = .done (none, db1) ∧
      addVouts env dbi (env.TokenPaymentAddressPrefix ++ env.Splitter
        ++ env.HashStringBytes customTokenTx.TxTokenData.PropertyID)
        (env.TxCustomTokenHash customTokenTx) 0 customTokenTx.TxTokenData.Vouts db1
        = (none, db2) := by
  simp only [StoreCustomTokenPaymentAddresstHistory] at h
  split at h
  · simp at h
  · simp at h
  · simp at h
  · rename_i db1 hvins
    simp only [Run.done.injEq] at h
    exact ⟨db1, hvins, h⟩

/-- C31: a token output is spent at most once in the history store. The store
is a key-value store (a key that `Get` finds is reported by `HasValue`, a
successful `Put` is read back and leaves the other keys alone), the separator is
not empty, the words for spent and unspent differ and the separator does not
occur in the word for spent followed by the separator before its end. Then:
when the loop of `StoreCustomTokenPaymentAddresstHistory` reaches a vin whose
stored entry has a status other than unspent, the call returns "Double Spend
Detected"; after a successful call the entry of every vin, unspent before, is
`amount ++ Splitter ++ Spent ++ Splitter ++ reward` with the amount and the
reward flag it had; and a second transaction of the same token applied to the
store that the call left, with a vin that names the same payment address, prior
transaction and vout index as a vin of the first, never succeeds, and returns
"Double Spend Detected" when the vins before that vin are spent without
error. -/
theorem token_output_spent_once {σ T B : Type} (env : ChainEnv σ T B) (dbi : Database σ)
    (hlaw : dbi.Lawful) (hsep : env.Splitter ≠ []) (hne : env.Spent ≠ env.Unspent)
    (hfree : SepFree env.Splitter env.Spent) :
    (∀ (customTokenTx : TxCustomToken T) (db db1 : σ) (pre post : List TxTokenVin)
      (vin : TxTokenVin) (value status : List Byte),
      customTokenTx.TxTokenData.Vins = pre ++ vin :: post →
      spendVins env dbi (env.TokenPaymentAddressPrefix ++ env.Splitter
        ++ env.HashStringBytes customTokenTx.TxTokenData.PropertyID) pre db = .done (none, db1) →
      dbi.Get db1 (vinKey env customTokenTx.TxTokenData.PropertyID vin) = .ok value →
      (Split value env.Splitter)[1]? = some status → status ≠ env.Unspent →
      StoreCustomTokenPaymentAddresstHistory env dbi customTokenTx db
        = .done (some (.new "Double Spend Detected"), db1)) ∧
    (∀ (customTokenTx : TxCustomToken T) (db db2 : σ),
      StoreCustomTokenPaymentAddresstHistory env dbi customTokenTx db = .done (none, db2) →
      ∀ vin ∈ customTokenTx.TxTokenData.Vins, ∃ value amount reward : List Byte,
        dbi.Get db (vinKey env customTokenTx.TxTokenData.PropertyID vin) = .ok value ∧
        (Split value env.Splitter)[0]? = some amount ∧
        (Split value env.Splitter)[1]? = some env.Unspent ∧
        (Split value env.Splitter)[2]? = some reward ∧
        dbi.Get db2 (vinKey env customTokenTx.TxTokenData.PropertyID vin)
          = .ok (amount ++ env.Splitter ++ env.Spent ++ env.Splitter ++ reward)) ∧
    (∀ (tx1 tx2 : TxCustomToken T) (db db2 : σ),
      StoreCustomTokenPaymentAddresstHistory env dbi tx1 db = .done (none, db2) →
      tx2.TxTokenData.PropertyID = tx1.TxTokenData.PropertyID →
      ∀ vin1 ∈ tx1.TxTokenData.Vins, ∀ vin2 ∈ tx2.TxTokenData.Vins,
        vin2.PaymentAddress = vin1.PaymentAddress →
        vin2.TxCustomTokenID = vin1.TxCustomTokenID → vin2.VoutIndex = vin1.VoutIndex →
        (∀ db3 : σ,
          StoreCustomTokenPaymentAddresstHistory env dbi tx2 db2 ≠ .done (none, db3)) ∧
        ∀ (pre post : List TxTokenVin) (db3 : σ),
          tx2.TxTokenData.Vins = pre ++ vin2 :: post →
          spendVins env dbi (env.TokenPaymentAddressPrefix ++ env.Splitter
            ++ env.HashStringBytes tx2.TxTokenData.PropertyID) pre db2 = .done (none, db3) →
          StoreCustomTokenPaymentAddresstHistory env dbi tx2 db2
            = .done (some (.new "Double Spend Detected"), db3)) := by
  have hreach : ∀ (customTokenTx : TxCustomToken T) (db db1 : σ) (pre post : List TxTokenVin)
      (vin : TxTokenVin) (value status : List Byte),
      customTokenTx.TxTokenData.Vins = pre ++ vin :: post →
      spendVins env dbi (env.TokenPaymentAddressPrefix ++ env.Splitter
        ++ env.HashStringBytes customTokenTx.TxTokenData.PropertyID) pre db = .done (none, db1) →
      dbi.Get db1 (vinKey env customTokenTx.TxTokenData.PropertyID vin) = .ok value →
      (Split value env.Splitter)[1]? = some status → status ≠ env.Unspent →
      StoreCustomTokenPaymentAddresstHistory env dbi customTokenTx db
        = .done (some (.new "Double Spend Detected"), db1) := by
    intro customTokenTx db db1 pre post vin value status hvins hpre hget hst hstatus
    simp only [StoreCustomTokenPaymentAddresstHistory, hvins,
      spendVins_append env dbi _ pre (vin :: post) db db1 hpre,
      spendVins_cons_spent env dbi hlaw _ vin post db1 value status hget hst hstatus]
  have hmark : ∀ (customTokenTx : TxCustomToken T) (db db2 : σ),
      StoreCustomTokenPaymentAddresstHistory env dbi customTokenTx db = .done (none, db2) →
      ∀ vin ∈ customTokenTx.TxTokenData.Vins, ∃ value amount reward : List Byte,
        dbi.Get db (vinKey env customTokenTx.TxTokenData.PropertyID vin) = .ok value ∧
        (Split value env.Splitter)[0]? = some amount ∧
        (Split value env.Splitter)[1]? = some env.Unspent ∧
        (Split value env.Splitter)[2]? = some reward ∧
        dbi.Get db2 (vinKey env customTokenTx.TxTokenData.PropertyID vin)
          = .ok (amount ++ env.Splitter ++ env.Spent ++ env.Splitter ++ reward) := by
    intro customTokenTx db db2 h vin hv
    obtain ⟨db1, hvins, hvouts⟩ :=
      StoreCustomTokenPaymentAddresstHistory_ok env dbi customTokenTx db db2 h
    obtain ⟨value, amount, reward, hget, h0, h1, h2, hafter⟩ :=
      spendVins_marks_spent env dbi hlaw hsep hne hfree _ _ db db1 hvins vin hv
    exact ⟨value, amount, reward, hget, h0, h1, h2,
      addVouts_keeps env dbi hlaw _ _ _ 0 db1 db2 hvouts _ _ hafter⟩
  refine ⟨hreach, hmark, ?_⟩
  intro tx1 tx2 db db2 h hid vin1 hv1 vin2 hv2 haddr hprior hindex
  obtain ⟨value, amount, reward, hget, h0, h1, h2, hafter⟩ := hmark tx1 db db2 h vin1 hv1
  have hkey : vinKey env tx2.TxTokenData.PropertyID vin2
      = vinKey env tx1.TxTokenData.PropertyID vin1 := by
    simp only [vinKey, hid, haddr, hprior, hindex]
  have hnew : (Split (amount ++ env.Splitter ++ env.Spent ++ env.Splitter ++ reward)
      env.Splitter)[1]? = some env.Spent :=
    Split_spent_status env.Splitter hsep env.Spent hfree value amount env.Unspent reward h0 h1
  have hlater : ∀ (pre post : List TxTokenVin) (db3 : σ),
      tx2.TxTokenData.Vins = pre ++ vin2 :: post →
      spendVins env dbi (env.TokenPaymentAddressPrefix ++ env.Splitter
        ++ env.HashStringBytes tx2.TxTokenData.PropertyID) pre db2 = .done (none, db3) →
      StoreCustomTokenPaymentAddresstHistory env dbi tx2 db2
        = .done (some (.new "Double Spend Detected"), db3) := by
    intro pre post db3 hvins hpre
    refine hreach tx2 db2 db3 pre post vin2 _ env.Spent hvins hpre ?_ hnew hne
    rw [hkey]
    exact spendVins_keeps_spent env dbi hlaw hne _ pre db2 db3 hpre _ _ hafter hnew
  refine ⟨?_, hlater⟩
  intro db3 hok
  obtain ⟨db4, hvins, _⟩ := StoreCustomTokenPaymentAddresstHistory_ok env dbi tx2 db2 db3 hok
  obtain ⟨pre, post, hsplit⟩ := List.append_of_mem hv2
  rw [hsplit] at hvins
  obtain ⟨db5, hpre, _⟩ := spendVins_append_ok env dbi hlaw _ pre (vin2 :: post) db2 db4 hvins
  rw [hlater pre post db5 hsplit hpre] at hok
  simp at hok

/-- Witness of C31: `sampleTransfer` spends output 0 of the transaction `[9]`
on `halfSpentStore` and leaves `sampleSpentOnce`; `twoVinTransfer`, whose first
vin names the same output, then fails with "Double Spend Detected". -/
theorem token_output_spent_once_witness :
    StoreCustomTokenPaymentAddresstHistory sampleChainEnv sampleDatabase sampleTransfer
      halfSpentStore = .done (none, sampleSpentOnce) ∧
    StoreCustomTokenPaymentAddresstHistory sampleChainEnv sampleDatabase twoVinTransfer
      sampleSpentOnce = .done (some (.new "Double Spend Detected"), sampleSpentOnce) :=
  ⟨rfl, ((token_output_spent_once sampleChainEnv sampleDatabase sampleDatabase_lawful
    (by decide) (by decide) (by unfold SepFree; decide)).2.2 sampleTransfer twoVinTransfer
    halfSpentStore sampleSpentOnce rfl rfl ⟨[9], 0, "sig", sampleAddress⟩
    (List.mem_cons_self _ _) ⟨[9], 0, "sig", sampleAddress⟩ (List.mem_cons_self _ _) rfl rfl
    rfl).2 [] [⟨[8], 0, "sig", sampleAddress⟩] sampleSpentOnce rfl rfl⟩

/-! ## `GetTokenReceivers` -/

theorem mem_firstOccurrences (keys : List (List Byte)) (key : List Byte) :
    key ∈ firstOccurrences keys ↔ key ∈ keys := by
  induction keys with
  | nil => simp [firstOccurrences]
  | cons a keys ih =>
    simp only [firstOccurrences, List.mem_cons, List.mem_filter, ih, decide_eq_true_eq]
    constructor
    · rintro (h | ⟨h, _⟩)
      · exact Or.inl h
      · exact Or.inr h
    · rintro (h | h)
      · exact Or.inl h
      · by_cases hk : key = a
        · exact Or.inl hk
        · exact Or.inr ⟨h, hk⟩

theorem nodup_firstOccurrences (keys : List (List Byte)) : (firstOccurrences keys).Nodup := by
  induction keys with
  | nil => simp [firstOccurrences]
  | cons a keys ih =>
    simp only [firstOccurrences, List.nodup_cons, List.mem_filter, decide_eq_true_eq, ne_eq,
      not_true_eq_false, and_false, not_false_eq_true, true_and]
    exact ih.filter _

theorem firstOccurrences_append_singleton (keys : List (List Byte)) (key : List Byte) :
    firstOccurrences (keys ++ [key])
      = if key ∈ keys then firstOccurrences keys else firstOccurrences keys ++ [key] := by
  induction keys with
  | nil => simp [firstOccurrences]
  | cons a keys ih =>
    have hs : a :: keys ++ [key] = a :: (keys ++ [key]) := rfl
    rw [hs, firstOccurrences, firstOccurrences, ih]
    by_cases hk : key ∈ keys
    · simp [hk]
    · by_cases ha : key = a
      · subst ha
        simp [hk, List.filter_append]
      · simp [hk, ha, List.filter_append]

theorem receiverIndex_none (coinPubKey : List Byte) (keys : List (List Byte)) (i : Nat) :
    receiverIndex coinPubKey keys i = none ↔ coinPubKey ∉ keys := by
  induction keys generalizing i with
  | nil => simp [receiverIndex]
  | cons a keys ih =>
    simp only [receiverIndex, List.mem_cons, not_or]
    by_cases ha : coinPubKey = a
    · simp [ha]
    · simp [ha, ih]

theorem receiverIndex_some (coinPubKey : List Byte) (keys : List (List Byte)) (i j : Nat)
    (h : receiverIndex coinPubKey keys i = some j) :
    i ≤ j ∧ keys[j - i]? = some coinPubKey := by
  induction keys generalizing i with
  | nil => simp [receiverIndex] at h
  | cons a keys ih =>
    simp only [receiverIndex] at h
    by_cases ha : coinPubKey = a
    · simp only [ha, if_true, Option.some.injEq] at h
      subst h
      simp [ha]
    · simp only [ha, if_false] at h
      obtain ⟨hle, hget⟩ := ih (i + 1) h
      refine ⟨by omega, ?_⟩
      have hj : j - i = (j - (i + 1)) + 1 := by omega
      rw [hj, List.getElem?_cons_succ]
      exact hget

theorem receivedBy_append (pk : List Byte) (done : List TxTokenVout) (vout : TxTokenVout) :
    receivedBy pk (done ++ [vout])
      = receivedBy pk done + (if vout.PaymentAddress.Pk = pk then vout.Value else 0) := by
  simp only [receivedBy, List.filter_append, List.map_append, List.sum_append]
  by_cases h : vout.PaymentAddress.Pk = pk
  · simp [h]
  · simp [h]

theorem receivedBy_absent (pk : List Byte) (vouts : List TxTokenVout)
    (h : pk ∉ vouts.map (fun vout => vout.PaymentAddress.Pk)) : receivedBy pk vouts = 0 := by
  induction vouts with
  | nil => rfl
  | cons vout vouts ih =>
    simp only [List.map_cons, List.mem_cons, not_or] at h
    have hne : ¬ vout.PaymentAddress.Pk = pk := fun e => h.1 e.symm
    simp only [receivedBy, List.filter_cons, hne, decide_False, Bool.false_eq_true, if_false]
    exact ih h.2


theorem nodup_getElem_inj (keys : List (List Byte)) (hnodup : keys.Nodup) (i j : Nat)
    (key : List Byte) (hi : keys[i]? = some key) (hj : keys[j]? = some key) : i = j := by
  obtain ⟨hi1, hi2⟩ := List.getElem?_eq_some.mp hi
  obtain ⟨hj1, hj2⟩ := List.getElem?_eq_some.mp hj
  exact (List.Nodup.getElem_inj_iff hnodup).mp (hi2.trans hj2.symm)

/-- The loop of `GetTokenReceivers`, entered after the vouts `done` with the
keys and amounts that group them, returns the keys and amounts that group
`done ++ rest`. -/
theorem tokenReceivers_spec (rest done : List TxTokenVout)
    (hval : ∀ vout ∈ rest, vout.Value < 2 ^ 64) :
    tokenReceivers rest (firstOccurrences (done.map (fun v => v.PaymentAddress.Pk)))
        ((firstOccurrences (done.map (fun v => v.PaymentAddress.Pk))).map
          (fun pk => receivedBy pk done % 2 ^ 64))
      = .done (firstOccurrences ((done ++ rest).map (fun v => v.PaymentAddress.Pk)),
          (firstOccurrences ((done ++ rest).map (fun v => v.PaymentAddress.Pk))).map
            (fun pk => receivedBy pk (done ++ rest) % 2 ^ 64)) := by
  induction rest generalizing done with
  | nil => simp [tokenReceivers]
  | cons vout rest ih =>
    have hrest : ∀ v ∈ rest, v.Value < 2 ^ 64 := fun v hv => hval v (List.mem_cons_of_mem _ hv)
    have hv : vout.Value < 2 ^ 64 := hval vout (List.mem_cons_self _ _)
    have hstep := ih (done ++ [vout]) hrest
    rw [List.append_assoc, List.singleton_append] at hstep
    rw [← hstep]
    have hkeys : firstOccurrences ((done ++ [vout]).map (fun v => v.PaymentAddress.Pk))
        = if vout.PaymentAddress.Pk ∈ done.map (fun v => v.PaymentAddress.Pk) then
            firstOccurrences (done.map (fun v => v.PaymentAddress.Pk))
          else firstOccurrences (done.map (fun v => v.PaymentAddress.Pk))
            ++ [vout.PaymentAddress.Pk] := by
      rw [List.map_append, List.map_singleton, firstOccurrences_append_singleton]
    rw [hkeys]
    simp only [tokenReceivers]
    cases hidx : receiverIndex vout.PaymentAddress.Pk
        (firstOccurrences (done.map (fun v => v.PaymentAddress.Pk))) 0 with
    | none =>
      have hnot := (receiverIndex_none _ _ _).mp hidx
      have hnot2 : vout.PaymentAddress.Pk ∉ done.map (fun v => v.PaymentAddress.Pk) :=
        fun h => hnot ((mem_firstOccurrences _ _).mpr h)
      simp only [if_neg hnot2]
      congr 1
      rw [List.map_append]
      congr 1
      · apply List.map_congr_left
        intro key hkey
        have hne : ¬ vout.PaymentAddress.Pk = key := fun e => hnot (e ▸ hkey)
        rw [receivedBy_append, if_neg hne, Nat.add_zero]
      · simp only [List.map_cons, List.map_nil, receivedBy_append, if_true,
          receivedBy_absent _ _ hnot2, Nat.zero_add, Nat.mod_eq_of_lt hv]
    | some j =>
      obtain ⟨_, hget⟩ := receiverIndex_some _ _ 0 j hidx
      rw [Nat.sub_zero] at hget
      have hmem : vout.PaymentAddress.Pk ∈ done.map (fun v => v.PaymentAddress.Pk) :=
        (mem_firstOccurrences _ _).mp (List.getElem?_mem hget)
      simp only [if_pos hmem, List.getElem?_map, hget, Option.map_some']
      congr 1
      apply List.ext_getElem?
      intro k
      by_cases hk : j = k
      · subst hk
        have hj : j < ((firstOccurrences (done.map (fun v => v.PaymentAddress.Pk))).map
            (fun pk => receivedBy pk done % 2 ^ 64)).length := by
          rw [List.length_map]
          exact (List.getElem?_eq_some.mp hget).1
        rw [List.getElem?_set_self hj, List.getElem?_map, hget, Option.map_some',
          receivedBy_append, if_pos rfl, Nat.mod_add_mod]
      · rw [List.getElem?_set_ne hk, List.getElem?_map, List.getElem?_map]
        cases hkey : (firstOccurrences (done.map (fun v => v.PaymentAddress.Pk)))[k]? with
        | none => rfl
        | some key =>
          have hne : ¬ vout.PaymentAddress.Pk = key := by
            intro e
            rw [← e] at hkey
            exact hk (nodup_getElem_inj _ (nodup_firstOccurrences _) j k _ hget hkey)
          simp only [Option.map_some', receivedBy_append, if_neg hne, Nat.add_zero]

theorem sum_map_mod (amounts : List Nat) (m : Nat) :
    (amounts.map (fun a => a % m)).sum % m = amounts.sum % m := by
  induction amounts with
  | nil => rfl
  | cons a amounts ih =>
    simp only [List.map_cons, List.sum_cons]
    rw [Nat.add_mod, ih, ← Nat.add_mod, Nat.mod_add_mod]

theorem sum_map_ite_of_nodup (keys : List (List Byte)) (hnodup : keys.Nodup)
    (key : List Byte) (hkey : key ∈ keys) (x : Nat) :
    (keys.map (fun k => if key = k then x else 0)).sum = x := by
  induction keys with
  | nil => simp at hkey
  | cons a keys ih =>
    rw [List.nodup_cons] at hnodup
    simp only [List.map_cons, List.sum_cons]
    by_cases ha : key = a
    · subst ha
      have hzero : (keys.map (fun k => if key = k then x else 0)) = keys.map (fun _ => 0) := by
        apply List.map_congr_left
        intro k hk
        have hne : ¬ key = k := fun e => hnodup.1 (e ▸ hk)
        simp [hne]
      simp [hzero]
    · rcases List.mem_cons.mp hkey with h | h
      · exact absurd h ha
      · simp [ha, ih hnodup.2 h]

/-- The amounts received by distinct keys that cover the vouts add up to the
total of the vouts. -/
theorem sum_receivedBy (vouts : List TxTokenVout) (keys : List (List Byte))
    (hnodup : keys.Nodup) (hcover : ∀ vout ∈ vouts, vout.PaymentAddress.Pk ∈ keys) :
    (keys.map (fun pk => receivedBy pk vouts)).sum = exactVoutSum vouts := by
  induction vouts with
  | nil => simp [receivedBy, exactVoutSum]
  | cons vout vouts ih =>
    have hcons : ∀ pk, receivedBy pk (vout :: vouts)
        = (if vout.PaymentAddress.Pk = pk then vout.Value else 0) + receivedBy pk vouts := by
      intro pk
      by_cases h : vout.PaymentAddress.Pk = pk
      · simp [receivedBy, h]
      · simp [receivedBy, h]
    simp only [hcons, List.sum_map_add]
    rw [sum_map_ite_of_nodup keys hnodup _ (hcover vout (List.mem_cons_self _ _)),
      ih (fun v hv => hcover v (List.mem_cons_of_mem _ hv))]
    simp [exactVoutSum]

/-- C40: `GetTokenReceivers` groups the vouts by receiver. For a transaction
whose vout values are `uint64` values, the call returns public keys and amounts
of equal length; the keys are pairwise distinct and are the public keys of the
vouts in order of first occurrence, so every vout's public key is among them;
the amount at each position is the sum modulo 2^64 of the values of the vouts
paid to the key at that position; and the amounts add up, modulo 2^64, to the
total of the vout values. -/
theorem GetTokenReceivers_groups {T : Type} (tx : TxCustomToken T)
    (hval : ∀ vout ∈ tx.TxTokenData.Vouts, vout.Value < 2 ^ 64) :
    ∃ (pubkeys : List (List Byte)) (amounts : List Nat),
      tx.GetTokenReceivers = .done (pubkeys, amounts) ∧
      pubkeys.length = amounts.length ∧
      pubkeys.Nodup ∧
      pubkeys = firstOccurrences (tx.TxTokenData.Vouts.map (fun vout => vout.PaymentAddress.Pk)) ∧
      (∀ vout ∈ tx.TxTokenData.Vouts, vout.PaymentAddress.Pk ∈ pubkeys) ∧
      (∀ (i : Nat) (pk : List Byte), pubkeys[i]? = some pk →
        amounts[i]? = some (receivedBy pk tx.TxTokenData.Vouts % 2 ^ 64)) ∧
      amounts.sum % 2 ^ 64 = exactVoutSum tx.TxTokenData.Vouts % 2 ^ 64 := by
  have hspec := tokenReceivers_spec tx.TxTokenData.Vouts [] hval
  simp only [List.map_nil, firstOccurrences, List.nil_append] at hspec
  have hcover : ∀ vout ∈ tx.TxTokenData.Vouts, vout.PaymentAddress.Pk
      ∈ firstOccurrences (tx.TxTokenData.Vouts.map (fun vout => vout.PaymentAddress.Pk)) :=
    fun vout hv => (mem_firstOccurrences _ _).mpr (List.mem_map_of_mem _ hv)
  refine ⟨_, _, hspec, ?_, nodup_firstOccurrences _, rfl, hcover, ?_, ?_⟩
  · rw [List.length_map]
  · intro i pk hi
    rw [List.getElem?_map, hi]
    rfl
  · have hmap : (firstOccurrences (tx.TxTokenData.Vouts.map fun vout => vout.PaymentAddress.Pk)).map
        (fun pk => receivedBy pk tx.TxTokenData.Vouts % 2 ^ 64)
        = ((firstOccurrences (tx.TxTokenData.Vouts.map fun vout =>
            vout.PaymentAddress.Pk)).map (fun pk => receivedBy pk tx.TxTokenData.Vouts)).map
          (fun a => a % 2 ^ 64) := by
      rw [List.map_map]
      rfl
    rw [hmap, sum_map_mod, sum_receivedBy _ _ (nodup_firstOccurrences _) hcover]

/-- Witness of C40: `threeVoutTx` pays 5 and 4 units to the key `[1]` and 7
units to the key `[3]`. -/
theorem GetTokenReceivers_groups_witness :
    threeVoutTx.GetTokenReceivers = .done ([[1], [3]], [9, 7]) ∧
    ∃ (pubkeys : List (List Byte)) (amounts : List Nat),
      threeVoutTx.GetTokenReceivers = .done (pubkeys, amounts) ∧
      pubkeys.length = amounts.length ∧
      pubkeys.Nodup ∧
      pubkeys = firstOccurrences
        (threeVoutTx.TxTokenData.Vouts.map (fun vout => vout.PaymentAddress.Pk)) ∧
      (∀ vout ∈ threeVoutTx.TxTokenData.Vouts, vout.PaymentAddress.Pk ∈ pubkeys) ∧
      (∀ (i : Nat) (pk : List Byte), pubkeys[i]? = some pk →
        amounts[i]? = some (receivedBy pk threeVoutTx.TxTokenData.Vouts % 2 ^ 64)) ∧
      amounts.sum % 2 ^ 64 = exactVoutSum threeVoutTx.TxTokenData.Vouts % 2 ^ 64 :=
  ⟨rfl, GetTokenReceivers_groups threeVoutTx (by
    intro vout hv
    have hvouts : threeVoutTx.TxTokenData.Vouts
        = [⟨5, ⟨[1], [2]⟩, 0, []⟩, ⟨7, ⟨[3], [2]⟩, 1, []⟩, ⟨4, ⟨[1], [2]⟩, 2, []⟩] := rfl
    rw [hvouts] at hv
    simp only [List.mem_cons, List.mem_singleton, List.not_mem_nil, or_false] at hv
    rcases hv with rfl | rfl | rfl <;> norm_num)⟩

end Incognito
